import Mathlib

/-!
# Ixia statistics to OpenConfig translation

A shallow embedding of

* `release/models/ate/ate-interface/ixia/stats/stats.go` (rows, tables, the
  row parser and the four view parsers), and
* `release/models/ate/ate-interface/ixia/oc/oc.go` (the four view translators
  and the merge orchestrator `Translate`),

followed by theorems about them.

Conventions of the embedding.

* A Go `string` is a Lean `String` (valid UTF-8 is assumed).
* A Go `map[K]V` is an association list; the first binding of a key is the
  one that counts, and `set` keeps keys unique.  Where the source ranges over
  a map, the list order stands for the iteration order of that run.
* `uint64` is `Nat` reduced `% 2^64` where the source can wrap.
* `float32` is the `Nat` holding its IEEE-754 bit pattern; the decimal to
  float conversion of `strconv.ParseFloat` is a parameter (`GoLib`).
* `(x, nil)` / `(nil, err)` results are `Except.ok x` / `Except.error err`;
  log lines are dropped.
-/

namespace ixia

/-! ## Go maps -/

/-- A Go map as an association list. -/
structure GoMap (κ : Type) (ν : Type) where
  entries : List (κ × ν)
deriving DecidableEq, Repr

namespace GoMap

variable {κ ν : Type} [DecidableEq κ]

/-- The map holding nothing (also the nil map). -/
def empty : GoMap κ ν := ⟨[]⟩

/-- Comma-ok lookup `v, ok := m[k]`. -/
def get? (m : GoMap κ ν) (k : κ) : Option ν :=
  (m.entries.find? (fun e => decide (e.1 = k))).map Prod.snd

/-- Replace the value bound to `k` in an entry list, or append a new binding. -/
def setList (k : κ) (v : ν) : List (κ × ν) → List (κ × ν)
  | [] => [(k, v)]
  | e :: es => if e.1 = k then (k, v) :: es else e :: setList k v es

/-- Assignment `m[k] = v`. -/
def set (m : GoMap κ ν) (k : κ) (v : ν) : GoMap κ ν := ⟨setList k v m.entries⟩

/-- The keys, in list order. -/
def keys (m : GoMap κ ν) : List κ := m.entries.map Prod.fst

/-- Apply `f` to the value bound to `k` in an entry list (a write through the
pointer stored under `k`). -/
def modifyList (k : κ) (f : ν → ν) : List (κ × ν) → List (κ × ν)
  | [] => []
  | e :: es => if e.1 = k then (e.1, f e.2) :: es else e :: modifyList k f es

/-- Apply `f` to the value bound to `k`, if any. -/
def modify (m : GoMap κ ν) (k : κ) (f : ν → ν) : GoMap κ ν := ⟨modifyList k f m.entries⟩

/-- The map with `k` bound to `v0` unless `k` is bound already. -/
def getOrCreate (m : GoMap κ ν) (k : κ) (v0 : ν) : GoMap κ ν :=
  match m.get? k with
  | some _ => m
  | none => m.set k v0

/-- The statement `delete(m, k)`. -/
def delete (m : GoMap κ ν) (k : κ) : GoMap κ ν := ⟨m.entries.filter (fun e => decide (e.1 ≠ k))⟩

end GoMap

/-! ## The parts of the Go standard library the code calls -/

namespace strconv

/-- The two sentinel errors of package strconv. -/
inductive ErrKind where
  | ErrSyn
  | ErrRange
deriving DecidableEq, Repr

/-- The method `Error()` of a sentinel error. -/
def ErrKind.message : ErrKind → String
  | .ErrSyn => "invalid syntax"
  | .ErrRange => "value out of range"

/-- A failed conversion: `strconv.NumError`. -/
structure NumError where
  Func : String
  Num : String
  Err : ErrKind
deriving DecidableEq, Repr

def syntaxError (fn str : String) : NumError := ⟨fn, str, .ErrSyn⟩

def rangeError (fn str : String) : NumError := ⟨fn, str, .ErrRange⟩

def maxUint64 : Nat := 2 ^ 64 - 1

/-- The cutoff of `ParseUint` for base 10: the least `n` with `n * 10 > maxUint64`. -/
def cutoff10 : Nat := maxUint64 / 10 + 1

/-- The helper `lower(c)`: the byte with bit `0x20` set. -/
def lower (c : Char) : Nat := c.toNat ||| 0x20

/-- The digit loop of `strconv.ParseUint(s, 10, 64)`; `n` is the accumulator. -/
def parseUintLoop (s0 : String) : List Char → Nat → Except NumError Nat
  | [], n => .ok n
  | c :: cs, n =>
    if '0'.toNat ≤ c.toNat ∧ c.toNat ≤ '9'.toNat then
      let d := c.toNat - '0'.toNat
      if n ≥ cutoff10 then .error (rangeError "ParseUint" s0)
      else
        let n10 := (n * 10) % 2 ^ 64
        let n1 := (n10 + d) % 2 ^ 64
        if n1 < n10 ∨ n1 > maxUint64 then .error (rangeError "ParseUint" s0)
        else parseUintLoop s0 cs n1
    else if 'a'.toNat ≤ lower c ∧ lower c ≤ 'z'.toNat then
      -- a letter is a digit of value at least 10, which base 10 rejects
      .error (syntaxError "ParseUint" s0)
    else .error (syntaxError "ParseUint" s0)

/-- The call `strconv.ParseUint(s, 10, 64)`. -/
def ParseUint (s : String) : Except NumError Nat :=
  if s = "" then .error (syntaxError "ParseUint" s)
  else parseUintLoop s s.data 0

def lowerhex (n : Nat) : Char := (Nat.toDigits 16 (n % 16)).headD '0'

/-- The hexadecimal digits of `r` from bit `4 * k` downwards. -/
def hexDigits (r : Nat) : Nat → List Char
  | 0 => []
  | k + 1 => lowerhex (r / 16 ^ k) :: hexDigits r k

end strconv

/-- The library functions whose tables are not reproduced here:
`strconv.ParseFloat(s, 32)` followed by the conversion to `float32` (giving the
bit pattern of the result), and `strconv.IsPrint` on runes above ASCII. -/
structure GoLib where
  ParseFloat32 : String → Except strconv.ErrKind Nat
  IsPrint : Char → Bool

namespace strconv

/-- The function `strconv.IsPrint`: exact on ASCII, from the library above it. -/
def IsPrint (lib : GoLib) (c : Char) : Bool :=
  if c.toNat < 0x80 then decide (0x20 ≤ c.toNat ∧ c.toNat < 0x7f) else lib.IsPrint c

/-- One rune of `strconv.Quote` (`appendEscapedRune` with the double quote). -/
def escapeRune (lib : GoLib) (c : Char) : List Char :=
  if c = '"' ∨ c = '\\' then ['\\', c]
  else if IsPrint lib c then [c]
  else if c.toNat = 7 then ['\\', 'a']
  else if c.toNat = 8 then ['\\', 'b']
  else if c.toNat = 12 then ['\\', 'f']
  else if c = '\n' then ['\\', 'n']
  else if c = '\r' then ['\\', 'r']
  else if c = '\t' then ['\\', 't']
  else if c.toNat = 11 then ['\\', 'v']
  else if c.toNat < 0x20 ∨ c.toNat = 0x7f then '\\' :: 'x' :: hexDigits c.toNat 2
  else if c.toNat < 0x10000 then '\\' :: 'u' :: hexDigits c.toNat 4
  else '\\' :: 'U' :: hexDigits c.toNat 8

/-- The function `strconv.Quote`, which is what the verb `%q` prints for a string. -/
def Quote (lib : GoLib) (s : String) : String :=
  ⟨'"' :: (s.data.flatMap (escapeRune lib) ++ ['"'])⟩

/-- The method `(*NumError).Error`. -/
def NumError.message (lib : GoLib) (e : NumError) : String :=
  "strconv." ++ e.Func ++ ": parsing " ++ Quote lib e.Num ++ ": " ++ e.Err.message

/-- The call `strconv.ParseFloat(s, 32)` with the result converted to `float32`. -/
def ParseFloat (lib : GoLib) (s : String) : Except NumError Nat :=
  match lib.ParseFloat32 s with
  | .ok bits => .ok bits
  | .error kind => .error ⟨"ParseFloat", s, kind⟩

end strconv

/-! ## Package stats: rows, tables and the view parsers -/

namespace stats

/-- A statistics view name. -/
abbrev View := String

def PortStatsView : View := "Port Statistics"

def PortCPUStatsView : View := "Port CPU Statistics"

def FlowStatsView : View := "Flow Statistics"

def EgressStatsView : View := "EgressStatView"

/-- A row of statistics: column name to value. -/
abbrev Row := GoMap String String

/-- Comma-ok lookup `v, ok := r[key]`. -/
def Row.find? (r : Row) (key : String) : Option String := GoMap.get? r key

/-- Plain lookup `r[key]`: the empty string when the key is absent. -/
def Row.get (r : Row) (key : String) : String := (Row.find? r key).getD ""

/-- A table: the rows of one statistics view, in order. -/
abbrev Table := List Row

/-- The errors the two packages build, with the arguments of their format strings. -/
inductive Error where
  /-- Built by `errors.Errorf("row %v did not include value for required key %q", r, nameKey)`. -/
  | missingKey (r : Row) (nameKey : String)
  /-- Built by `errors.Wrapf(err, "invalid value %q for int stat %q for key %q", v, k, name)`. -/
  | invalidInt (err : strconv.NumError) (v k name : String)
  /-- Built by `errors.Wrapf(err, "invalid value %q for float stat %s for key %s", v, k, name)`. -/
  | invalidFloat (err : strconv.NumError) (v k name : String)
  /-- Built by `errors.Errorf("invalid port name: got %q, want [ixia_name]/[port_name]", fullPortName)`. -/
  | invalidPortName (fullPortName : String)
  /-- Built by `errors.Errorf("statistics row %q has an unmappable port link state %q", ...)`. -/
  | linkState (portName linkState : String)
  /-- Built by `errors.Errorf("statistics row %q has an unmappable port link speed %q", ...)`. -/
  | linkSpeed (portName lineSpeed : String)
deriving DecidableEq, Repr

/-- Insertion of a key into a list of keys sorted by `<`, dropping repeats. -/
def insertKey (k : String) : List String → List String
  | [] => [k]
  | x :: xs => if k < x then k :: x :: xs else if k = x then x :: xs else x :: insertKey k xs

/-- The keys of a row, sorted, as the verb `%v` visits them. -/
def sortedKeys (r : Row) : List String := (GoMap.keys r).foldr insertKey []

/-- What the verb `%v` prints for a row: `map[k1:v1 k2:v2]`, keys sorted. -/
def fmtRow (r : Row) : String :=
  "map[" ++ " ".intercalate ((sortedKeys r).map (fun k => k ++ ":" ++ Row.get r k)) ++ "]"

/-- The method `Error()` of an error value. -/
def Error.message (lib : GoLib) : Error → String
  | .missingKey r nameKey =>
    "row " ++ fmtRow r ++ " did not include value for required key " ++ strconv.Quote lib nameKey
  | .invalidInt err v k name =>
    "invalid value " ++ strconv.Quote lib v ++ " for int stat " ++ strconv.Quote lib k
      ++ " for key " ++ strconv.Quote lib name ++ ": " ++ err.message lib
  | .invalidFloat err v k name =>
    "invalid value " ++ strconv.Quote lib v ++ " for float stat " ++ k
      ++ " for key " ++ name ++ ": " ++ err.message lib
  | .invalidPortName full =>
    "invalid port name: got " ++ strconv.Quote lib full ++ ", want [ixia_name]/[port_name]"
  | .linkState portName state =>
    "statistics row " ++ strconv.Quote lib portName ++ " has an unmappable port link state "
      ++ strconv.Quote lib state
  | .linkSpeed portName speed =>
    "statistics row " ++ strconv.Quote lib portName ++ " has an unmappable port link speed "
      ++ strconv.Quote lib speed

/-- The closure `lookup` of `Row.parse` (its warning is a log line only). -/
def lookup (r : Row) (key : String) : String := Row.get r key

/-- The loop over `intKeys` of `Row.parse`; `ints` is the map built so far. -/
def parseInts (r : Row) (name : String) :
    List String → GoMap String Nat → Except Error (GoMap String Nat)
  | [], ints => .ok ints
  | k :: ks, ints =>
    let v := lookup r k
    if v = "" then parseInts r name ks ints
    else
      match strconv.ParseUint v with
      | .error err => .error (.invalidInt err v k name)
      | .ok i => parseInts r name ks (ints.set k i)

/-- The loop over `floatKeys` of `Row.parse`; `floats` is the map built so far. -/
def parseFloats (lib : GoLib) (r : Row) (name : String) :
    List String → GoMap String Nat → Except Error (GoMap String Nat)
  | [], floats => .ok floats
  | k :: ks, floats =>
    let v := lookup r k
    if v = "" then parseFloats lib r name ks floats
    else
      match strconv.ParseFloat lib v with
      | .error err => .error (.invalidFloat err v k name)
      | .ok f32 => parseFloats lib r name ks (floats.set k f32)

/-- The method `Row.parse`. -/
def Row.parse (lib : GoLib) (r : Row) (nameKey : String) (strKeys intKeys floatKeys : List String) :
    Except Error (GoMap String Nat × GoMap String Nat) :=
  let name := Row.get r nameKey
  if name = "" then .error (.missingKey r nameKey)
  else
    let _logged := strKeys.map (lookup r)
    match parseInts r name intKeys GoMap.empty with
    | .error e => .error e
    | .ok ints =>
      match parseFloats lib r name floatKeys GoMap.empty with
      | .error e => .error e
      | .ok floats => .ok (ints, floats)

/-- The statistics in a Port Statistics view. -/
structure PortStats where
  PortName : String
  LineSpeed : String
  LinkState : String
  FramesTx : Option Nat
  FramesRx : Option Nat
  BytesTx : Option Nat
  BytesRx : Option Nat
  CRCErrs : Option Nat
  TxRate : Option Nat
  RxRate : Option Nat
deriving DecidableEq, Repr

def portStrKeys : List String := ["Line Speed", "Link State"]

def portIntKeys : List String :=
  ["Frames Tx.", "Valid Frames Rx.", "Bytes Tx.", "Bytes Rx.", "CRC Errors"]

def portFloatKeys : List String := ["Tx. Rate (bps)", "Rx. Rate (bps)"]

/-- The body of the loop of `ParsePortStats` for one row. -/
def parsePortStatsRow (lib : GoLib) (row : Row) : Except Error PortStats :=
  match Row.parse lib row "Port Name" portStrKeys portIntKeys portFloatKeys with
  | .error err => .error err
  | .ok (intVals, floatVals) =>
    .ok {
      PortName := Row.get row "Port Name"
      LineSpeed := Row.get row "Line Speed"
      LinkState := Row.get row "Link State"
      FramesTx := intVals.get? "Frames Tx."
      FramesRx := intVals.get? "Valid Frames Rx."
      BytesTx := intVals.get? "Bytes Tx."
      BytesRx := intVals.get? "Bytes Rx."
      CRCErrs := intVals.get? "CRC Errors"
      TxRate := floatVals.get? "Tx. Rate (bps)"
      RxRate := floatVals.get? "Rx. Rate (bps)" }

/-- A `for _, row := range t` loop that appends one record per row and returns
at the first error; `acc` is the slice built so far. -/
def parseRows {α : Type} (f : Row → Except Error α) : Table → List α → Except Error (List α)
  | [], acc => .ok acc
  | row :: rows, acc =>
    match f row with
    | .error err => .error err
    | .ok rec => parseRows f rows (acc ++ [rec])

/-- The method `Table.ParsePortStats`. -/
def Table.ParsePortStats (lib : GoLib) (t : Table) : Except Error (List PortStats) :=
  parseRows (parsePortStatsRow lib) t []

/-- The statistics in a Port CPU Statistics view. -/
structure PortCPUStats where
  PortName : String
  TotalMemory : Option Nat
  FreeMemory : Option Nat
  CPULoad : Option Nat
deriving DecidableEq, Repr

def portCPUIntKeys : List String := ["Total Memory(KB)", "Free Memory(KB)", "%CPU Load"]

/-- The body of the loop of `ParsePortCPUStats` for one row. -/
def parsePortCPUStatsRow (lib : GoLib) (row : Row) : Except Error PortCPUStats :=
  match Row.parse lib row "Port Name" [] portCPUIntKeys [] with
  | .error err => .error err
  | .ok (intVals, _) =>
    .ok {
      PortName := Row.get row "Port Name"
      TotalMemory := intVals.get? "Total Memory(KB)"
      FreeMemory := intVals.get? "Free Memory(KB)"
      CPULoad := intVals.get? "%CPU Load" }

/-- The method `Table.ParsePortCPUStats`. -/
def Table.ParsePortCPUStats (lib : GoLib) (t : Table) : Except Error (List PortCPUStats) :=
  parseRows (parsePortCPUStatsRow lib) t []

/-- The statistics in a Flow Statistics view. -/
structure FlowStats where
  TrafficItem : String
  RxBytes : Option Nat
  TxFrames : Option Nat
  RxFrames : Option Nat
  LossPct : Option Nat
  TxRate : Option Nat
  RxRate : Option Nat
  TxFrameRate : Option Nat
  RxFrameRate : Option Nat
  RxPort : String
  TxPort : String
  SrcIPv4 : String
  DstIPv4 : String
  SrcIPv6 : String
  DstIPv6 : String
  MPLSLabel : Option Nat
deriving DecidableEq, Repr

def flowStrKeys : List String :=
  ["Rx Port", "Tx Port", "IPv4 :Source Address", "IPv4 :Destination Address",
   "IPv6 :Source Address", "IPv6 :Destination Address"]

def flowIntKeys : List String := ["Rx Bytes", "Tx Frames", "Rx Frames", "MPLS:Label Value"]

def flowFloatKeys : List String :=
  ["Loss %", "Tx Rate (bps)", "Rx Rate (bps)", "Tx Frame Rate", "Rx Frame Rate"]

/-- The body of the loop of `ParseFlowStats` for one row. -/
def parseFlowStatsRow (lib : GoLib) (row : Row) : Except Error FlowStats :=
  match Row.parse lib row "Traffic Item" flowStrKeys flowIntKeys flowFloatKeys with
  | .error err => .error err
  | .ok (intVals, floatVals) =>
    .ok {
      TrafficItem := Row.get row "Traffic Item"
      RxBytes := intVals.get? "Rx Bytes"
      TxFrames := intVals.get? "Tx Frames"
      RxFrames := intVals.get? "Rx Frames"
      LossPct := floatVals.get? "Loss %"
      TxRate := floatVals.get? "Tx Rate (bps)"
      RxRate := floatVals.get? "Rx Rate (bps)"
      TxFrameRate := floatVals.get? "Tx Frame Rate"
      RxFrameRate := floatVals.get? "Rx Frame Rate"
      RxPort := Row.get row "Rx Port"
      TxPort := Row.get row "Tx Port"
      MPLSLabel := intVals.get? "MPLS:Label Value"
      SrcIPv4 := Row.get row "IPv4 :Source Address"
      DstIPv4 := Row.get row "IPv4 :Destination Address"
      SrcIPv6 := Row.get row "IPv6 :Source Address"
      DstIPv6 := Row.get row "IPv6 :Destination Address" }

/-- The method `Table.ParseFlowStats`. -/
def Table.ParseFlowStats (lib : GoLib) (t : Table) : Except Error (List FlowStats) :=
  parseRows (parseFlowStatsRow lib) t []

/-- The statistics in an Egress Statistics view: a flow record and its filter. -/
structure EgressStats where
  FlowStats : FlowStats
  Filter : String
deriving DecidableEq, Repr

/-- The second loop of `ParseEgressStats`: `for i, row := range t` indexing `ps[i]`;
`ps` holds the records from index `i` on.  An index past the end of `ps` is a
run-time panic, here `none`. -/
def egressLoop : Table → List FlowStats → List EgressStats → Option (List EgressStats)
  | [], _, es => some es
  | _ :: _, [], _ => none
  | row :: rows, p :: ps, es =>
    egressLoop rows ps (es ++ [{ FlowStats := p, Filter := Row.get row "Egress Tracking" }])

/-- The method `Table.ParseEgressStats`; the outer `Option` is `none` on a panic. -/
def Table.ParseEgressStats (lib : GoLib) (t : Table) : Option (Except Error (List EgressStats)) :=
  match Table.ParseFlowStats lib t with
  | .error err => some (.error err)
  | .ok ps => (egressLoop t ps []).map .ok

end stats

/-! ## Package telemetry: the device tree -/

namespace telemetry

/-- Modelled from the spec: the generated enumeration of hardware component
types, of which the code uses PORT and CPU; `UNSET` is the zero value. -/
inductive E_PlatformTypes_OPENCONFIG_HARDWARE_COMPONENT where
  | UNSET
  | PORT
  | CPU
deriving DecidableEq, Repr

/-- Modelled from the spec: the generated interface type enumeration. -/
inductive E_IETFInterfaces_InterfaceType where
  | UNSET
  | ethernetCsmacd
deriving DecidableEq, Repr

/-- Modelled from the spec: the generated operational status enumeration. -/
inductive E_Interface_OperStatus where
  | UNSET
  | UP
  | DOWN
deriving DecidableEq, Repr

/-- Modelled from the spec: the generated Ethernet speed enumeration. -/
inductive E_IfEthernet_ETHERNET_SPEED where
  | UNSET
  | SPEED_10GB
  | SPEED_100GB
deriving DecidableEq, Repr

/-- Modelled from the spec: the MPLS label union, an enumerated special value
or a raw 32-bit label. -/
inductive Flow_IngressTracking_MplsLabel_Union where
  | UNSET
  | IPV4_EXPLICIT_NULL
  | ROUTER_ALERT
  | IPV6_EXPLICIT_NULL
  | IMPLICIT_NULL
  | ENTROPY_LABEL_INDICATOR
  | NO_LABEL
  | UnionUint32 (label : Nat)
deriving DecidableEq, Repr

/-- A binary leaf: `nil` or a byte string. -/
abbrev Binary := Option (List Nat)

/-- Modelled from the spec: memory of a component. -/
structure Component_Memory where
  Available : Option Nat := none
  Utilized : Option Nat := none
deriving DecidableEq, Repr

/-- Modelled from the spec: CPU utilization of a component. -/
structure Component_Cpu_Utilization where
  Instant : Option Nat := none
deriving DecidableEq, Repr

/-- Modelled from the spec: the CPU container of a component. -/
structure Component_Cpu where
  Utilization : Option Component_Cpu_Utilization := none
deriving DecidableEq, Repr

/-- Modelled from the spec: a subcomponent reference, keyed by name. -/
structure Component_Subcomponent where
  Name : Option String := none
deriving DecidableEq, Repr

/-- Modelled from the spec: a hardware component node, keyed by name. -/
structure Component where
  Name : Option String := none
  Type_ : E_PlatformTypes_OPENCONFIG_HARDWARE_COMPONENT := .UNSET
  Parent : Option String := none
  Subcomponent : GoMap String Component_Subcomponent := GoMap.empty
  Memory : Option Component_Memory := none
  Cpu : Option Component_Cpu := none
deriving DecidableEq, Repr

/-- Modelled from the spec: the counters of an interface. -/
structure Interface_Counters where
  InOctets : Option Nat := none
  InPkts : Option Nat := none
  OutOctets : Option Nat := none
  OutPkts : Option Nat := none
deriving DecidableEq, Repr

/-- Modelled from the spec: the Ethernet counters of an interface. -/
structure Interface_Ethernet_Counters where
  InCrcErrors : Option Nat := none
deriving DecidableEq, Repr

/-- Modelled from the spec: the Ethernet container of an interface. -/
structure Interface_Ethernet where
  Counters : Option Interface_Ethernet_Counters := none
  PortSpeed : E_IfEthernet_ETHERNET_SPEED := .UNSET
deriving DecidableEq, Repr

/-- Modelled from the spec: an interface node, keyed by name. -/
structure Interface where
  Name : Option String := none
  Counters : Option Interface_Counters := none
  Ethernet : Option Interface_Ethernet := none
  InRate : Binary := none
  OutRate : Binary := none
  Type_ : E_IETFInterfaces_InterfaceType := .UNSET
  OperStatus : E_Interface_OperStatus := .UNSET
deriving DecidableEq, Repr

/-- Modelled from the spec: the counters of a flow, of an ingress-tracking
record and of an egress-tracking record (one shape for the four generated
types). -/
structure Flow_Counters where
  InOctets : Option Nat := none
  InPkts : Option Nat := none
  OutOctets : Option Nat := none
  OutPkts : Option Nat := none
deriving DecidableEq, Repr

/-- Modelled from the spec: an egress-tracking record, keyed by its filter (one
shape for `Flow_EgressTracking` and `Flow_IngressTracking_EgressTracking`). -/
structure Flow_EgressTracking where
  Filter : Option String := none
  Counters : Option Flow_Counters := none
  LossPct : Binary := none
  InRate : Binary := none
  InFrameRate : Binary := none
  OutRate : Binary := none
  OutFrameRate : Binary := none
deriving DecidableEq, Repr

/-- Modelled from the spec: the key of an ingress-tracking record, in the order
the code passes its components. -/
structure Flow_IngressTracking_Key where
  SrcPort : String
  DstPort : String
  MplsLabel : Flow_IngressTracking_MplsLabel_Union
  SrcIpv4 : String
  DstIpv4 : String
  SrcIpv6 : String
  DstIpv6 : String
deriving DecidableEq, Repr

/-- Modelled from the spec: an ingress-tracking record under a flow. -/
structure Flow_IngressTracking where
  SrcPort : Option String := none
  DstPort : Option String := none
  MplsLabel : Flow_IngressTracking_MplsLabel_Union := .UNSET
  SrcIpv4 : Option String := none
  DstIpv4 : Option String := none
  SrcIpv6 : Option String := none
  DstIpv6 : Option String := none
  Counters : Option Flow_Counters := none
  LossPct : Binary := none
  InRate : Binary := none
  InFrameRate : Binary := none
  OutRate : Binary := none
  OutFrameRate : Binary := none
  Filter : Option String := none
  EgressTracking : GoMap String Flow_EgressTracking := GoMap.empty
deriving DecidableEq, Repr

/-- Modelled from the spec: a flow node, keyed by traffic-item name. -/
structure Flow where
  Name : Option String := none
  Counters : Option Flow_Counters := none
  LossPct : Binary := none
  InRate : Binary := none
  InFrameRate : Binary := none
  OutRate : Binary := none
  OutFrameRate : Binary := none
  Filter : Option String := none
  IngressTracking : GoMap Flow_IngressTracking_Key Flow_IngressTracking := GoMap.empty
  EgressTracking : GoMap String Flow_EgressTracking := GoMap.empty
deriving DecidableEq, Repr

/-- Modelled from the spec: the device tree, with its component, interface and
flow collections keyed by name. -/
structure Device where
  Component : GoMap String Component := GoMap.empty
  Interface : GoMap String Interface := GoMap.empty
  Flow : GoMap String Flow := GoMap.empty
deriving DecidableEq, Repr

namespace Component

/-- Modelled from the spec: `NewSubcomponent` registers a subcomponent under its
name; on a name that is registered already it changes nothing (it reports an
error, which the caller drops). -/
def NewSubcomponent (t : Component) (Name : String) : Component :=
  { t with Subcomponent := t.Subcomponent.getOrCreate Name { Name := some Name } }

/-- Modelled from the spec: fetch-or-create of the CPU container. -/
def GetOrCreateCpu (t : Component) : Component_Cpu := t.Cpu.getD {}

end Component

/-- Modelled from the spec: fetch-or-create of the utilization container. -/
def Component_Cpu.GetOrCreateUtilization (t : Component_Cpu) : Component_Cpu_Utilization :=
  t.Utilization.getD {}

namespace Interface

/-- Modelled from the spec: fetch-or-create of the Ethernet container. -/
def GetOrCreateEthernet (t : Interface) : Interface_Ethernet := t.Ethernet.getD {}

end Interface

/-- Modelled from the spec: fetch-or-create of the Ethernet counters. -/
def Interface_Ethernet.GetOrCreateCounters (t : Interface_Ethernet) : Interface_Ethernet_Counters :=
  t.Counters.getD {}

/-- Modelled from the spec: a new ingress-tracking record carries its key. -/
def Flow_IngressTracking.new (k : Flow_IngressTracking_Key) : Flow_IngressTracking :=
  { SrcPort := some k.SrcPort, DstPort := some k.DstPort, MplsLabel := k.MplsLabel,
    SrcIpv4 := some k.SrcIpv4, DstIpv4 := some k.DstIpv4,
    SrcIpv6 := some k.SrcIpv6, DstIpv6 := some k.DstIpv6 }

/-- Modelled from the spec: fetch-or-create of an egress-tracking record under
an ingress-tracking record. -/
def Flow_IngressTracking.GetOrCreateEgressTracking (t : Flow_IngressTracking) (Filter : String) :
    Flow_IngressTracking :=
  { t with EgressTracking := t.EgressTracking.getOrCreate Filter { Filter := some Filter } }

namespace Flow

/-- Modelled from the spec: fetch-or-create of an ingress-tracking record. -/
def GetOrCreateIngressTracking (t : Flow) (k : Flow_IngressTracking_Key) : Flow :=
  { t with IngressTracking := t.IngressTracking.getOrCreate k (Flow_IngressTracking.new k) }

/-- Modelled from the spec: fetch-or-create of an egress-tracking record under a flow. -/
def GetOrCreateEgressTracking (t : Flow) (Filter : String) : Flow :=
  { t with EgressTracking := t.EgressTracking.getOrCreate Filter { Filter := some Filter } }

end Flow

namespace Device

/-- Modelled from the spec: fetch-or-create of a component; the node is
addressed by its name from then on. -/
def GetOrCreateComponent (t : Device) (Name : String) : Device :=
  { t with Component := t.Component.getOrCreate Name { Name := some Name } }

/-- Modelled from the spec: fetch-or-create of an interface. -/
def GetOrCreateInterface (t : Device) (Name : String) : Device :=
  { t with Interface := t.Interface.getOrCreate Name { Name := some Name } }

/-- Modelled from the spec: fetch-or-create of a flow. -/
def GetOrCreateFlow (t : Device) (Name : String) : Device :=
  { t with Flow := t.Flow.getOrCreate Name { Name := some Name } }

/-- A write through the pointer to the component `Name`. -/
def updateComponent (t : Device) (Name : String)
    (f : telemetry.Component → telemetry.Component) : Device :=
  { t with Component := t.Component.modify Name f }

/-- A write through the pointer to the interface `Name`. -/
def updateInterface (t : Device) (Name : String)
    (f : telemetry.Interface → telemetry.Interface) : Device :=
  { t with Interface := t.Interface.modify Name f }

/-- A write through the pointer to the flow `Name`. -/
def updateFlow (t : Device) (Name : String) (f : telemetry.Flow → telemetry.Flow) : Device :=
  { t with Flow := t.Flow.modify Name f }

/-- A write through the pointer to the ingress-tracking record `k` of the flow `Name`. -/
def updateIngressTracking (t : Device) (Name : String) (k : Flow_IngressTracking_Key)
    (f : Flow_IngressTracking → Flow_IngressTracking) : Device :=
  t.updateFlow Name (fun fl => { fl with IngressTracking := fl.IngressTracking.modify k f })

end Device

end telemetry

/-! ## The structural merge of the schema library -/

namespace ygot

open telemetry

/-- Merge of a leaf: a leaf set on one side only is kept; a leaf set on both
sides must hold one value. -/
def mergeLeaf {α : Type} [DecidableEq α] (a b : Option α) : Except String (Option α) :=
  match a, b with
  | none, _ => .ok b
  | some x, none => .ok (some x)
  | some x, some y =>
    if x = y then .ok (some x)
    else .error "destination and source values were set when merging leaf field"

/-- Merge of an enumerated leaf, whose zero value `unset` means not set. -/
def mergeEnum {α : Type} [DecidableEq α] (unset : α) (a b : α) : Except String α :=
  if b = unset then .ok a
  else if a = unset then .ok b
  else if a = b then .ok a
  else .error "destination and source values were set when merging enum field"

/-- Merge of a container held by pointer: nil on one side keeps the other side. -/
def mergePtr {α : Type} (f : α → α → Except String α) (a b : Option α) : Except String (Option α) :=
  match a, b with
  | none, _ => .ok b
  | some x, none => .ok (some x)
  | some x, some y =>
    match f x y with
    | .error e => .error e
    | .ok z => .ok (some z)

/-- The entries of `a`, each merged with the entry of `b` under the same key if
there is one. -/
def mergeEntries {κ ν : Type} [DecidableEq κ] (f : ν → ν → Except String ν) (b : GoMap κ ν) :
    List (κ × ν) → Except String (List (κ × ν))
  | [] => .ok []
  | (k, v) :: rest =>
    match (match b.get? k with
           | none => Except.ok v
           | some w => f v w) with
    | .error e => .error e
    | .ok v1 =>
      match mergeEntries f b rest with
      | .error e => .error e
      | .ok rest1 => .ok ((k, v1) :: rest1)

/-- Merge of a keyed list: keys of both sides, values under a shared key merged. -/
def mergeMap {κ ν : Type} [DecidableEq κ] (f : ν → ν → Except String ν) (a b : GoMap κ ν) :
    Except String (GoMap κ ν) :=
  match mergeEntries f b a.entries with
  | .error e => .error e
  | .ok merged => .ok ⟨merged ++ b.entries.filter (fun e => (a.get? e.1).isNone)⟩

def mergeMemory (a b : Component_Memory) : Except String Component_Memory :=
  match mergeLeaf a.Available b.Available, mergeLeaf a.Utilized b.Utilized with
  | .ok av, .ok ut => .ok { Available := av, Utilized := ut }
  | .error e, _ => .error e
  | _, .error e => .error e

def mergeUtilization (a b : Component_Cpu_Utilization) : Except String Component_Cpu_Utilization :=
  match mergeLeaf a.Instant b.Instant with
  | .ok i => .ok { Instant := i }
  | .error e => .error e

def mergeCpu (a b : Component_Cpu) : Except String Component_Cpu :=
  match mergePtr mergeUtilization a.Utilization b.Utilization with
  | .ok u => .ok { Utilization := u }
  | .error e => .error e

def mergeSubcomponent (a b : Component_Subcomponent) : Except String Component_Subcomponent :=
  match mergeLeaf a.Name b.Name with
  | .ok n => .ok { Name := n }
  | .error e => .error e

def mergeComponent (a b : Component) : Except String Component :=
  match mergeLeaf a.Name b.Name, mergeEnum .UNSET a.Type_ b.Type_, mergeLeaf a.Parent b.Parent,
        mergeMap mergeSubcomponent a.Subcomponent b.Subcomponent,
        mergePtr mergeMemory a.Memory b.Memory, mergePtr mergeCpu a.Cpu b.Cpu with
  | .ok n, .ok t, .ok p, .ok s, .ok m, .ok c =>
    .ok { Name := n, Type_ := t, Parent := p, Subcomponent := s, Memory := m, Cpu := c }
  | .error e, _, _, _, _, _ => .error e
  | _, .error e, _, _, _, _ => .error e
  | _, _, .error e, _, _, _ => .error e
  | _, _, _, .error e, _, _ => .error e
  | _, _, _, _, .error e, _ => .error e
  | _, _, _, _, _, .error e => .error e

def mergeInterfaceCounters (a b : Interface_Counters) : Except String Interface_Counters :=
  match mergeLeaf a.InOctets b.InOctets, mergeLeaf a.InPkts b.InPkts,
        mergeLeaf a.OutOctets b.OutOctets, mergeLeaf a.OutPkts b.OutPkts with
  | .ok io, .ok ip, .ok oo, .ok op =>
    .ok { InOctets := io, InPkts := ip, OutOctets := oo, OutPkts := op }
  | .error e, _, _, _ => .error e
  | _, .error e, _, _ => .error e
  | _, _, .error e, _ => .error e
  | _, _, _, .error e => .error e

def mergeEthernetCounters (a b : Interface_Ethernet_Counters) :
    Except String Interface_Ethernet_Counters :=
  match mergeLeaf a.InCrcErrors b.InCrcErrors with
  | .ok c => .ok { InCrcErrors := c }
  | .error e => .error e

def mergeEthernet (a b : Interface_Ethernet) : Except String Interface_Ethernet :=
  match mergePtr mergeEthernetCounters a.Counters b.Counters,
        mergeEnum .UNSET a.PortSpeed b.PortSpeed with
  | .ok c, .ok s => .ok { Counters := c, PortSpeed := s }
  | .error e, _ => .error e
  | _, .error e => .error e

def mergeInterface (a b : Interface) : Except String Interface :=
  match mergeLeaf a.Name b.Name, mergePtr mergeInterfaceCounters a.Counters b.Counters,
        mergePtr mergeEthernet a.Ethernet b.Ethernet, mergeLeaf a.InRate b.InRate,
        mergeLeaf a.OutRate b.OutRate, mergeEnum .UNSET a.Type_ b.Type_,
        mergeEnum .UNSET a.OperStatus b.OperStatus with
  | .ok n, .ok c, .ok e, .ok ir, .ok orate, .ok t, .ok os =>
    .ok { Name := n, Counters := c, Ethernet := e, InRate := ir, OutRate := orate, Type_ := t,
          OperStatus := os }
  | .error e, _, _, _, _, _, _ => .error e
  | _, .error e, _, _, _, _, _ => .error e
  | _, _, .error e, _, _, _, _ => .error e
  | _, _, _, .error e, _, _, _ => .error e
  | _, _, _, _, .error e, _, _ => .error e
  | _, _, _, _, _, .error e, _ => .error e
  | _, _, _, _, _, _, .error e => .error e

def mergeFlowCounters (a b : Flow_Counters) : Except String Flow_Counters :=
  match mergeLeaf a.InOctets b.InOctets, mergeLeaf a.InPkts b.InPkts,
        mergeLeaf a.OutOctets b.OutOctets, mergeLeaf a.OutPkts b.OutPkts with
  | .ok io, .ok ip, .ok oo, .ok op =>
    .ok { InOctets := io, InPkts := ip, OutOctets := oo, OutPkts := op }
  | .error e, _, _, _ => .error e
  | _, .error e, _, _ => .error e
  | _, _, .error e, _ => .error e
  | _, _, _, .error e => .error e

def mergeEgressTracking (a b : Flow_EgressTracking) : Except String Flow_EgressTracking :=
  match mergeLeaf a.Filter b.Filter, mergePtr mergeFlowCounters a.Counters b.Counters,
        mergeLeaf a.LossPct b.LossPct, mergeLeaf a.InRate b.InRate,
        mergeLeaf a.InFrameRate b.InFrameRate, mergeLeaf a.OutRate b.OutRate,
        mergeLeaf a.OutFrameRate b.OutFrameRate with
  | .ok fl, .ok c, .ok l, .ok ir, .ok ifr, .ok orate, .ok ofr =>
    .ok { Filter := fl, Counters := c, LossPct := l, InRate := ir, InFrameRate := ifr,
          OutRate := orate, OutFrameRate := ofr }
  | .error e, _, _, _, _, _, _ => .error e
  | _, .error e, _, _, _, _, _ => .error e
  | _, _, .error e, _, _, _, _ => .error e
  | _, _, _, .error e, _, _, _ => .error e
  | _, _, _, _, .error e, _, _ => .error e
  | _, _, _, _, _, .error e, _ => .error e
  | _, _, _, _, _, _, .error e => .error e

/-- Merge of the seven key leaves of an ingress-tracking record. -/
def mergeIngressKeyLeaves (a b : Flow_IngressTracking) : Except String Flow_IngressTracking :=
  match mergeLeaf a.SrcPort b.SrcPort, mergeLeaf a.DstPort b.DstPort,
        mergeEnum .UNSET a.MplsLabel b.MplsLabel, mergeLeaf a.SrcIpv4 b.SrcIpv4,
        mergeLeaf a.DstIpv4 b.DstIpv4, mergeLeaf a.SrcIpv6 b.SrcIpv6,
        mergeLeaf a.DstIpv6 b.DstIpv6 with
  | .ok sp, .ok dp, .ok ml, .ok s4, .ok d4, .ok s6, .ok d6 =>
    .ok { a with SrcPort := sp, DstPort := dp, MplsLabel := ml, SrcIpv4 := s4, DstIpv4 := d4,
                 SrcIpv6 := s6, DstIpv6 := d6 }
  | .error e, _, _, _, _, _, _ => .error e
  | _, .error e, _, _, _, _, _ => .error e
  | _, _, .error e, _, _, _, _ => .error e
  | _, _, _, .error e, _, _, _ => .error e
  | _, _, _, _, .error e, _, _ => .error e
  | _, _, _, _, _, .error e, _ => .error e
  | _, _, _, _, _, _, .error e => .error e

def mergeIngressTracking (a b : Flow_IngressTracking) : Except String Flow_IngressTracking :=
  match mergeIngressKeyLeaves a b, mergePtr mergeFlowCounters a.Counters b.Counters,
        mergeLeaf a.LossPct b.LossPct, mergeLeaf a.InRate b.InRate,
        mergeLeaf a.InFrameRate b.InFrameRate, mergeLeaf a.OutRate b.OutRate,
        mergeLeaf a.OutFrameRate b.OutFrameRate, mergeLeaf a.Filter b.Filter,
        mergeMap mergeEgressTracking a.EgressTracking b.EgressTracking with
  | .ok k, .ok c, .ok l, .ok ir, .ok ifr, .ok orate, .ok ofr, .ok fl, .ok et =>
    .ok { k with Counters := c, LossPct := l, InRate := ir, InFrameRate := ifr, OutRate := orate,
                 OutFrameRate := ofr, Filter := fl, EgressTracking := et }
  | .error e, _, _, _, _, _, _, _, _ => .error e
  | _, .error e, _, _, _, _, _, _, _ => .error e
  | _, _, .error e, _, _, _, _, _, _ => .error e
  | _, _, _, .error e, _, _, _, _, _ => .error e
  | _, _, _, _, .error e, _, _, _, _ => .error e
  | _, _, _, _, _, .error e, _, _, _ => .error e
  | _, _, _, _, _, _, .error e, _, _ => .error e
  | _, _, _, _, _, _, _, .error e, _ => .error e
  | _, _, _, _, _, _, _, _, .error e => .error e

def mergeFlow (a b : Flow) : Except String Flow :=
  match mergeLeaf a.Name b.Name, mergePtr mergeFlowCounters a.Counters b.Counters,
        mergeLeaf a.LossPct b.LossPct, mergeLeaf a.InRate b.InRate,
        mergeLeaf a.InFrameRate b.InFrameRate, mergeLeaf a.OutRate b.OutRate,
        mergeLeaf a.OutFrameRate b.OutFrameRate, mergeLeaf a.Filter b.Filter,
        mergeMap mergeIngressTracking a.IngressTracking b.IngressTracking,
        mergeMap mergeEgressTracking a.EgressTracking b.EgressTracking with
  | .ok n, .ok c, .ok l, .ok ir, .ok ifr, .ok orate, .ok ofr, .ok fl, .ok it, .ok et =>
    .ok { Name := n, Counters := c, LossPct := l, InRate := ir, InFrameRate := ifr,
          OutRate := orate, OutFrameRate := ofr, Filter := fl, IngressTracking := it,
          EgressTracking := et }
  | .error e, _, _, _, _, _, _, _, _, _ => .error e
  | _, .error e, _, _, _, _, _, _, _, _ => .error e
  | _, _, .error e, _, _, _, _, _, _, _ => .error e
  | _, _, _, .error e, _, _, _, _, _, _ => .error e
  | _, _, _, _, .error e, _, _, _, _, _ => .error e
  | _, _, _, _, _, .error e, _, _, _, _ => .error e
  | _, _, _, _, _, _, .error e, _, _, _ => .error e
  | _, _, _, _, _, _, _, .error e, _, _ => .error e
  | _, _, _, _, _, _, _, _, .error e, _ => .error e
  | _, _, _, _, _, _, _, _, _, .error e => .error e

/-- Modelled from the spec: the structural merge primitive of the schema
library, which is outside this repository.  It combines two trees field by
field at every nesting level: keyed lists are united, nodes under one key are
merged, and a leaf set to two different values is a merge error. -/
def MergeStructs (a b : Device) : Except String Device :=
  match mergeMap mergeComponent a.Component b.Component,
        mergeMap mergeInterface a.Interface b.Interface,
        mergeMap mergeFlow a.Flow b.Flow with
  | .ok c, .ok i, .ok f => .ok { Component := c, Interface := i, Flow := f }
  | .error e, _, _ => .error e
  | _, .error e, _ => .error e
  | _, _, .error e => .error e

end ygot

/-! ## Package oc: the view translators and the merge orchestrator

A translator returns `none` where the Go code would panic (a nil dereference),
`some (.error e)` for `(nil, e)` and `some (.ok d)` for `(d, nil)`. -/

namespace oc

open stats telemetry

/-- The call `strings.SplitAfterN(s, "/", 2)`: the text up to and including the
first `/` and the text after it, or `s` alone when it holds no `/`. -/
def SplitAfterN (s : String) : List String :=
  match s.data.span (fun c => decide (c ≠ '/')) with
  | (_, []) => [s]
  | (pre, c :: rest) => [⟨pre ++ [c]⟩, ⟨rest⟩]

/-- Strips off the Ixia name from the port name. -/
def shortPortName (fullPortName : String) : Except Error String :=
  match SplitAfterN fullPortName with
  | _ :: p1 :: _ => if p1.length = 0 then .error (.invalidPortName fullPortName) else .ok p1
  | _ => .error (.invalidPortName fullPortName)

/-- The big-endian bytes of a 32-bit pattern. -/
def float32Bytes (f : Nat) : Binary :=
  some [f / 2 ^ 24 % 256, f / 2 ^ 16 % 256, f / 2 ^ 8 % 256, f % 256]

def pfloat32Bytes (f : Option Nat) : Binary :=
  match f with
  | none => none
  | some v => float32Bytes v

def maxUint32 : Nat := 2 ^ 32 - 1

def mplsLabelFromUint (label : Option Nat) : Flow_IngressTracking_MplsLabel_Union :=
  match label with
  | none => .NO_LABEL
  | some labelNum =>
    if labelNum = 0 then .IPV4_EXPLICIT_NULL
    else if labelNum = 1 then .ROUTER_ALERT
    else if labelNum = 2 then .IPV6_EXPLICIT_NULL
    else if labelNum = 3 then .IMPLICIT_NULL
    else if labelNum = 7 then .ENTROPY_LABEL_INDICATOR
    else if labelNum > maxUint32 then .UNSET
    else .UnionUint32 (labelNum % 2 ^ 32)

def isIngressTracked (flow : String) : List String → Bool
  | [] => false
  | f :: itFlows => if f = flow then true else isIngressTracked flow itFlows

/-- The key `ingressTrackingFromFlowStats` passes to `GetOrCreateIngressTracking`. -/
def ingressTrackingKey (row : FlowStats) : Flow_IngressTracking_Key :=
  { SrcPort := row.RxPort, DstPort := row.TxPort, MplsLabel := mplsLabelFromUint row.MPLSLabel,
    SrcIpv4 := row.SrcIPv4, DstIpv4 := row.DstIPv4, SrcIpv6 := row.SrcIPv6, DstIpv6 := row.DstIPv6 }

/-- The function `ingressTrackingFromFlowStats` on the flow `flow` of `d`: the
device with the record fetched or created; the record is addressed by
`(flow, ingressTrackingKey row)` from then on. -/
def ingressTrackingFromFlowStats (d : Device) (flow : String) (row : FlowStats) : Device :=
  d.updateFlow flow (fun f => f.GetOrCreateIngressTracking (ingressTrackingKey row))

/-- One iteration of the loop of `translatePortCPUStats`, from the point where
the short port name is known; `none` is the panic of dereferencing a nil
`cpu.Name`. -/
def portCPURow (row : PortCPUStats) (portName : String) (d : Device) : Option Device :=
  let cpuKey := portName ++ "_CPU"
  let d := d.GetOrCreateComponent portName
  let d := d.GetOrCreateComponent cpuKey
  let d := d.updateComponent portName (fun port => { port with Type_ := .PORT })
  match (d.Component.get? cpuKey).bind (fun cpu => cpu.Name) with
  | none => none
  | some cpuName =>
    let d := d.updateComponent portName (fun port => port.NewSubcomponent cpuName)
    let portNamePtr := (d.Component.get? portName).bind (fun port => port.Name)
    let d := d.updateComponent cpuKey (fun cpu => { cpu with Type_ := .CPU, Parent := portNamePtr })
    let d :=
      match row.TotalMemory, row.FreeMemory with
      | some total, some free =>
        d.updateComponent portName (fun port =>
          { port with Memory := some { Available := some free,
                                       Utilized := some ((total + 2 ^ 64 - free) % 2 ^ 64) } })
      | _, _ => d
    let d :=
      match row.CPULoad with
      | some load =>
        d.updateComponent cpuKey (fun cpu =>
          let c := cpu.GetOrCreateCpu
          let u := c.GetOrCreateUtilization
          { cpu with Cpu := some { c with Utilization := some { u with Instant := some (load % 256) } } })
      | none => d
    some d

/-- The loop of `translatePortCPUStats`. -/
def portCPULoop : List PortCPUStats → Device → Option (Except Error Device)
  | [], d => some (.ok d)
  | row :: rows, d =>
    match shortPortName row.PortName with
    | .error err => some (.error err)
    | .ok portName =>
      match portCPURow row portName d with
      | none => none
      | some d => portCPULoop rows d

/-- Maps the Ixia Port CPU Statistics to a device structure. -/
def translatePortCPUStats (lib : GoLib) (tbl : Table) (_itFlows : List String) :
    Option (Except Error Device) :=
  match Table.ParsePortCPUStats lib tbl with
  | .error err => some (.error err)
  | .ok pcs => portCPULoop pcs {}

/-- The `switch row.LinkState` of `translatePortStats` on the interface `portName`. -/
def linkStateSwitch (row : PortStats) (portName : String) (d : Device) : Except Error Device :=
  if row.LinkState = "" then .ok d
  else if row.LinkState = "Link Up" then
    .ok (d.updateInterface portName (fun i => { i with OperStatus := .UP }))
  else if row.LinkState = "Link Down" ∨ row.LinkState = "No PCS Lock" then
    .ok (d.updateInterface portName (fun i => { i with OperStatus := .DOWN }))
  else .error (.linkState row.PortName row.LinkState)

/-- The `switch row.LineSpeed` of `translatePortStats` on the interface `portName`. -/
def lineSpeedSwitch (row : PortStats) (portName : String) (d : Device) : Except Error Device :=
  if row.LineSpeed = "" then .ok d
  else if row.LineSpeed = "10GE LAN" then
    .ok (d.updateInterface portName (fun i =>
      { i with Ethernet := some { i.GetOrCreateEthernet with PortSpeed := .SPEED_10GB } }))
  else if row.LineSpeed = "100GE" then
    .ok (d.updateInterface portName (fun i =>
      { i with Ethernet := some { i.GetOrCreateEthernet with PortSpeed := .SPEED_100GB } }))
  else .error (.linkSpeed row.PortName row.LineSpeed)

/-- The first statements of one iteration of the loop of `translatePortStats`,
from the point where the short port name is known: the interface is fetched or
created and its counters, CRC errors, rates and type are written. -/
def portRowFields (row : PortStats) (portName : String) (d : Device) : Device :=
  let d := d.GetOrCreateInterface portName
  let d := d.updateInterface portName (fun i =>
    { i with Counters := some { InOctets := row.BytesRx, InPkts := row.FramesRx,
                                OutOctets := row.BytesTx, OutPkts := row.FramesTx } })
  let d := d.updateInterface portName (fun i =>
    let e := i.GetOrCreateEthernet
    let c := e.GetOrCreateCounters
    { i with Ethernet := some { e with Counters := some { c with InCrcErrors := row.CRCErrs } } })
  let d := d.updateInterface portName (fun i => { i with InRate := pfloat32Bytes row.RxRate })
  let d := d.updateInterface portName (fun i => { i with OutRate := pfloat32Bytes row.TxRate })
  d.updateInterface portName (fun i => { i with Type_ := .ethernetCsmacd })

/-- One iteration of the loop of `translatePortStats`, from the point where the
short port name is known. -/
def portRow (row : PortStats) (portName : String) (d : Device) : Except Error Device :=
  match linkStateSwitch row portName (portRowFields row portName d) with
  | .error err => .error err
  | .ok d => lineSpeedSwitch row portName d

/-- The loop of `translatePortStats`. -/
def portLoop : List PortStats → Device → Except Error Device
  | [], d => .ok d
  | row :: rows, d =>
    match shortPortName row.PortName with
    | .error err => .error err
    | .ok portName =>
      match portRow row portName d with
      | .error err => .error err
      | .ok d => portLoop rows d

/-- Translates the Port Statistics view to a device structure. -/
def translatePortStats (lib : GoLib) (tbl : Table) (_itFlows : List String) :
    Option (Except Error Device) :=
  match Table.ParsePortStats lib tbl with
  | .error err => some (.error err)
  | .ok ps => some (portLoop ps {})

/-- The counters a flow, ingress-tracking or egress-tracking record gets from a row. -/
def flowCounters (row : FlowStats) : Flow_Counters :=
  { InOctets := row.RxBytes, InPkts := row.RxFrames, OutPkts := row.TxFrames }

/-- One iteration of the loop of `translateFlowStats`. -/
def flowRow (itFlows : List String) (row : FlowStats) (d : Device) : Device :=
  let d := d.GetOrCreateFlow row.TrafficItem
  if isIngressTracked row.TrafficItem itFlows then
    let d := ingressTrackingFromFlowStats d row.TrafficItem row
    d.updateIngressTracking row.TrafficItem (ingressTrackingKey row) (fun it =>
      { it with Counters := some (flowCounters row),
                LossPct := pfloat32Bytes row.LossPct,
                InRate := pfloat32Bytes row.RxRate,
                InFrameRate := pfloat32Bytes row.RxFrameRate,
                OutRate := pfloat32Bytes row.TxRate,
                OutFrameRate := pfloat32Bytes row.TxFrameRate })
  else
    d.updateFlow row.TrafficItem (fun f =>
      { f with Counters := some (flowCounters row),
               LossPct := pfloat32Bytes row.LossPct,
               InRate := pfloat32Bytes row.RxRate,
               InFrameRate := pfloat32Bytes row.RxFrameRate,
               OutRate := pfloat32Bytes row.TxRate,
               OutFrameRate := pfloat32Bytes row.TxFrameRate })

/-- The loop of `translateFlowStats`. -/
def flowLoop (itFlows : List String) : List FlowStats → Device → Device
  | [], d => d
  | row :: rows, d => flowLoop itFlows rows (flowRow itFlows row d)

/-- Translates the Flow Statistics view to a device structure. -/
def translateFlowStats (lib : GoLib) (tbl : Table) (itFlows : List String) :
    Option (Except Error Device) :=
  match Table.ParseFlowStats lib tbl with
  | .error err => some (.error err)
  | .ok fs => some (.ok (flowLoop itFlows fs {}))

/-- The fields an egress-tracking record gets from a data row. -/
def fillEgress (row : FlowStats) (ef : Flow_EgressTracking) : Flow_EgressTracking :=
  { ef with Counters := some (flowCounters row),
            LossPct := pfloat32Bytes row.LossPct,
            InRate := pfloat32Bytes row.RxRate,
            InFrameRate := pfloat32Bytes row.RxFrameRate,
            OutRate := pfloat32Bytes row.TxRate,
            OutFrameRate := pfloat32Bytes row.TxFrameRate }

/-- The state the loop of `translateEgressStats` carries: the device built so
far and the variables `f` and `it`.  These are pointers into the device: `f`
is held as the name of the flow it points to and `it` as the flow name and key
of the record it points to; `none` is nil. -/
structure EgressState where
  d : Device
  f : Option String
  it : Option (String × Flow_IngressTracking_Key)
deriving DecidableEq, Repr

/-- One iteration of the loop of `translateEgressStats`; `none` is the panic of
a data row that finds both `it` and `f` nil. -/
def egressRow (itFlows : List String) (row : EgressStats) (s : EgressState) : Option EgressState :=
  if row.FlowStats.TrafficItem ≠ "" then
    let name := row.FlowStats.TrafficItem
    let d := s.d.GetOrCreateFlow name
    if isIngressTracked name itFlows then
      let d := ingressTrackingFromFlowStats d name row.FlowStats
      let key := ingressTrackingKey row.FlowStats
      let d := d.updateIngressTracking name key (fun t => { t with Filter := some row.Filter })
      some { d := d, f := some name, it := some (name, key) }
    else
      let d := d.updateFlow name (fun fl => { fl with Filter := some row.Filter })
      some { d := d, f := some name, it := s.it }
  else
    match s.it with
    | none =>
      match s.f with
      | none => none
      | some name =>
        let d := s.d.updateFlow name (fun fl => fl.GetOrCreateEgressTracking row.Filter)
        let d := d.updateFlow name (fun fl =>
          { fl with EgressTracking := fl.EgressTracking.modify row.Filter (fillEgress row.FlowStats) })
        some { s with d := d }
    | some (name, key) =>
      let d := s.d.updateIngressTracking name key (fun t => t.GetOrCreateEgressTracking row.Filter)
      let d := d.updateIngressTracking name key (fun t =>
        { t with EgressTracking := t.EgressTracking.modify row.Filter (fillEgress row.FlowStats) })
      some { s with d := d }

/-- The loop of `translateEgressStats`. -/
def egressTranslateLoop (itFlows : List String) : List EgressStats → EgressState → Option Device
  | [], s => some s.d
  | row :: rows, s =>
    match egressRow itFlows row s with
    | none => none
    | some s => egressTranslateLoop itFlows rows s

/-- Translates the custom Egress Statistics view to a device structure. -/
def translateEgressStats (lib : GoLib) (tbl : Table) (itFlows : List String) :
    Option (Except Error Device) :=
  match Table.ParseEgressStats lib tbl with
  | none => none
  | some (.error err) => some (.error err)
  | some (.ok es) =>
    (egressTranslateLoop itFlows es { d := {}, f := none, it := none }).map .ok

/-- The table `translateFunctions`: a translator for each of the four known views. -/
def translateFunctions (lib : GoLib) (k : View) :
    Option (Table → List String → Option (Except Error Device)) :=
  if k = PortStatsView then some (translatePortStats lib)
  else if k = PortCPUStatsView then some (translatePortCPUStats lib)
  else if k = FlowStatsView then some (translateFlowStats lib)
  else if k = EgressStatsView then some (translateEgressStats lib)
  else none

/-- The loop of `Translate` over the entries of the input map, in the order the
run visits them; `MergeStructs` is the merge primitive of the schema library. -/
def translateLoop (lib : GoLib) (MergeStructs : Device → Device → Except String Device)
    (itFlows : List String) : List (View × Table) → Device → Option Device
  | [], root => some root
  | (k, v) :: rest, root =>
    match translateFunctions lib k with
    | none => translateLoop lib MergeStructs itFlows rest root
    | some fn =>
      match fn v itFlows with
      | none => none
      | some (.error _) => translateLoop lib MergeStructs itFlows rest root
      | some (.ok d) =>
        match MergeStructs root d with
        | .error _ => translateLoop lib MergeStructs itFlows rest root
        | .ok n => translateLoop lib MergeStructs itFlows rest n

/-- Converts Ixia statistics tables to a device tree: the pair of the tree and
the error value (`none` is the nil error); the outer `none` is a panic. -/
def Translate (lib : GoLib) (MergeStructs : Device → Device → Except String Device)
    (views : GoMap View Table) (itFlows : List String) : Option (Device × Option Error) :=
  (translateLoop lib MergeStructs itFlows views.entries {}).map (fun root => (root, none))

end oc

/-! ## Notions used to state the properties -/

open stats telemetry oc

/-- A stand-in for the library functions, for evaluating examples: a finite
sample of the graph of `ParseFloat` (every other text is rejected) and the
Latin-1 part of `IsPrint`. -/
def sampleLib : GoLib where
  ParseFloat32 := fun s =>
    if s = "0" then .ok 0
    else if s = "1" then .ok 0x3f800000
    else if s = "2" then .ok 0x40000000
    else if s = "2.1" then .ok 0x40066666
    else if s = "1024" then .ok 0x44800000
    else if s = "2048" then .ok 0x45000000
    else if s = "1e39" then .error .ErrRange
    else .error .ErrSyn
  IsPrint := fun c => decide (0xa1 ≤ c.toNat ∧ c.toNat ≤ 0xff ∧ c.toNat ≠ 0xad)

/-- The text `s` occurs in the text `t`. -/
def Contains (t s : String) : Prop := s.data <:+: t.data

instance (t s : String) : Decidable (Contains t s) :=
  inferInstanceAs (Decidable (s.data <:+: t.data))

/-- The integer column `k` of `r` holds non-empty text that `ParseUint` rejects. -/
def badInt (r : Row) (k : String) : Bool :=
  decide (Row.get r k ≠ "") &&
    (match strconv.ParseUint (Row.get r k) with
     | .ok _ => false
     | .error _ => true)

/-- The float column `k` of `r` holds non-empty text that `ParseFloat` rejects. -/
def badFloat (lib : GoLib) (r : Row) (k : String) : Bool :=
  decide (Row.get r k ≠ "") &&
    (match strconv.ParseFloat lib (Row.get r k) with
     | .ok _ => false
     | .error _ => true)

/-- A text that `Quote` leaves as it is between the quotes: printable runes
other than the double quote and the backslash. -/
def plainText (lib : GoLib) (s : String) : Prop :=
  ∀ c ∈ s.data, strconv.IsPrint lib c = true ∧ c ≠ '"' ∧ c ≠ '\\'

/-- The egress parser as the specification words it: every row is parsed as a
Flow Statistics row, and the filter of the row is attached to its record. -/
def specParseEgressStats (lib : GoLib) (t : Table) : Except Error (List EgressStats) :=
  parseRows (fun row =>
    match parseFlowStatsRow lib row with
    | .error err => .error err
    | .ok p => .ok { FlowStats := p, Filter := Row.get row "Egress Tracking" }) t []

/-- The four view identifiers of the external interface. -/
def knownViews : List View :=
  ["Port Statistics", "Port CPU Statistics", "Flow Statistics", "EgressStatView"]

/-- A row parses under the column classification of its view. -/
def rowParses (lib : GoLib) (nameKey : String) (strKeys intKeys floatKeys : List String)
    (row : Row) : Prop :=
  ∃ v, Row.parse lib row nameKey strKeys intKeys floatKeys = .ok v

/-- The value of the integer column `k` of a row as `Row.parse` returns it when
it succeeds: unset when the column is absent or empty. -/
def intColumn (row : Row) (k : String) : Option Nat :=
  if Row.get row k = "" then none
  else
    match strconv.ParseUint (Row.get row k) with
    | .ok i => some i
    | .error _ => none

/-- The value of the float column `k` of a row as `Row.parse` returns it when it
succeeds: unset when the column is absent or empty. -/
def floatColumn (lib : GoLib) (row : Row) (k : String) : Option Nat :=
  if Row.get row k = "" then none
  else
    match strconv.ParseFloat lib (Row.get row k) with
    | .ok f => some f
    | .error _ => none

/-- The 7-tuple of a Flow Statistics row, from its columns. -/
def ingressKeyOfRow (row : Row) : Flow_IngressTracking_Key :=
  { SrcPort := Row.get row "Rx Port", DstPort := Row.get row "Tx Port",
    MplsLabel := mplsLabelFromUint (intColumn row "MPLS:Label Value"),
    SrcIpv4 := Row.get row "IPv4 :Source Address",
    DstIpv4 := Row.get row "IPv4 :Destination Address",
    SrcIpv6 := Row.get row "IPv6 :Source Address",
    DstIpv6 := Row.get row "IPv6 :Destination Address" }

/-- The link-state texts `translatePortStats` maps. -/
def knownLinkStates : List String := ["", "Link Up", "Link Down", "No PCS Lock"]

/-- The line-speed texts `translatePortStats` maps. -/
def knownLineSpeeds : List String := ["", "10GE LAN", "100GE"]

/-- The operational status a mappable link-state text leaves on an interface
whose status was `old`. -/
def operStatusAfter (linkState : String) (old : E_Interface_OperStatus) : E_Interface_OperStatus :=
  if linkState = "Link Up" then .UP
  else if linkState = "Link Down" ∨ linkState = "No PCS Lock" then .DOWN
  else old

/-- The port speed a mappable line-speed text leaves on an interface whose
speed was `old`. -/
def portSpeedAfter (lineSpeed : String) (old : E_IfEthernet_ETHERNET_SPEED) :
    E_IfEthernet_ETHERNET_SPEED :=
  if lineSpeed = "10GE LAN" then .SPEED_10GB
  else if lineSpeed = "100GE" then .SPEED_100GB
  else old

/-- The interface one successful iteration of the Port Statistics loop leaves
under the short port name, in closed form, from the interface `i` it fetched. -/
def portWrite (row : PortStats) (i : Interface) : Interface :=
  { Name := i.Name
    Counters := some { InOctets := row.BytesRx, InPkts := row.FramesRx,
                       OutOctets := row.BytesTx, OutPkts := row.FramesTx }
    Ethernet := some { Counters := some { InCrcErrors := row.CRCErrs }
                       PortSpeed := portSpeedAfter row.LineSpeed i.GetOrCreateEthernet.PortSpeed }
    InRate := pfloat32Bytes row.RxRate
    OutRate := pfloat32Bytes row.TxRate
    Type_ := .ethernetCsmacd
    OperStatus := operStatusAfter row.LinkState i.OperStatus }

/-- The statistics one iteration of the Flow Statistics loop writes on an
ingress-tracking record. -/
def fillIngress (row : FlowStats) (it : Flow_IngressTracking) : Flow_IngressTracking :=
  { it with Counters := some (flowCounters row),
            LossPct := pfloat32Bytes row.LossPct,
            InRate := pfloat32Bytes row.RxRate,
            InFrameRate := pfloat32Bytes row.RxFrameRate,
            OutRate := pfloat32Bytes row.TxRate,
            OutFrameRate := pfloat32Bytes row.TxFrameRate }

/-- The flow one iteration of the Flow Statistics loop leaves under the traffic
item, in closed form, from the flow `f` it fetched. -/
def flowWrite (itFlows : List String) (row : FlowStats) (f : Flow) : Flow :=
  if isIngressTracked row.TrafficItem itFlows then
    { f with IngressTracking :=
        (GoMap.modify
          (f.IngressTracking.getOrCreate (ingressTrackingKey row)
            (Flow_IngressTracking.new (ingressTrackingKey row)))
          (ingressTrackingKey row) (fillIngress row)) }
  else
    { f with Counters := some (flowCounters row),
             LossPct := pfloat32Bytes row.LossPct,
             InRate := pfloat32Bytes row.RxRate,
             InFrameRate := pfloat32Bytes row.RxFrameRate,
             OutRate := pfloat32Bytes row.TxRate,
             OutFrameRate := pfloat32Bytes row.TxFrameRate }

/-- The flow one header iteration of the Egress Statistics loop leaves under the
traffic item, in closed form, from the flow `f` it fetched. -/
def egressHeaderWrite (itFlows : List String) (row : EgressStats) (f : Flow) : Flow :=
  if isIngressTracked row.FlowStats.TrafficItem itFlows then
    { f with IngressTracking :=
        (GoMap.modify
          (f.IngressTracking.getOrCreate (ingressTrackingKey row.FlowStats)
            (Flow_IngressTracking.new (ingressTrackingKey row.FlowStats)))
          (ingressTrackingKey row.FlowStats) (fun t => { t with Filter := some row.Filter })) }
  else
    { f with Filter := some row.Filter }

/-- A flow, an ingress-tracking record or an egress-tracking record carries no
statistics: no counters, no loss and no rates. -/
def Flow.noStats (f : Flow) : Prop :=
  f.Counters = none ∧ f.LossPct = none ∧ f.InRate = none ∧ f.InFrameRate = none ∧
    f.OutRate = none ∧ f.OutFrameRate = none

/-- An ingress-tracking record carries no statistics. -/
def Flow_IngressTracking.noStats (t : Flow_IngressTracking) : Prop :=
  t.Counters = none ∧ t.LossPct = none ∧ t.InRate = none ∧ t.InFrameRate = none ∧
    t.OutRate = none ∧ t.OutFrameRate = none

/-- An ingress-tracking record carries the components of the key `k` in its
key leaves. -/
def Flow_IngressTracking.carriesKey (t : Flow_IngressTracking) (k : Flow_IngressTracking_Key) :
    Prop :=
  t.SrcPort = some k.SrcPort ∧ t.DstPort = some k.DstPort ∧ t.MplsLabel = k.MplsLabel ∧
    t.SrcIpv4 = some k.SrcIpv4 ∧ t.DstIpv4 = some k.DstIpv4 ∧
    t.SrcIpv6 = some k.SrcIpv6 ∧ t.DstIpv6 = some k.DstIpv6

/-- The device one iteration of the Egress Statistics loop leaves on a header
record (a record with a traffic item): the `if row.TrafficItem != ""` branch of
`egressRow`, which reads neither `f` nor `it`. -/
def egressHeaderRow (itFlows : List String) (row : EgressStats) (d : Device) : Device :=
  let name := row.FlowStats.TrafficItem
  let d := d.GetOrCreateFlow name
  if isIngressTracked name itFlows then
    let d := ingressTrackingFromFlowStats d name row.FlowStats
    d.updateIngressTracking name (ingressTrackingKey row.FlowStats)
      (fun t => { t with Filter := some row.Filter })
  else
    d.updateFlow name (fun fl => { fl with Filter := some row.Filter })

/-- The Egress Statistics loop over header records only. -/
def egressHeaderLoop (itFlows : List String) : List EgressStats → Device → Device
  | [], d => d
  | row :: rows, d => egressHeaderLoop itFlows rows (egressHeaderRow itFlows row d)

/-- The record the egress parser builds from a row. -/
def egressRecordOf (lib : GoLib) (row : Row) : Except Error EgressStats :=
  match parseFlowStatsRow lib row with
  | .error err => .error err
  | .ok p => .ok { FlowStats := p, Filter := Row.get row "Egress Tracking" }

/-- The port component one iteration of the Port CPU loop leaves under the
short name, in closed form, from the component `c` it fetched. -/
def cpuPortWrite (row : PortCPUStats) (portName : String) (c : telemetry.Component) :
    telemetry.Component :=
  { Name := c.Name
    Type_ := .PORT
    Parent := c.Parent
    Subcomponent :=
      c.Subcomponent.getOrCreate (portName ++ "_CPU") { Name := some (portName ++ "_CPU") }
    Memory :=
      match row.TotalMemory, row.FreeMemory with
      | some total, some free =>
        some { Available := some free, Utilized := some ((total + 2 ^ 64 - free) % 2 ^ 64) }
      | _, _ => c.Memory
    Cpu := c.Cpu }

/-- The CPU component one iteration of the Port CPU loop leaves under the short
name followed by `_CPU`, in closed form, from the component `c` it fetched. -/
def cpuWrite (row : PortCPUStats) (portName : String) (c : telemetry.Component) :
    telemetry.Component :=
  { Name := c.Name
    Type_ := .CPU
    Parent := some portName
    Subcomponent := c.Subcomponent
    Memory := c.Memory
    Cpu :=
      match row.CPULoad with
      | some load =>
        some { Utilization := some { Instant := some (load % 256) } }
      | none => c.Cpu }

/-- Every component of the device carries the name it is registered under. -/
def componentsNamed (d : Device) : Prop :=
  ∀ k c, d.Component.get? k = some c → c.Name = some k

/-! ## Lemmas on maps -/

namespace GoMap

variable {κ ν : Type} [DecidableEq κ]

theorem get?_empty (k : κ) : (GoMap.empty : GoMap κ ν).get? k = none := rfl

theorem find?_setList_self (k : κ) (v : ν) (l : List (κ × ν)) :
    (setList k v l).find? (fun e => decide (e.1 = k)) = some (k, v) := by
  induction l with
  | nil => simp [setList]
  | cons e es ih =>
    by_cases h : e.1 = k
    · simp [setList, h]
    · simp [setList, h, List.find?_cons, ih]

theorem find?_setList_ne (k k1 : κ) (v : ν) (l : List (κ × ν)) (hne : k1 ≠ k) :
    (setList k v l).find? (fun e => decide (e.1 = k1)) =
      l.find? (fun e => decide (e.1 = k1)) := by
  induction l with
  | nil => simp [setList, List.find?_cons, Ne.symm hne]
  | cons e es ih =>
    by_cases h : e.1 = k
    · have h1 : ¬ e.1 = k1 := fun h2 => hne (h2.symm.trans h)
      simp [setList, h, List.find?_cons, h1, Ne.symm hne]
    · rw [setList, if_neg h, List.find?_cons, List.find?_cons, ih]

theorem get?_set_self (m : GoMap κ ν) (k : κ) (v : ν) : (m.set k v).get? k = some v := by
  simp [get?, set, find?_setList_self]

theorem get?_set_ne (m : GoMap κ ν) (k k1 : κ) (v : ν) (hne : k1 ≠ k) :
    (m.set k v).get? k1 = m.get? k1 := by
  simp [get?, set, find?_setList_ne k k1 v m.entries hne]

end GoMap

/-! ## Lemmas on `strconv.ParseUint` -/

namespace strconv

/-- The character of a decimal digit is in the digit range and has that value. -/
theorem digitChar_toNat (k : Nat) (hk : k < 10) :
    '0'.toNat ≤ (Nat.digitChar k).toNat ∧ (Nat.digitChar k).toNat ≤ '9'.toNat ∧
      (Nat.digitChar k).toNat - '0'.toNat = k := by
  interval_cases k <;> decide

theorem toDigitsCore_append (fuel n : Nat) (ds : List Char) :
    Nat.toDigitsCore 10 fuel n ds = Nat.toDigitsCore 10 fuel n [] ++ ds := by
  induction fuel generalizing n ds with
  | zero => simp [Nat.toDigitsCore]
  | succ fuel ih =>
    simp only [Nat.toDigitsCore]
    split
    · simp
    · rw [ih (n / 10) (Nat.digitChar (n % 10) :: ds), ih (n / 10) [Nat.digitChar (n % 10)]]
      simp

theorem toDigitsCore_step (fuel n : Nat) (hf : n < fuel) :
    Nat.toDigitsCore 10 fuel n [] =
      if n < 10 then [Nat.digitChar n]
      else Nat.toDigitsCore 10 (fuel - 1) (n / 10) [] ++ [Nat.digitChar (n % 10)] := by
  cases fuel with
  | zero => omega
  | succ fuel =>
    simp only [Nat.toDigitsCore, Nat.add_sub_cancel]
    by_cases h : n < 10
    · have h0 : n / 10 = 0 := by omega
      have h1 : n % 10 = n := by omega
      simp [h0, h1, h]
    · have h0 : ¬ n / 10 = 0 := by omega
      simp only [h0, h, if_false]
      exact toDigitsCore_append fuel (n / 10) [Nat.digitChar (n % 10)]

/-- The loop of `ParseUint` on the digits `toDigitsCore` produces for `n`: started
from an accumulator `a`, it returns `a * 10 ^ (number of digits) + n`; stated
here through the continuation `rest`. -/
theorem parseUintLoop_toDigitsCore (s0 : String) (fuel n : Nat) (hf : n < fuel)
    (hn : n < 2 ^ 64) (rest : List Char) :
    parseUintLoop s0 (Nat.toDigitsCore 10 fuel n [] ++ rest) 0 = parseUintLoop s0 rest n := by
  induction fuel generalizing n rest with
  | zero => omega
  | succ fuel ih =>
    rw [toDigitsCore_step (fuel + 1) n hf]
    obtain ⟨d1, d2, d3⟩ := digitChar_toNat (n % 10) (Nat.mod_lt _ (by decide))
    by_cases h : n < 10
    · have h1 : n % 10 = n := by omega
      rw [h1] at d1 d2 d3
      simp only [h, if_true, List.singleton_append, parseUintLoop]
      have hc : ¬ (0 ≥ cutoff10) := by decide
      simp only [d1, d2, and_self, if_true, hc, if_false, d3]
      have e1 : (0 * 10 % 2 ^ 64 + n) % 2 ^ 64 = n := by omega
      have e2 : ¬ (n < 0 * 10 % 2 ^ 64 ∨ n > maxUint64) := by
        simp only [maxUint64]; omega
      rw [e1]
      simp only [e2, if_false]
    · simp only [h, if_false, Nat.add_sub_cancel, List.append_assoc, List.singleton_append]
      rw [ih (n / 10) (by omega) (by omega)]
      simp only [parseUintLoop]
      have hc : ¬ (n / 10 ≥ cutoff10) := by
        simp only [cutoff10, maxUint64]; omega
      simp only [d1, d2, and_self, if_true, hc, if_false, d3]
      have e0 : n / 10 * 10 % 2 ^ 64 = n / 10 * 10 := by omega
      have e1 : (n / 10 * 10 % 2 ^ 64 + n % 10) % 2 ^ 64 = n := by omega
      have e2 : ¬ (n < n / 10 * 10 ∨ n > maxUint64) := by
        simp only [maxUint64]; omega
      rw [e1, e0]
      simp only [e2, if_false]

theorem toString_data (n : Nat) : (toString n).data = Nat.toDigitsCore 10 (n + 1) n [] := rfl

theorem toString_ne_empty (n : Nat) : toString n ≠ "" := by
  intro h
  have h1 : (toString n).data = [] := by rw [h]
  rw [toString_data, toDigitsCore_step (n + 1) n (by omega)] at h1
  split at h1 <;> simp at h1

/-- The function `ParseUint` reads the base-10 numeral of every `n < 2 ^ 64` back as `n`. -/
theorem ParseUint_toString (n : Nat) (hn : n < 2 ^ 64) : ParseUint (toString n) = .ok n := by
  unfold ParseUint
  rw [if_neg (toString_ne_empty n), toString_data]
  have h := parseUintLoop_toDigitsCore (toString n) (n + 1) n (by omega) hn []
  simpa [parseUintLoop] using h

end strconv

/-! ## Further lemmas on maps -/

namespace GoMap

variable {κ ν : Type} [DecidableEq κ]

theorem get?_eq_none_iff (m : GoMap κ ν) (k : κ) : m.get? k = none ↔ k ∉ m.keys := by
  unfold get? keys
  rw [Option.map_eq_none', List.find?_eq_none]
  simp only [decide_eq_true_eq, List.mem_map, not_exists, not_and, Prod.forall]

theorem get?_isSome_iff (m : GoMap κ ν) (k : κ) : (∃ v, m.get? k = some v) ↔ k ∈ m.keys := by
  by_cases h : k ∈ m.keys
  · simp only [h, iff_true]
    cases hg : m.get? k with
    | none => exact absurd h ((get?_eq_none_iff m k).1 hg)
    | some v => exact ⟨v, rfl⟩
  · simp only [h, iff_false]
    rw [(get?_eq_none_iff m k).2 h]
    simp

theorem mem_of_get? (m : GoMap κ ν) (k : κ) (v : ν) (h : m.get? k = some v) :
    (k, v) ∈ m.entries := by
  unfold get? at h
  rw [Option.map_eq_some'] at h
  obtain ⟨e, he, hv⟩ := h
  have hk := List.find?_some he
  simp only [decide_eq_true_eq] at hk
  have hm := List.mem_of_find?_eq_some he
  rw [← hk, ← hv]
  exact hm

theorem setList_of_not_mem (k : κ) (v : ν) (l : List (κ × ν)) (h : k ∉ l.map Prod.fst) :
    setList k v l = l ++ [(k, v)] := by
  induction l with
  | nil => rfl
  | cons e es ih =>
    simp only [List.map_cons, List.mem_cons, not_or] at h
    rw [setList, if_neg (fun he => h.1 he.symm), ih h.2]
    rfl

theorem getOrCreate_entries (m : GoMap κ ν) (k : κ) (v0 : ν) :
    (m.getOrCreate k v0).entries = if k ∈ m.keys then m.entries else m.entries ++ [(k, v0)] := by
  unfold getOrCreate
  by_cases h : k ∈ m.keys
  · obtain ⟨v, hv⟩ := (get?_isSome_iff m k).2 h
    simp [hv, h]
  · rw [(get?_eq_none_iff m k).2 h]
    simp only [h, if_false, set]
    exact setList_of_not_mem k v0 m.entries h

theorem keys_getOrCreate (m : GoMap κ ν) (k : κ) (v0 : ν) :
    (m.getOrCreate k v0).keys = if k ∈ m.keys then m.keys else m.keys ++ [k] := by
  unfold keys
  rw [getOrCreate_entries]
  by_cases h : k ∈ m.keys
  · unfold keys at h; simp [h, keys]
  · unfold keys at h; simp [h, keys]

theorem mem_keys_getOrCreate (m : GoMap κ ν) (k k1 : κ) (v0 : ν) :
    k1 ∈ (m.getOrCreate k v0).keys ↔ k1 ∈ m.keys ∨ k1 = k := by
  rw [keys_getOrCreate]
  by_cases h : k ∈ m.keys
  · simp only [h, if_true]
    constructor
    · exact Or.inl
    · rintro (h1 | h1)
      · exact h1
      · rw [h1]; exact h
  · simp [h]

theorem nodup_keys_getOrCreate (m : GoMap κ ν) (k : κ) (v0 : ν) (h : m.keys.Nodup) :
    (m.getOrCreate k v0).keys.Nodup := by
  rw [keys_getOrCreate]
  by_cases hk : k ∈ m.keys
  · simpa [hk] using h
  · simp only [hk, if_false]
    rw [List.nodup_append]
    refine ⟨h, List.nodup_singleton k, ?_⟩
    intro a ha hb
    simp only [List.mem_singleton] at hb
    subst hb
    exact hk ha

theorem modifyList_map_fst (k : κ) (f : ν → ν) (l : List (κ × ν)) :
    (modifyList k f l).map Prod.fst = l.map Prod.fst := by
  induction l with
  | nil => rfl
  | cons e es ih =>
    by_cases h : e.1 = k
    · simp [modifyList, h]
    · simp [modifyList, h, ih]

theorem keys_modify (m : GoMap κ ν) (k : κ) (f : ν → ν) : (m.modify k f).keys = m.keys :=
  modifyList_map_fst k f m.entries

theorem get?_modifyList (k k1 : κ) (f : ν → ν) (l : List (κ × ν)) :
    ((modifyList k f l).find? (fun e => decide (e.1 = k1))).map Prod.snd =
      ((l.find? (fun e => decide (e.1 = k1))).map Prod.snd).map
        (fun v => if k1 = k then f v else v) := by
  induction l with
  | nil => rfl
  | cons e es ih =>
    by_cases h : e.1 = k
    · rw [modifyList, if_pos h]
      by_cases h1 : e.1 = k1
      · rw [List.find?_cons_of_pos _ (by simpa using h1), List.find?_cons_of_pos _ (by simpa using h1)]
        simp [h1.symm.trans h]
      · rw [List.find?_cons_of_neg _ (by simpa using h1), List.find?_cons_of_neg _ (by simpa using h1)]
        have hkk : ¬ k1 = k := fun hk => h1 (h.trans hk.symm)
        cases es.find? (fun e => decide (e.1 = k1)) <;> simp [hkk]
    · rw [modifyList, if_neg h]
      by_cases h1 : e.1 = k1
      · rw [List.find?_cons_of_pos _ (by simpa using h1), List.find?_cons_of_pos _ (by simpa using h1)]
        have hkk : ¬ k1 = k := fun hk => h (h1.trans hk)
        simp [hkk]
      · rw [List.find?_cons_of_neg _ (by simpa using h1), List.find?_cons_of_neg _ (by simpa using h1)]
        exact ih

/-- Lookup after a write through the pointer under `k`. -/
theorem get?_modify (m : GoMap κ ν) (k k1 : κ) (f : ν → ν) :
    (m.modify k f).get? k1 = (m.get? k1).map (fun v => if k1 = k then f v else v) :=
  get?_modifyList k k1 f m.entries

theorem get?_getOrCreate_self (m : GoMap κ ν) (k : κ) (v0 : ν) :
    ∃ v, (m.getOrCreate k v0).get? k = some v ∧ (m.get? k = some v ∨ (m.get? k = none ∧ v = v0)) := by
  unfold getOrCreate
  cases h : m.get? k with
  | some v => exact ⟨v, by simp [h], Or.inl rfl⟩
  | none => exact ⟨v0, by simp [get?_set_self], Or.inr ⟨rfl, rfl⟩⟩

theorem get?_getOrCreate_ne (m : GoMap κ ν) (k k1 : κ) (v0 : ν) (h : k1 ≠ k) :
    (m.getOrCreate k v0).get? k1 = m.get? k1 := by
  unfold getOrCreate
  cases hk : m.get? k with
  | some v => rfl
  | none => exact get?_set_ne m k k1 v0 h

/-- Every value of the map satisfies `P`. -/
theorem forall_getOrCreate (P : ν → Prop) (m : GoMap κ ν) (k : κ) (v0 : ν)
    (h : ∀ e ∈ m.entries, P e.2) (h0 : P v0) : ∀ e ∈ (m.getOrCreate k v0).entries, P e.2 := by
  rw [getOrCreate_entries]
  by_cases hk : k ∈ m.keys
  · simpa [hk] using h
  · simp only [hk, if_false, List.mem_append, List.mem_singleton]
    rintro e (he | he)
    · exact h e he
    · rw [he]; exact h0

theorem forall_modifyList (P : ν → Prop) (l : List (κ × ν)) (k : κ) (f : ν → ν)
    (h : ∀ e ∈ l, P e.2) (hf : ∀ v, P v → P (f v)) : ∀ e ∈ modifyList k f l, P e.2 := by
  induction l with
  | nil => simp [modifyList]
  | cons e es ih =>
    have he := h e (List.mem_cons_self _ _)
    have hes : ∀ x ∈ es, P x.2 := fun x hx => h x (List.mem_cons_of_mem _ hx)
    by_cases hk : e.1 = k
    · rw [modifyList, if_pos hk]
      intro x hx
      rcases List.mem_cons.1 hx with hx | hx
      · rw [hx]; exact hf _ he
      · exact hes x hx
    · rw [modifyList, if_neg hk]
      intro x hx
      rcases List.mem_cons.1 hx with hx | hx
      · rw [hx]; exact he
      · exact ih hes x hx

theorem forall_modify (P : ν → Prop) (m : GoMap κ ν) (k : κ) (f : ν → ν)
    (h : ∀ e ∈ m.entries, P e.2) (hf : ∀ v, P v → P (f v)) :
    ∀ e ∈ (m.modify k f).entries, P e.2 :=
  forall_modifyList P m.entries k f h hf

end GoMap

/-! ## Lemmas on the row parser -/

namespace stats

theorem Row.get_of_absent_or_empty (r : Row) (k : String)
    (h : Row.find? r k = none ∨ Row.find? r k = some "") : Row.get r k = "" := by
  rcases h with h | h <;> simp [Row.get, h]

theorem Row.get_of_find? (r : Row) (k v : String) (h : Row.find? r k = some v) :
    Row.get r k = v := by
  simp [Row.get, h]

theorem badInt_eq_false_iff (r : Row) (k : String) :
    badInt r k = false ↔ Row.get r k = "" ∨ ∃ i, strconv.ParseUint (Row.get r k) = .ok i := by
  unfold badInt
  by_cases h : Row.get r k = ""
  · simp [h]
  · cases hp : strconv.ParseUint (Row.get r k) <;> simp [h]

theorem badInt_eq_true_iff (r : Row) (k : String) :
    badInt r k = true ↔ Row.get r k ≠ "" ∧ ∃ err, strconv.ParseUint (Row.get r k) = .error err := by
  unfold badInt
  by_cases h : Row.get r k = ""
  · simp [h]
  · cases hp : strconv.ParseUint (Row.get r k) <;> simp [h]

theorem badFloat_eq_false_iff (lib : GoLib) (r : Row) (k : String) :
    badFloat lib r k = false ↔
      Row.get r k = "" ∨ ∃ f, strconv.ParseFloat lib (Row.get r k) = .ok f := by
  unfold badFloat
  by_cases h : Row.get r k = ""
  · simp [h]
  · cases hp : strconv.ParseFloat lib (Row.get r k) <;> simp [h]

theorem badFloat_eq_true_iff (lib : GoLib) (r : Row) (k : String) :
    badFloat lib r k = true ↔
      Row.get r k ≠ "" ∧ ∃ err, strconv.ParseFloat lib (Row.get r k) = .error err := by
  unfold badFloat
  by_cases h : Row.get r k = ""
  · simp [h]
  · cases hp : strconv.ParseFloat lib (Row.get r k) <;> simp [h]

/-- The integer loop fails at the first column holding unparseable text. -/
theorem parseInts_error (r : Row) (name : String) (ks : List String) (ints0 : GoMap String Nat)
    (k0 : String) (h : ks.find? (badInt r) = some k0) (err : strconv.NumError)
    (herr : strconv.ParseUint (Row.get r k0) = .error err) :
    parseInts r name ks ints0 = .error (.invalidInt err (Row.get r k0) k0 name) := by
  induction ks generalizing ints0 with
  | nil => simp at h
  | cons k ks ih =>
    rw [List.find?_cons] at h
    cases hb : badInt r k with
    | true =>
      rw [hb] at h
      injection h with h
      subst h
      obtain ⟨hne, _⟩ := (badInt_eq_true_iff r k).1 hb
      simp [parseInts, lookup, hne, herr]
    | false =>
      rw [hb] at h
      by_cases he : Row.get r k = ""
      · simp only [parseInts, lookup, he, if_true]
        exact ih ints0 h
      · rcases (badInt_eq_false_iff r k).1 hb with he1 | ⟨i, hi⟩
        · exact absurd he1 he
        · simp only [parseInts, lookup, he, if_false, hi]
          exact ih (ints0.set k i) h

/-- The integer loop succeeds when no column holds unparseable text. -/
theorem parseInts_ok (r : Row) (name : String) (ks : List String) (ints0 : GoMap String Nat)
    (h : ∀ k ∈ ks, badInt r k = false) : ∃ ints, parseInts r name ks ints0 = .ok ints := by
  induction ks generalizing ints0 with
  | nil => exact ⟨ints0, rfl⟩
  | cons k ks ih =>
    have hk := h k (List.mem_cons_self _ _)
    have hks : ∀ k1 ∈ ks, badInt r k1 = false := fun k1 h1 => h k1 (List.mem_cons_of_mem _ h1)
    by_cases he : Row.get r k = ""
    · simp only [parseInts, lookup, he, if_true]
      exact ih ints0 hks
    · rcases (badInt_eq_false_iff r k).1 hk with he1 | ⟨i, hi⟩
      · exact absurd he1 he
      · simp only [parseInts, lookup, he, if_false, hi]
        exact ih (ints0.set k i) hks

/-- A column that is not listed, or is empty, keeps the binding it had before the loop. -/
theorem parseInts_get?_unset (r : Row) (name : String) (ks : List String)
    (ints0 ints : GoMap String Nat) (h : parseInts r name ks ints0 = .ok ints) (k : String)
    (hk : k ∉ ks ∨ Row.get r k = "") : ints.get? k = ints0.get? k := by
  induction ks generalizing ints0 with
  | nil =>
    simp only [parseInts] at h
    injection h with h
    rw [h]
  | cons k1 ks ih =>
    have hk1 : k ∉ ks ∨ Row.get r k = "" := by
      rcases hk with hk | hk
      · exact Or.inl (fun hm => hk (List.mem_cons_of_mem _ hm))
      · exact Or.inr hk
    by_cases he : Row.get r k1 = ""
    · simp only [parseInts, lookup, he, if_true] at h
      exact ih ints0 h hk1
    · simp only [parseInts, lookup, he, if_false] at h
      cases hp : strconv.ParseUint (Row.get r k1) with
      | error err => rw [hp] at h; simp at h
      | ok i =>
        rw [hp] at h
        simp only at h
        rw [ih (ints0.set k1 i) h hk1]
        apply GoMap.get?_set_ne
        intro hkk
        subst hkk
        rcases hk with hk | hk
        · exact hk (List.mem_cons_self _ _)
        · exact he hk

/-- A listed column holding parseable text is bound to the parsed value. -/
theorem parseInts_get?_set (r : Row) (name : String) (ks : List String)
    (ints0 ints : GoMap String Nat) (h : parseInts r name ks ints0 = .ok ints) (k : String)
    (hk : k ∈ ks) (hne : Row.get r k ≠ "") (i : Nat)
    (hi : strconv.ParseUint (Row.get r k) = .ok i) : ints.get? k = some i := by
  induction ks generalizing ints0 with
  | nil => simp at hk
  | cons k1 ks ih =>
    by_cases hmem : k ∈ ks
    · by_cases he : Row.get r k1 = ""
      · simp only [parseInts, lookup, he, if_true] at h
        exact ih ints0 h hmem
      · simp only [parseInts, lookup, he, if_false] at h
        cases hp : strconv.ParseUint (Row.get r k1) with
        | error err => rw [hp] at h; simp at h
        | ok i1 =>
          rw [hp] at h
          exact ih (ints0.set k1 i1) h hmem
    · have hkk : k = k1 := by
        rcases List.mem_cons.1 hk with h1 | h1
        · exact h1
        · exact absurd h1 hmem
      subst hkk
      simp only [parseInts, lookup, hne, if_false, hi] at h
      rw [parseInts_get?_unset r name ks _ ints h k (Or.inl hmem)]
      exact GoMap.get?_set_self _ _ _

/-- The float loop fails at the first column holding unparseable text. -/
theorem parseFloats_error (lib : GoLib) (r : Row) (name : String) (ks : List String)
    (fl0 : GoMap String Nat) (k0 : String) (h : ks.find? (badFloat lib r) = some k0)
    (err : strconv.NumError) (herr : strconv.ParseFloat lib (Row.get r k0) = .error err) :
    parseFloats lib r name ks fl0 = .error (.invalidFloat err (Row.get r k0) k0 name) := by
  induction ks generalizing fl0 with
  | nil => simp at h
  | cons k ks ih =>
    rw [List.find?_cons] at h
    cases hb : badFloat lib r k with
    | true =>
      rw [hb] at h
      injection h with h
      subst h
      obtain ⟨hne, _⟩ := (badFloat_eq_true_iff lib r k).1 hb
      simp [parseFloats, lookup, hne, herr]
    | false =>
      rw [hb] at h
      by_cases he : Row.get r k = ""
      · simp only [parseFloats, lookup, he, if_true]
        exact ih fl0 h
      · rcases (badFloat_eq_false_iff lib r k).1 hb with he1 | ⟨i, hi⟩
        · exact absurd he1 he
        · simp only [parseFloats, lookup, he, if_false, hi]
          exact ih (fl0.set k i) h

/-- The float loop succeeds when no column holds unparseable text. -/
theorem parseFloats_ok (lib : GoLib) (r : Row) (name : String) (ks : List String)
    (fl0 : GoMap String Nat) (h : ∀ k ∈ ks, badFloat lib r k = false) :
    ∃ floats, parseFloats lib r name ks fl0 = .ok floats := by
  induction ks generalizing fl0 with
  | nil => exact ⟨fl0, rfl⟩
  | cons k ks ih =>
    have hk := h k (List.mem_cons_self _ _)
    have hks : ∀ k1 ∈ ks, badFloat lib r k1 = false :=
      fun k1 h1 => h k1 (List.mem_cons_of_mem _ h1)
    by_cases he : Row.get r k = ""
    · simp only [parseFloats, lookup, he, if_true]
      exact ih fl0 hks
    · rcases (badFloat_eq_false_iff lib r k).1 hk with he1 | ⟨i, hi⟩
      · exact absurd he1 he
      · simp only [parseFloats, lookup, he, if_false, hi]
        exact ih (fl0.set k i) hks

theorem find?_eq_none_of_all_false {α : Type} (p : α → Bool) (l : List α)
    (h : ∀ a ∈ l, p a = false) : l.find? p = none := by
  rw [List.find?_eq_none]
  intro a ha
  simp [h a ha]

theorem all_false_of_find?_eq_none {α : Type} (p : α → Bool) (l : List α)
    (h : l.find? p = none) : ∀ a ∈ l, p a = false := by
  rw [List.find?_eq_none] at h
  intro a ha
  simpa using h a ha

theorem find?_isSome_of_mem {α : Type} (p : α → Bool) (l : List α) (a : α) (ha : a ∈ l)
    (hp : p a = true) : ∃ b, l.find? p = some b ∧ p b = true := by
  cases hf : l.find? p with
  | none => rw [all_false_of_find?_eq_none p l hf a ha] at hp; simp at hp
  | some b => exact ⟨b, rfl, List.find?_some hf⟩

/-- The method `Row.parse` on a row with an identity value. -/
theorem Row.parse_of_name (lib : GoLib) (r : Row) (nameKey : String)
    (strKeys intKeys floatKeys : List String) (hname : Row.get r nameKey ≠ "") :
    Row.parse lib r nameKey strKeys intKeys floatKeys =
      match parseInts r (Row.get r nameKey) intKeys GoMap.empty with
      | .error e => .error e
      | .ok ints =>
        match parseFloats lib r (Row.get r nameKey) floatKeys GoMap.empty with
        | .error e => .error e
        | .ok floats => .ok (ints, floats) := by
  simp [Row.parse, hname]

/-- A row with an identity value parses exactly when no numeric column is bad. -/
theorem Row.parse_ok_iff (lib : GoLib) (r : Row) (nameKey : String)
    (strKeys intKeys floatKeys : List String) (hname : Row.get r nameKey ≠ "") :
    (∃ v, Row.parse lib r nameKey strKeys intKeys floatKeys = .ok v) ↔
      (∀ k ∈ intKeys, badInt r k = false) ∧ (∀ k ∈ floatKeys, badFloat lib r k = false) := by
  rw [Row.parse_of_name lib r nameKey strKeys intKeys floatKeys hname]
  constructor
  · rintro ⟨v, hv⟩
    constructor
    · apply all_false_of_find?_eq_none
      cases hf : intKeys.find? (badInt r) with
      | none => rfl
      | some k0 =>
        obtain ⟨_, err, herr⟩ := (badInt_eq_true_iff r k0).1 (List.find?_some hf)
        rw [parseInts_error r _ intKeys _ k0 hf err herr] at hv
        simp at hv
    · apply all_false_of_find?_eq_none
      cases hf : floatKeys.find? (badFloat lib r) with
      | none => rfl
      | some k0 =>
        obtain ⟨_, err, herr⟩ := (badFloat_eq_true_iff lib r k0).1 (List.find?_some hf)
        cases hi : parseInts r (Row.get r nameKey) intKeys GoMap.empty with
        | error e => rw [hi] at hv; simp at hv
        | ok ints =>
          rw [hi, parseFloats_error lib r _ floatKeys _ k0 hf err herr] at hv
          simp at hv
  · rintro ⟨hi, hf⟩
    obtain ⟨ints, hints⟩ := parseInts_ok r (Row.get r nameKey) intKeys GoMap.empty hi
    obtain ⟨floats, hfloats⟩ := parseFloats_ok lib r (Row.get r nameKey) floatKeys GoMap.empty hf
    exact ⟨(ints, floats), by rw [hints, hfloats]⟩

/-- The integer map of a successful parse is the one the integer loop built. -/
theorem Row.parse_ints (lib : GoLib) (r : Row) (nameKey : String)
    (strKeys intKeys floatKeys : List String) (ints floats : GoMap String Nat)
    (h : Row.parse lib r nameKey strKeys intKeys floatKeys = .ok (ints, floats)) :
    parseInts r (Row.get r nameKey) intKeys GoMap.empty = .ok ints := by
  by_cases hname : Row.get r nameKey = ""
  · simp [Row.parse, hname] at h
  · rw [Row.parse_of_name lib r nameKey strKeys intKeys floatKeys hname] at h
    cases hi : parseInts r (Row.get r nameKey) intKeys GoMap.empty with
    | error e => rw [hi] at h; simp at h
    | ok ints1 =>
      rw [hi] at h
      cases hf : parseFloats lib r (Row.get r nameKey) floatKeys GoMap.empty with
      | error e => rw [hf] at h; simp at h
      | ok fl1 =>
        rw [hf] at h
        simp only [Except.ok.injEq, Prod.mk.injEq] at h
        rw [h.1]

end stats

/-! ## Lemmas on texts -/

theorem Contains.refl (s : String) : Contains s s := List.infix_refl _

theorem Contains.trans {a b c : String} (h1 : Contains a b) (h2 : Contains b c) : Contains a c :=
  List.IsInfix.trans h2 h1

theorem Contains.append_left {a s : String} (b : String) (h : Contains a s) :
    Contains (a ++ b) s := by
  obtain ⟨p, q, hpq⟩ := h
  refine ⟨p, q ++ b.data, ?_⟩
  rw [String.data_append, ← hpq]
  simp

theorem Contains.append_right {b s : String} (a : String) (h : Contains b s) :
    Contains (a ++ b) s := by
  obtain ⟨p, q, hpq⟩ := h
  refine ⟨a.data ++ p, q, ?_⟩
  rw [String.data_append, ← hpq]
  simp

namespace strconv

theorem escapeRune_plain (lib : GoLib) (c : Char)
    (h : IsPrint lib c = true ∧ c ≠ '"' ∧ c ≠ '\\') : escapeRune lib c = [c] := by
  obtain ⟨h1, h2, h3⟩ := h
  simp [escapeRune, h1, h2, h3]

theorem flatMap_escapeRune_plain (lib : GoLib) (l : List Char)
    (h : ∀ c ∈ l, IsPrint lib c = true ∧ c ≠ '"' ∧ c ≠ '\\') :
    l.flatMap (escapeRune lib) = l := by
  induction l with
  | nil => rfl
  | cons c cs ih =>
    rw [List.flatMap_cons, escapeRune_plain lib c (h c (List.mem_cons_self _ _)),
      ih (fun d hd => h d (List.mem_cons_of_mem _ hd))]
    rfl

/-- The quoted form of a plain text is the text between two double quotes. -/
theorem Quote_plain (lib : GoLib) (s : String) (h : plainText lib s) :
    Quote lib s = "\"" ++ s ++ "\"" := by
  unfold Quote
  rw [flatMap_escapeRune_plain lib s.data h]
  rfl

theorem Quote_contains_plain (lib : GoLib) (s : String) (h : plainText lib s) :
    Contains (Quote lib s) s := by
  rw [Quote_plain lib s h]
  exact Contains.append_left _ (Contains.append_right _ (Contains.refl s))

end strconv

namespace stats

theorem message_invalidInt_contains (lib : GoLib) (err : strconv.NumError) (v k name : String) :
    Contains ((Error.invalidInt err v k name).message lib) (strconv.Quote lib v) ∧
      Contains ((Error.invalidInt err v k name).message lib) (strconv.Quote lib k) := by
  unfold Error.message
  constructor
  · repeat (first | exact Contains.append_right _ (Contains.refl _) | apply Contains.append_left)
  · repeat (first | exact Contains.append_right _ (Contains.refl _) | apply Contains.append_left)

theorem message_invalidFloat_contains (lib : GoLib) (err : strconv.NumError) (v k name : String) :
    Contains ((Error.invalidFloat err v k name).message lib) (strconv.Quote lib v) ∧
      Contains ((Error.invalidFloat err v k name).message lib) k := by
  unfold Error.message
  constructor
  · repeat (first | exact Contains.append_right _ (Contains.refl _) | apply Contains.append_left)
  · repeat (first | exact Contains.append_right _ (Contains.refl _) | apply Contains.append_left)

end stats

/-! ## Lemmas on the view parsers -/

namespace stats

theorem parseRows_error_of_split {α : Type} (f : Row → Except Error α) (pre : Table) (bad : Row)
    (post : Table) (acc : List α) (e : Error) (hpre : ∀ row ∈ pre, ∃ a, f row = .ok a)
    (hbad : f bad = .error e) : parseRows f (pre ++ bad :: post) acc = .error e := by
  induction pre generalizing acc with
  | nil => simp [parseRows, hbad]
  | cons row pre ih =>
    obtain ⟨a, ha⟩ := hpre row (List.mem_cons_self _ _)
    simp only [List.cons_append, parseRows, ha]
    exact ih (acc ++ [a]) (fun r hr => hpre r (List.mem_cons_of_mem _ hr))

theorem exists_first_failure {α : Type} (f : Row → Except Error α) (t : Table)
    (h : ∃ row ∈ t, ¬ ∃ a, f row = .ok a) :
    ∃ pre bad post e, t = pre ++ bad :: post ∧ (∀ row ∈ pre, ∃ a, f row = .ok a) ∧
      f bad = .error e := by
  induction t with
  | nil => obtain ⟨row, hrow, _⟩ := h; simp at hrow
  | cons r t ih =>
    cases hr : f r with
    | error e => exact ⟨[], r, t, e, rfl, by simp, hr⟩
    | ok a =>
      have h1 : ∃ row ∈ t, ¬ ∃ a, f row = .ok a := by
        obtain ⟨row, hrow, hn⟩ := h
        rcases List.mem_cons.1 hrow with h2 | h2
        · subst h2; exact absurd ⟨a, hr⟩ hn
        · exact ⟨row, h2, hn⟩
      obtain ⟨pre, bad, post, e, ht, hpre, hbad⟩ := ih h1
      refine ⟨r :: pre, bad, post, e, by rw [ht]; rfl, ?_, hbad⟩
      intro row hrow
      rcases List.mem_cons.1 hrow with h2 | h2
      · subst h2; exact ⟨a, hr⟩
      · exact hpre row h2

theorem parseRows_ok {α : Type} (f : Row → Except Error α) (t : Table) (acc res : List α)
    (h : parseRows f t acc = .ok res) :
    ∃ recs, res = acc ++ recs ∧ List.Forall₂ (fun row rec => f row = .ok rec) t recs := by
  induction t generalizing acc with
  | nil =>
    simp only [parseRows] at h
    injection h with h
    exact ⟨[], by simp [h], List.Forall₂.nil⟩
  | cons r t ih =>
    cases hr : f r with
    | error e => simp [parseRows, hr] at h
    | ok a =>
      simp only [parseRows, hr] at h
      obtain ⟨recs, hres, hall⟩ := ih (acc ++ [a]) h
      exact ⟨a :: recs, by simp [hres], List.Forall₂.cons hr hall⟩

theorem parseRows_of_forall₂ {α : Type} (f : Row → Except Error α) (t : Table) (acc recs : List α)
    (h : List.Forall₂ (fun row rec => f row = .ok rec) t recs) :
    parseRows f t acc = .ok (acc ++ recs) := by
  induction h generalizing acc with
  | nil => simp [parseRows]
  | cons hr _ ih =>
    simp only [parseRows, hr]
    rw [ih]
    simp

theorem forall₂_of_all_ok {α : Type} (f : Row → Except Error α) (t : Table)
    (h : ∀ row ∈ t, ∃ a, f row = .ok a) :
    ∃ recs, List.Forall₂ (fun row rec => f row = .ok rec) t recs := by
  induction t with
  | nil => exact ⟨[], List.Forall₂.nil⟩
  | cons r rs ih =>
    obtain ⟨a, ha⟩ := h r (List.mem_cons_self _ _)
    obtain ⟨recs, hrecs⟩ := ih (fun row hrow => h row (List.mem_cons_of_mem _ hrow))
    exact ⟨a :: recs, List.Forall₂.cons ha hrecs⟩

theorem forall₂_getElem? {α β : Type} (R : α → β → Prop) (l1 : List α) (l2 : List β)
    (h : List.Forall₂ R l1 l2) (i : Nat) (a : α) (ha : l1[i]? = some a) :
    ∃ b, l2[i]? = some b ∧ R a b := by
  induction h generalizing i with
  | nil => simp at ha
  | cons hr _ ih =>
    cases i with
    | zero =>
      simp only [List.getElem?_cons_zero, Option.some.injEq] at ha
      subst ha
      exact ⟨_, by simp, hr⟩
    | succ i =>
      simp only [List.getElem?_cons_succ] at ha
      simpa using ih i ha

theorem parsePortStatsRow_ok (lib : GoLib) (row : Row) (rec : PortStats)
    (h : parsePortStatsRow lib row = .ok rec) : rec.PortName = Row.get row "Port Name" := by
  unfold parsePortStatsRow at h
  split at h
  · simp at h
  · injection h with h
    rw [← h]

theorem parsePortCPUStatsRow_ok (lib : GoLib) (row : Row) (rec : PortCPUStats)
    (h : parsePortCPUStatsRow lib row = .ok rec) : rec.PortName = Row.get row "Port Name" := by
  unfold parsePortCPUStatsRow at h
  split at h
  · simp at h
  · injection h with h
    rw [← h]

theorem parseFlowStatsRow_ok (lib : GoLib) (row : Row) (rec : FlowStats)
    (h : parseFlowStatsRow lib row = .ok rec) : rec.TrafficItem = Row.get row "Traffic Item" := by
  unfold parseFlowStatsRow at h
  split at h
  · simp at h
  · injection h with h
    rw [← h]

theorem parsePortStatsRow_error_iff (lib : GoLib) (row : Row) (e : Error) :
    parsePortStatsRow lib row = .error e ↔
      Row.parse lib row "Port Name" portStrKeys portIntKeys portFloatKeys = .error e := by
  unfold parsePortStatsRow
  split <;> rename_i h <;> rw [h] <;> simp

theorem parsePortCPUStatsRow_error_iff (lib : GoLib) (row : Row) (e : Error) :
    parsePortCPUStatsRow lib row = .error e ↔
      Row.parse lib row "Port Name" [] portCPUIntKeys [] = .error e := by
  unfold parsePortCPUStatsRow
  split <;> rename_i h <;> rw [h] <;> simp

theorem parseFlowStatsRow_error_iff (lib : GoLib) (row : Row) (e : Error) :
    parseFlowStatsRow lib row = .error e ↔
      Row.parse lib row "Traffic Item" flowStrKeys flowIntKeys flowFloatKeys = .error e := by
  unfold parseFlowStatsRow
  split <;> rename_i h <;> rw [h] <;> simp

theorem parsePortStatsRow_ok_iff (lib : GoLib) (row : Row) :
    (∃ a, parsePortStatsRow lib row = .ok a) ↔
      rowParses lib "Port Name" portStrKeys portIntKeys portFloatKeys row := by
  unfold parsePortStatsRow rowParses
  split <;> rename_i h <;> rw [h] <;> simp

theorem parsePortCPUStatsRow_ok_iff (lib : GoLib) (row : Row) :
    (∃ a, parsePortCPUStatsRow lib row = .ok a) ↔
      rowParses lib "Port Name" [] portCPUIntKeys [] row := by
  unfold parsePortCPUStatsRow rowParses
  split <;> rename_i h <;> rw [h] <;> simp

theorem parseFlowStatsRow_ok_iff (lib : GoLib) (row : Row) :
    (∃ a, parseFlowStatsRow lib row = .ok a) ↔
      rowParses lib "Traffic Item" flowStrKeys flowIntKeys flowFloatKeys row := by
  unfold parseFlowStatsRow rowParses
  split <;> rename_i h <;> rw [h] <;> simp

/-- A row function that fails on a row of the table makes the table loop fail. -/
theorem parseRows_error_of_mem {α : Type} (f : Row → Except Error α) (t : Table) (acc : List α)
    (row : Row) (hrow : row ∈ t) (e : Error) (he : f row = .error e) :
    ∃ e1, parseRows f t acc = .error e1 := by
  have h : ∃ row ∈ t, ¬ ∃ a, f row = .ok a := ⟨row, hrow, by rw [he]; simp⟩
  obtain ⟨pre, bad, post, e1, ht, hpre, hbad⟩ := exists_first_failure f t h
  exact ⟨e1, by rw [ht]; exact parseRows_error_of_split f pre bad post acc e1 hpre hbad⟩

/-- On as many flow records as rows, the second loop of the egress parser pairs
them in order. -/
theorem egressLoop_eq (t : Table) (ps : List FlowStats) (es : List EgressStats)
    (h : t.length = ps.length) :
    egressLoop t ps es = some (es ++ List.zipWith
      (fun row p => { FlowStats := p, Filter := Row.get row "Egress Tracking" }) t ps) := by
  induction t generalizing ps es with
  | nil => simp [egressLoop]
  | cons row rows ih =>
    cases ps with
    | nil => simp at h
    | cons p ps =>
      simp only [egressLoop, List.zipWith_cons_cons]
      rw [ih ps _ (by simpa using h)]
      simp

theorem forall₂_zipWith_egress (lib : GoLib) (t : Table) (ps : List FlowStats)
    (h : List.Forall₂ (fun row rec => parseFlowStatsRow lib row = .ok rec) t ps) :
    List.Forall₂
      (fun row rec =>
        (match parseFlowStatsRow lib row with
         | .error err => Except.error err
         | .ok p => Except.ok { FlowStats := p, Filter := Row.get row "Egress Tracking" })
          = Except.ok (ε := Error) rec)
      t (List.zipWith (fun row p => ({ FlowStats := p, Filter := Row.get row "Egress Tracking" }
        : EgressStats)) t ps) := by
  induction h with
  | nil => exact List.Forall₂.nil
  | cons hr _ ih =>
    rw [List.zipWith_cons_cons]
    exact List.Forall₂.cons (by rw [hr]) ih

/-- The egress parser in closed form. -/
theorem ParseEgressStats_eq (lib : GoLib) (t : Table) :
    Table.ParseEgressStats lib t =
      match Table.ParseFlowStats lib t with
      | .error e => some (.error e)
      | .ok ps => some (.ok (List.zipWith
          (fun row p => { FlowStats := p, Filter := Row.get row "Egress Tracking" }) t ps)) := by
  unfold Table.ParseEgressStats
  cases h : Table.ParseFlowStats lib t with
  | error e => rfl
  | ok ps =>
    obtain ⟨recs, hrecs, hall⟩ := parseRows_ok _ t [] ps h
    simp only [List.nil_append] at hrecs
    subst hrecs
    simp only
    rw [egressLoop_eq t ps [] hall.length_eq]
    simp

/-- The table loop fails with the error of the first failing row. -/
theorem parseRows_first_failure {α : Type} (f : Row → Except Error α) (t : Table)
    (h : ∃ row ∈ t, ¬ ∃ a, f row = .ok a) :
    ∃ pre bad post e, t = pre ++ bad :: post ∧ (∀ row ∈ pre, ∃ a, f row = .ok a) ∧
      f bad = .error e ∧ parseRows f t [] = .error e := by
  obtain ⟨pre, bad, post, e, ht, hpre, hbad⟩ := exists_first_failure f t h
  exact ⟨pre, bad, post, e, ht, hpre, hbad, by
    rw [ht]; exact parseRows_error_of_split f pre bad post [] e hpre hbad⟩


/-- The two-pass egress parser never panics and returns what the one-pass
wording of the specification returns. -/
theorem ParseEgressStats_eq_spec (lib : GoLib) (t : Table) :
    Table.ParseEgressStats lib t = some (specParseEgressStats lib t) := by
  rw [ParseEgressStats_eq]
  cases hfs : Table.ParseFlowStats lib t with
  | error e =>
    have hne : ∃ row ∈ t, ¬ ∃ a, parseFlowStatsRow lib row = .ok a := by
      by_contra hcon
      push_neg at hcon
      have hall := forall₂_of_all_ok (parseFlowStatsRow lib) t hcon
      obtain ⟨recs, hrecs⟩ := hall
      have := parseRows_of_forall₂ _ t [] recs hrecs
      unfold Table.ParseFlowStats at hfs
      rw [this] at hfs
      exact Except.noConfusion hfs
    obtain ⟨pre, bad, post, e1, ht, hpre, hbad, hres⟩ :=
      parseRows_first_failure (parseFlowStatsRow lib) t hne
    have he : e1 = e := by
      unfold Table.ParseFlowStats at hfs
      rw [hres] at hfs
      injection hfs
    subst he
    simp only
    unfold specParseEgressStats
    rw [ht, parseRows_error_of_split _ pre bad post [] e1]
    · intro row hrow
      obtain ⟨a, ha⟩ := hpre row hrow
      exact ⟨_, by rw [ha]⟩
    · rw [hbad]
  | ok fs =>
    obtain ⟨recs1, hrecs, hall⟩ := parseRows_ok _ t [] fs hfs
    simp only [List.nil_append] at hrecs
    subst hrecs
    simp only
    unfold specParseEgressStats
    rw [parseRows_of_forall₂ _ t [] _ (forall₂_zipWith_egress lib t fs hall)]
    simp

end stats

/-! ## Invariants of the translators -/

namespace oc

/-- A property of the device kept by fetch-or-create of a component and by
writes to a component that leave its name alone is kept by one iteration of
the Port CPU loop. -/
theorem portCPURow_inv (P : Device → Prop)
    (hGet : ∀ d k, P d → P (d.GetOrCreateComponent k))
    (hUpd : ∀ d k (f : telemetry.Component → telemetry.Component),
      (∀ c, (f c).Name = c.Name) → P d → P (d.updateComponent k f))
    (row : PortCPUStats) (s : String) (d d1 : Device) (hP : P d)
    (h : portCPURow row s d = some d1) : P d1 := by
  unfold portCPURow at h
  dsimp only at h
  split at h
  · exact Option.noConfusion h
  · injection h with h
    subst h
    have h3 : P (((d.GetOrCreateComponent s).GetOrCreateComponent (s ++ "_CPU")).updateComponent s
        (fun port => { port with Type_ := .PORT })) :=
      hUpd _ _ _ (fun _ => rfl) (hGet _ _ (hGet _ _ hP))
    repeat' split
    all_goals
      repeat (first
        | exact h3
        | refine hUpd _ _ _ (fun c => rfl) ?_)

theorem portCPULoop_inv (P : Device → Prop)
    (hGet : ∀ d k, P d → P (d.GetOrCreateComponent k))
    (hUpd : ∀ d k (f : telemetry.Component → telemetry.Component),
      (∀ c, (f c).Name = c.Name) → P d → P (d.updateComponent k f))
    (rows : List PortCPUStats) (d d1 : Device) (hP : P d)
    (h : portCPULoop rows d = some (.ok d1)) : P d1 := by
  induction rows generalizing d with
  | nil =>
    simp only [portCPULoop, Option.some.injEq, Except.ok.injEq] at h
    subst h
    exact hP
  | cons row rows ih =>
    simp only [portCPULoop] at h
    cases h1 : shortPortName row.PortName with
    | error e => rw [h1] at h; simp at h
    | ok s =>
      rw [h1] at h
      simp only at h
      cases h2 : portCPURow row s d with
      | none => rw [h2] at h; simp at h
      | some d2 =>
        rw [h2] at h
        exact ih d2 (portCPURow_inv P hGet hUpd row s d d2 hP h2) h

/-- One iteration of the Port CPU loop does not panic on a device whose
components all carry their name. -/
theorem portCPURow_total (row : PortCPUStats) (s : String) (d : Device)
    (h : ∀ e ∈ d.Component.entries, ∃ n, e.2.Name = some n) :
    ∃ d1, portCPURow row s d = some d1 := by
  unfold portCPURow
  dsimp only
  have h2 : ∀ e ∈ ((d.GetOrCreateComponent s).GetOrCreateComponent (s ++ "_CPU")).Component.entries,
      ∃ n, e.2.Name = some n :=
    GoMap.forall_getOrCreate (fun c : telemetry.Component => ∃ n, c.Name = some n) _ _ _
      (GoMap.forall_getOrCreate (fun c : telemetry.Component => ∃ n, c.Name = some n) _ _ _ h ⟨s, rfl⟩)
      ⟨s ++ "_CPU", rfl⟩
  obtain ⟨v, hv, _⟩ := GoMap.get?_getOrCreate_self (d.GetOrCreateComponent s).Component
    (s ++ "_CPU") { Name := some (s ++ "_CPU") }
  obtain ⟨n, hn⟩ := h2 _ (GoMap.mem_of_get? _ _ _ hv)
  have h3 : ((((d.GetOrCreateComponent s).GetOrCreateComponent (s ++ "_CPU")).updateComponent s
      (fun port => { port with Type_ := .PORT })).Component.get? (s ++ "_CPU")).bind
        (fun cpu => cpu.Name) = some n := by
    show (((GoMap.modify _ _ _).get? (s ++ "_CPU")).bind _) = some n
    rw [GoMap.get?_modify]
    show ((((d.GetOrCreateComponent s).Component.getOrCreate (s ++ "_CPU") _).get? _).map _).bind _ = _
    rw [hv]
    simp only [Option.map_some', Option.some_bind]
    split <;> exact hn
  rw [h3]
  exact ⟨_, rfl⟩

theorem portCPULoop_total (rows : List PortCPUStats) (d : Device)
    (h : ∀ e ∈ d.Component.entries, ∃ n, e.2.Name = some n) :
    ∃ r, portCPULoop rows d = some r := by
  induction rows generalizing d with
  | nil => exact ⟨_, rfl⟩
  | cons row rows ih =>
    simp only [portCPULoop]
    cases h1 : shortPortName row.PortName with
    | error e => exact ⟨_, rfl⟩
    | ok s =>
      obtain ⟨d1, hd1⟩ := portCPURow_total row s d h
      simp only [hd1]
      apply ih
      refine portCPURow_inv (fun d => ∀ e ∈ d.Component.entries, ∃ n, e.2.Name = some n)
        ?_ ?_ row s d d1 h hd1
      · intro d k hd
        exact GoMap.forall_getOrCreate (fun c : telemetry.Component => ∃ n, c.Name = some n) _ _ _ hd ⟨k, rfl⟩
      · intro d k f hf hd
        exact GoMap.forall_modify (fun c : telemetry.Component => ∃ n, c.Name = some n) _ _ _ hd
          (fun v hv => by
            obtain ⟨n, hn⟩ := hv
            exact ⟨n, by rw [hf]; exact hn⟩)

theorem translatePortCPUStats_total (lib : GoLib) (tbl : Table) (itFlows : List String) :
    ∃ r, translatePortCPUStats lib tbl itFlows = some r := by
  unfold translatePortCPUStats
  split
  · exact ⟨_, rfl⟩
  · exact portCPULoop_total _ _ (by intro e he; simp [GoMap.empty] at he)

theorem parseFlowStatsRow_name_ne (lib : GoLib) (row : Row) (rec : FlowStats)
    (h : parseFlowStatsRow lib row = .ok rec) : rec.TrafficItem ≠ "" := by
  rw [stats.parseFlowStatsRow_ok lib row rec h]
  intro hn
  have hparse : Row.parse lib row "Traffic Item" flowStrKeys flowIntKeys flowFloatKeys
      = .error (.missingKey row "Traffic Item") := by
    simp [Row.parse, hn]
  unfold parseFlowStatsRow at h
  rw [hparse] at h
  exact Except.noConfusion h

end oc

namespace oc

theorem egressRow_header (itFlows : List String) (row : EgressStats) (s : EgressState)
    (h : row.FlowStats.TrafficItem ≠ "") : ∃ s1, egressRow itFlows row s = some s1 := by
  unfold egressRow
  rw [if_pos h]
  dsimp only
  split <;> exact ⟨_, rfl⟩

theorem egressTranslateLoop_total (itFlows : List String) (es : List EgressStats)
    (s : EgressState) (h : ∀ rec ∈ es, rec.FlowStats.TrafficItem ≠ "") :
    ∃ d, egressTranslateLoop itFlows es s = some d := by
  induction es generalizing s with
  | nil => exact ⟨_, rfl⟩
  | cons row rows ih =>
    obtain ⟨s1, hs1⟩ := egressRow_header itFlows row s (h row (List.mem_cons_self _ _))
    simp only [egressTranslateLoop, hs1]
    exact ih s1 (fun rec hrec => h rec (List.mem_cons_of_mem _ hrec))

theorem forall₂_exists_left {α β : Type} (R : α → β → Prop) (l1 : List α) (l2 : List β)
    (h : List.Forall₂ R l1 l2) : ∀ b ∈ l2, ∃ a ∈ l1, R a b := by
  induction h with
  | nil => intro b hb; simp at hb
  | cons hr _ ih =>
    intro b hb
    rcases List.mem_cons.1 hb with hb | hb
    · subst hb; exact ⟨_, List.mem_cons_self _ _, hr⟩
    · obtain ⟨a, ha, hab⟩ := ih b hb
      exact ⟨a, List.mem_cons_of_mem _ ha, hab⟩

/-- Every record the egress parser returns has a traffic item. -/
theorem ParseEgressStats_names (lib : GoLib) (t : Table) (es : List EgressStats)
    (h : Table.ParseEgressStats lib t = some (.ok es)) :
    ∀ rec ∈ es, rec.FlowStats.TrafficItem ≠ "" := by
  have hspec : specParseEgressStats lib t = .ok es := by
    have := stats.ParseEgressStats_eq_spec lib t
    rw [h] at this
    injection this with this
    exact this.symm
  obtain ⟨recs, hrecs, hall⟩ := stats.parseRows_ok _ t [] es hspec
  simp only [List.nil_append] at hrecs
  subst hrecs
  intro rec hrec
  obtain ⟨row, _, hrow⟩ := forall₂_exists_left _ t es hall rec hrec
  cases hp : parseFlowStatsRow lib row with
  | error e => rw [hp] at hrow; simp at hrow
  | ok p =>
    rw [hp] at hrow
    simp only [Except.ok.injEq] at hrow
    subst hrow
    exact parseFlowStatsRow_name_ne lib row p hp

theorem translateEgressStats_total (lib : GoLib) (tbl : Table) (itFlows : List String) :
    ∃ r, translateEgressStats lib tbl itFlows = some r := by
  unfold translateEgressStats
  cases h : Table.ParseEgressStats lib tbl with
  | none =>
    have := stats.ParseEgressStats_eq_spec lib tbl
    rw [h] at this
    exact Option.noConfusion this
  | some r =>
    cases r with
    | error e => exact ⟨_, rfl⟩
    | ok es =>
      obtain ⟨d, hd⟩ := egressTranslateLoop_total itFlows es { d := {}, f := none, it := none }
        (ParseEgressStats_names lib tbl es h)
      simp only [hd]
      exact ⟨_, rfl⟩

/-- No translator of the table `translateFunctions` panics. -/
theorem translateFunctions_total (lib : GoLib) (k : View)
    (fn : Table → List String → Option (Except Error Device))
    (h : translateFunctions lib k = some fn) (v : Table) (itFlows : List String) :
    ∃ r, fn v itFlows = some r := by
  unfold translateFunctions at h
  split at h
  · injection h with h; subst h; unfold translatePortStats; split <;> exact ⟨_, rfl⟩
  · split at h
    · injection h with h; subst h; exact translatePortCPUStats_total lib v itFlows
    · split at h
      · injection h with h; subst h; unfold translateFlowStats; split <;> exact ⟨_, rfl⟩
      · split at h
        · injection h with h; subst h; exact translateEgressStats_total lib v itFlows
        · exact Option.noConfusion h

theorem translateFunctions_eq_none_iff (lib : GoLib) (k : View) :
    translateFunctions lib k = none ↔ k ∉ knownViews := by
  unfold translateFunctions knownViews PortStatsView PortCPUStatsView FlowStatsView
    EgressStatsView
  by_cases h1 : k = "Port Statistics"
  · simp [h1]
  · by_cases h2 : k = "Port CPU Statistics"
    · simp [h2]
    · by_cases h3 : k = "Flow Statistics"
      · simp [h3]
      · by_cases h4 : k = "EgressStatView"
        · simp [h4]
        · simp [h1, h2, h3, h4]

theorem translateLoop_total (lib : GoLib) (merge : Device → Device → Except String Device)
    (itFlows : List String) (entries : List (View × Table)) (root : Device) :
    ∃ r, translateLoop lib merge itFlows entries root = some r := by
  induction entries generalizing root with
  | nil => exact ⟨root, rfl⟩
  | cons e es ih =>
    obtain ⟨k, v⟩ := e
    simp only [translateLoop]
    cases hfn : translateFunctions lib k with
    | none => exact ih root
    | some fn =>
      obtain ⟨r, hr⟩ := translateFunctions_total lib k fn hfn v itFlows
      simp only [hr]
      cases r with
      | error e => exact ih root
      | ok d =>
        simp only
        cases merge root d with
        | error e => exact ih root
        | ok n => exact ih n

/-- Removing entries that the loop of `Translate` skips (an unrecognised view,
or a view whose translator returns an error) does not change its result. -/
theorem translateLoop_filter (lib : GoLib) (merge : Device → Device → Except String Device)
    (itFlows : List String) (p : View × Table → Bool) (entries : List (View × Table))
    (root : Device)
    (h : ∀ e ∈ entries, p e = false →
      translateFunctions lib e.1 = none ∨
      ∃ fn err, translateFunctions lib e.1 = some fn ∧ fn e.2 itFlows = some (.error err)) :
    translateLoop lib merge itFlows entries root =
      translateLoop lib merge itFlows (entries.filter p) root := by
  induction entries generalizing root with
  | nil => rfl
  | cons e es ih =>
    have hes : ∀ x ∈ es, p x = false →
        translateFunctions lib x.1 = none ∨
        ∃ fn err, translateFunctions lib x.1 = some fn ∧ fn x.2 itFlows = some (.error err) :=
      fun x hx => h x (List.mem_cons_of_mem _ hx)
    obtain ⟨k, v⟩ := e
    cases hp : p (k, v) with
    | true =>
      rw [List.filter_cons_of_pos hp]
      simp only [translateLoop]
      cases translateFunctions lib k with
      | none => exact ih root hes
      | some fn =>
        simp only
        cases fn v itFlows with
        | none => rfl
        | some r =>
          cases r with
          | error e => exact ih root hes
          | ok d =>
            simp only
            cases merge root d with
            | error e => exact ih root hes
            | ok n => exact ih n hes
    | false =>
      rw [List.filter_cons_of_neg (by simp [hp])]
      simp only [translateLoop]
      rcases h (k, v) (List.mem_cons_self _ _) hp with h1 | ⟨fn, err, h1, h2⟩
      · simp only at h1
        rw [h1]
        exact ih root hes
      · simp only at h1 h2
        rw [h1]
        simp only [h2]
        exact ih root hes

end oc


/-! ## Lemmas on the structural merge -/

namespace ygot

theorem mergeEntries_empty {κ ν : Type} [DecidableEq κ] (f : ν → ν → Except String ν)
    (l : List (κ × ν)) : mergeEntries f GoMap.empty l = .ok l := by
  induction l with
  | nil => rfl
  | cons e es ih =>
    obtain ⟨k, v⟩ := e
    simp only [mergeEntries, GoMap.get?_empty, ih]

/-- Merging a keyed list into the empty one gives the list. -/
theorem mergeMap_empty_left {κ ν : Type} [DecidableEq κ] (f : ν → ν → Except String ν)
    (b : GoMap κ ν) : mergeMap f GoMap.empty b = .ok b := by
  unfold mergeMap
  simp [mergeEntries, GoMap.empty, GoMap.get?]

/-- Merging the empty keyed list into a list gives the list. -/
theorem mergeMap_empty_right {κ ν : Type} [DecidableEq κ] (f : ν → ν → Except String ν)
    (a : GoMap κ ν) : mergeMap f a GoMap.empty = .ok a := by
  unfold mergeMap
  rw [mergeEntries_empty]
  simp [GoMap.empty]

theorem MergeStructs_empty_left (d : Device) : MergeStructs {} d = .ok d := by
  unfold MergeStructs
  simp only [mergeMap_empty_left]

/-- Merging a tree that holds components only with a tree that holds interfaces
only, in either order, gives the tree with the components of the one and the
interfaces of the other. -/
theorem MergeStructs_components_interfaces (c : GoMap String telemetry.Component)
    (i : GoMap String telemetry.Interface) :
    MergeStructs { Component := c } { Interface := i } = .ok { Component := c, Interface := i } ∧
    MergeStructs { Interface := i } { Component := c } = .ok { Component := c, Interface := i } := by
  unfold MergeStructs
  simp only [mergeMap_empty_left, mergeMap_empty_right, and_self]

end ygot

namespace oc

theorem portCPURow_keys (row : PortCPUStats) (s : String) (d d1 : Device)
    (h : portCPURow row s d = some d1) :
    d1.Component.keys =
      ((d.GetOrCreateComponent s).GetOrCreateComponent (s ++ "_CPU")).Component.keys := by
  unfold portCPURow at h
  dsimp only at h
  split at h
  · exact Option.noConfusion h
  · injection h with h
    subst h
    repeat' split
    all_goals simp only [Device.updateComponent, GoMap.keys_modify]

/-- Every record the Port CPU loop processes leaves a port component and a CPU
component under its short name. -/
theorem portCPULoop_mem (rows : List PortCPUStats) (d d1 : Device)
    (h : portCPULoop rows d = some (.ok d1)) (rec : PortCPUStats) (hrec : rec ∈ rows)
    (s : String) (hs : shortPortName rec.PortName = .ok s) :
    s ∈ d1.Component.keys ∧ (s ++ "_CPU") ∈ d1.Component.keys := by
  induction rows generalizing d with
  | nil => simp at hrec
  | cons row rows ih =>
    simp only [portCPULoop] at h
    cases h1 : shortPortName row.PortName with
    | error e => rw [h1] at h; simp at h
    | ok s1 =>
      rw [h1] at h
      simp only at h
      cases h2 : portCPURow row s1 d with
      | none => rw [h2] at h; simp at h
      | some d2 =>
        rw [h2] at h
        rcases List.mem_cons.1 hrec with hr | hr
        · subst hr
          rw [h1] at hs
          injection hs with hs
          subst hs
          have hk := portCPURow_keys rec s1 d d2 h2
          have keep : ∀ k, k ∈ d2.Component.keys → k ∈ d1.Component.keys := by
            intro k hk2
            refine portCPULoop_inv (fun x => k ∈ x.Component.keys) ?_ ?_ rows d2 d1 hk2 h
            · intro x k1 hx
              exact (GoMap.mem_keys_getOrCreate _ _ _ _).2 (Or.inl hx)
            · intro x k1 f _ hx
              show k ∈ (GoMap.modify _ _ _).keys
              rw [GoMap.keys_modify]
              exact hx
          constructor
          · apply keep
            rw [hk]
            exact (GoMap.mem_keys_getOrCreate _ _ _ _).2
              (Or.inl ((GoMap.mem_keys_getOrCreate _ _ _ _).2 (Or.inr rfl)))
          · apply keep
            rw [hk]
            exact (GoMap.mem_keys_getOrCreate _ _ _ _).2 (Or.inr rfl)
        · exact ih d2 h hr

theorem linkStateSwitch_inv (P : Device → Prop)
    (hUpd : ∀ d k (f : telemetry.Interface → telemetry.Interface), P d → P (d.updateInterface k f))
    (row : PortStats) (s : String) (d d1 : Device) (hP : P d)
    (h : linkStateSwitch row s d = .ok d1) : P d1 := by
  unfold linkStateSwitch at h
  split at h
  · injection h with h; rw [← h]; exact hP
  · split at h
    · injection h with h; rw [← h]; exact hUpd _ _ _ hP
    · split at h
      · injection h with h; rw [← h]; exact hUpd _ _ _ hP
      · exact Except.noConfusion h

theorem lineSpeedSwitch_inv (P : Device → Prop)
    (hUpd : ∀ d k (f : telemetry.Interface → telemetry.Interface), P d → P (d.updateInterface k f))
    (row : PortStats) (s : String) (d d1 : Device) (hP : P d)
    (h : lineSpeedSwitch row s d = .ok d1) : P d1 := by
  unfold lineSpeedSwitch at h
  split at h
  · injection h with h; rw [← h]; exact hP
  · split at h
    · injection h with h; rw [← h]; exact hUpd _ _ _ hP
    · split at h
      · injection h with h; rw [← h]; exact hUpd _ _ _ hP
      · exact Except.noConfusion h

/-- A property of the device kept by writes to an interface, and holding once
the interface of the row is fetched or created, holds after the iteration. -/
theorem portRow_inv (P : Device → Prop)
    (hUpd : ∀ d k (f : telemetry.Interface → telemetry.Interface), P d → P (d.updateInterface k f))
    (row : PortStats) (s : String) (d d1 : Device) (hP : P (d.GetOrCreateInterface s))
    (h : portRow row s d = .ok d1) : P d1 := by
  have h6 : P (portRowFields row s d) := by
    unfold portRowFields
    exact hUpd _ _ _ (hUpd _ _ _ (hUpd _ _ _ (hUpd _ _ _ (hUpd _ _ _ hP))))
  unfold portRow at h
  cases h3 : linkStateSwitch row s (portRowFields row s d) with
  | error e => rw [h3] at h; exact Except.noConfusion h
  | ok d3 =>
    rw [h3] at h
    exact lineSpeedSwitch_inv P hUpd row s d3 d1 (linkStateSwitch_inv P hUpd row s _ d3 h6 h3) h

/-- A property of the device kept by fetch-or-create of an interface and by
writes to an interface is kept by the Port Statistics loop. -/
theorem portLoop_inv (P : Device → Prop)
    (hGet : ∀ d k, P d → P (d.GetOrCreateInterface k))
    (hUpd : ∀ d k (f : telemetry.Interface → telemetry.Interface), P d → P (d.updateInterface k f))
    (rows : List PortStats) (d d1 : Device) (hP : P d) (h : portLoop rows d = .ok d1) : P d1 := by
  induction rows generalizing d with
  | nil =>
    simp only [portLoop, Except.ok.injEq] at h
    subst h
    exact hP
  | cons row rows ih =>
    simp only [portLoop] at h
    cases h1 : shortPortName row.PortName with
    | error e => rw [h1] at h; simp at h
    | ok s =>
      rw [h1] at h
      simp only at h
      cases h2 : portRow row s d with
      | error e => rw [h2] at h; simp at h
      | ok d2 =>
        rw [h2] at h
        exact ih d2 (portRow_inv P hUpd row s d d2 (hGet _ _ hP) h2) h

theorem portRow_mem (row : PortStats) (s : String) (d d1 : Device)
    (h : portRow row s d = .ok d1) : s ∈ d1.Interface.keys := by
  refine portRow_inv (fun x => s ∈ x.Interface.keys) ?_ row s d d1 ?_ h
  · intro x k f hx
    show s ∈ (GoMap.modify _ _ _).keys
    rw [GoMap.keys_modify]
    exact hx
  · exact (GoMap.mem_keys_getOrCreate _ _ _ _).2 (Or.inr rfl)

/-- Every record the Port Statistics loop processes leaves an interface under
its short name. -/
theorem portLoop_mem (rows : List PortStats) (d d1 : Device) (h : portLoop rows d = .ok d1)
    (rec : PortStats) (hrec : rec ∈ rows) (s : String) (hs : shortPortName rec.PortName = .ok s) :
    s ∈ d1.Interface.keys := by
  induction rows generalizing d with
  | nil => simp at hrec
  | cons row rows ih =>
    simp only [portLoop] at h
    cases h1 : shortPortName row.PortName with
    | error e => rw [h1] at h; simp at h
    | ok s1 =>
      rw [h1] at h
      simp only at h
      cases h2 : portRow row s1 d with
      | error e => rw [h2] at h; simp at h
      | ok d2 =>
        rw [h2] at h
        rcases List.mem_cons.1 hrec with hr | hr
        · subst hr
          rw [h1] at hs
          injection hs with hs
          subst hs
          refine portLoop_inv (fun x => s1 ∈ x.Interface.keys) ?_ ?_ rows d2 d1
            (portRow_mem rec s1 d d2 h2) h
          · intro x k hx
            exact (GoMap.mem_keys_getOrCreate _ _ _ _).2 (Or.inl hx)
          · intro x k f hx
            show s1 ∈ (GoMap.modify _ _ _).keys
            rw [GoMap.keys_modify]
            exact hx
        · exact ih d2 h hr

end oc

namespace oc

theorem translateFunctions_cpu (lib : GoLib) :
    translateFunctions lib "Port CPU Statistics" = some (translatePortCPUStats lib) := rfl

theorem translateFunctions_port (lib : GoLib) :
    translateFunctions lib "Port Statistics" = some (translatePortStats lib) := rfl

/-- What a successful Port CPU translation returns: components only, under
distinct names, with a port and a CPU component for every row. -/
theorem translatePortCPUStats_shape (lib : GoLib) (tbl : Table) (itFlows : List String)
    (dc : Device) (h : translatePortCPUStats lib tbl itFlows = some (.ok dc)) :
    dc = { Component := dc.Component } ∧ dc.Component.keys.Nodup ∧
    ∀ row ∈ tbl, ∀ s, shortPortName (Row.get row "Port Name") = .ok s →
      s ∈ dc.Component.keys ∧ (s ++ "_CPU") ∈ dc.Component.keys := by
  unfold translatePortCPUStats at h
  cases hp : Table.ParsePortCPUStats lib tbl with
  | error e => rw [hp] at h; simp at h
  | ok pcs =>
    rw [hp] at h
    simp only at h
    have hget : ∀ (d : Device) (k : String), (d.GetOrCreateComponent k).Interface = d.Interface ∧
        (d.GetOrCreateComponent k).Flow = d.Flow := fun _ _ => ⟨rfl, rfl⟩
    have h1 : dc.Interface = GoMap.empty ∧ dc.Flow = GoMap.empty :=
      portCPULoop_inv (fun x => x.Interface = GoMap.empty ∧ x.Flow = GoMap.empty)
        (fun d k hd => hd) (fun d k f _ hd => hd) pcs {} dc ⟨rfl, rfl⟩ h
    have h2 : dc.Component.keys.Nodup :=
      portCPULoop_inv (fun x => x.Component.keys.Nodup)
        (fun d k hd => GoMap.nodup_keys_getOrCreate _ _ _ hd)
        (fun d k f _ hd => by
          show (GoMap.modify _ _ _).keys.Nodup
          rw [GoMap.keys_modify]
          exact hd)
        pcs {} dc (by simp [GoMap.keys, GoMap.empty]) h
    refine ⟨?_, h2, ?_⟩
    · obtain ⟨c, i, f⟩ := dc
      simp only at h1
      rw [h1.1, h1.2]
    · intro row hrow s hs
      obtain ⟨recs, hrecs, hall⟩ := stats.parseRows_ok _ tbl [] pcs hp
      simp only [List.nil_append] at hrecs
      subst hrecs
      obtain ⟨i, hi⟩ := List.getElem?_of_mem hrow
      obtain ⟨rec, hrec, hf⟩ := stats.forall₂_getElem? _ tbl pcs hall i row hi
      have hname := stats.parsePortCPUStatsRow_ok lib row rec hf
      exact portCPULoop_mem pcs {} dc h rec (List.getElem?_mem hrec) s (by rw [hname]; exact hs)

/-- What a successful Port Statistics translation returns: interfaces only,
under distinct names, with an interface for every row. -/
theorem translatePortStats_shape (lib : GoLib) (tbl : Table) (itFlows : List String)
    (dp : Device) (h : translatePortStats lib tbl itFlows = some (.ok dp)) :
    dp = { Interface := dp.Interface } ∧ dp.Interface.keys.Nodup ∧
    ∀ row ∈ tbl, ∀ s, shortPortName (Row.get row "Port Name") = .ok s →
      s ∈ dp.Interface.keys := by
  unfold translatePortStats at h
  cases hp : Table.ParsePortStats lib tbl with
  | error e => rw [hp] at h; simp at h
  | ok ps =>
    rw [hp] at h
    simp only [Option.some.injEq] at h
    have h1 : dp.Component = GoMap.empty ∧ dp.Flow = GoMap.empty :=
      portLoop_inv (fun x => x.Component = GoMap.empty ∧ x.Flow = GoMap.empty)
        (fun d k hd => hd) (fun d k f hd => hd) ps {} dp ⟨rfl, rfl⟩ h
    have h2 : dp.Interface.keys.Nodup :=
      portLoop_inv (fun x => x.Interface.keys.Nodup)
        (fun d k hd => GoMap.nodup_keys_getOrCreate _ _ _ hd)
        (fun d k f hd => by
          show (GoMap.modify _ _ _).keys.Nodup
          rw [GoMap.keys_modify]
          exact hd)
        ps {} dp (by simp [GoMap.keys, GoMap.empty]) h
    refine ⟨?_, h2, ?_⟩
    · obtain ⟨c, i, f⟩ := dp
      simp only at h1
      rw [h1.1, h1.2]
    · intro row hrow s hs
      obtain ⟨recs, hrecs, hall⟩ := stats.parseRows_ok _ tbl [] ps hp
      simp only [List.nil_append] at hrecs
      subst hrecs
      obtain ⟨i, hi⟩ := List.getElem?_of_mem hrow
      obtain ⟨rec, hrec, hf⟩ := stats.forall₂_getElem? _ tbl ps hall i row hi
      have hname := stats.parsePortStatsRow_ok lib row rec hf
      exact portLoop_mem ps {} dp h rec (List.getElem?_mem hrec) s (by rw [hname]; exact hs)

end oc


/-! ## The merge orchestrator: properties -/

/-- C1: `Translate` never panics and never returns an error: for every merge
primitive, every map of views and every ingress-tracked list it returns a tree
with the nil error; and when the translator of every recognised view in the map
returns an error, the tree returned is the empty tree. -/
theorem translate_never_fails (lib : GoLib) (merge : Device → Device → Except String Device)
    (views : GoMap View Table) (itFlows : List String) :
    (∃ root, Translate lib merge views itFlows = some (root, none)) ∧
    ((∀ k v fn, (k, v) ∈ views.entries → translateFunctions lib k = some fn →
        ∃ e, fn v itFlows = some (.error e)) →
      Translate lib merge views itFlows = some ({}, none)) := by
  constructor
  · obtain ⟨r, hr⟩ := translateLoop_total lib merge itFlows views.entries {}
    exact ⟨r, by simp [Translate, hr]⟩
  · intro h
    have hskip := translateLoop_filter lib merge itFlows (fun _ => false) views.entries {}
      (by
        intro e he _
        cases hfn : translateFunctions lib e.1 with
        | none => exact Or.inl rfl
        | some fn =>
          obtain ⟨err, herr⟩ := h e.1 e.2 fn he hfn
          exact Or.inr ⟨fn, err, rfl, herr⟩)
    unfold Translate
    rw [hskip]
    simp [translateLoop]

/-- Witness for C1: the map of the test "invalid known view, err logging and no failure". -/
theorem translate_never_fails_witness :
    Translate sampleLib ygot.MergeStructs
      ⟨[("Port CPU Statistics", [⟨[("%CPU Load", "42")]⟩])]⟩ [] = some ({}, none) :=
  (translate_never_fails sampleLib ygot.MergeStructs
    ⟨[("Port CPU Statistics", [⟨[("%CPU Load", "42")]⟩])]⟩ []).2 (by
      intro k v fn hkv hfn
      simp only [List.mem_singleton, Prod.mk.injEq] at hkv
      obtain ⟨hk, hv⟩ := hkv
      subst hk hv
      have h1 : translateFunctions sampleLib "Port CPU Statistics"
          = some (translatePortCPUStats sampleLib) := rfl
      rw [h1] at hfn
      injection hfn with hfn
      subst hfn
      exact ⟨_, rfl⟩)

/-- C2: a view whose parser or translator returns an error contributes nothing:
the result of `Translate` is the result on the map with the entry of that view
removed, for every merge primitive and every iteration order. -/
theorem failing_view_contributes_nothing (lib : GoLib)
    (merge : Device → Device → Except String Device) (views : GoMap View Table)
    (itFlows : List String) (k : View) (fn : Table → List String → Option (Except Error Device))
    (hfn : translateFunctions lib k = some fn)
    (hfail : ∀ v, (k, v) ∈ views.entries → ∃ e, fn v itFlows = some (.error e)) :
    Translate lib merge views itFlows = Translate lib merge (views.delete k) itFlows := by
  unfold Translate GoMap.delete
  rw [translateLoop_filter lib merge itFlows (fun e => decide (e.1 ≠ k)) views.entries {}]
  intro e he hp
  simp only [ne_eq, decide_not, Bool.not_eq_false', decide_eq_true_eq] at hp
  obtain ⟨k1, v⟩ := e
  simp only at hp
  subst hp
  obtain ⟨err, herr⟩ := hfail v he
  exact Or.inr ⟨fn, err, hfn, herr⟩

/-- Witness for C2: a Port CPU table whose first row is valid and whose second
row lacks the port name, next to a valid Port Statistics table. -/
theorem failing_view_contributes_nothing_witness :
    translateFunctions sampleLib "Port CPU Statistics" = some (translatePortCPUStats sampleLib) ∧
    translatePortCPUStats sampleLib
      [⟨[("Port Name", "ixia2/port1"), ("%CPU Load", "100")]⟩, ⟨[("%CPU Load", "42")]⟩] []
      = some (.error (.missingKey ⟨[("%CPU Load", "42")]⟩ "Port Name")) ∧
    Translate sampleLib ygot.MergeStructs
      ⟨[("Port CPU Statistics",
          [⟨[("Port Name", "ixia2/port1"), ("%CPU Load", "100")]⟩, ⟨[("%CPU Load", "42")]⟩]),
        ("Port Statistics", [⟨[("Port Name", "ixia2/port1"), ("Bytes Rx.", "10")]⟩])]⟩ []
      = Translate sampleLib ygot.MergeStructs
          ⟨[("Port Statistics", [⟨[("Port Name", "ixia2/port1"), ("Bytes Rx.", "10")]⟩])]⟩ [] :=
  ⟨rfl, rfl,
   failing_view_contributes_nothing sampleLib ygot.MergeStructs
    ⟨[("Port CPU Statistics",
        [⟨[("Port Name", "ixia2/port1"), ("%CPU Load", "100")]⟩, ⟨[("%CPU Load", "42")]⟩]),
      ("Port Statistics", [⟨[("Port Name", "ixia2/port1"), ("Bytes Rx.", "10")]⟩])]⟩ []
    "Port CPU Statistics" (translatePortCPUStats sampleLib) rfl (by
      intro v hv
      simp only [List.mem_cons, Prod.mk.injEq, List.mem_singleton] at hv
      rcases hv with ⟨_, hv⟩ | ⟨hk, _⟩ | hv
      · subst hv; exact ⟨_, rfl⟩
      · exact absurd hk (by decide)
      · simp at hv)⟩

/-- C3: views outside the four known identifiers are ignored: the result of
`Translate` is the result on the map restricted to the known identifiers,
whatever the other tables hold. -/
theorem unknown_views_are_ignored (lib : GoLib)
    (merge : Device → Device → Except String Device) (views : GoMap View Table)
    (itFlows : List String) :
    Translate lib merge views itFlows =
      Translate lib merge ⟨views.entries.filter (fun e => decide (e.1 ∈ knownViews))⟩ itFlows := by
  unfold Translate
  rw [translateLoop_filter lib merge itFlows (fun e => decide (e.1 ∈ knownViews)) views.entries {}]
  intro e _ hp
  simp only [decide_eq_false_iff_not] at hp
  exact Or.inl ((translateFunctions_eq_none_iff lib e.1).2 hp)

/-- C4 (amended): when the Port CPU Statistics table and the Port Statistics
table both translate without error, `Translate` on the map holding the two
yields, whichever view is visited first, the one tree whose components are
exactly those of the Port CPU translation and whose interfaces are exactly
those of the Port Statistics translation; names are not repeated in either
collection, and for a port that has a row in both tables the tree holds the
port component and the CPU component under the short name (from the CPU view)
and the interface under the short name (from the port view). -/
theorem cpu_and_port_views_merge (lib : GoLib) (cpuT portT : Table) (itFlows : List String)
    (dc dp : Device)
    (hc : translatePortCPUStats lib cpuT itFlows = some (.ok dc))
    (hp : translatePortStats lib portT itFlows = some (.ok dp)) :
    Translate lib ygot.MergeStructs
        ⟨[("Port CPU Statistics", cpuT), ("Port Statistics", portT)]⟩ itFlows
      = some ({ Component := dc.Component, Interface := dp.Interface }, none) ∧
    Translate lib ygot.MergeStructs
        ⟨[("Port Statistics", portT), ("Port CPU Statistics", cpuT)]⟩ itFlows
      = some ({ Component := dc.Component, Interface := dp.Interface }, none) ∧
    dc.Component.keys.Nodup ∧ dp.Interface.keys.Nodup ∧
    ∀ rc ∈ cpuT, ∀ rp ∈ portT, ∀ s,
      Row.get rp "Port Name" = Row.get rc "Port Name" →
      shortPortName (Row.get rc "Port Name") = .ok s →
        (∃ port, dc.Component.get? s = some port) ∧
        (∃ cpu, dc.Component.get? (s ++ "_CPU") = some cpu) ∧
        (∃ i, dp.Interface.get? s = some i) := by
  obtain ⟨hdc, hnc, hmc⟩ := translatePortCPUStats_shape lib cpuT itFlows dc hc
  obtain ⟨hdp, hnp, hmp⟩ := translatePortStats_shape lib portT itFlows dp hp
  obtain ⟨hm1, hm2⟩ := ygot.MergeStructs_components_interfaces dc.Component dp.Interface
  rw [← hdc, ← hdp] at hm1 hm2
  refine ⟨?_, ?_, hnc, hnp, ?_⟩
  · simp only [Translate, translateLoop, translateFunctions_cpu, translateFunctions_port, hc, hp,
      ygot.MergeStructs_empty_left, hm1, Option.map_some']
  · simp only [Translate, translateLoop, translateFunctions_cpu, translateFunctions_port, hc, hp,
      ygot.MergeStructs_empty_left, hm2, Option.map_some']
  · intro rc hrc rp hrp s hsame hs
    obtain ⟨h1, h2⟩ := hmc rc hrc s hs
    have h3 := hmp rp hrp s (by rw [hsame]; exact hs)
    exact ⟨(GoMap.get?_isSome_iff _ _).2 h1, (GoMap.get?_isSome_iff _ _).2 h2,
      (GoMap.get?_isSome_iff _ _).2 h3⟩

/-- Witness for C4 (amended): the map of the test "multiple stats", in both orders. -/
theorem cpu_and_port_views_merge_witness :
    translatePortCPUStats sampleLib [⟨[("Port Name", "ixia2/port1"), ("%CPU Load", "100")]⟩] []
      = some (.ok { Component := ⟨[
          ("port1", { Name := some "port1", Type_ := .PORT,
                      Subcomponent := ⟨[("port1_CPU", { Name := some "port1_CPU" })]⟩ }),
          ("port1_CPU", { Name := some "port1_CPU", Type_ := .CPU, Parent := some "port1",
                          Cpu := some { Utilization := some { Instant := some 100 } } })]⟩ }) ∧
    translatePortStats sampleLib
        [⟨[("Port Name", "ixia2/port1"), ("Bytes Rx.", "10"), ("Bytes Tx.", "20")]⟩] []
      = some (.ok { Interface := ⟨[
          ("port1", { Name := some "port1",
                      Counters := some { InOctets := some 10, OutOctets := some 20 },
                      Ethernet := some { Counters := some {} },
                      Type_ := .ethernetCsmacd })]⟩ }) ∧
    Translate sampleLib ygot.MergeStructs
        ⟨[("Port Statistics",
            [⟨[("Port Name", "ixia2/port1"), ("Bytes Rx.", "10"), ("Bytes Tx.", "20")]⟩]),
          ("Port CPU Statistics",
            [⟨[("Port Name", "ixia2/port1"), ("%CPU Load", "100")]⟩])]⟩ []
      = some ({ Component := ⟨[
          ("port1", { Name := some "port1", Type_ := .PORT,
                      Subcomponent := ⟨[("port1_CPU", { Name := some "port1_CPU" })]⟩ }),
          ("port1_CPU", { Name := some "port1_CPU", Type_ := .CPU, Parent := some "port1",
                          Cpu := some { Utilization := some { Instant := some 100 } } })]⟩,
                Interface := ⟨[
          ("port1", { Name := some "port1",
                      Counters := some { InOctets := some 10, OutOctets := some 20 },
                      Ethernet := some { Counters := some {} },
                      Type_ := .ethernetCsmacd })]⟩ }, none) :=
  ⟨rfl, rfl,
   (cpu_and_port_views_merge sampleLib
      [⟨[("Port Name", "ixia2/port1"), ("%CPU Load", "100")]⟩]
      [⟨[("Port Name", "ixia2/port1"), ("Bytes Rx.", "10"), ("Bytes Tx.", "20")]⟩] [] _ _
      rfl rfl).2.1⟩

/-- Counterexample to C4 as stated: both tables have a row for the port
`ixia2/port1`, but the Port Statistics table also has a row without port name;
that view fails as a whole, and the tree `Translate` returns has the components
of the CPU view and no interface for `port1`. -/
theorem cpu_and_port_views_counterexample :
    Row.get ⟨[("Port Name", "ixia2/port1"), ("%CPU Load", "100")]⟩ "Port Name" = "ixia2/port1" ∧
    Row.get ⟨[("Port Name", "ixia2/port1"), ("Bytes Rx.", "10")]⟩ "Port Name" = "ixia2/port1" ∧
    Translate sampleLib ygot.MergeStructs
        ⟨[("Port CPU Statistics", [⟨[("Port Name", "ixia2/port1"), ("%CPU Load", "100")]⟩]),
          ("Port Statistics",
            [⟨[("Port Name", "ixia2/port1"), ("Bytes Rx.", "10")]⟩, ⟨[("Bytes Rx.", "42")]⟩])]⟩ []
      = some ({ Component := ⟨[
          ("port1", { Name := some "port1", Type_ := .PORT,
                      Subcomponent := ⟨[("port1_CPU", { Name := some "port1_CPU" })]⟩ }),
          ("port1_CPU", { Name := some "port1_CPU", Type_ := .CPU, Parent := some "port1",
                          Cpu := some { Utilization := some { Instant := some 100 } } })]⟩,
                Interface := ⟨[]⟩ }, none) :=
  ⟨rfl, rfl, rfl⟩

/-! ## The row parser and the view parsers: properties -/

/-- C5: a row whose identity column is absent or empty makes `Row.parse` fail,
whatever its other columns and whatever the key lists; and a table holding such
a row makes each of the four view parsers return an error (and so no records). -/
theorem missing_identity_is_an_error (lib : GoLib) (r : Row) (nameKey : String)
    (strKeys intKeys floatKeys : List String)
    (h : Row.find? r nameKey = none ∨ Row.find? r nameKey = some "") :
    Row.parse lib r nameKey strKeys intKeys floatKeys = .error (.missingKey r nameKey) ∧
    (nameKey = "Port Name" → ∀ t : Table, r ∈ t →
      (∃ e, Table.ParsePortStats lib t = .error e) ∧
      (∃ e, Table.ParsePortCPUStats lib t = .error e)) ∧
    (nameKey = "Traffic Item" → ∀ t : Table, r ∈ t →
      (∃ e, Table.ParseFlowStats lib t = .error e) ∧
      (∃ e, Table.ParseEgressStats lib t = some (.error e))) := by
  have hget : Row.get r nameKey = "" := Row.get_of_absent_or_empty r nameKey h
  have hparse : ∀ sk ik fk, Row.parse lib r nameKey sk ik fk = .error (.missingKey r nameKey) := by
    intro sk ik fk
    simp [Row.parse, hget]
  refine ⟨hparse _ _ _, ?_, ?_⟩
  · intro hk t ht
    subst hk
    constructor
    · exact parseRows_error_of_mem _ t [] r ht _
        ((parsePortStatsRow_error_iff lib r _).2 (hparse _ _ _))
    · exact parseRows_error_of_mem _ t [] r ht _
        ((parsePortCPUStatsRow_error_iff lib r _).2 (hparse _ _ _))
  · intro hk t ht
    subst hk
    have hflow : ∃ e, Table.ParseFlowStats lib t = .error e :=
      parseRows_error_of_mem _ t [] r ht _
        ((parseFlowStatsRow_error_iff lib r _).2 (hparse _ _ _))
    refine ⟨hflow, ?_⟩
    obtain ⟨e, he⟩ := hflow
    exact ⟨e, by rw [ParseEgressStats_eq, he]⟩

/-- Witness for C5: the row of the test "missing port name", alone and after a valid row. -/
theorem missing_identity_is_an_error_witness :
    (Row.find? ⟨[("%CPU Load", "42")]⟩ "Port Name" = none ∨
      Row.find? ⟨[("%CPU Load", "42")]⟩ "Port Name" = some "") ∧
    Row.parse sampleLib ⟨[("%CPU Load", "42")]⟩ "Port Name" [] portCPUIntKeys [] =
      .error (.missingKey ⟨[("%CPU Load", "42")]⟩ "Port Name") ∧
    (∃ e, Table.ParsePortCPUStats sampleLib
      [⟨[("Port Name", "ixia2/port1"), ("%CPU Load", "1")]⟩, ⟨[("%CPU Load", "42")]⟩]
        = .error e) :=
  ⟨Or.inl rfl,
   (missing_identity_is_an_error sampleLib ⟨[("%CPU Load", "42")]⟩ "Port Name" []
      portCPUIntKeys [] (Or.inl rfl)).1,
   ((missing_identity_is_an_error sampleLib ⟨[("%CPU Load", "42")]⟩ "Port Name" []
      portCPUIntKeys [] (Or.inl rfl)).2.1 rfl _ (by simp)).2⟩

/-- C6: in a row with an identity value, for a key `k` of `intKeys`: an absent
or empty column is never a bad column and leaves the integer field of `k` unset
in the result; a column holding the base-10 numeral of `n < 2 ^ 64` is never a
bad column and sets the field to exactly `n`; the text "0" gives the set field
`some 0`, not the unset field; and the parse succeeds exactly when no listed
numeric column is bad, so absent and empty columns raise no error. -/
theorem integer_fields_of_row (lib : GoLib) (r : Row) (nameKey : String)
    (strKeys intKeys floatKeys : List String) (hname : Row.get r nameKey ≠ "")
    (k : String) (hk : k ∈ intKeys) :
    ((Row.find? r k = none ∨ Row.find? r k = some "") →
      badInt r k = false ∧
      ∀ ints floats, Row.parse lib r nameKey strKeys intKeys floatKeys = .ok (ints, floats) →
        ints.get? k = none) ∧
    (∀ n, n < 2 ^ 64 → Row.find? r k = some (toString n) →
      badInt r k = false ∧
      ∀ ints floats, Row.parse lib r nameKey strKeys intKeys floatKeys = .ok (ints, floats) →
        ints.get? k = some n) ∧
    (Row.find? r k = some "0" →
      ∀ ints floats, Row.parse lib r nameKey strKeys intKeys floatKeys = .ok (ints, floats) →
        ints.get? k = some 0 ∧ ints.get? k ≠ none) ∧
    ((∃ v, Row.parse lib r nameKey strKeys intKeys floatKeys = .ok v) ↔
      (∀ k1 ∈ intKeys, badInt r k1 = false) ∧ (∀ k1 ∈ floatKeys, badFloat lib r k1 = false)) := by
  have hnum : ∀ n, n < 2 ^ 64 → Row.find? r k = some (toString n) →
      badInt r k = false ∧
      ∀ ints floats, Row.parse lib r nameKey strKeys intKeys floatKeys = .ok (ints, floats) →
        ints.get? k = some n := by
    intro n hn hfind
    have hget : Row.get r k = toString n := Row.get_of_find? r k _ hfind
    have hp : strconv.ParseUint (Row.get r k) = .ok n := by
      rw [hget]; exact strconv.ParseUint_toString n hn
    refine ⟨(badInt_eq_false_iff r k).2 (Or.inr ⟨n, hp⟩), ?_⟩
    intro ints floats hparse
    have hints := Row.parse_ints lib r nameKey strKeys intKeys floatKeys ints floats hparse
    exact parseInts_get?_set r _ intKeys _ ints hints k hk
      (by rw [hget]; exact strconv.toString_ne_empty n) n hp
  refine ⟨?_, hnum, ?_, Row.parse_ok_iff lib r nameKey strKeys intKeys floatKeys hname⟩
  · intro habs
    have hget : Row.get r k = "" := Row.get_of_absent_or_empty r k habs
    refine ⟨(badInt_eq_false_iff r k).2 (Or.inl hget), ?_⟩
    intro ints floats hparse
    have hints := Row.parse_ints lib r nameKey strKeys intKeys floatKeys ints floats hparse
    rw [parseInts_get?_unset r _ intKeys _ ints hints k (Or.inr hget)]
    rfl
  · intro hzero ints floats hparse
    have h0 := (hnum 0 (by decide) hzero).2 ints floats hparse
    exact ⟨h0, by rw [h0]; simp⟩

/-- Witness for C6: a Port CPU row whose load column holds "0" and whose memory
columns are absent. -/
theorem integer_fields_of_row_witness :
    Row.get ⟨[("Port Name", "ixia2/port1"), ("%CPU Load", "0")]⟩ "Port Name" ≠ "" ∧
    "%CPU Load" ∈ portCPUIntKeys ∧
    ∃ ints floats,
      Row.parse sampleLib ⟨[("Port Name", "ixia2/port1"), ("%CPU Load", "0")]⟩ "Port Name" []
        portCPUIntKeys [] = .ok (ints, floats) ∧
      ints.get? "%CPU Load" = some 0 ∧ ints.get? "%CPU Load" ≠ none :=
  ⟨by decide, by decide, _, _, rfl,
   (integer_fields_of_row sampleLib ⟨[("Port Name", "ixia2/port1"), ("%CPU Load", "0")]⟩
      "Port Name" [] portCPUIntKeys [] (by decide) "%CPU Load" (by decide)).2.2.1 rfl _ _ rfl⟩

/-- C7 (amended): in a row with an identity value in which some listed integer
or float column holds non-empty unparseable text, `Row.parse` fails, and the
error is that of the first such column `k0` in processing order (the integer
keys in list order, then the float keys): its message contains the Go-quoted
raw text of `k0`, and the name `k0` Go-quoted for an integer column and
verbatim for a float column; the raw text, and the name, stand in the message
verbatim when they are plain (printable, without double quote or backslash). -/
theorem invalid_numeric_is_an_error (lib : GoLib) (r : Row) (nameKey : String)
    (strKeys intKeys floatKeys : List String) (hname : Row.get r nameKey ≠ "")
    (hbad : (∃ k ∈ intKeys, badInt r k = true) ∨ (∃ k ∈ floatKeys, badFloat lib r k = true)) :
    ∃ e k0, Row.parse lib r nameKey strKeys intKeys floatKeys = .error e ∧
      ((intKeys.find? (badInt r) = some k0 ∧
          (∃ err, strconv.ParseUint (Row.get r k0) = .error err ∧
            e = .invalidInt err (Row.get r k0) k0 (Row.get r nameKey)) ∧
          Contains (e.message lib) (strconv.Quote lib k0)) ∨
       (intKeys.find? (badInt r) = none ∧ floatKeys.find? (badFloat lib r) = some k0 ∧
          (∃ err, strconv.ParseFloat lib (Row.get r k0) = .error err ∧
            e = .invalidFloat err (Row.get r k0) k0 (Row.get r nameKey)) ∧
          Contains (e.message lib) k0)) ∧
      Contains (e.message lib) (strconv.Quote lib (Row.get r k0)) ∧
      (plainText lib (Row.get r k0) → Contains (e.message lib) (Row.get r k0)) ∧
      (plainText lib k0 → Contains (e.message lib) k0) := by
  rw [Row.parse_of_name lib r nameKey strKeys intKeys floatKeys hname]
  cases hfi : intKeys.find? (badInt r) with
  | some k0 =>
    obtain ⟨_, err, herr⟩ := (badInt_eq_true_iff r k0).1 (List.find?_some hfi)
    have hm := message_invalidInt_contains lib err (Row.get r k0) k0 (Row.get r nameKey)
    refine ⟨.invalidInt err (Row.get r k0) k0 (Row.get r nameKey), k0, ?_,
      Or.inl ⟨rfl, ⟨err, herr, rfl⟩, hm.2⟩, hm.1, ?_, ?_⟩
    · rw [parseInts_error r _ intKeys _ k0 hfi err herr]
    · exact fun hp => Contains.trans hm.1 (strconv.Quote_contains_plain lib _ hp)
    · exact fun hp => Contains.trans hm.2 (strconv.Quote_contains_plain lib _ hp)
  | none =>
    have hints := all_false_of_find?_eq_none _ _ hfi
    have hfl : ∃ k ∈ floatKeys, badFloat lib r k = true := by
      rcases hbad with ⟨k, hk, hb⟩ | h
      · rw [hints k hk] at hb; simp at hb
      · exact h
    obtain ⟨k, hk, hb⟩ := hfl
    obtain ⟨k0, hff, _⟩ := find?_isSome_of_mem _ floatKeys k hk hb
    obtain ⟨_, err, herr⟩ := (badFloat_eq_true_iff lib r k0).1 (List.find?_some hff)
    obtain ⟨ints, hi⟩ := parseInts_ok r (Row.get r nameKey) intKeys GoMap.empty hints
    have hm := message_invalidFloat_contains lib err (Row.get r k0) k0 (Row.get r nameKey)
    refine ⟨.invalidFloat err (Row.get r k0) k0 (Row.get r nameKey), k0, ?_,
      Or.inr ⟨rfl, hff, ⟨err, herr, rfl⟩, hm.2⟩, hm.1, ?_, ?_⟩
    · rw [hi, parseFloats_error lib r _ floatKeys _ k0 hff err herr]
    · exact fun hp => Contains.trans hm.1 (strconv.Quote_contains_plain lib _ hp)
    · exact fun _ => hm.2

/-- Witness for C7 (amended): the row of the test "invalid input for uint64 statistic". -/
theorem invalid_numeric_is_an_error_witness :
    Row.get ⟨[("Port Name", "ixia2/port42"), ("Bytes Rx.", "four hundred and ninety seven")]⟩
      "Port Name" ≠ "" ∧
    ((∃ k ∈ portIntKeys,
        badInt ⟨[("Port Name", "ixia2/port42"), ("Bytes Rx.", "four hundred and ninety seven")]⟩ k
          = true) ∨
      (∃ k ∈ portFloatKeys,
        badFloat sampleLib
          ⟨[("Port Name", "ixia2/port42"), ("Bytes Rx.", "four hundred and ninety seven")]⟩ k
          = true)) ∧
    ∃ e, Row.parse sampleLib
        ⟨[("Port Name", "ixia2/port42"), ("Bytes Rx.", "four hundred and ninety seven")]⟩
        "Port Name" portStrKeys portIntKeys portFloatKeys = .error e ∧
      Contains (e.message sampleLib) "Bytes Rx." ∧
      Contains (e.message sampleLib) "four hundred and ninety seven" := by
  have hbad : (∃ k ∈ portIntKeys,
        badInt ⟨[("Port Name", "ixia2/port42"), ("Bytes Rx.", "four hundred and ninety seven")]⟩ k
          = true) ∨
      (∃ k ∈ portFloatKeys,
        badFloat sampleLib
          ⟨[("Port Name", "ixia2/port42"), ("Bytes Rx.", "four hundred and ninety seven")]⟩ k
          = true) := Or.inl ⟨"Bytes Rx.", by decide, by rfl⟩
  refine ⟨by decide, hbad, ?_⟩
  obtain ⟨e, k0, hparse, hfirst, _, hv, hk⟩ :=
    invalid_numeric_is_an_error sampleLib
      ⟨[("Port Name", "ixia2/port42"), ("Bytes Rx.", "four hundred and ninety seven")]⟩
      "Port Name" portStrKeys portIntKeys portFloatKeys (by decide) hbad
  have hk0 : k0 = "Bytes Rx." := by
    rcases hfirst with ⟨hf, _⟩ | ⟨hf, _⟩
    · have h1 : portIntKeys.find? (badInt
          ⟨[("Port Name", "ixia2/port42"), ("Bytes Rx.", "four hundred and ninety seven")]⟩)
          = some "Bytes Rx." := by rfl
      rw [h1] at hf
      injection hf with hf
      exact hf.symm
    · have h1 : portIntKeys.find? (badInt
          ⟨[("Port Name", "ixia2/port42"), ("Bytes Rx.", "four hundred and ninety seven")]⟩)
          = some "Bytes Rx." := by rfl
      rw [h1] at hf
      simp at hf
  subst hk0
  exact ⟨e, hparse, hk (by unfold plainText; decide), hv (by unfold plainText; decide)⟩

set_option maxRecDepth 100000 in
/-- Counterexample to C7 as stated.  First row: the only bad column holds the
text `1"0`; the message names the column but holds the text in quoted form
only.  Second row: two bad columns; the error is that of the first one, and
the message holds neither the name nor the text of the second. -/
theorem invalid_numeric_message_counterexample :
    (Row.get ⟨[("Port Name", "ixia2/p1"), ("%CPU Load", "1\"0")]⟩ "Port Name" ≠ "" ∧
      "%CPU Load" ∈ portCPUIntKeys ∧
      badInt ⟨[("Port Name", "ixia2/p1"), ("%CPU Load", "1\"0")]⟩ "%CPU Load" = true ∧
      Row.parse sampleLib ⟨[("Port Name", "ixia2/p1"), ("%CPU Load", "1\"0")]⟩ "Port Name" []
          portCPUIntKeys []
        = .error (.invalidInt (strconv.syntaxError "ParseUint" "1\"0") "1\"0" "%CPU Load"
            "ixia2/p1") ∧
      ¬ Contains
        ((Error.invalidInt (strconv.syntaxError "ParseUint" "1\"0") "1\"0" "%CPU Load"
            "ixia2/p1").message sampleLib) "1\"0") ∧
    (Row.get ⟨[("Port Name", "ixia2/p1"), ("Total Memory(KB)", "many"),
        ("Free Memory(KB)", "few")]⟩ "Port Name" ≠ "" ∧
      "Free Memory(KB)" ∈ portCPUIntKeys ∧
      badInt ⟨[("Port Name", "ixia2/p1"), ("Total Memory(KB)", "many"),
        ("Free Memory(KB)", "few")]⟩ "Free Memory(KB)" = true ∧
      Row.parse sampleLib ⟨[("Port Name", "ixia2/p1"), ("Total Memory(KB)", "many"),
          ("Free Memory(KB)", "few")]⟩ "Port Name" [] portCPUIntKeys []
        = .error (.invalidInt (strconv.syntaxError "ParseUint" "many") "many" "Total Memory(KB)"
            "ixia2/p1") ∧
      ¬ Contains
        ((Error.invalidInt (strconv.syntaxError "ParseUint" "many") "many" "Total Memory(KB)"
            "ixia2/p1").message sampleLib) "Free Memory(KB)" ∧
      ¬ Contains
        ((Error.invalidInt (strconv.syntaxError "ParseUint" "many") "many" "Total Memory(KB)"
            "ixia2/p1").message sampleLib) "few") := by
  refine ⟨⟨by decide, by decide, by rfl, by rfl, by decide⟩,
    ⟨by decide, by decide, by rfl, by rfl, by decide, by decide⟩⟩

/-- C8: a table in which some row fails `Row.parse` (under the column
classification of the view) splits as rows that parse, the first failing row,
and the remaining rows; the view parser returns exactly the error of that first
failing row, and so no records, whatever precedes or follows it. -/
theorem view_parsers_fail_fast (lib : GoLib) (t : Table) :
    ((∃ row ∈ t, ¬ rowParses lib "Port Name" portStrKeys portIntKeys portFloatKeys row) →
      ∃ pre bad post e, t = pre ++ bad :: post ∧
        (∀ row ∈ pre, rowParses lib "Port Name" portStrKeys portIntKeys portFloatKeys row) ∧
        Row.parse lib bad "Port Name" portStrKeys portIntKeys portFloatKeys = .error e ∧
        Table.ParsePortStats lib t = .error e) ∧
    ((∃ row ∈ t, ¬ rowParses lib "Port Name" [] portCPUIntKeys [] row) →
      ∃ pre bad post e, t = pre ++ bad :: post ∧
        (∀ row ∈ pre, rowParses lib "Port Name" [] portCPUIntKeys [] row) ∧
        Row.parse lib bad "Port Name" [] portCPUIntKeys [] = .error e ∧
        Table.ParsePortCPUStats lib t = .error e) ∧
    ((∃ row ∈ t, ¬ rowParses lib "Traffic Item" flowStrKeys flowIntKeys flowFloatKeys row) →
      ∃ pre bad post e, t = pre ++ bad :: post ∧
        (∀ row ∈ pre, rowParses lib "Traffic Item" flowStrKeys flowIntKeys flowFloatKeys row) ∧
        Row.parse lib bad "Traffic Item" flowStrKeys flowIntKeys flowFloatKeys = .error e ∧
        Table.ParseFlowStats lib t = .error e) := by
  refine ⟨?_, ?_, ?_⟩
  · rintro ⟨row, hrow, hn⟩
    obtain ⟨pre, bad, post, e, ht, hpre, hbad, hres⟩ :=
      parseRows_first_failure (parsePortStatsRow lib) t
        ⟨row, hrow, fun h => hn ((parsePortStatsRow_ok_iff lib row).1 h)⟩
    exact ⟨pre, bad, post, e, ht, fun r hr => (parsePortStatsRow_ok_iff lib r).1 (hpre r hr),
      (parsePortStatsRow_error_iff lib bad e).1 hbad, hres⟩
  · rintro ⟨row, hrow, hn⟩
    obtain ⟨pre, bad, post, e, ht, hpre, hbad, hres⟩ :=
      parseRows_first_failure (parsePortCPUStatsRow lib) t
        ⟨row, hrow, fun h => hn ((parsePortCPUStatsRow_ok_iff lib row).1 h)⟩
    exact ⟨pre, bad, post, e, ht, fun r hr => (parsePortCPUStatsRow_ok_iff lib r).1 (hpre r hr),
      (parsePortCPUStatsRow_error_iff lib bad e).1 hbad, hres⟩
  · rintro ⟨row, hrow, hn⟩
    obtain ⟨pre, bad, post, e, ht, hpre, hbad, hres⟩ :=
      parseRows_first_failure (parseFlowStatsRow lib) t
        ⟨row, hrow, fun h => hn ((parseFlowStatsRow_ok_iff lib row).1 h)⟩
    exact ⟨pre, bad, post, e, ht, fun r hr => (parseFlowStatsRow_ok_iff lib r).1 (hpre r hr),
      (parseFlowStatsRow_error_iff lib bad e).1 hbad, hres⟩

/-- Witness for C8: a Port CPU table with a valid row, a row with an unparseable
load, a valid row and a row without port name; the error is that of the second row. -/
theorem view_parsers_fail_fast_witness :
    (∃ row ∈ ([⟨[("Port Name", "ixia2/port1"), ("%CPU Load", "1")]⟩,
               ⟨[("Port Name", "ixia2/port2"), ("%CPU Load", "high")]⟩,
               ⟨[("Port Name", "ixia2/port3"), ("%CPU Load", "3")]⟩,
               ⟨[("%CPU Load", "4")]⟩] : Table),
        ¬ rowParses sampleLib "Port Name" [] portCPUIntKeys [] row) ∧
    Table.ParsePortCPUStats sampleLib
        [⟨[("Port Name", "ixia2/port1"), ("%CPU Load", "1")]⟩,
         ⟨[("Port Name", "ixia2/port2"), ("%CPU Load", "high")]⟩,
         ⟨[("Port Name", "ixia2/port3"), ("%CPU Load", "3")]⟩,
         ⟨[("%CPU Load", "4")]⟩]
      = .error (.invalidInt (strconv.syntaxError "ParseUint" "high") "high" "%CPU Load"
          "ixia2/port2") := by
  have hex : ∃ row ∈ ([⟨[("Port Name", "ixia2/port1"), ("%CPU Load", "1")]⟩,
               ⟨[("Port Name", "ixia2/port2"), ("%CPU Load", "high")]⟩,
               ⟨[("Port Name", "ixia2/port3"), ("%CPU Load", "3")]⟩,
               ⟨[("%CPU Load", "4")]⟩] : Table),
        ¬ rowParses sampleLib "Port Name" [] portCPUIntKeys [] row := by
    refine ⟨⟨[("%CPU Load", "4")]⟩, by simp, ?_⟩
    rintro ⟨v, hv⟩
    have herr : Row.parse sampleLib ⟨[("%CPU Load", "4")]⟩ "Port Name" [] portCPUIntKeys []
        = .error (.missingKey ⟨[("%CPU Load", "4")]⟩ "Port Name") := rfl
    rw [herr] at hv
    exact Except.noConfusion hv
  refine ⟨hex, ?_⟩
  obtain ⟨pre, bad, post, e, _, _, _, hres⟩ := (view_parsers_fail_fast sampleLib _).2.1 hex
  rw [hres]
  have h2 : Table.ParsePortCPUStats sampleLib
        [⟨[("Port Name", "ixia2/port1"), ("%CPU Load", "1")]⟩,
         ⟨[("Port Name", "ixia2/port2"), ("%CPU Load", "high")]⟩,
         ⟨[("Port Name", "ixia2/port3"), ("%CPU Load", "3")]⟩,
         ⟨[("%CPU Load", "4")]⟩]
      = .error (.invalidInt (strconv.syntaxError "ParseUint" "high") "high" "%CPU Load"
          "ixia2/port2") := by rfl
  rw [hres] at h2
  exact h2

/-- C9: when a view parser succeeds, the result has as many records as the
table has rows, and the record at index `i` is the one built from the row at
index `i`, whose identity field is that row's identity column; so rows that are
equal give records that are equal, and nothing is reordered. -/
theorem view_parsers_keep_rows (lib : GoLib) (t : Table) :
    (∀ ps, Table.ParsePortStats lib t = .ok ps →
      ps.length = t.length ∧
      (∀ (i : Nat) (row : Row), t[i]? = some row → ∃ rec, ps[i]? = some rec ∧
        parsePortStatsRow lib row = .ok rec ∧ rec.PortName = Row.get row "Port Name") ∧
      (∀ (i j : Nat) (row : Row), t[i]? = some row → t[j]? = some row → ps[i]? = ps[j]?)) ∧
    (∀ pcs, Table.ParsePortCPUStats lib t = .ok pcs →
      pcs.length = t.length ∧
      (∀ (i : Nat) (row : Row), t[i]? = some row → ∃ rec, pcs[i]? = some rec ∧
        parsePortCPUStatsRow lib row = .ok rec ∧ rec.PortName = Row.get row "Port Name") ∧
      (∀ (i j : Nat) (row : Row), t[i]? = some row → t[j]? = some row → pcs[i]? = pcs[j]?)) ∧
    (∀ fs, Table.ParseFlowStats lib t = .ok fs →
      fs.length = t.length ∧
      (∀ (i : Nat) (row : Row), t[i]? = some row → ∃ rec, fs[i]? = some rec ∧
        parseFlowStatsRow lib row = .ok rec ∧ rec.TrafficItem = Row.get row "Traffic Item") ∧
      (∀ (i j : Nat) (row : Row), t[i]? = some row → t[j]? = some row → fs[i]? = fs[j]?)) ∧
    (∀ es, Table.ParseEgressStats lib t = some (.ok es) →
      es.length = t.length ∧
      (∀ (i : Nat) (row : Row), t[i]? = some row → ∃ rec : EgressStats, es[i]? = some rec ∧
        parseFlowStatsRow lib row = .ok rec.FlowStats ∧
        rec.Filter = Row.get row "Egress Tracking" ∧
        rec.FlowStats.TrafficItem = Row.get row "Traffic Item") ∧
      (∀ (i j : Nat) (row : Row), t[i]? = some row → t[j]? = some row → es[i]? = es[j]?)) := by
  have key : ∀ {α : Type} (f : Row → Except Error α) (recs : List α),
      parseRows f t [] = .ok recs →
      recs.length = t.length ∧
      (∀ (i : Nat) (row : Row), t[i]? = some row → ∃ rec, recs[i]? = some rec ∧ f row = .ok rec) ∧
      (∀ (i j : Nat) (row : Row), t[i]? = some row → t[j]? = some row → recs[i]? = recs[j]?) := by
    intro α f recs h
    obtain ⟨recs1, hrecs, hall⟩ := parseRows_ok f t [] recs h
    simp only [List.nil_append] at hrecs
    subst hrecs
    have hidx := forall₂_getElem? _ t recs hall
    refine ⟨hall.length_eq.symm, hidx, ?_⟩
    intro i j row hi hj
    obtain ⟨a, ha, hfa⟩ := hidx i row hi
    obtain ⟨b, hb, hfb⟩ := hidx j row hj
    rw [hfa] at hfb
    injection hfb with hab
    rw [ha, hb, hab]
  refine ⟨?_, ?_, ?_, ?_⟩
  · intro ps h
    obtain ⟨h1, h2, h3⟩ := key (parsePortStatsRow lib) ps h
    refine ⟨h1, ?_, h3⟩
    intro i row hi
    obtain ⟨rec, hr, hf⟩ := h2 i row hi
    exact ⟨rec, hr, hf, parsePortStatsRow_ok lib row rec hf⟩
  · intro pcs h
    obtain ⟨h1, h2, h3⟩ := key (parsePortCPUStatsRow lib) pcs h
    refine ⟨h1, ?_, h3⟩
    intro i row hi
    obtain ⟨rec, hr, hf⟩ := h2 i row hi
    exact ⟨rec, hr, hf, parsePortCPUStatsRow_ok lib row rec hf⟩
  · intro fs h
    obtain ⟨h1, h2, h3⟩ := key (parseFlowStatsRow lib) fs h
    refine ⟨h1, ?_, h3⟩
    intro i row hi
    obtain ⟨rec, hr, hf⟩ := h2 i row hi
    exact ⟨rec, hr, hf, parseFlowStatsRow_ok lib row rec hf⟩
  · intro es h
    rw [ParseEgressStats_eq] at h
    cases hfs : Table.ParseFlowStats lib t with
    | error e => rw [hfs] at h; simp at h
    | ok fs =>
      rw [hfs] at h
      simp only [Option.some.injEq, Except.ok.injEq] at h
      obtain ⟨recs1, hrecs, hall⟩ := parseRows_ok _ t [] fs hfs
      simp only [List.nil_append] at hrecs
      subst hrecs
      have hall2 := forall₂_zipWith_egress lib t fs hall
      rw [h] at hall2
      have hspec : specParseEgressStats lib t = .ok es := by
        unfold specParseEgressStats
        rw [parseRows_of_forall₂ _ t [] es hall2]
        simp
      obtain ⟨h1, h2, h3⟩ := key _ es hspec
      refine ⟨h1, ?_, h3⟩
      intro i row hi
      obtain ⟨rec, hr, hf⟩ := h2 i row hi
      refine ⟨rec, hr, ?_⟩
      cases hp : parseFlowStatsRow lib row with
      | error e => rw [hp] at hf; simp at hf
      | ok p =>
        rw [hp] at hf
        simp only [Except.ok.injEq] at hf
        subst hf
        exact ⟨rfl, rfl, parseFlowStatsRow_ok lib row p hp⟩

/-- Witness for C9: a Port CPU table with the same row twice around another row. -/
theorem view_parsers_keep_rows_witness :
    Table.ParsePortCPUStats sampleLib
        [⟨[("Port Name", "ixia2/port1"), ("%CPU Load", "1")]⟩,
         ⟨[("Port Name", "ixia2/port2"), ("%CPU Load", "2")]⟩,
         ⟨[("Port Name", "ixia2/port1"), ("%CPU Load", "1")]⟩]
      = .ok [⟨"ixia2/port1", none, none, some 1⟩, ⟨"ixia2/port2", none, none, some 2⟩,
             ⟨"ixia2/port1", none, none, some 1⟩] ∧
    ([⟨"ixia2/port1", none, none, some 1⟩, ⟨"ixia2/port2", none, none, some 2⟩,
      ⟨"ixia2/port1", none, none, some 1⟩] : List PortCPUStats).length = 3 :=
  ⟨rfl, ((view_parsers_keep_rows sampleLib
      [⟨[("Port Name", "ixia2/port1"), ("%CPU Load", "1")]⟩,
       ⟨[("Port Name", "ixia2/port2"), ("%CPU Load", "2")]⟩,
       ⟨[("Port Name", "ixia2/port1"), ("%CPU Load", "1")]⟩]).2.1 _ rfl).1⟩

/-- C10: the egress parser is the flow parser plus a filter.  It never panics
and agrees with the one-pass wording of the specification; it fails exactly
when the flow parser fails, with the same error; when the flow parser returns
`ps`, it returns records whose flow records are `ps` in order and whose filters
are the "Egress Tracking" columns of the rows in order, the empty string where
that column is absent. -/
theorem egress_stats_refine_flow_stats (lib : GoLib) (t : Table) :
    Table.ParseEgressStats lib t = some (specParseEgressStats lib t) ∧
    (∀ e, Table.ParseEgressStats lib t = some (.error e) ↔ Table.ParseFlowStats lib t = .error e) ∧
    (∀ ps, Table.ParseFlowStats lib t = .ok ps →
      ∃ es, Table.ParseEgressStats lib t = some (.ok es) ∧
        es.map (fun rec => rec.FlowStats) = ps ∧
        es.map (fun rec => rec.Filter) = t.map (fun row => Row.get row "Egress Tracking") ∧
        es.length = t.length) ∧
    (∀ row : Row, Row.find? row "Egress Tracking" = none → Row.get row "Egress Tracking" = "") := by
  have hzip : ∀ ps : List FlowStats, t.length = ps.length →
      (List.zipWith (fun row p => ({ FlowStats := p, Filter := Row.get row "Egress Tracking" }
        : EgressStats)) t ps).map (fun rec => rec.FlowStats) = ps ∧
      (List.zipWith (fun row p => ({ FlowStats := p, Filter := Row.get row "Egress Tracking" }
        : EgressStats)) t ps).map (fun rec => rec.Filter)
        = t.map (fun row => Row.get row "Egress Tracking") := by
    intro ps
    induction t generalizing ps with
    | nil => intro h; cases ps with
      | nil => simp
      | cons p ps => simp at h
    | cons row rows ih =>
      intro h
      cases ps with
      | nil => simp at h
      | cons p ps =>
        obtain ⟨h1, h2⟩ := ih ps (by simpa using h)
        simp only [List.zipWith_cons_cons, List.map_cons, h1, h2, and_self]
  refine ⟨stats.ParseEgressStats_eq_spec lib t, ?_, ?_, ?_⟩
  · intro e
    rw [ParseEgressStats_eq]
    cases hfs : Table.ParseFlowStats lib t <;> simp
  · intro ps hps
    obtain ⟨recs1, hrecs, hall⟩ := parseRows_ok _ t [] ps hps
    simp only [List.nil_append] at hrecs
    subst hrecs
    obtain ⟨h1, h2⟩ := hzip ps hall.length_eq
    refine ⟨_, by rw [ParseEgressStats_eq, hps], h1, h2, ?_⟩
    simp [List.length_zipWith, hall.length_eq]
  · intro row h
    exact Row.get_of_absent_or_empty row _ (Or.inl h)

namespace oc

theorem span_slash (l rest : List Char) (h : ∀ c ∈ l, c ≠ '/') :
    (l ++ '/' :: rest).span (fun c => decide (c ≠ '/')) = (l, '/' :: rest) := by
  rw [List.span_eq_take_drop]
  have hp : ∀ a ∈ l, (fun c => decide (c ≠ '/')) a = true := by
    intro a ha
    simpa using h a ha
  rw [List.takeWhile_append_of_pos hp, List.dropWhile_append_of_pos hp]
  simp [List.takeWhile_cons, List.dropWhile_cons]

theorem span_no_slash (l : List Char) (h : ∀ c ∈ l, c ≠ '/') :
    l.span (fun c => decide (c ≠ '/')) = (l, []) := by
  rw [List.span_eq_take_drop]
  have hp : ∀ a ∈ l, (fun c => decide (c ≠ '/')) a = true := by
    intro a ha
    simpa using h a ha
  have h1 : (l ++ []).takeWhile (fun c => decide (c ≠ '/'))
      = l ++ ([] : List Char).takeWhile (fun c => decide (c ≠ '/')) :=
    List.takeWhile_append_of_pos hp
  have h2 : (l ++ []).dropWhile (fun c => decide (c ≠ '/'))
      = ([] : List Char).dropWhile (fun c => decide (c ≠ '/')) :=
    List.dropWhile_append_of_pos hp
  simp only [List.append_nil, List.takeWhile_nil, List.dropWhile_nil] at h1 h2
  rw [h1, h2]

/-- Every text splits at its first `/`, if it has one. -/
theorem split_first_slash (l : List Char) :
    (∀ c ∈ l, c ≠ '/') ∨ ∃ pre rest, l = pre ++ '/' :: rest ∧ ∀ c ∈ pre, c ≠ '/' := by
  induction l with
  | nil => exact Or.inl (by simp)
  | cons a as ih =>
    by_cases ha : a = '/'
    · exact Or.inr ⟨[], as, by simp [ha], by simp⟩
    · rcases ih with h | ⟨pre, rest, hl, hpre⟩
      · refine Or.inl ?_
        intro c hc
        rcases List.mem_cons.1 hc with h1 | h1
        · rw [h1]; exact ha
        · exact h c h1
      · refine Or.inr ⟨a :: pre, rest, by simp [hl], ?_⟩
        intro c hc
        rcases List.mem_cons.1 hc with h1 | h1
        · rw [h1]; exact ha
        · exact hpre c h1

/-- The short port name of a text with a `/`: the text after the first `/`,
an error when that text is empty. -/
theorem shortPortName_of_slash (pre rest : List Char) (h : ∀ c ∈ pre, c ≠ '/') :
    shortPortName ⟨pre ++ '/' :: rest⟩ =
      if rest = [] then .error (.invalidPortName ⟨pre ++ '/' :: rest⟩) else .ok ⟨rest⟩ := by
  unfold shortPortName SplitAfterN
  simp only [span_slash pre rest h]
  cases rest with
  | nil => simp [String.length]
  | cons a as => simp [String.length]

theorem shortPortName_of_no_slash (s : String) (h : ∀ c ∈ s.data, c ≠ '/') :
    shortPortName s = .error (.invalidPortName s) := by
  unfold shortPortName SplitAfterN
  simp only [span_no_slash s.data h]

end oc

/-! ## Short port names and MPLS labels: properties -/

/-- C11 (amended): `shortPortName` splits at the first `/`.  For every port
name `pre ++ "/" ++ suffix` in which `pre` holds no `/` and `suffix` is not
empty it returns exactly `suffix` and no error; it returns a text exactly for
the names of that form; and for every port name that is not of the form
`pre ++ "/" ++ suffix` with a non-empty suffix at all (no `/`, or nothing after
its `/`) it returns an error. -/
theorem short_port_name_splits_at_first_slash :
    (∀ pre suffix : String, (∀ c ∈ pre.data, c ≠ '/') → suffix ≠ "" →
      shortPortName (pre ++ "/" ++ suffix) = .ok suffix) ∧
    (∀ s t : String, shortPortName s = .ok t ↔
      t ≠ "" ∧ ∃ pre : String, (∀ c ∈ pre.data, c ≠ '/') ∧ s = pre ++ "/" ++ t) ∧
    (∀ s : String, (¬ ∃ pre suffix : String, suffix ≠ "" ∧ s = pre ++ "/" ++ suffix) →
      shortPortName s = .error (.invalidPortName s)) ∧
    (∀ s : String, (∀ c ∈ s.data, c ≠ '/') → shortPortName s = .error (.invalidPortName s)) ∧
    (∀ pre : String, (∀ c ∈ pre.data, c ≠ '/') →
      shortPortName (pre ++ "/") = .error (.invalidPortName (pre ++ "/"))) := by
  have hform : ∀ pre suffix : String, pre ++ "/" ++ suffix = ⟨pre.data ++ '/' :: suffix.data⟩ := by
    intro pre suffix
    apply String.ext
    simp [String.data_append]
  have hne : ∀ t : String, t ≠ "" ↔ t.data ≠ [] := by
    intro t
    constructor
    · intro h hd
      exact h (String.ext hd)
    · intro h ht
      exact h (by rw [ht])
  have hok : ∀ pre suffix : String, (∀ c ∈ pre.data, c ≠ '/') → suffix ≠ "" →
      shortPortName (pre ++ "/" ++ suffix) = .ok suffix := by
    intro pre suffix hpre hsuf
    rw [hform, shortPortName_of_slash pre.data suffix.data hpre, if_neg ((hne suffix).1 hsuf)]
  have hiff : ∀ s t : String, shortPortName s = .ok t ↔
      t ≠ "" ∧ ∃ pre : String, (∀ c ∈ pre.data, c ≠ '/') ∧ s = pre ++ "/" ++ t := by
    intro s t
    constructor
    · intro h
      rcases split_first_slash s.data with hno | ⟨pre, rest, hs, hpre⟩
      · rw [shortPortName_of_no_slash s hno] at h
        exact Except.noConfusion h
      · have hs1 : s = ⟨pre ++ '/' :: rest⟩ := String.ext hs
        rw [hs1, shortPortName_of_slash pre rest hpre] at h
        by_cases hr : rest = []
        · rw [if_pos hr] at h
          exact Except.noConfusion h
        · rw [if_neg hr] at h
          injection h with h
          subst h
          exact ⟨(hne _).2 hr, ⟨pre⟩, hpre, by rw [hs1, hform]⟩
    · rintro ⟨ht, pre, hpre, hs⟩
      rw [hs]
      exact hok pre t hpre ht
  refine ⟨hok, hiff, ?_, fun s h => shortPortName_of_no_slash s h, ?_⟩
  · intro s hs
    rcases split_first_slash s.data with hno | ⟨pre, rest, hd, hpre⟩
    · exact shortPortName_of_no_slash s hno
    · have hs1 : s = ⟨pre ++ '/' :: rest⟩ := String.ext hd
      by_cases hr : rest = []
      · rw [hs1, shortPortName_of_slash pre rest hpre, if_pos hr]
      · exact absurd ⟨⟨pre⟩, ⟨rest⟩, (hne _).2 hr, by rw [hs1, hform]⟩ hs
  · intro pre hpre
    have h1 : pre ++ "/" = ⟨pre.data ++ '/' :: []⟩ := by
      apply String.ext
      simp [String.data_append]
    rw [h1, shortPortName_of_slash pre.data [] hpre, if_pos rfl]

/-- Witness for C11 (amended): the port names of the tests. -/
theorem short_port_name_splits_at_first_slash_witness :
    shortPortName ("ixia2" ++ "/" ++ "port1") = .ok "port1" ∧
    shortPortName "port2" = .error (.invalidPortName "port2") :=
  ⟨short_port_name_splits_at_first_slash.1 "ixia2" "port1" (by decide) (by decide),
   short_port_name_splits_at_first_slash.2.2.2.1 "port2" (by decide)⟩

/-- Counterexample to C11 as stated: `ixia/card1/port1` is `ixia/card1`, a `/`
and the non-empty suffix `port1`, but the short name returned is the text after
the first `/`, `card1/port1`. -/
theorem short_port_name_counterexample :
    "port1" ≠ "" ∧
    shortPortName ("ixia/card1" ++ "/" ++ "port1") = .ok "card1/port1" ∧
    "card1/port1" ≠ "port1" :=
  ⟨by decide, rfl, by decide⟩

/-- C12: `mplsLabelFromUint` is the closed lookup table: an absent label gives
NO_LABEL; 0, 1, 2, 3 and 7 give their enumerated values; every value above
`2 ^ 32 - 1` gives UNSET; every other value is returned as the raw label with
the same numeric value. -/
theorem mpls_label_lookup :
    mplsLabelFromUint none = .NO_LABEL ∧
    mplsLabelFromUint (some 0) = .IPV4_EXPLICIT_NULL ∧
    mplsLabelFromUint (some 1) = .ROUTER_ALERT ∧
    mplsLabelFromUint (some 2) = .IPV6_EXPLICIT_NULL ∧
    mplsLabelFromUint (some 3) = .IMPLICIT_NULL ∧
    mplsLabelFromUint (some 7) = .ENTROPY_LABEL_INDICATOR ∧
    (∀ n : Nat, n > 2 ^ 32 - 1 → mplsLabelFromUint (some n) = .UNSET) ∧
    (∀ n : Nat, n ≤ 2 ^ 32 - 1 → n ≠ 0 → n ≠ 1 → n ≠ 2 → n ≠ 3 → n ≠ 7 →
      mplsLabelFromUint (some n) = .UnionUint32 n) := by
  refine ⟨rfl, rfl, rfl, rfl, rfl, rfl, ?_, ?_⟩
  · intro n hn
    have h0 : n ≠ 0 := by omega
    have h1 : n ≠ 1 := by omega
    have h2 : n ≠ 2 := by omega
    have h3 : n ≠ 3 := by omega
    have h7 : n ≠ 7 := by omega
    simp only [mplsLabelFromUint, h0, h1, h2, h3, h7, if_false, maxUint32, hn, if_true]
  · intro n hn h0 h1 h2 h3 h7
    have hgt : ¬ n > 2 ^ 32 - 1 := by omega
    have hmod : n % 2 ^ 32 = n := by omega
    simp only [mplsLabelFromUint, h0, h1, h2, h3, h7, if_false, maxUint32, hgt, hmod]

/-- Witness for C12: the values of the test, and the first and last raw labels. -/
theorem mpls_label_lookup_witness :
    mplsLabelFromUint (some 200) = .UnionUint32 200 ∧
    mplsLabelFromUint (some (2 ^ 32)) = .UNSET ∧
    mplsLabelFromUint (some 4) = .UnionUint32 4 ∧
    mplsLabelFromUint (some (2 ^ 32 - 1)) = .UnionUint32 (2 ^ 32 - 1) :=
  ⟨mpls_label_lookup.2.2.2.2.2.2.2 200 (by decide) (by decide) (by decide) (by decide)
      (by decide) (by decide),
   mpls_label_lookup.2.2.2.2.2.2.1 (2 ^ 32) (by decide),
   mpls_label_lookup.2.2.2.2.2.2.2 4 (by decide) (by decide) (by decide) (by decide)
      (by decide) (by decide),
   mpls_label_lookup.2.2.2.2.2.2.2 (2 ^ 32 - 1) (by decide) (by decide) (by decide) (by decide)
      (by decide) (by decide)⟩

/-! ## Lemmas on the Port Statistics translator -/

namespace GoMap

variable {κ ν : Type} [DecidableEq κ]

theorem get?_getOrCreate_same (m : GoMap κ ν) (k : κ) (v0 : ν) :
    (m.getOrCreate k v0).get? k = some ((m.get? k).getD v0) := by
  unfold getOrCreate
  cases h : m.get? k with
  | some v => simp [h]
  | none => simp [get?_set_self]

theorem get?_modify_same (m : GoMap κ ν) (k : κ) (f : ν → ν) :
    (m.modify k f).get? k = (m.get? k).map f := by
  rw [get?_modify]
  simp

theorem get?_modify_ne (m : GoMap κ ν) (k k1 : κ) (f : ν → ν) (h : k1 ≠ k) :
    (m.modify k f).get? k1 = m.get? k1 := by
  rw [get?_modify]
  simp [h]

end GoMap

namespace oc

theorem portRowFields_get?_ne (row : PortStats) (s k : String) (d : Device) (h : k ≠ s) :
    (portRowFields row s d).Interface.get? k = d.Interface.get? k := by
  unfold portRowFields
  simp only [Device.updateInterface, Device.GetOrCreateInterface, GoMap.get?_modify_ne _ _ _ _ h,
    GoMap.get?_getOrCreate_ne _ _ _ _ h]

theorem linkStateSwitch_get?_ne (row : PortStats) (s k : String) (d d1 : Device) (h : k ≠ s)
    (hs : linkStateSwitch row s d = .ok d1) : d1.Interface.get? k = d.Interface.get? k := by
  unfold linkStateSwitch at hs
  split at hs
  · injection hs with hs; rw [← hs]
  · split at hs
    · injection hs with hs; rw [← hs]; exact GoMap.get?_modify_ne _ _ _ _ h
    · split at hs
      · injection hs with hs; rw [← hs]; exact GoMap.get?_modify_ne _ _ _ _ h
      · exact Except.noConfusion hs

theorem lineSpeedSwitch_get?_ne (row : PortStats) (s k : String) (d d1 : Device) (h : k ≠ s)
    (hs : lineSpeedSwitch row s d = .ok d1) : d1.Interface.get? k = d.Interface.get? k := by
  unfold lineSpeedSwitch at hs
  split at hs
  · injection hs with hs; rw [← hs]
  · split at hs
    · injection hs with hs; rw [← hs]; exact GoMap.get?_modify_ne _ _ _ _ h
    · split at hs
      · injection hs with hs; rw [← hs]; exact GoMap.get?_modify_ne _ _ _ _ h
      · exact Except.noConfusion hs

/-- An iteration of the Port Statistics loop leaves the other interfaces alone. -/
theorem portRow_get?_ne (row : PortStats) (s k : String) (d d1 : Device) (h : k ≠ s)
    (hr : portRow row s d = .ok d1) : d1.Interface.get? k = d.Interface.get? k := by
  unfold portRow at hr
  cases h3 : linkStateSwitch row s (portRowFields row s d) with
  | error e => rw [h3] at hr; exact Except.noConfusion hr
  | ok d3 =>
    rw [h3] at hr
    rw [lineSpeedSwitch_get?_ne row s k d3 d1 h hr, linkStateSwitch_get?_ne row s k _ d3 h h3,
      portRowFields_get?_ne row s k d h]

theorem portRowFields_get? (row : PortStats) (s : String) (d : Device) :
    (portRowFields row s d).Interface.get? s =
      some (portWrite { row with LinkState := "", LineSpeed := "" }
        ((d.Interface.get? s).getD { Name := some s })) := by
  unfold portRowFields
  simp only [Device.updateInterface, Device.GetOrCreateInterface, GoMap.get?_modify_same,
    GoMap.get?_getOrCreate_same, Option.map_some']
  rfl

theorem linkStateSwitch_get? (row : PortStats) (s : String) (d d1 : Device)
    (hs : linkStateSwitch row s d = .ok d1) :
    row.LinkState ∈ knownLinkStates ∧
    d1.Interface.get? s = (d.Interface.get? s).map
      (fun i => { i with OperStatus := operStatusAfter row.LinkState i.OperStatus }) := by
  unfold linkStateSwitch at hs
  split at hs
  · rename_i h
    injection hs with hs
    rw [← hs, h]
    refine ⟨by simp [knownLinkStates], ?_⟩
    cases d.Interface.get? s <;> rfl
  · split at hs
    · rename_i h
      injection hs with hs
      rw [← hs, h]
      refine ⟨by simp [knownLinkStates], ?_⟩
      show (GoMap.modify _ _ _).get? s = _
      rw [GoMap.get?_modify_same]
      rfl
    · split at hs
      · rename_i h0 h1 h
        injection hs with hs
        rw [← hs]
        refine ⟨by rcases h with h | h <;> simp [knownLinkStates, h], ?_⟩
        show (GoMap.modify _ _ _).get? s = _
        rw [GoMap.get?_modify_same]
        congr 1
        funext i
        simp [operStatusAfter, h1, h]
      · exact Except.noConfusion hs

theorem lineSpeedSwitch_get? (row : PortStats) (s : String) (d d1 : Device)
    (hs : lineSpeedSwitch row s d = .ok d1) :
    row.LineSpeed ∈ knownLineSpeeds ∧
    ∀ i, d.Interface.get? s = some i → (∃ e, i.Ethernet = some e) →
      d1.Interface.get? s = some { i with Ethernet := some { i.GetOrCreateEthernet with
        PortSpeed := portSpeedAfter row.LineSpeed i.GetOrCreateEthernet.PortSpeed } } := by
  unfold lineSpeedSwitch at hs
  split at hs
  · rename_i h
    injection hs with hs
    rw [← hs, h]
    refine ⟨by simp [knownLineSpeeds], ?_⟩
    rintro i hi ⟨e, he⟩
    rw [hi]
    congr 1
    obtain ⟨n, c, eth, ir, orate, t, os⟩ := i
    simp only at he
    subst he
    rfl
  · split at hs
    · rename_i h
      injection hs with hs
      rw [← hs, h]
      refine ⟨by simp [knownLineSpeeds], ?_⟩
      intro i hi _
      show (GoMap.modify _ _ _).get? s = _
      rw [GoMap.get?_modify_same, hi]
      rfl
    · split at hs
      · rename_i h0 h1 h
        injection hs with hs
        rw [← hs, h]
        refine ⟨by simp [knownLineSpeeds], ?_⟩
        intro i hi _
        show (GoMap.modify _ _ _).get? s = _
        rw [GoMap.get?_modify_same, hi]
        rfl
      · exact Except.noConfusion hs

/-- A successful iteration of the Port Statistics loop leaves, under the short
port name, the closed form `portWrite` of the interface it found there (a new
interface carrying its name when there was none). -/
theorem portRow_get? (row : PortStats) (s : String) (d d1 : Device)
    (hr : portRow row s d = .ok d1) :
    row.LinkState ∈ knownLinkStates ∧ row.LineSpeed ∈ knownLineSpeeds ∧
    d1.Interface.get? s = some (portWrite row ((d.Interface.get? s).getD { Name := some s })) := by
  unfold portRow at hr
  cases h3 : linkStateSwitch row s (portRowFields row s d) with
  | error e => rw [h3] at hr; exact Except.noConfusion hr
  | ok d3 =>
    rw [h3] at hr
    obtain ⟨hl, h4⟩ := linkStateSwitch_get? row s _ d3 h3
    rw [portRowFields_get?] at h4
    obtain ⟨hsp, h5⟩ := lineSpeedSwitch_get? row s d3 d1 hr
    refine ⟨hl, hsp, ?_⟩
    rw [h5 _ h4 ⟨_, rfl⟩]
    rfl

end oc

namespace oc

theorem linkStateSwitch_ok (row : PortStats) (s : String) (d : Device)
    (h : row.LinkState ∈ knownLinkStates) : ∃ d1, linkStateSwitch row s d = .ok d1 := by
  unfold linkStateSwitch
  simp only [knownLinkStates, List.mem_cons, List.mem_singleton, List.not_mem_nil, or_false] at h
  rcases h with h | h | h | h <;> simp [h]

theorem lineSpeedSwitch_ok (row : PortStats) (s : String) (d : Device)
    (h : row.LineSpeed ∈ knownLineSpeeds) : ∃ d1, lineSpeedSwitch row s d = .ok d1 := by
  unfold lineSpeedSwitch
  simp only [knownLineSpeeds, List.mem_cons, List.mem_singleton, List.not_mem_nil, or_false] at h
  rcases h with h | h | h <;> simp [h]

/-- An iteration of the Port Statistics loop succeeds exactly on a mappable
link state and a mappable line speed. -/
theorem portRow_ok_iff (row : PortStats) (s : String) (d : Device) :
    (∃ d1, portRow row s d = .ok d1) ↔
      row.LinkState ∈ knownLinkStates ∧ row.LineSpeed ∈ knownLineSpeeds := by
  constructor
  · rintro ⟨d1, h⟩
    obtain ⟨h1, h2, _⟩ := portRow_get? row s d d1 h
    exact ⟨h1, h2⟩
  · rintro ⟨h1, h2⟩
    obtain ⟨d3, h3⟩ := linkStateSwitch_ok row s (portRowFields row s d) h1
    obtain ⟨d4, h4⟩ := lineSpeedSwitch_ok row s d3 h2
    exact ⟨d4, by unfold portRow; rw [h3]; exact h4⟩

/-- The error an iteration of the Port Statistics loop returns names the first
unmappable text: the link state before the line speed. -/
theorem portRow_error (row : PortStats) (s : String) (d : Device) (e : Error)
    (h : portRow row s d = .error e) :
    (row.LinkState ∉ knownLinkStates ∧ e = .linkState row.PortName row.LinkState) ∨
    (row.LinkState ∈ knownLinkStates ∧ row.LineSpeed ∉ knownLineSpeeds ∧
      e = .linkSpeed row.PortName row.LineSpeed) := by
  unfold portRow at h
  cases h3 : linkStateSwitch row s (portRowFields row s d) with
  | error e1 =>
    rw [h3] at h
    injection h with h
    subst h
    left
    unfold linkStateSwitch at h3
    split at h3
    · exact Except.noConfusion h3
    · split at h3
      · exact Except.noConfusion h3
      · split at h3
        · exact Except.noConfusion h3
        · rename_i h0 h1 h2
          injection h3 with h3
          refine ⟨?_, h3.symm⟩
          simp only [knownLinkStates, List.mem_cons, List.mem_singleton, List.not_mem_nil,
            or_false]
          tauto
  | ok d3 =>
    rw [h3] at h
    simp only at h
    right
    refine ⟨(linkStateSwitch_get? row s _ d3 h3).1, ?_⟩
    unfold lineSpeedSwitch at h
    split at h
    · exact Except.noConfusion h
    · split at h
      · exact Except.noConfusion h
      · split at h
        · exact Except.noConfusion h
        · rename_i h0 h1 h2
          injection h with h
          refine ⟨?_, h.symm⟩
          simp only [knownLineSpeeds, List.mem_cons, List.mem_singleton, List.not_mem_nil,
            or_false]
          tauto

theorem portLoop_cons (row : PortStats) (rows : List PortStats) (d : Device) :
    portLoop (row :: rows) d =
      match shortPortName row.PortName with
      | .error err => .error err
      | .ok portName =>
        match portRow row portName d with
        | .error err => .error err
        | .ok d => portLoop rows d := rfl

theorem portLoop_append (a b : List PortStats) (d : Device) :
    portLoop (a ++ b) d =
      match portLoop a d with
      | .error e => .error e
      | .ok d2 => portLoop b d2 := by
  induction a generalizing d with
  | nil => rfl
  | cons r rs ih =>
    rw [List.cons_append, portLoop_cons, portLoop_cons]
    cases shortPortName r.PortName with
    | error e => rfl
    | ok s =>
      simp only
      cases portRow r s d with
      | error e => rfl
      | ok d2 => exact ih d2

/-- Rows for other ports leave the interface `s` as it was. -/
theorem portLoop_frame (rows : List PortStats) (d d1 : Device) (s : String)
    (h : portLoop rows d = .ok d1) (hs : ∀ r ∈ rows, shortPortName r.PortName ≠ .ok s) :
    d1.Interface.get? s = d.Interface.get? s := by
  induction rows generalizing d with
  | nil =>
    simp only [portLoop, Except.ok.injEq] at h
    rw [h]
  | cons r rs ih =>
    rw [portLoop_cons] at h
    cases h1 : shortPortName r.PortName with
    | error e => rw [h1] at h; exact Except.noConfusion h
    | ok s1 =>
      rw [h1] at h
      simp only at h
      cases h2 : portRow r s1 d with
      | error e => rw [h2] at h; exact Except.noConfusion h
      | ok d2 =>
        rw [h2] at h
        have hne : s ≠ s1 := by
          intro hss
          exact hs r (List.mem_cons_self _ _) (by rw [h1, hss])
        rw [ih d2 h (fun x hx => hs x (List.mem_cons_of_mem _ hx)),
          portRow_get?_ne r s1 s d d2 hne h2]

/-- The Port Statistics loop succeeds exactly when every record has a
well-formed port name, a mappable link state and a mappable line speed. -/
theorem portLoop_ok_iff (rows : List PortStats) (d : Device) :
    (∃ d1, portLoop rows d = .ok d1) ↔
      ∀ r ∈ rows, (∃ s, shortPortName r.PortName = .ok s) ∧
        r.LinkState ∈ knownLinkStates ∧ r.LineSpeed ∈ knownLineSpeeds := by
  induction rows generalizing d with
  | nil => simp [portLoop]
  | cons r rs ih =>
    rw [portLoop_cons]
    constructor
    · rintro ⟨d1, h⟩
      cases h1 : shortPortName r.PortName with
      | error e => rw [h1] at h; exact Except.noConfusion h
      | ok s1 =>
        rw [h1] at h
        simp only at h
        cases h2 : portRow r s1 d with
        | error e => rw [h2] at h; exact Except.noConfusion h
        | ok d2 =>
          rw [h2] at h
          intro x hx
          rcases List.mem_cons.1 hx with hx | hx
          · subst hx
            exact ⟨⟨s1, h1⟩, (portRow_ok_iff x s1 d).1 ⟨d2, h2⟩⟩
          · exact (ih d2).1 ⟨d1, h⟩ x hx
    · intro h
      obtain ⟨⟨s1, h1⟩, h2⟩ := h r (List.mem_cons_self _ _)
      obtain ⟨d2, hd2⟩ := (portRow_ok_iff r s1 d).2 h2
      rw [h1]
      simp only [hd2]
      exact (ih d2).2 (fun x hx => h x (List.mem_cons_of_mem _ hx))

/-- The interface under the short name of a record that no later record
shares: the closed form `portWrite` of the interface the records before it
left there. -/
theorem portLoop_last (pre post : List PortStats) (r : PortStats) (d d1 : Device) (s : String)
    (h : portLoop (pre ++ r :: post) d = .ok d1) (hs : shortPortName r.PortName = .ok s)
    (hpost : ∀ x ∈ post, shortPortName x.PortName ≠ .ok s) :
    ∃ d2, portLoop pre d = .ok d2 ∧
      d1.Interface.get? s = some (portWrite r ((d2.Interface.get? s).getD { Name := some s })) := by
  rw [portLoop_append] at h
  cases h2 : portLoop pre d with
  | error e => rw [h2] at h; exact Except.noConfusion h
  | ok d2 =>
    rw [h2] at h
    simp only at h
    rw [portLoop_cons, hs] at h
    simp only at h
    cases h3 : portRow r s d2 with
    | error e => rw [h3] at h; exact Except.noConfusion h
    | ok d3 =>
      rw [h3] at h
      simp only at h
      refine ⟨d2, rfl, ?_⟩
      rw [portLoop_frame post d3 d1 s h hpost]
      exact (portRow_get? r s d2 d3 h3).2.2

end oc

/-! ## Records and columns -/

namespace stats

/-- A column that is not listed, or is empty, keeps the binding it had before the loop. -/
theorem parseFloats_get?_unset (lib : GoLib) (r : Row) (name : String) (ks : List String)
    (fl0 fl : GoMap String Nat) (h : parseFloats lib r name ks fl0 = .ok fl) (k : String)
    (hk : k ∉ ks ∨ Row.get r k = "") : fl.get? k = fl0.get? k := by
  induction ks generalizing fl0 with
  | nil =>
    simp only [parseFloats] at h
    injection h with h
    rw [h]
  | cons k1 ks ih =>
    have hk1 : k ∉ ks ∨ Row.get r k = "" := by
      rcases hk with hk | hk
      · exact Or.inl (fun hm => hk (List.mem_cons_of_mem _ hm))
      · exact Or.inr hk
    by_cases he : Row.get r k1 = ""
    · simp only [parseFloats, lookup, he, if_true] at h
      exact ih fl0 h hk1
    · simp only [parseFloats, lookup, he, if_false] at h
      cases hp : strconv.ParseFloat lib (Row.get r k1) with
      | error err => rw [hp] at h; simp at h
      | ok i =>
        rw [hp] at h
        simp only at h
        rw [ih (fl0.set k1 i) h hk1]
        apply GoMap.get?_set_ne
        intro hkk
        subst hkk
        rcases hk with hk | hk
        · exact hk (List.mem_cons_self _ _)
        · exact he hk

/-- A listed column holding parseable text is bound to the parsed value. -/
theorem parseFloats_get?_set (lib : GoLib) (r : Row) (name : String) (ks : List String)
    (fl0 fl : GoMap String Nat) (h : parseFloats lib r name ks fl0 = .ok fl) (k : String)
    (hk : k ∈ ks) (hne : Row.get r k ≠ "") (i : Nat)
    (hi : strconv.ParseFloat lib (Row.get r k) = .ok i) : fl.get? k = some i := by
  induction ks generalizing fl0 with
  | nil => simp at hk
  | cons k1 ks ih =>
    by_cases hmem : k ∈ ks
    · by_cases he : Row.get r k1 = ""
      · simp only [parseFloats, lookup, he, if_true] at h
        exact ih fl0 h hmem
      · simp only [parseFloats, lookup, he, if_false] at h
        cases hp : strconv.ParseFloat lib (Row.get r k1) with
        | error err => rw [hp] at h; simp at h
        | ok i1 =>
          rw [hp] at h
          exact ih (fl0.set k1 i1) h hmem
    · have hkk : k = k1 := by
        rcases List.mem_cons.1 hk with h1 | h1
        · exact h1
        · exact absurd h1 hmem
      subst hkk
      simp only [parseFloats, lookup, hne, if_false, hi] at h
      rw [parseFloats_get?_unset lib r name ks _ fl h k (Or.inl hmem)]
      exact GoMap.get?_set_self _ _ _

/-- The float map of a successful parse is the one the float loop built. -/
theorem Row.parse_floats (lib : GoLib) (r : Row) (nameKey : String)
    (strKeys intKeys floatKeys : List String) (ints floats : GoMap String Nat)
    (h : Row.parse lib r nameKey strKeys intKeys floatKeys = .ok (ints, floats)) :
    parseFloats lib r (Row.get r nameKey) floatKeys GoMap.empty = .ok floats := by
  by_cases hname : Row.get r nameKey = ""
  · simp [Row.parse, hname] at h
  · rw [Row.parse_of_name lib r nameKey strKeys intKeys floatKeys hname] at h
    cases hi : parseInts r (Row.get r nameKey) intKeys GoMap.empty with
    | error e => rw [hi] at h; simp at h
    | ok ints1 =>
      rw [hi] at h
      cases hf : parseFloats lib r (Row.get r nameKey) floatKeys GoMap.empty with
      | error e => rw [hf] at h; simp at h
      | ok fl1 =>
        rw [hf] at h
        simp only [Except.ok.injEq, Prod.mk.injEq] at h
        rw [h.2]

/-- A row that parses has an identity value. -/
theorem Row.parse_name_ne (lib : GoLib) (r : Row) (nameKey : String)
    (strKeys intKeys floatKeys : List String) (v : GoMap String Nat × GoMap String Nat)
    (h : Row.parse lib r nameKey strKeys intKeys floatKeys = .ok v) : Row.get r nameKey ≠ "" := by
  intro hname
  simp [Row.parse, hname] at h

/-- The integer map of a successful parse binds every listed column to `intColumn`. -/
theorem Row.parse_int_column (lib : GoLib) (r : Row) (nameKey : String)
    (strKeys intKeys floatKeys : List String) (ints floats : GoMap String Nat)
    (h : Row.parse lib r nameKey strKeys intKeys floatKeys = .ok (ints, floats))
    (k : String) (hk : k ∈ intKeys) : ints.get? k = intColumn r k := by
  have hname := Row.parse_name_ne lib r nameKey strKeys intKeys floatKeys _ h
  have hi := Row.parse_ints lib r nameKey strKeys intKeys floatKeys ints floats h
  have hb := ((Row.parse_ok_iff lib r nameKey strKeys intKeys floatKeys hname).1 ⟨_, h⟩).1 k hk
  unfold intColumn
  rcases (badInt_eq_false_iff r k).1 hb with he | ⟨i, hp⟩
  · rw [if_pos he, parseInts_get?_unset r _ intKeys _ ints hi k (Or.inr he)]
    rfl
  · by_cases he : Row.get r k = ""
    · rw [if_pos he, parseInts_get?_unset r _ intKeys _ ints hi k (Or.inr he)]
      rfl
    · rw [if_neg he, hp]
      exact parseInts_get?_set r _ intKeys _ ints hi k hk he i hp

/-- The float map of a successful parse binds every listed column to `floatColumn`. -/
theorem Row.parse_float_column (lib : GoLib) (r : Row) (nameKey : String)
    (strKeys intKeys floatKeys : List String) (ints floats : GoMap String Nat)
    (h : Row.parse lib r nameKey strKeys intKeys floatKeys = .ok (ints, floats))
    (k : String) (hk : k ∈ floatKeys) : floats.get? k = floatColumn lib r k := by
  have hname := Row.parse_name_ne lib r nameKey strKeys intKeys floatKeys _ h
  have hf := Row.parse_floats lib r nameKey strKeys intKeys floatKeys ints floats h
  have hb := ((Row.parse_ok_iff lib r nameKey strKeys intKeys floatKeys hname).1 ⟨_, h⟩).2 k hk
  unfold floatColumn
  rcases (badFloat_eq_false_iff lib r k).1 hb with he | ⟨i, hp⟩
  · rw [if_pos he, parseFloats_get?_unset lib r _ floatKeys _ floats hf k (Or.inr he)]
    rfl
  · by_cases he : Row.get r k = ""
    · rw [if_pos he, parseFloats_get?_unset lib r _ floatKeys _ floats hf k (Or.inr he)]
      rfl
    · rw [if_neg he, hp]
      exact parseFloats_get?_set lib r _ floatKeys _ floats hf k hk he i hp

/-- The record of a Port Statistics row, column by column. -/
theorem parsePortStatsRow_eq (lib : GoLib) (row : Row) (rec : PortStats)
    (h : parsePortStatsRow lib row = .ok rec) :
    Row.get row "Port Name" ≠ "" ∧
    rec = { PortName := Row.get row "Port Name"
            LineSpeed := Row.get row "Line Speed"
            LinkState := Row.get row "Link State"
            FramesTx := intColumn row "Frames Tx."
            FramesRx := intColumn row "Valid Frames Rx."
            BytesTx := intColumn row "Bytes Tx."
            BytesRx := intColumn row "Bytes Rx."
            CRCErrs := intColumn row "CRC Errors"
            TxRate := floatColumn lib row "Tx. Rate (bps)"
            RxRate := floatColumn lib row "Rx. Rate (bps)" } := by
  unfold parsePortStatsRow at h
  cases hp : Row.parse lib row "Port Name" portStrKeys portIntKeys portFloatKeys with
  | error e => rw [hp] at h; exact Except.noConfusion h
  | ok v =>
    obtain ⟨ints, floats⟩ := v
    rw [hp] at h
    simp only at h
    injection h with h
    refine ⟨Row.parse_name_ne lib row _ _ _ _ _ hp, ?_⟩
    rw [← h]
    have hi := fun k hk => Row.parse_int_column lib row _ _ _ _ ints floats hp k hk
    have hf := fun k hk => Row.parse_float_column lib row _ _ _ _ ints floats hp k hk
    rw [hi "Frames Tx." (by decide), hi "Valid Frames Rx." (by decide),
      hi "Bytes Tx." (by decide), hi "Bytes Rx." (by decide), hi "CRC Errors" (by decide),
      hf "Tx. Rate (bps)" (by decide), hf "Rx. Rate (bps)" (by decide)]

/-- The record of a Flow Statistics row, column by column. -/
theorem parseFlowStatsRow_eq (lib : GoLib) (row : Row) (rec : FlowStats)
    (h : parseFlowStatsRow lib row = .ok rec) :
    Row.get row "Traffic Item" ≠ "" ∧
    rec = { TrafficItem := Row.get row "Traffic Item"
            RxBytes := intColumn row "Rx Bytes"
            TxFrames := intColumn row "Tx Frames"
            RxFrames := intColumn row "Rx Frames"
            LossPct := floatColumn lib row "Loss %"
            TxRate := floatColumn lib row "Tx Rate (bps)"
            RxRate := floatColumn lib row "Rx Rate (bps)"
            TxFrameRate := floatColumn lib row "Tx Frame Rate"
            RxFrameRate := floatColumn lib row "Rx Frame Rate"
            RxPort := Row.get row "Rx Port"
            TxPort := Row.get row "Tx Port"
            MPLSLabel := intColumn row "MPLS:Label Value"
            SrcIPv4 := Row.get row "IPv4 :Source Address"
            DstIPv4 := Row.get row "IPv4 :Destination Address"
            SrcIPv6 := Row.get row "IPv6 :Source Address"
            DstIPv6 := Row.get row "IPv6 :Destination Address" } := by
  unfold parseFlowStatsRow at h
  cases hp : Row.parse lib row "Traffic Item" flowStrKeys flowIntKeys flowFloatKeys with
  | error e => rw [hp] at h; exact Except.noConfusion h
  | ok v =>
    obtain ⟨ints, floats⟩ := v
    rw [hp] at h
    simp only at h
    injection h with h
    refine ⟨Row.parse_name_ne lib row _ _ _ _ _ hp, ?_⟩
    rw [← h]
    have hi := fun k hk => Row.parse_int_column lib row _ _ _ _ ints floats hp k hk
    have hf := fun k hk => Row.parse_float_column lib row _ _ _ _ ints floats hp k hk
    rw [hi "Rx Bytes" (by decide), hi "Tx Frames" (by decide), hi "Rx Frames" (by decide),
      hi "MPLS:Label Value" (by decide), hf "Loss %" (by decide),
      hf "Tx Rate (bps)" (by decide), hf "Rx Rate (bps)" (by decide),
      hf "Tx Frame Rate" (by decide), hf "Rx Frame Rate" (by decide)]

/-- The records of a table split as the table does. -/
theorem forall₂_split {α β : Type} (R : α → β → Prop) (pre : List α) (a : α) (post : List α)
    (l : List β) (h : List.Forall₂ R (pre ++ a :: post) l) :
    ∃ lpre b lpost, l = lpre ++ b :: lpost ∧ List.Forall₂ R pre lpre ∧ R a b ∧
      List.Forall₂ R post lpost := by
  induction pre generalizing l with
  | nil =>
    cases h with
    | cons hab ht => exact ⟨[], _, _, rfl, List.Forall₂.nil, hab, ht⟩
  | cons x pre ih =>
    cases h with
    | cons hxb ht =>
      obtain ⟨lpre, b, lpost, hl, h1, h2, h3⟩ := ih _ ht
      exact ⟨_ :: lpre, b, lpost, by rw [hl]; rfl, List.Forall₂.cons hxb h1, h2, h3⟩

/-- A successful table loop over `pre ++ row :: post`: the records split in the
same way, and `pre` is itself a table that parses. -/
theorem parseRows_split {α : Type} (f : Row → Except Error α) (pre : Table) (row : Row)
    (post : Table) (recs : List α) (h : parseRows f (pre ++ row :: post) [] = .ok recs) :
    ∃ rpre r rpost, recs = rpre ++ r :: rpost ∧ parseRows f pre [] = .ok rpre ∧
      f row = .ok r ∧ List.Forall₂ (fun row rec => f row = .ok rec) post rpost := by
  obtain ⟨recs1, hres, hall⟩ := parseRows_ok f _ [] recs h
  obtain ⟨lpre, b, lpost, hl, h1, h2, h3⟩ := forall₂_split _ pre row post recs1 hall
  refine ⟨lpre, b, lpost, by rw [hres, hl]; rfl, ?_, h2, h3⟩
  rw [parseRows_of_forall₂ f pre [] lpre h1]
  rfl

end stats

namespace oc

theorem forall₂_exists_right {α β : Type} (R : α → β → Prop) (l1 : List α) (l2 : List β)
    (h : List.Forall₂ R l1 l2) : ∀ a ∈ l1, ∃ b ∈ l2, R a b := by
  induction h with
  | nil => intro a ha; simp at ha
  | cons hr _ ih =>
    intro a ha
    rcases List.mem_cons.1 ha with ha | ha
    · subst ha; exact ⟨_, List.mem_cons_self _ _, hr⟩
    · obtain ⟨b, hb, hab⟩ := ih a ha
      exact ⟨b, List.mem_cons_of_mem _ hb, hab⟩

/-- The Port Statistics translator never panics. -/
theorem translatePortStats_some (lib : GoLib) (tbl : Table) (itFlows : List String) :
    ∃ r, translatePortStats lib tbl itFlows = some r := by
  unfold translatePortStats
  cases Table.ParsePortStats lib tbl with
  | error e => exact ⟨_, rfl⟩
  | ok ps => exact ⟨_, rfl⟩

/-- The Port Statistics translator returns a tree exactly when every row
parses, has a well-formed port name, a mappable link state and a mappable line
speed. -/
theorem translatePortStats_ok_iff (lib : GoLib) (tbl : Table) (itFlows : List String) :
    (∃ d, translatePortStats lib tbl itFlows = some (.ok d)) ↔
      ∀ row ∈ tbl, rowParses lib "Port Name" portStrKeys portIntKeys portFloatKeys row ∧
        (∃ s, shortPortName (Row.get row "Port Name") = .ok s) ∧
        Row.get row "Link State" ∈ knownLinkStates ∧
        Row.get row "Line Speed" ∈ knownLineSpeeds := by
  unfold translatePortStats
  constructor
  · rintro ⟨d, h⟩
    cases hp : Table.ParsePortStats lib tbl with
    | error e => rw [hp] at h; simp at h
    | ok ps =>
      rw [hp] at h
      simp only [Option.some.injEq] at h
      obtain ⟨recs, hrecs, hall⟩ := stats.parseRows_ok _ tbl [] ps hp
      simp only [List.nil_append] at hrecs
      subst hrecs
      intro row hrow
      obtain ⟨rec, hrec, hf⟩ := forall₂_exists_right _ tbl ps hall row hrow
      obtain ⟨hs, h1, h2⟩ := (portLoop_ok_iff ps {}).1 ⟨d, h⟩ rec hrec
      obtain ⟨_, heq⟩ := stats.parsePortStatsRow_eq lib row rec hf
      rw [heq] at hs h1 h2
      exact ⟨(stats.parsePortStatsRow_ok_iff lib row).1 ⟨rec, hf⟩, hs, h1, h2⟩
  · intro h
    obtain ⟨recs, hall⟩ := stats.forall₂_of_all_ok (parsePortStatsRow lib) tbl
      (fun row hrow => (stats.parsePortStatsRow_ok_iff lib row).2 (h row hrow).1)
    have hp : Table.ParsePortStats lib tbl = .ok recs := by
      unfold Table.ParsePortStats
      rw [stats.parseRows_of_forall₂ _ tbl [] recs hall]
      rfl
    rw [hp]
    have hl : ∃ d1, portLoop recs {} = .ok d1 := by
      rw [portLoop_ok_iff]
      intro rec hrec
      obtain ⟨row, hrow, hf⟩ := forall₂_exists_left _ tbl recs hall rec hrec
      obtain ⟨_, heq⟩ := stats.parsePortStatsRow_eq lib row rec hf
      rw [heq]
      exact (h row hrow).2
    obtain ⟨d1, hd1⟩ := hl
    exact ⟨d1, by simp only [hd1]⟩

/-- The interface of a row that no later row of the table shares a port with:
the closed form `portWrite` of the interface the rows before it left there. -/
theorem translatePortStats_last (lib : GoLib) (pre post : Table) (row : Row)
    (itFlows : List String) (d : Device)
    (h : translatePortStats lib (pre ++ row :: post) itFlows = some (.ok d)) :
    ∃ rec s dpre, parsePortStatsRow lib row = .ok rec ∧
      shortPortName (Row.get row "Port Name") = .ok s ∧
      translatePortStats lib pre itFlows = some (.ok dpre) ∧
      ((∀ r ∈ post, shortPortName (Row.get r "Port Name") ≠ .ok s) →
        d.Interface.get? s
          = some (portWrite rec ((dpre.Interface.get? s).getD { Name := some s }))) ∧
      ((∀ r ∈ pre, shortPortName (Row.get r "Port Name") ≠ .ok s) →
        dpre.Interface.get? s = none) := by
  unfold translatePortStats at h
  cases hp : Table.ParsePortStats lib (pre ++ row :: post) with
  | error e => rw [hp] at h; simp at h
  | ok ps =>
    rw [hp] at h
    simp only [Option.some.injEq] at h
    obtain ⟨rpre, r, rpost, hps, hpre, hr, hpost⟩ :=
      stats.parseRows_split _ pre row post ps hp
    subst hps
    obtain ⟨_, hreq⟩ := stats.parsePortStatsRow_eq lib row r hr
    have hname : r.PortName = Row.get row "Port Name" := stats.parsePortStatsRow_ok lib row r hr
    obtain ⟨⟨s, hs⟩, _⟩ := (portLoop_ok_iff _ {}).1 ⟨d, h⟩ r (by simp)
    have hpre2 : ∃ d2, portLoop rpre {} = .ok d2 := by
      rw [portLoop_append] at h
      cases h2 : portLoop rpre {} with
      | error e => rw [h2] at h; exact Except.noConfusion h
      | ok d2 => exact ⟨d2, rfl⟩
    obtain ⟨dpre, hdpre⟩ := hpre2
    refine ⟨r, s, dpre, hr, by rw [← hname]; exact hs, ?_, ?_, ?_⟩
    · unfold translatePortStats Table.ParsePortStats
      rw [hpre]
      simp only [hdpre]
    · intro hne
      obtain ⟨d2, hd2, hget⟩ := portLoop_last rpre rpost r {} d s h hs (by
        intro x hx
        obtain ⟨a, ha, hfa⟩ := forall₂_exists_left _ post rpost hpost x hx
        rw [stats.parsePortStatsRow_ok lib a x hfa]
        exact hne a ha)
      rw [hdpre] at hd2
      injection hd2 with hd2
      rw [hd2]
      exact hget
    · intro hne
      obtain ⟨recs1, hrecs1, hall1⟩ := stats.parseRows_ok _ pre [] rpre hpre
      simp only [List.nil_append] at hrecs1
      subst hrecs1
      rw [portLoop_frame rpre {} dpre s hdpre (by
        intro x hx
        obtain ⟨a, ha, hfa⟩ := forall₂_exists_left _ pre rpre hall1 x hx
        rw [stats.parsePortStatsRow_ok lib a x hfa]
        exact hne a ha)]
      rfl

/-- The error of the Port Statistics translator at the first row it cannot
map, in a table whose rows all parse: the link state is looked at before the
line speed. -/
theorem translatePortStats_error_at (lib : GoLib) (pre post : Table) (row : Row)
    (itFlows : List String) (dpre : Device) (s : String)
    (hall : ∀ r ∈ pre ++ row :: post,
      rowParses lib "Port Name" portStrKeys portIntKeys portFloatKeys r)
    (hpre : translatePortStats lib pre itFlows = some (.ok dpre))
    (hs : shortPortName (Row.get row "Port Name") = .ok s) :
    (Row.get row "Link State" ∉ knownLinkStates →
      translatePortStats lib (pre ++ row :: post) itFlows
        = some (.error (.linkState (Row.get row "Port Name") (Row.get row "Link State")))) ∧
    (Row.get row "Link State" ∈ knownLinkStates → Row.get row "Line Speed" ∉ knownLineSpeeds →
      translatePortStats lib (pre ++ row :: post) itFlows
        = some (.error (.linkSpeed (Row.get row "Port Name") (Row.get row "Line Speed")))) := by
  obtain ⟨recs, hrecs⟩ := stats.forall₂_of_all_ok (parsePortStatsRow lib) _
    (fun r hr => (stats.parsePortStatsRow_ok_iff lib r).2 (hall r hr))
  obtain ⟨rpre, r, rpost, hl, h1, h2, h3⟩ := stats.forall₂_split _ pre row post recs hrecs
  subst hl
  obtain ⟨_, hreq⟩ := stats.parsePortStatsRow_eq lib row r h2
  have hp : Table.ParsePortStats lib (pre ++ row :: post) = .ok (rpre ++ r :: rpost) := by
    unfold Table.ParsePortStats
    rw [stats.parseRows_of_forall₂ _ _ [] _ hrecs]
    rfl
  have hp1 : Table.ParsePortStats lib pre = .ok rpre := by
    unfold Table.ParsePortStats
    rw [stats.parseRows_of_forall₂ _ _ [] _ h1]
    rfl
  unfold translatePortStats at hpre
  rw [hp1] at hpre
  simp only [Option.some.injEq] at hpre
  have hloop : portLoop (rpre ++ r :: rpost) {} =
      match portRow r s dpre with
      | .error err => .error err
      | .ok d => portLoop rpost d := by
    rw [portLoop_append, hpre]
    simp only
    rw [portLoop_cons, stats.parsePortStatsRow_ok lib row r h2, hs]
  have hLS : r.LinkState = Row.get row "Link State" := by rw [hreq]
  have hSp : r.LineSpeed = Row.get row "Line Speed" := by rw [hreq]
  have hPN : r.PortName = Row.get row "Port Name" := by rw [hreq]
  unfold translatePortStats
  rw [hp]
  simp only [hloop]
  constructor
  · intro hbad
    cases hrow : portRow r s dpre with
    | ok d2 =>
      exact absurd ((portRow_ok_iff r s dpre).1 ⟨d2, hrow⟩).1 (by rw [hLS]; exact hbad)
    | error e =>
      rcases portRow_error r s dpre e hrow with ⟨_, he⟩ | ⟨hin, _⟩
      · rw [he, hLS, hPN]
      · exact absurd hin (by rw [hLS]; exact hbad)
  · intro hgood hbad
    cases hrow : portRow r s dpre with
    | ok d2 =>
      exact absurd ((portRow_ok_iff r s dpre).1 ⟨d2, hrow⟩).2 (by rw [hSp]; exact hbad)
    | error e =>
      rcases portRow_error r s dpre e hrow with ⟨hnin, _⟩ | ⟨_, _, he⟩
      · exact absurd (by rw [hLS]; exact hgood) hnin
      · rw [he, hSp, hPN]

end oc

namespace oc

/-- The interface of a row right after the row is translated, and at the end
of the table when no later row shares the port. -/
theorem translatePortStats_at_row (lib : GoLib) (pre post : Table) (row : Row)
    (itFlows : List String) (d : Device)
    (h : translatePortStats lib (pre ++ row :: post) itFlows = some (.ok d)) :
    ∃ rec s dpre d1, parsePortStatsRow lib row = .ok rec ∧
      shortPortName (Row.get row "Port Name") = .ok s ∧
      translatePortStats lib pre itFlows = some (.ok dpre) ∧
      translatePortStats lib (pre ++ [row]) itFlows = some (.ok d1) ∧
      d1.Interface.get? s
        = some (portWrite rec ((dpre.Interface.get? s).getD { Name := some s })) ∧
      ((∀ r ∈ post, shortPortName (Row.get r "Port Name") ≠ .ok s) →
        d.Interface.get? s = d1.Interface.get? s) ∧
      ((∀ r ∈ pre, shortPortName (Row.get r "Port Name") ≠ .ok s) →
        dpre.Interface.get? s = none) := by
  obtain ⟨rec, s, dpre, hrec, hs, hpre, hlast, hfresh⟩ :=
    translatePortStats_last lib pre post row itFlows d h
  have hall := (translatePortStats_ok_iff lib (pre ++ row :: post) itFlows).1 ⟨d, h⟩
  obtain ⟨d1, hd1⟩ := (translatePortStats_ok_iff lib (pre ++ [row]) itFlows).2 (by
    intro r hr
    apply hall r
    rcases List.mem_append.1 hr with hr | hr
    · exact List.mem_append_left _ hr
    · rw [List.mem_singleton] at hr
      subst hr
      exact List.mem_append_right _ (List.mem_cons_self _ _))
  obtain ⟨rec1, s1, dpre1, hrec1, hs1, hpre1, hlast1, _⟩ :=
    translatePortStats_last lib pre [] row itFlows d1 hd1
  rw [hrec] at hrec1
  injection hrec1 with hrec1
  rw [hs] at hs1
  injection hs1 with hs1
  rw [hpre] at hpre1
  injection hpre1 with hpre1
  injection hpre1 with hpre1
  subst hrec1 hs1 hpre1
  have hd1s := hlast1 (by intro r hr; simp at hr)
  exact ⟨rec, s, dpre, d1, hrec, hs, hpre, hd1, hd1s,
    fun hne => by rw [hlast hne, hd1s], hfresh⟩

end oc

/-! ## The Port Statistics translator: properties -/

/-- C18: In a Port Statistics table that translates, the interface of a
row holds, right after the row is translated, in-octets from `Bytes Rx.`,
in-packets from `Valid Frames Rx.`, out-octets from `Bytes Tx.`, out-packets
from `Frames Tx.` and the Ethernet CRC-error counter from `CRC Errors`; the
interface is still so at the end of the table when no later row names the same
port.  A column that is absent or empty gives an unset counter, and the numeral
of `n` gives the counter `n`, the numeral `0` included. -/
theorem port_counters_from_columns (lib : GoLib) (pre post : Table) (row : Row)
    (itFlows : List String) (d : Device)
    (h : translatePortStats lib (pre ++ row :: post) itFlows = some (.ok d)) :
    (∃ s d1 i e, shortPortName (Row.get row "Port Name") = .ok s ∧
      translatePortStats lib (pre ++ [row]) itFlows = some (.ok d1) ∧
      d1.Interface.get? s = some i ∧
      i.Counters = some { InOctets := intColumn row "Bytes Rx."
                          InPkts := intColumn row "Valid Frames Rx."
                          OutOctets := intColumn row "Bytes Tx."
                          OutPkts := intColumn row "Frames Tx." } ∧
      i.Ethernet = some e ∧
      e.Counters = some { InCrcErrors := intColumn row "CRC Errors" } ∧
      ((∀ r ∈ post, shortPortName (Row.get r "Port Name") ≠ .ok s) →
        d.Interface.get? s = some i)) ∧
    (∀ k, Row.find? row k = none ∨ Row.find? row k = some "" → intColumn row k = none) ∧
    (∀ k n, n < 2 ^ 64 → Row.find? row k = some (toString n) → intColumn row k = some n) := by
  obtain ⟨rec, s, dpre, d1, hrec, hs, _, hd1, hget, hend, _⟩ :=
    translatePortStats_at_row lib pre post row itFlows d h
  obtain ⟨_, heq⟩ := stats.parsePortStatsRow_eq lib row rec hrec
  refine ⟨⟨s, d1, _, _, hs, hd1, hget, ?_, rfl, ?_, ?_⟩, ?_, ?_⟩
  · subst heq; rfl
  · subst heq; rfl
  · intro hne
    rw [hend hne, hget]
  · intro k hk
    unfold intColumn
    rw [if_pos (stats.Row.get_of_absent_or_empty row k hk)]
  · intro k n hn hk
    unfold intColumn
    rw [stats.Row.get_of_find? row k _ hk, if_neg (strconv.toString_ne_empty n),
      strconv.ParseUint_toString n hn]

/-- Witness for C18: a table of two ports, one with a counter holding the
numeral 0. -/
theorem port_counters_from_columns_witness :
    translatePortStats sampleLib
        ([⟨[("Port Name", "ixia/p1"), ("Bytes Rx.", "0")]⟩] ++
          ⟨[("Port Name", "ixia/p2"), ("Frames Tx.", "7"), ("CRC Errors", "3")]⟩ :: []) []
      = some (.ok { Interface := ⟨[
          ("p1", { Name := some "p1", Counters := some { InOctets := some 0 },
                   Ethernet := some { Counters := some {} }, Type_ := .ethernetCsmacd }),
          ("p2", { Name := some "p2", Counters := some { OutPkts := some 7 },
                   Ethernet := some { Counters := some { InCrcErrors := some 3 } },
                   Type_ := .ethernetCsmacd })]⟩ }) ∧
    (∀ k, Row.find? ⟨[("Port Name", "ixia/p2"), ("Frames Tx.", "7"), ("CRC Errors", "3")]⟩ k = none ∨
        Row.find? ⟨[("Port Name", "ixia/p2"), ("Frames Tx.", "7"), ("CRC Errors", "3")]⟩ k = some "" →
      intColumn ⟨[("Port Name", "ixia/p2"), ("Frames Tx.", "7"), ("CRC Errors", "3")]⟩ k = none) :=
  ⟨rfl,
   (port_counters_from_columns sampleLib [⟨[("Port Name", "ixia/p1"), ("Bytes Rx.", "0")]⟩] []
      ⟨[("Port Name", "ixia/p2"), ("Frames Tx.", "7"), ("CRC Errors", "3")]⟩ [] _ rfl).2.1⟩

/-- C19: The link-state switch of `translatePortStats`: a table with a
row whose link state is none of the four known texts yields an error and no
tree (the link-state error of that row, when the table parses and the rows
before it translate); a table whose rows are otherwise translatable and carry
known link states translates; in a table that translates, `Link Up` puts UP on
the row's interface, `Link Down` and `No PCS Lock` put DOWN, and the empty
text leaves the status as the rows before left it, unset when none of them
names the port. -/
theorem link_state_mapping (lib : GoLib) (pre post : Table) (row : Row)
    (itFlows : List String) :
    (Row.get row "Link State" ∉ knownLinkStates →
      ∃ e, translatePortStats lib (pre ++ row :: post) itFlows = some (.error e)) ∧
    (∀ dpre s, (∀ r ∈ pre ++ row :: post,
          rowParses lib "Port Name" portStrKeys portIntKeys portFloatKeys r) →
      translatePortStats lib pre itFlows = some (.ok dpre) →
      shortPortName (Row.get row "Port Name") = .ok s →
      Row.get row "Link State" ∉ knownLinkStates →
      translatePortStats lib (pre ++ row :: post) itFlows
        = some (.error (.linkState (Row.get row "Port Name") (Row.get row "Link State")))) ∧
    ((∀ r ∈ pre ++ row :: post,
        rowParses lib "Port Name" portStrKeys portIntKeys portFloatKeys r ∧
        (∃ s, shortPortName (Row.get r "Port Name") = .ok s) ∧
        Row.get r "Link State" ∈ knownLinkStates ∧
        Row.get r "Line Speed" ∈ knownLineSpeeds) →
      ∃ d, translatePortStats lib (pre ++ row :: post) itFlows = some (.ok d)) ∧
    (∀ d, translatePortStats lib (pre ++ row :: post) itFlows = some (.ok d) →
      Row.get row "Link State" ∈ knownLinkStates ∧
      ∃ s dpre d1 i, shortPortName (Row.get row "Port Name") = .ok s ∧
        translatePortStats lib pre itFlows = some (.ok dpre) ∧
        translatePortStats lib (pre ++ [row]) itFlows = some (.ok d1) ∧
        d1.Interface.get? s = some i ∧
        (Row.get row "Link State" = "Link Up" → i.OperStatus = .UP) ∧
        (Row.get row "Link State" = "Link Down" ∨ Row.get row "Link State" = "No PCS Lock" →
          i.OperStatus = .DOWN) ∧
        (Row.get row "Link State" = "" →
          i.OperStatus = ((dpre.Interface.get? s).getD { Name := some s }).OperStatus) ∧
        (Row.get row "Link State" = "" →
          (∀ r ∈ pre, shortPortName (Row.get r "Port Name") ≠ .ok s) → i.OperStatus = .UNSET) ∧
        ((∀ r ∈ post, shortPortName (Row.get r "Port Name") ≠ .ok s) →
          d.Interface.get? s = some i)) := by
  refine ⟨?_, ?_, ?_, ?_⟩
  · intro hbad
    obtain ⟨r, hr⟩ := translatePortStats_some lib (pre ++ row :: post) itFlows
    cases r with
    | error e => exact ⟨e, hr⟩
    | ok d =>
      exact absurd ((translatePortStats_ok_iff lib _ itFlows).1 ⟨d, hr⟩ row (by simp)).2.2.1 hbad
  · intro dpre s hall hpre hs hbad
    exact (translatePortStats_error_at lib pre post row itFlows dpre s hall hpre hs).1 hbad
  · intro hall
    exact (translatePortStats_ok_iff lib _ itFlows).2 hall
  · intro d h
    obtain ⟨rec, s, dpre, d1, hrec, hs, hpre, hd1, hget, hend, hfresh⟩ :=
      translatePortStats_at_row lib pre post row itFlows d h
    obtain ⟨_, heq⟩ := stats.parsePortStatsRow_eq lib row rec hrec
    have hLS : rec.LinkState = Row.get row "Link State" := by rw [heq]
    refine ⟨((translatePortStats_ok_iff lib _ itFlows).1 ⟨d, h⟩ row (by simp)).2.2.1,
      s, dpre, d1, _, hs, hpre, hd1, hget, ?_, ?_, ?_, ?_, ?_⟩
    · intro hup
      show operStatusAfter rec.LinkState _ = _
      rw [hLS, hup]
      rfl
    · intro hdown
      show operStatusAfter rec.LinkState _ = _
      rw [hLS]
      rcases hdown with hdown | hdown <;> rw [hdown] <;> rfl
    · intro hempty
      show operStatusAfter rec.LinkState _ = _
      rw [hLS, hempty]
      rfl
    · intro hempty hne
      show operStatusAfter rec.LinkState _ = _
      rw [hLS, hempty, hfresh hne]
      rfl
    · intro hne
      rw [hend hne, hget]

/-- Witness for C19: a row with the link state `Invalid` fails, and a row with
the link state `No PCS Lock` after a row with no link state translates. -/
theorem link_state_mapping_witness :
    (∃ e, translatePortStats sampleLib
      ([] ++ ⟨[("Port Name", "ixia/p1"), ("Link State", "Invalid")]⟩ :: []) []
        = some (.error e)) ∧
    translatePortStats sampleLib
        ([⟨[("Port Name", "ixia/p1")]⟩] ++
          ⟨[("Port Name", "ixia/p2"), ("Link State", "No PCS Lock")]⟩ :: []) []
      = some (.ok { Interface := ⟨[
          ("p1", { Name := some "p1", Counters := some {},
                   Ethernet := some { Counters := some {} }, Type_ := .ethernetCsmacd }),
          ("p2", { Name := some "p2", Counters := some {},
                   Ethernet := some { Counters := some {} }, Type_ := .ethernetCsmacd,
                   OperStatus := .DOWN })]⟩ }) ∧
    Row.get ⟨[("Port Name", "ixia/p2"), ("Link State", "No PCS Lock")]⟩ "Link State"
      ∈ knownLinkStates :=
  ⟨(link_state_mapping sampleLib [] []
      ⟨[("Port Name", "ixia/p1"), ("Link State", "Invalid")]⟩ []).1 (by decide),
   rfl,
   ((link_state_mapping sampleLib [⟨[("Port Name", "ixia/p1")]⟩] []
      ⟨[("Port Name", "ixia/p2"), ("Link State", "No PCS Lock")]⟩ []).2.2.2 _ rfl).1⟩

/-- C20: The line-speed switch of `translatePortStats`: a table with a
row whose line speed is none of the three known texts yields an error and no
tree (the line-speed error of that row, when the table parses, the rows before
it translate and its link state is known); a table whose rows are otherwise
translatable and carry known line speeds translates; in a table that
translates, `10GE LAN` puts the 10 Gb/s speed on the Ethernet container of the
row's interface, `100GE` the 100 Gb/s speed, and the empty text leaves the
speed as the rows before left it, unset when none of them names the port. -/
theorem line_speed_mapping (lib : GoLib) (pre post : Table) (row : Row)
    (itFlows : List String) :
    (Row.get row "Line Speed" ∉ knownLineSpeeds →
      ∃ e, translatePortStats lib (pre ++ row :: post) itFlows = some (.error e)) ∧
    (∀ dpre s, (∀ r ∈ pre ++ row :: post,
          rowParses lib "Port Name" portStrKeys portIntKeys portFloatKeys r) →
      translatePortStats lib pre itFlows = some (.ok dpre) →
      shortPortName (Row.get row "Port Name") = .ok s →
      Row.get row "Link State" ∈ knownLinkStates →
      Row.get row "Line Speed" ∉ knownLineSpeeds →
      translatePortStats lib (pre ++ row :: post) itFlows
        = some (.error (.linkSpeed (Row.get row "Port Name") (Row.get row "Line Speed")))) ∧
    ((∀ r ∈ pre ++ row :: post,
        rowParses lib "Port Name" portStrKeys portIntKeys portFloatKeys r ∧
        (∃ s, shortPortName (Row.get r "Port Name") = .ok s) ∧
        Row.get r "Link State" ∈ knownLinkStates ∧
        Row.get r "Line Speed" ∈ knownLineSpeeds) →
      ∃ d, translatePortStats lib (pre ++ row :: post) itFlows = some (.ok d)) ∧
    (∀ d, translatePortStats lib (pre ++ row :: post) itFlows = some (.ok d) →
      Row.get row "Line Speed" ∈ knownLineSpeeds ∧
      ∃ s dpre d1 i e, shortPortName (Row.get row "Port Name") = .ok s ∧
        translatePortStats lib pre itFlows = some (.ok dpre) ∧
        translatePortStats lib (pre ++ [row]) itFlows = some (.ok d1) ∧
        d1.Interface.get? s = some i ∧ i.Ethernet = some e ∧
        (Row.get row "Line Speed" = "10GE LAN" → e.PortSpeed = .SPEED_10GB) ∧
        (Row.get row "Line Speed" = "100GE" → e.PortSpeed = .SPEED_100GB) ∧
        (Row.get row "Line Speed" = "" →
          e.PortSpeed
            = ((dpre.Interface.get? s).getD { Name := some s }).GetOrCreateEthernet.PortSpeed) ∧
        (Row.get row "Line Speed" = "" →
          (∀ r ∈ pre, shortPortName (Row.get r "Port Name") ≠ .ok s) → e.PortSpeed = .UNSET) ∧
        ((∀ r ∈ post, shortPortName (Row.get r "Port Name") ≠ .ok s) →
          d.Interface.get? s = some i)) := by
  refine ⟨?_, ?_, ?_, ?_⟩
  · intro hbad
    obtain ⟨r, hr⟩ := translatePortStats_some lib (pre ++ row :: post) itFlows
    cases r with
    | error e => exact ⟨e, hr⟩
    | ok d =>
      exact absurd ((translatePortStats_ok_iff lib _ itFlows).1 ⟨d, hr⟩ row (by simp)).2.2.2 hbad
  · intro dpre s hall hpre hs hgood hbad
    exact (translatePortStats_error_at lib pre post row itFlows dpre s hall hpre hs).2 hgood hbad
  · intro hall
    exact (translatePortStats_ok_iff lib _ itFlows).2 hall
  · intro d h
    obtain ⟨rec, s, dpre, d1, hrec, hs, hpre, hd1, hget, hend, hfresh⟩ :=
      translatePortStats_at_row lib pre post row itFlows d h
    obtain ⟨_, heq⟩ := stats.parsePortStatsRow_eq lib row rec hrec
    have hSp : rec.LineSpeed = Row.get row "Line Speed" := by rw [heq]
    refine ⟨((translatePortStats_ok_iff lib _ itFlows).1 ⟨d, h⟩ row (by simp)).2.2.2,
      s, dpre, d1, _, _, hs, hpre, hd1, hget, rfl, ?_, ?_, ?_, ?_, ?_⟩
    · intro h10
      show portSpeedAfter rec.LineSpeed _ = _
      rw [hSp, h10]
      rfl
    · intro h100
      show portSpeedAfter rec.LineSpeed _ = _
      rw [hSp, h100]
      rfl
    · intro hempty
      show portSpeedAfter rec.LineSpeed _ = _
      rw [hSp, hempty]
      rfl
    · intro hempty hne
      show portSpeedAfter rec.LineSpeed _ = _
      rw [hSp, hempty, hfresh hne]
      rfl
    · intro hne
      rw [hend hne, hget]

/-- Witness for C20: a row with an unknown line speed fails, and a row with
the line speed `100GE` after a row with `10GE LAN` translates. -/
theorem line_speed_mapping_witness :
    (∃ e, translatePortStats sampleLib
      ([] ++ ⟨[("Port Name", "ixia/p1"), ("Line Speed", "40GE")]⟩ :: []) []
        = some (.error e)) ∧
    translatePortStats sampleLib
        ([⟨[("Port Name", "ixia/p1"), ("Line Speed", "10GE LAN")]⟩] ++
          ⟨[("Port Name", "ixia/p2"), ("Line Speed", "100GE")]⟩ :: []) []
      = some (.ok { Interface := ⟨[
          ("p1", { Name := some "p1", Counters := some {},
                   Ethernet := some { Counters := some {}, PortSpeed := .SPEED_10GB },
                   Type_ := .ethernetCsmacd }),
          ("p2", { Name := some "p2", Counters := some {},
                   Ethernet := some { Counters := some {}, PortSpeed := .SPEED_100GB },
                   Type_ := .ethernetCsmacd })]⟩ }) ∧
    Row.get ⟨[("Port Name", "ixia/p2"), ("Line Speed", "100GE")]⟩ "Line Speed"
      ∈ knownLineSpeeds :=
  ⟨(line_speed_mapping sampleLib [] []
      ⟨[("Port Name", "ixia/p1"), ("Line Speed", "40GE")]⟩ []).1 (by decide),
   rfl,
   ((line_speed_mapping sampleLib [⟨[("Port Name", "ixia/p1"), ("Line Speed", "10GE LAN")]⟩] []
      ⟨[("Port Name", "ixia/p2"), ("Line Speed", "100GE")]⟩ []).2.2.2 _ rfl).1⟩

/-! ## Lemmas on the Flow Statistics translator -/

namespace oc

/-- Rows of other traffic items leave the flow `name` as it was. -/
theorem flowRow_get?_ne (itFlows : List String) (row : FlowStats) (d : Device) (name : String)
    (h : name ≠ row.TrafficItem) : (flowRow itFlows row d).Flow.get? name = d.Flow.get? name := by
  unfold flowRow
  by_cases ht : isIngressTracked row.TrafficItem itFlows = true
  · simp only [ht, if_true, Device.updateIngressTracking, ingressTrackingFromFlowStats,
      Device.updateFlow, Device.GetOrCreateFlow, GoMap.get?_modify_ne _ _ _ _ h,
      GoMap.get?_getOrCreate_ne _ _ _ _ h]
  · simp only [ht, Bool.false_eq_true, if_false, Device.updateFlow, Device.GetOrCreateFlow,
      GoMap.get?_modify_ne _ _ _ _ h, GoMap.get?_getOrCreate_ne _ _ _ _ h]

/-- The flow one iteration leaves under the traffic item of its row. -/
theorem flowRow_get? (itFlows : List String) (row : FlowStats) (d : Device) :
    (flowRow itFlows row d).Flow.get? row.TrafficItem =
      some (flowWrite itFlows row
        ((d.Flow.get? row.TrafficItem).getD { Name := some row.TrafficItem })) := by
  unfold flowRow flowWrite
  by_cases ht : isIngressTracked row.TrafficItem itFlows = true
  · simp only [ht, if_true, Device.updateIngressTracking, ingressTrackingFromFlowStats,
      Device.updateFlow, Device.GetOrCreateFlow, GoMap.get?_modify_same,
      GoMap.get?_getOrCreate_same, Option.map_some', Flow.GetOrCreateIngressTracking]
    rfl
  · simp only [ht, Bool.false_eq_true, if_false, Device.updateFlow, Device.GetOrCreateFlow,
      GoMap.get?_modify_same, GoMap.get?_getOrCreate_same, Option.map_some']

theorem flowLoop_append (itFlows : List String) (a b : List FlowStats) (d : Device) :
    flowLoop itFlows (a ++ b) d = flowLoop itFlows b (flowLoop itFlows a d) := by
  induction a generalizing d with
  | nil => rfl
  | cons r rs ih => exact ih _

/-- An invariant of the flow under one traffic item: it holds after the loop
when it holds before, and each row of that traffic item keeps it. -/
theorem flowLoop_inv_at (itFlows : List String) (name : String) (P : Option Flow → Prop)
    (rows : List FlowStats)
    (hstep : ∀ r ∈ rows, r.TrafficItem = name → ∀ o, P o →
      P (some (flowWrite itFlows r (o.getD { Name := some name }))))
    (d : Device) (h0 : P (d.Flow.get? name)) :
    P ((flowLoop itFlows rows d).Flow.get? name) := by
  induction rows generalizing d with
  | nil => exact h0
  | cons r rs ih =>
    apply ih (fun x hx => hstep x (List.mem_cons_of_mem _ hx))
    by_cases hn : name = r.TrafficItem
    · subst hn
      rw [flowRow_get?]
      exact hstep r (List.mem_cons_self _ _) rfl _ h0
    · rw [flowRow_get?_ne itFlows r d name hn]
      exact h0

/-- Rows of other traffic items leave the flow `name` as it was. -/
theorem flowLoop_frame (itFlows : List String) (rows : List FlowStats) (d : Device)
    (name : String) (h : ∀ r ∈ rows, r.TrafficItem ≠ name) :
    (flowLoop itFlows rows d).Flow.get? name = d.Flow.get? name :=
  flowLoop_inv_at itFlows name (fun o => o = d.Flow.get? name) rows
    (fun r hr hn => absurd hn (h r hr)) d rfl

/-- The ingress-tracking record under the key of the row, after the row. -/
theorem flowWrite_child (itFlows : List String) (row : FlowStats) (f : Flow)
    (ht : isIngressTracked row.TrafficItem itFlows = true) :
    (flowWrite itFlows row f).IngressTracking.get? (ingressTrackingKey row) =
      some (fillIngress row ((f.IngressTracking.get? (ingressTrackingKey row)).getD
        (Flow_IngressTracking.new (ingressTrackingKey row)))) := by
  unfold flowWrite
  rw [if_pos ht]
  simp only [GoMap.get?_modify_same, GoMap.get?_getOrCreate_same, Option.map_some']

/-- The ingress-tracking records under other keys, after the row. -/
theorem flowWrite_child_ne (itFlows : List String) (row : FlowStats) (f : Flow)
    (k : Flow_IngressTracking_Key) (hk : k ≠ ingressTrackingKey row) :
    (flowWrite itFlows row f).IngressTracking.get? k = f.IngressTracking.get? k := by
  unfold flowWrite
  by_cases ht : isIngressTracked row.TrafficItem itFlows = true
  · rw [if_pos ht]
    simp only [GoMap.get?_modify_ne _ _ _ _ hk, GoMap.get?_getOrCreate_ne _ _ _ _ hk]
  · rw [if_neg ht]

/-- The keys of the ingress-tracking records, after the row. -/
theorem flowWrite_keys (itFlows : List String) (row : FlowStats) (f : Flow)
    (k : Flow_IngressTracking_Key) :
    k ∈ (flowWrite itFlows row f).IngressTracking.keys ↔
      k ∈ f.IngressTracking.keys ∨
        (isIngressTracked row.TrafficItem itFlows = true ∧ k = ingressTrackingKey row) := by
  unfold flowWrite
  by_cases ht : isIngressTracked row.TrafficItem itFlows = true
  · rw [if_pos ht]
    simp only [GoMap.keys_modify, GoMap.mem_keys_getOrCreate, ht, true_and]
  · rw [if_neg ht]
    simp only [ht, Bool.false_eq_true, false_and, or_false]

theorem flowWrite_keys_nodup (itFlows : List String) (row : FlowStats) (f : Flow)
    (h : f.IngressTracking.keys.Nodup) : (flowWrite itFlows row f).IngressTracking.keys.Nodup := by
  unfold flowWrite
  by_cases ht : isIngressTracked row.TrafficItem itFlows = true
  · rw [if_pos ht]
    simp only [GoMap.keys_modify]
    exact GoMap.nodup_keys_getOrCreate _ _ _ h
  · rw [if_neg ht]
    exact h

/-- A tracked row leaves the statistics of the flow itself as they were. -/
theorem flowWrite_tracked (itFlows : List String) (row : FlowStats) (f : Flow)
    (ht : isIngressTracked row.TrafficItem itFlows = true) :
    flowWrite itFlows row f =
      { f with IngressTracking := (flowWrite itFlows row f).IngressTracking } := by
  unfold flowWrite
  rw [if_pos ht]

/-- An untracked row writes the statistics on the flow itself and leaves its
ingress-tracking records as they were. -/
theorem flowWrite_untracked (itFlows : List String) (row : FlowStats) (f : Flow)
    (ht : isIngressTracked row.TrafficItem itFlows = false) :
    flowWrite itFlows row f =
      { f with Counters := some (flowCounters row),
               LossPct := pfloat32Bytes row.LossPct,
               InRate := pfloat32Bytes row.RxRate,
               InFrameRate := pfloat32Bytes row.RxFrameRate,
               OutRate := pfloat32Bytes row.TxRate,
               OutFrameRate := pfloat32Bytes row.TxFrameRate } := by
  unfold flowWrite
  rw [if_neg (by rw [ht]; decide)]

end oc

namespace oc

theorem isIngressTracked_iff (flow : String) (l : List String) :
    isIngressTracked flow l = true ↔ flow ∈ l := by
  induction l with
  | nil => simp [isIngressTracked]
  | cons f fs ih =>
    unfold isIngressTracked
    by_cases h : f = flow
    · simp [h]
    · rw [if_neg h, ih, List.mem_cons]
      constructor
      · exact Or.inr
      · rintro (h1 | h1)
        · exact absurd h1.symm h
        · exact h1

theorem isIngressTracked_eq_false_iff (flow : String) (l : List String) :
    isIngressTracked flow l = false ↔ flow ∉ l := by
  rw [← isIngressTracked_iff]
  cases isIngressTracked flow l <;> simp

/-- An absent or empty integer column gives an unset value. -/
theorem intColumn_absent (row : Row) (k : String)
    (hk : Row.find? row k = none ∨ Row.find? row k = some "") : intColumn row k = none := by
  unfold intColumn
  rw [if_pos (stats.Row.get_of_absent_or_empty row k hk)]

/-- An integer column holding the numeral of `n` gives the value `n`. -/
theorem intColumn_toString (row : Row) (k : String) (n : Nat) (hn : n < 2 ^ 64)
    (hk : Row.find? row k = some (toString n)) : intColumn row k = some n := by
  unfold intColumn
  rw [stats.Row.get_of_find? row k _ hk, if_neg (strconv.toString_ne_empty n),
    strconv.ParseUint_toString n hn]

/-- The key of the record of a row is the 7-tuple of the row. -/
theorem parseFlowStatsRow_key (lib : GoLib) (row : Row) (rec : FlowStats)
    (h : parseFlowStatsRow lib row = .ok rec) : ingressTrackingKey rec = ingressKeyOfRow row := by
  obtain ⟨_, heq⟩ := stats.parseFlowStatsRow_eq lib row rec h
  subst heq
  rfl

/-- An invariant of the flow under one traffic item, on the flow itself. -/
theorem flowLoop_inv_flow (itFlows : List String) (name : String) (Q : Flow → Prop)
    (rows : List FlowStats) (hnew : Q { Name := some name })
    (hstep : ∀ r ∈ rows, r.TrafficItem = name → ∀ f, Q f → Q (flowWrite itFlows r f))
    (d : Device) (h0 : ∀ f, d.Flow.get? name = some f → Q f) :
    ∀ f, (flowLoop itFlows rows d).Flow.get? name = some f → Q f := by
  apply flowLoop_inv_at itFlows name (fun o => ∀ f, o = some f → Q f) rows ?_ d h0
  intro r hr hn o ho f hf
  injection hf with hf
  rw [← hf]
  apply hstep r hr hn
  cases o with
  | none => exact hnew
  | some f0 => exact ho f0 rfl

/-- The Flow Statistics translator never panics. -/
theorem translateFlowStats_some (lib : GoLib) (tbl : Table) (itFlows : List String) :
    ∃ r, translateFlowStats lib tbl itFlows = some r := by
  unfold translateFlowStats
  cases Table.ParseFlowStats lib tbl with
  | error e => exact ⟨_, rfl⟩
  | ok ps => exact ⟨_, rfl⟩

/-- The tree of the Flow Statistics translator is the loop over the records. -/
theorem translateFlowStats_eq (lib : GoLib) (tbl : Table) (itFlows : List String) (d : Device)
    (h : translateFlowStats lib tbl itFlows = some (.ok d)) :
    ∃ recs, List.Forall₂ (fun row rec => parseFlowStatsRow lib row = .ok rec) tbl recs ∧
      d = flowLoop itFlows recs {} := by
  unfold translateFlowStats at h
  cases hp : Table.ParseFlowStats lib tbl with
  | error e => rw [hp] at h; simp at h
  | ok ps =>
    rw [hp] at h
    simp only [Option.some.injEq, Except.ok.injEq] at h
    obtain ⟨recs, hrecs, hall⟩ := stats.parseRows_ok _ tbl [] ps hp
    simp only [List.nil_append] at hrecs
    subst hrecs
    exact ⟨ps, hall, h.symm⟩

theorem translateFlowStats_of_forall₂ (lib : GoLib) (tbl : Table) (itFlows : List String)
    (recs : List FlowStats)
    (h : List.Forall₂ (fun row rec => parseFlowStatsRow lib row = .ok rec) tbl recs) :
    translateFlowStats lib tbl itFlows = some (.ok (flowLoop itFlows recs {})) := by
  have hp : Table.ParseFlowStats lib tbl = .ok recs := by
    unfold Table.ParseFlowStats
    rw [stats.parseRows_of_forall₂ _ tbl [] recs h]
    rfl
  unfold translateFlowStats
  rw [hp]

/-- The Flow Statistics translator returns a tree exactly when every row parses. -/
theorem translateFlowStats_ok_iff (lib : GoLib) (tbl : Table) (itFlows : List String) :
    (∃ d, translateFlowStats lib tbl itFlows = some (.ok d)) ↔
      ∀ row ∈ tbl, rowParses lib "Traffic Item" flowStrKeys flowIntKeys flowFloatKeys row := by
  constructor
  · rintro ⟨d, h⟩ row hrow
    obtain ⟨recs, hall, _⟩ := translateFlowStats_eq lib tbl itFlows d h
    obtain ⟨rec, _, hf⟩ := forall₂_exists_right _ tbl recs hall row hrow
    exact (stats.parseFlowStatsRow_ok_iff lib row).1 ⟨rec, hf⟩
  · intro h
    obtain ⟨recs, hall⟩ := stats.forall₂_of_all_ok (parseFlowStatsRow lib) tbl
      (fun row hrow => (stats.parseFlowStatsRow_ok_iff lib row).2 (h row hrow))
    exact ⟨_, translateFlowStats_of_forall₂ lib tbl itFlows recs hall⟩

/-- The tree of the Flow Statistics translator around one row of the table:
the flow of the row right after the row is the closed form `flowWrite` of the
flow the rows before left, and the rows after it run on from there. -/
theorem translateFlowStats_at_row (lib : GoLib) (pre post : Table) (row : Row)
    (itFlows : List String) (d : Device)
    (h : translateFlowStats lib (pre ++ row :: post) itFlows = some (.ok d)) :
    ∃ rpre r rpost,
      List.Forall₂ (fun row rec => parseFlowStatsRow lib row = .ok rec) pre rpre ∧
      parseFlowStatsRow lib row = .ok r ∧
      List.Forall₂ (fun row rec => parseFlowStatsRow lib row = .ok rec) post rpost ∧
      translateFlowStats lib (pre ++ [row]) itFlows
        = some (.ok (flowLoop itFlows (rpre ++ [r]) {})) ∧
      (flowLoop itFlows (rpre ++ [r]) {}).Flow.get? r.TrafficItem
        = some (flowWrite itFlows r
            (((flowLoop itFlows rpre {}).Flow.get? r.TrafficItem).getD
              { Name := some r.TrafficItem })) ∧
      d = flowLoop itFlows rpost (flowLoop itFlows (rpre ++ [r]) {}) := by
  obtain ⟨recs, hall, hd⟩ := translateFlowStats_eq lib _ itFlows d h
  obtain ⟨rpre, r, rpost, hl, h1, h2, h3⟩ := stats.forall₂_split _ pre row post recs hall
  subst hl
  refine ⟨rpre, r, rpost, h1, h2, h3, ?_, ?_, ?_⟩
  · apply translateFlowStats_of_forall₂
    exact List.rel_append h1 (List.Forall₂.cons h2 List.Forall₂.nil)
  · rw [flowLoop_append]
    exact flowRow_get? itFlows r _
  · rw [hd, ← flowLoop_append, List.append_assoc]
    rfl

end oc

namespace oc

/-- Rows of a tracked traffic item leave the statistics of the flow itself unset. -/
theorem flowLoop_noStats (itFlows : List String) (name : String) (rows : List FlowStats)
    (d : Device) (ht : isIngressTracked name itFlows = true)
    (h0 : ∀ f, d.Flow.get? name = some f → Flow.noStats f) :
    ∀ f, (flowLoop itFlows rows d).Flow.get? name = some f → Flow.noStats f := by
  apply flowLoop_inv_flow itFlows name Flow.noStats rows
    ⟨rfl, rfl, rfl, rfl, rfl, rfl⟩ ?_ d h0
  intro r _ hn f hf
  rw [flowWrite_tracked itFlows r f (by rw [hn]; exact ht)]
  exact hf

/-- Rows of an untracked traffic item create no ingress-tracking record. -/
theorem flowLoop_no_children (itFlows : List String) (name : String) (rows : List FlowStats)
    (d : Device) (ht : isIngressTracked name itFlows = false)
    (h0 : ∀ f, d.Flow.get? name = some f → f.IngressTracking = GoMap.empty) :
    ∀ f, (flowLoop itFlows rows d).Flow.get? name = some f →
      f.IngressTracking = GoMap.empty := by
  apply flowLoop_inv_flow itFlows name (fun f => f.IngressTracking = GoMap.empty) rows rfl ?_ d h0
  intro r _ hn f hf
  rw [flowWrite_untracked itFlows r f (by rw [hn]; exact ht)]
  exact hf

/-- The flow of a record right after the record and at the end of the loop. -/
theorem flowLoop_at_record (itFlows : List String) (rpre rpost : List FlowStats)
    (r : FlowStats) :
    ∃ f0 f, (flowLoop itFlows (rpre ++ [r]) {}).Flow.get? r.TrafficItem
        = some (flowWrite itFlows r f0) ∧
      (flowLoop itFlows rpost (flowLoop itFlows (rpre ++ [r]) {})).Flow.get? r.TrafficItem
        = some f ∧
      (isIngressTracked r.TrafficItem itFlows = true →
        Flow.noStats f0 ∧ Flow.noStats f ∧
        (∃ t, f.IngressTracking.get? (ingressTrackingKey r) = some t) ∧
        ((∀ x ∈ rpost, x.TrafficItem = r.TrafficItem →
            ingressTrackingKey x ≠ ingressTrackingKey r) →
          f.IngressTracking.get? (ingressTrackingKey r)
            = (flowWrite itFlows r f0).IngressTracking.get? (ingressTrackingKey r))) ∧
      (isIngressTracked r.TrafficItem itFlows = false →
        f0.IngressTracking = GoMap.empty ∧ f.IngressTracking = GoMap.empty ∧
        ((∀ x ∈ rpost, x.TrafficItem ≠ r.TrafficItem) → f = flowWrite itFlows r f0)) := by
  have hf1 : (flowLoop itFlows (rpre ++ [r]) {}).Flow.get? r.TrafficItem
      = some (flowWrite itFlows r
          (((flowLoop itFlows rpre {}).Flow.get? r.TrafficItem).getD
            { Name := some r.TrafficItem })) := by
    rw [flowLoop_append]
    exact flowRow_get? itFlows r _
  have hex : ∃ f, (flowLoop itFlows rpost (flowLoop itFlows (rpre ++ [r]) {})).Flow.get?
      r.TrafficItem = some f :=
    flowLoop_inv_at itFlows r.TrafficItem (fun o => ∃ f, o = some f) rpost
      (fun _ _ _ _ _ => ⟨_, rfl⟩) _ ⟨_, hf1⟩
  obtain ⟨f, hf⟩ := hex
  refine ⟨_, f, hf1, hf, ?_, ?_⟩
  · intro ht
    have h0 : Flow.noStats (((flowLoop itFlows rpre {}).Flow.get? r.TrafficItem).getD
        { Name := some r.TrafficItem }) := by
      cases hg : (flowLoop itFlows rpre {}).Flow.get? r.TrafficItem with
      | none => exact ⟨rfl, rfl, rfl, rfl, rfl, rfl⟩
      | some f0 =>
        exact flowLoop_noStats itFlows r.TrafficItem rpre {} ht
          (fun f hf => by simp [GoMap.get?, GoMap.empty] at hf) f0 hg
    refine ⟨h0, ?_, ?_, ?_⟩
    · apply flowLoop_noStats itFlows r.TrafficItem rpost _ ht ?_ f hf
      intro f1 hf1'
      rw [hf1] at hf1'
      injection hf1' with hf1'
      rw [← hf1', flowWrite_tracked itFlows r _ ht]
      exact h0
    · have hk := flowLoop_inv_at itFlows r.TrafficItem
        (fun o => ∃ f, o = some f ∧ ingressTrackingKey r ∈ f.IngressTracking.keys) rpost
        (fun x _ _ o ho => by
          obtain ⟨f2, hf2, hk2⟩ := ho
          subst hf2
          exact ⟨_, rfl, (flowWrite_keys itFlows x _ _).2 (Or.inl hk2)⟩)
        (flowLoop itFlows (rpre ++ [r]) {})
        ⟨_, hf1, (flowWrite_keys itFlows r _ _).2 (Or.inr ⟨ht, rfl⟩)⟩
      obtain ⟨f2, hf2, hk2⟩ := hk
      rw [hf] at hf2
      injection hf2 with hf2
      subst hf2
      exact (GoMap.get?_isSome_iff _ _).2 hk2
    · intro hpost
      have hk := flowLoop_inv_at itFlows r.TrafficItem
        (fun o => ∃ f, o = some f ∧ f.IngressTracking.get? (ingressTrackingKey r)
          = (flowWrite itFlows r (((flowLoop itFlows rpre {}).Flow.get? r.TrafficItem).getD
              { Name := some r.TrafficItem })).IngressTracking.get? (ingressTrackingKey r)) rpost
        (fun x hx hn o ho => by
          obtain ⟨f2, hf2, hk2⟩ := ho
          subst hf2
          exact ⟨_, rfl, by
            rw [flowWrite_child_ne itFlows x _ _ (fun hkk => hpost x hx hn hkk.symm)]
            exact hk2⟩)
        (flowLoop itFlows (rpre ++ [r]) {}) ⟨_, hf1, rfl⟩
      obtain ⟨f2, hf2, hk2⟩ := hk
      rw [hf] at hf2
      injection hf2 with hf2
      subst hf2
      exact hk2
  · intro ht
    have h0 : (((flowLoop itFlows rpre {}).Flow.get? r.TrafficItem).getD
        { Name := some r.TrafficItem }).IngressTracking = GoMap.empty := by
      cases hg : (flowLoop itFlows rpre {}).Flow.get? r.TrafficItem with
      | none => rfl
      | some f0 =>
        exact flowLoop_no_children itFlows r.TrafficItem rpre {} ht
          (fun f hf => by simp [GoMap.get?, GoMap.empty] at hf) f0 hg
    refine ⟨h0, ?_, ?_⟩
    · apply flowLoop_no_children itFlows r.TrafficItem rpost _ ht ?_ f hf
      intro f1 hf1'
      rw [hf1] at hf1'
      injection hf1' with hf1'
      rw [← hf1', flowWrite_untracked itFlows r _ ht]
      exact h0
    · intro hpost
      rw [flowLoop_frame itFlows rpost _ r.TrafficItem hpost, hf1] at hf
      injection hf with hf
      exact hf.symm

end oc

/-! ## The Flow Statistics translator: properties -/

/-- C13: In a Flow Statistics table that translates, right after a row
is translated and at the end of the table the flow of its traffic item is in
the tree.  When the traffic item is in the ingress-tracked list, the flow's own
counters, loss and rates are unset, the flow has an IngressTracking child under
the 7-tuple of the row, and right after the row that child carries the row's
counters, loss and rates (still so at the end when no later row of the flow has
the same 7-tuple).  When the traffic item is not in the list, the flow has no
IngressTracking child and right after the row the flow itself carries the row's
counters, loss and rates (still so at the end when no later row names the
flow). -/
theorem flow_stats_placed_by_ingress_tracking (lib : GoLib) (pre post : Table) (row : Row)
    (itFlows : List String) (d : Device)
    (h : translateFlowStats lib (pre ++ row :: post) itFlows = some (.ok d)) :
    ∃ d1 f1 f,
      translateFlowStats lib (pre ++ [row]) itFlows = some (.ok d1) ∧
      d1.Flow.get? (Row.get row "Traffic Item") = some f1 ∧
      d.Flow.get? (Row.get row "Traffic Item") = some f ∧
      (Row.get row "Traffic Item" ∈ itFlows →
        Flow.noStats f1 ∧ Flow.noStats f ∧
        (∃ t, f.IngressTracking.get? (ingressKeyOfRow row) = some t) ∧
        ∃ t1, f1.IngressTracking.get? (ingressKeyOfRow row) = some t1 ∧
          t1.Counters = some { InOctets := intColumn row "Rx Bytes"
                               InPkts := intColumn row "Rx Frames"
                               OutPkts := intColumn row "Tx Frames" } ∧
          t1.LossPct = pfloat32Bytes (floatColumn lib row "Loss %") ∧
          t1.InRate = pfloat32Bytes (floatColumn lib row "Rx Rate (bps)") ∧
          t1.InFrameRate = pfloat32Bytes (floatColumn lib row "Rx Frame Rate") ∧
          t1.OutRate = pfloat32Bytes (floatColumn lib row "Tx Rate (bps)") ∧
          t1.OutFrameRate = pfloat32Bytes (floatColumn lib row "Tx Frame Rate") ∧
          ((∀ r ∈ post, Row.get r "Traffic Item" = Row.get row "Traffic Item" →
              ingressKeyOfRow r ≠ ingressKeyOfRow row) →
            f.IngressTracking.get? (ingressKeyOfRow row) = some t1)) ∧
      (Row.get row "Traffic Item" ∉ itFlows →
        f1.IngressTracking = GoMap.empty ∧ f.IngressTracking = GoMap.empty ∧
        f1.Counters = some { InOctets := intColumn row "Rx Bytes"
                             InPkts := intColumn row "Rx Frames"
                             OutPkts := intColumn row "Tx Frames" } ∧
        f1.LossPct = pfloat32Bytes (floatColumn lib row "Loss %") ∧
        f1.InRate = pfloat32Bytes (floatColumn lib row "Rx Rate (bps)") ∧
        f1.InFrameRate = pfloat32Bytes (floatColumn lib row "Rx Frame Rate") ∧
        f1.OutRate = pfloat32Bytes (floatColumn lib row "Tx Rate (bps)") ∧
        f1.OutFrameRate = pfloat32Bytes (floatColumn lib row "Tx Frame Rate") ∧
        ((∀ r ∈ post, Row.get r "Traffic Item" ≠ Row.get row "Traffic Item") → f = f1)) := by
  obtain ⟨rpre, r, rpost, _, hr, hpost, hd1, _, hd⟩ :=
    translateFlowStats_at_row lib pre post row itFlows d h
  obtain ⟨f0, f, hf1, hf, htr, hun⟩ := flowLoop_at_record itFlows rpre rpost r
  have hname : r.TrafficItem = Row.get row "Traffic Item" :=
    stats.parseFlowStatsRow_ok lib row r hr
  have hkey := parseFlowStatsRow_key lib row r hr
  obtain ⟨_, heq⟩ := stats.parseFlowStatsRow_eq lib row r hr
  rw [← hd, hname] at hf
  rw [hname] at hf1
  refine ⟨_, _, f, hd1, hf1, hf, ?_, ?_⟩
  · intro hin
    have ht : isIngressTracked r.TrafficItem itFlows = true := by
      rw [hname]; exact (isIngressTracked_iff _ _).2 hin
    obtain ⟨hn0, hn, hex, hlast⟩ := htr ht
    rw [hkey] at hex hlast
    have hchild := flowWrite_child itFlows r f0 ht
    rw [hkey] at hchild
    refine ⟨?_, hn, hex, _, hchild, ?_, ?_, ?_, ?_, ?_, ?_, ?_⟩
    · rw [flowWrite_tracked itFlows r f0 ht]
      exact hn0
    · subst heq; rfl
    · subst heq; rfl
    · subst heq; rfl
    · subst heq; rfl
    · subst heq; rfl
    · subst heq; rfl
    · intro hne
      rw [← hchild]
      apply hlast
      intro x hx hxn
      obtain ⟨a, ha, hfa⟩ := forall₂_exists_left _ post rpost hpost x hx
      rw [parseFlowStatsRow_key lib a x hfa]
      apply hne a ha
      rw [← stats.parseFlowStatsRow_ok lib a x hfa, hxn, hname]
  · intro hnin
    have ht : isIngressTracked r.TrafficItem itFlows = false := by
      rw [hname]; exact (isIngressTracked_eq_false_iff _ _).2 hnin
    obtain ⟨h0, hn, hlast⟩ := hun ht
    rw [flowWrite_untracked itFlows r f0 ht] at hlast ⊢
    refine ⟨h0, hn, ?_, ?_, ?_, ?_, ?_, ?_, ?_⟩
    · subst heq; rfl
    · subst heq; rfl
    · subst heq; rfl
    · subst heq; rfl
    · subst heq; rfl
    · subst heq; rfl
    · intro hne
      apply hlast
      intro x hx
      obtain ⟨a, ha, hfa⟩ := forall₂_exists_left _ post rpost hpost x hx
      rw [stats.parseFlowStatsRow_ok lib a x hfa, hname]
      exact hne a ha

/-- Witness for C13: one row for `traffic1`, once with its traffic item in the
ingress-tracked list and once without. -/
theorem flow_stats_placed_by_ingress_tracking_witness :
    translateFlowStats sampleLib
        ([] ++ ⟨[("Traffic Item", "traffic1"), ("Rx Bytes", "100"), ("Loss %", "2.1"),
                 ("Rx Port", "port1")]⟩ :: []) ["traffic1"]
      = some (.ok { Flow := ⟨[("traffic1", { Name := some "traffic1", IngressTracking := (⟨[
          ({ SrcPort := "port1", DstPort := "", MplsLabel := .NO_LABEL, SrcIpv4 := "",
             DstIpv4 := "", SrcIpv6 := "", DstIpv6 := "" },
           { SrcPort := some "port1", DstPort := some "", MplsLabel := .NO_LABEL,
             SrcIpv4 := some "", DstIpv4 := some "", SrcIpv6 := some "", DstIpv6 := some "",
             Counters := some { InOctets := some 100 },
             LossPct := float32Bytes 0x40066666 })]⟩) })]⟩ }) ∧
    translateFlowStats sampleLib
        ([] ++ ⟨[("Traffic Item", "traffic1"), ("Rx Bytes", "100"), ("Loss %", "2.1"),
                 ("Rx Port", "port1")]⟩ :: []) []
      = some (.ok { Flow := ⟨[("traffic1",
          { Name := some "traffic1",
            Counters := some { InOctets := some 100 },
            LossPct := float32Bytes 0x40066666 })]⟩ }) ∧
    ∃ d1 f1,
      translateFlowStats sampleLib
        ([] ++ [⟨[("Traffic Item", "traffic1"), ("Rx Bytes", "100"), ("Loss %", "2.1"),
                 ("Rx Port", "port1")]⟩]) ["traffic1"] = some (.ok d1) ∧
      d1.Flow.get? "traffic1" = some f1 ∧ Flow.noStats f1 := by
  refine ⟨rfl, rfl, ?_⟩
  obtain ⟨d1, f1, f, h1, h2, _, h4, _⟩ :=
    flow_stats_placed_by_ingress_tracking sampleLib []  []
      ⟨[("Traffic Item", "traffic1"), ("Rx Bytes", "100"), ("Loss %", "2.1"),
        ("Rx Port", "port1")]⟩ ["traffic1"] _ rfl
  exact ⟨d1, f1, h1, h2, (h4 (by decide)).1⟩

namespace oc

theorem carriesKey_new (k : Flow_IngressTracking_Key) :
    Flow_IngressTracking.carriesKey (Flow_IngressTracking.new k) k :=
  ⟨rfl, rfl, rfl, rfl, rfl, rfl, rfl⟩

theorem carriesKey_fillIngress (row : FlowStats) (t : Flow_IngressTracking)
    (k : Flow_IngressTracking_Key) (h : Flow_IngressTracking.carriesKey t k) :
    Flow_IngressTracking.carriesKey (fillIngress row t) k := h

/-- A record carries one key only. -/
theorem carriesKey_inj (t : Flow_IngressTracking) (k1 k2 : Flow_IngressTracking_Key)
    (h1 : Flow_IngressTracking.carriesKey t k1) (h2 : Flow_IngressTracking.carriesKey t k2) :
    k1 = k2 := by
  obtain ⟨a1, a2, a3, a4, a5, a6, a7⟩ := h1
  obtain ⟨b1, b2, b3, b4, b5, b6, b7⟩ := h2
  rw [a1] at b1
  rw [a2] at b2
  rw [a3] at b3
  rw [a4] at b4
  rw [a5] at b5
  rw [a6] at b6
  rw [a7] at b7
  injection b1 with b1
  injection b2 with b2
  injection b4 with b4
  injection b5 with b5
  injection b6 with b6
  injection b7 with b7
  cases k1
  cases k2
  simp only at b1 b2 b3 b4 b5 b6 b7
  subst b1 b2 b3 b4 b5 b6 b7
  rfl

/-- The ingress-tracking records of a flow carry the keys they sit under. -/
theorem flowWrite_carriesKey (itFlows : List String) (row : FlowStats) (f : Flow)
    (h : ∀ k t, f.IngressTracking.get? k = some t → Flow_IngressTracking.carriesKey t k) :
    ∀ k t, (flowWrite itFlows row f).IngressTracking.get? k = some t →
      Flow_IngressTracking.carriesKey t k := by
  intro k t ht
  by_cases hk : k = ingressTrackingKey row
  · by_cases htr : isIngressTracked row.TrafficItem itFlows = true
    · subst hk
      rw [flowWrite_child itFlows row f htr] at ht
      injection ht with ht
      rw [← ht]
      apply carriesKey_fillIngress
      cases hg : f.IngressTracking.get? (ingressTrackingKey row) with
      | none => exact carriesKey_new _
      | some t0 => exact h _ t0 hg
    · unfold flowWrite at ht
      rw [if_neg htr] at ht
      exact h k t ht
  · rw [flowWrite_child_ne itFlows row f k hk] at ht
    exact h k t ht

/-- The ingress-tracking records of the flows of the tree: under each flow the
keys are pairwise distinct, each comes from a record of that traffic item, and
each record carries its key. -/
theorem flowLoop_children (itFlows : List String) (rows : List FlowStats) (name : String)
    (f : Flow) (hf : (flowLoop itFlows rows {}).Flow.get? name = some f) :
    f.IngressTracking.keys.Nodup ∧
    (∀ k ∈ f.IngressTracking.keys, isIngressTracked name itFlows = true ∧
      ∃ r ∈ rows, r.TrafficItem = name ∧ ingressTrackingKey r = k) ∧
    (∀ k t, f.IngressTracking.get? k = some t → Flow_IngressTracking.carriesKey t k) := by
  have hnone : ∀ f, ({} : Device).Flow.get? name = some f → False := by
    intro f hf
    simp [GoMap.get?, GoMap.empty] at hf
  refine ⟨?_, ?_, ?_⟩
  · exact flowLoop_inv_flow itFlows name (fun f => f.IngressTracking.keys.Nodup) rows
      (by simp [GoMap.keys, GoMap.empty])
      (fun r _ _ f hf => flowWrite_keys_nodup itFlows r f hf) {}
      (fun f hf => (hnone f hf).elim) f hf
  · exact flowLoop_inv_flow itFlows name
      (fun f => ∀ k ∈ f.IngressTracking.keys, isIngressTracked name itFlows = true ∧
        ∃ r ∈ rows, r.TrafficItem = name ∧ ingressTrackingKey r = k) rows
      (by intro k hk; simp [GoMap.keys, GoMap.empty] at hk)
      (fun r hr hn f hf k hk => by
        rcases (flowWrite_keys itFlows r f k).1 hk with h1 | ⟨h1, h2⟩
        · exact hf k h1
        · exact ⟨by rw [← hn]; exact h1, r, hr, hn, h2.symm⟩) {}
      (fun f hf => (hnone f hf).elim) f hf
  · exact flowLoop_inv_flow itFlows name
      (fun f => ∀ k t, f.IngressTracking.get? k = some t → Flow_IngressTracking.carriesKey t k)
      rows (by intro k t ht; simp [GoMap.get?, GoMap.empty] at ht)
      (fun r _ _ f hf => flowWrite_carriesKey itFlows r f hf) {}
      (fun f hf => (hnone f hf).elim) f hf

/-- The flows of the tree come from the rows. -/
theorem flowLoop_flows (itFlows : List String) (rows : List FlowStats) (name : String)
    (f : Flow) (hf : (flowLoop itFlows rows {}).Flow.get? name = some f) :
    ∃ r ∈ rows, r.TrafficItem = name := by
  by_cases h : ∃ r ∈ rows, r.TrafficItem = name
  · exact h
  · rw [flowLoop_frame itFlows rows {} name (fun r hr hn => h ⟨r, hr, hn⟩)] at hf
    simp [GoMap.get?, GoMap.empty] at hf

end oc

namespace oc

/-- The ingress-tracking records of a flow of the translated tree, in terms of
the rows of the table. -/
theorem translateFlowStats_children (lib : GoLib) (tbl : Table) (itFlows : List String)
    (d : Device) (h : translateFlowStats lib tbl itFlows = some (.ok d))
    (name : String) (f : Flow) (hf : d.Flow.get? name = some f) :
    f.IngressTracking.keys.Nodup ∧
    (∀ k, k ∈ f.IngressTracking.keys ↔
      name ∈ itFlows ∧ ∃ row ∈ tbl, Row.get row "Traffic Item" = name ∧ ingressKeyOfRow row = k) ∧
    (∀ k t, f.IngressTracking.get? k = some t → Flow_IngressTracking.carriesKey t k) := by
  obtain ⟨recs, hall, hd⟩ := translateFlowStats_eq lib tbl itFlows d h
  obtain ⟨h1, h2, h3⟩ := flowLoop_children itFlows recs name f (by rw [← hd]; exact hf)
  refine ⟨h1, ?_, h3⟩
  intro k
  constructor
  · intro hk
    obtain ⟨ht, r, hr, hn, hkr⟩ := h2 k hk
    obtain ⟨row, hrow, hfr⟩ := forall₂_exists_left _ tbl recs hall r hr
    exact ⟨(isIngressTracked_iff _ _).1 ht, row, hrow,
      by rw [← stats.parseFlowStatsRow_ok lib row r hfr, hn],
      by rw [← parseFlowStatsRow_key lib row r hfr, hkr]⟩
  · rintro ⟨hin, row, hrow, hn, hk⟩
    obtain ⟨pre, post, htbl⟩ := List.append_of_mem hrow
    subst htbl
    obtain ⟨rpre, r, rpost, _, hr, _, _, _, hd2⟩ :=
      translateFlowStats_at_row lib pre post row itFlows d h
    obtain ⟨f0, f2, _, hf2, htr, _⟩ := flowLoop_at_record itFlows rpre rpost r
    have hname : r.TrafficItem = name := by
      rw [stats.parseFlowStatsRow_ok lib row r hr, hn]
    rw [← hd2, hname, hf] at hf2
    injection hf2 with hf2
    subst hf2
    obtain ⟨_, _, hex, _⟩ := htr (by rw [hname]; exact (isIngressTracked_iff _ _).2 hin)
    rw [parseFlowStatsRow_key lib row r hr, hk] at hex
    exact (GoMap.get?_isSome_iff _ _).1 hex

end oc

/-- C14: In a Flow Statistics table that translates, the key the
translator passes for a row is the 7-tuple of the values of `Rx Port`,
`Tx Port`, `mplsLabelFromUint` of `MPLS:Label Value`, `IPv4 :Source Address`,
`IPv4 :Destination Address`, `IPv6 :Source Address` and
`IPv6 :Destination Address`, in that order; an absent column gives the empty
text, an absent label column NO_LABEL.  Under each flow of the tree the keys
of the IngressTracking children are pairwise distinct and are exactly the
7-tuples of the rows of that flow when the flow is ingress-tracked (none
otherwise), every child carries its key, and two rows of an ingress-tracked
flow have the same child exactly when their 7-tuples are equal. -/
theorem ingress_tracking_keyed_by_seven_tuple (lib : GoLib) (tbl : Table)
    (itFlows : List String) (d : Device)
    (h : translateFlowStats lib tbl itFlows = some (.ok d)) :
    (∀ row ∈ tbl, ∃ rec, parseFlowStatsRow lib row = .ok rec ∧
      ingressTrackingKey rec =
        { SrcPort := Row.get row "Rx Port"
          DstPort := Row.get row "Tx Port"
          MplsLabel := mplsLabelFromUint (intColumn row "MPLS:Label Value")
          SrcIpv4 := Row.get row "IPv4 :Source Address"
          DstIpv4 := Row.get row "IPv4 :Destination Address"
          SrcIpv6 := Row.get row "IPv6 :Source Address"
          DstIpv6 := Row.get row "IPv6 :Destination Address" } ∧
      ingressTrackingKey rec = ingressKeyOfRow row) ∧
    (∀ row : Row,
      (Row.find? row "Rx Port" = none → (ingressKeyOfRow row).SrcPort = "") ∧
      (Row.find? row "Tx Port" = none → (ingressKeyOfRow row).DstPort = "") ∧
      (Row.find? row "MPLS:Label Value" = none → (ingressKeyOfRow row).MplsLabel = .NO_LABEL) ∧
      (Row.find? row "IPv4 :Source Address" = none → (ingressKeyOfRow row).SrcIpv4 = "") ∧
      (Row.find? row "IPv4 :Destination Address" = none → (ingressKeyOfRow row).DstIpv4 = "") ∧
      (Row.find? row "IPv6 :Source Address" = none → (ingressKeyOfRow row).SrcIpv6 = "") ∧
      (Row.find? row "IPv6 :Destination Address" = none →
        (ingressKeyOfRow row).DstIpv6 = "")) ∧
    (∀ name f, d.Flow.get? name = some f →
      f.IngressTracking.keys.Nodup ∧
      (∀ k, k ∈ f.IngressTracking.keys ↔
        name ∈ itFlows ∧
          ∃ row ∈ tbl, Row.get row "Traffic Item" = name ∧ ingressKeyOfRow row = k) ∧
      (∀ k t, f.IngressTracking.get? k = some t → Flow_IngressTracking.carriesKey t k)) ∧
    (∀ r1 ∈ tbl, ∀ r2 ∈ tbl, Row.get r1 "Traffic Item" = Row.get r2 "Traffic Item" →
      Row.get r1 "Traffic Item" ∈ itFlows →
      ∃ f t1 t2, d.Flow.get? (Row.get r1 "Traffic Item") = some f ∧
        f.IngressTracking.get? (ingressKeyOfRow r1) = some t1 ∧
        f.IngressTracking.get? (ingressKeyOfRow r2) = some t2 ∧
        (t1 = t2 ↔ ingressKeyOfRow r1 = ingressKeyOfRow r2)) := by
  refine ⟨?_, ?_, ?_, ?_⟩
  · intro row hrow
    obtain ⟨recs, hall, _⟩ := translateFlowStats_eq lib tbl itFlows d h
    obtain ⟨rec, _, hrec⟩ := forall₂_exists_right _ tbl recs hall row hrow
    exact ⟨rec, hrec, parseFlowStatsRow_key lib row rec hrec,
      parseFlowStatsRow_key lib row rec hrec⟩
  · intro row
    have hget : ∀ c, Row.find? row c = none → Row.get row c = "" :=
      fun c hc => stats.Row.get_of_absent_or_empty row c (Or.inl hc)
    refine ⟨hget _, hget _, ?_, hget _, hget _, hget _, hget _⟩
    intro hc
    show mplsLabelFromUint (intColumn row "MPLS:Label Value") = _
    rw [intColumn_absent row _ (Or.inl hc)]
    rfl
  · intro name f hf
    exact translateFlowStats_children lib tbl itFlows d h name f hf
  · intro r1 hr1 r2 hr2 hsame hin
    obtain ⟨pre, post, htbl⟩ := List.append_of_mem hr1
    obtain ⟨rpre, r, rpost, _, hr, _, _, _, hd2⟩ :=
      translateFlowStats_at_row lib pre post r1 itFlows d (by rw [← htbl]; exact h)
    obtain ⟨f0, f, _, hf, _, _⟩ := flowLoop_at_record itFlows rpre rpost r
    rw [← hd2, stats.parseFlowStatsRow_ok lib r1 r hr] at hf
    obtain ⟨_, hkeys, hcarry⟩ := translateFlowStats_children lib tbl itFlows d h _ f hf
    obtain ⟨t1, ht1⟩ := (GoMap.get?_isSome_iff _ _).2
      ((hkeys (ingressKeyOfRow r1)).2 ⟨hin, r1, hr1, rfl, rfl⟩)
    obtain ⟨t2, ht2⟩ := (GoMap.get?_isSome_iff _ _).2
      ((hkeys (ingressKeyOfRow r2)).2 ⟨hin, r2, hr2, hsame.symm, rfl⟩)
    refine ⟨f, t1, t2, hf, ht1, ht2, ?_, ?_⟩
    · intro ht
      subst ht
      exact carriesKey_inj t1 _ _ (hcarry _ _ ht1) (hcarry _ _ ht2)
    · intro hk
      rw [hk, ht2] at ht1
      injection ht1 with ht1
      exact ht1.symm

/-- Witness for C14: three rows of one ingress-tracked flow, the first and the
third with the same 7-tuple: the flow has two children. -/
theorem ingress_tracking_keyed_by_seven_tuple_witness :
    translateFlowStats sampleLib
        [⟨[("Traffic Item", "t1"), ("Rx Port", "p1"), ("Rx Bytes", "1")]⟩,
         ⟨[("Traffic Item", "t1"), ("Rx Port", "p2"), ("MPLS:Label Value", "3")]⟩,
         ⟨[("Traffic Item", "t1"), ("Rx Port", "p1"), ("Rx Bytes", "5")]⟩] ["t1"]
      = some (.ok { Flow := ⟨[("t1",
          { Name := some "t1",
            IngressTracking := ⟨[
              ({ SrcPort := "p1", DstPort := "", MplsLabel := .NO_LABEL, SrcIpv4 := "",
                 DstIpv4 := "", SrcIpv6 := "", DstIpv6 := "" },
               { SrcPort := some "p1", DstPort := some "", MplsLabel := .NO_LABEL,
                 SrcIpv4 := some "", DstIpv4 := some "", SrcIpv6 := some "",
                 DstIpv6 := some "", Counters := some { InOctets := some 5 } }),
              ({ SrcPort := "p2", DstPort := "", MplsLabel := .IMPLICIT_NULL, SrcIpv4 := "",
                 DstIpv4 := "", SrcIpv6 := "", DstIpv6 := "" },
               { SrcPort := some "p2", DstPort := some "", MplsLabel := .IMPLICIT_NULL,
                 SrcIpv4 := some "", DstIpv4 := some "", SrcIpv6 := some "",
                 DstIpv6 := some "", Counters := some {} })]⟩ })]⟩ }) ∧
    (Row.find? ⟨[("Traffic Item", "t1")]⟩ "MPLS:Label Value" = none →
      (ingressKeyOfRow ⟨[("Traffic Item", "t1")]⟩).MplsLabel = .NO_LABEL) :=
  ⟨rfl,
   ((ingress_tracking_keyed_by_seven_tuple sampleLib
      [⟨[("Traffic Item", "t1"), ("Rx Port", "p1"), ("Rx Bytes", "1")]⟩,
       ⟨[("Traffic Item", "t1"), ("Rx Port", "p2"), ("MPLS:Label Value", "3")]⟩,
       ⟨[("Traffic Item", "t1"), ("Rx Port", "p1"), ("Rx Bytes", "5")]⟩] ["t1"] _ rfl).2.1
      ⟨[("Traffic Item", "t1")]⟩).2.2.1⟩

namespace oc

/-- No flow and no ingress-tracking record of the tree has an out-octets counter. -/
theorem flowLoop_no_out_octets (itFlows : List String) (rows : List FlowStats) (name : String)
    (f : Flow) (hf : (flowLoop itFlows rows {}).Flow.get? name = some f) :
    (∀ c, f.Counters = some c → c.OutOctets = none) ∧
    (∀ k t, f.IngressTracking.get? k = some t → ∀ c, t.Counters = some c → c.OutOctets = none) := by
  apply flowLoop_inv_flow itFlows name
    (fun f => (∀ c, f.Counters = some c → c.OutOctets = none) ∧
      (∀ k t, f.IngressTracking.get? k = some t → ∀ c, t.Counters = some c → c.OutOctets = none))
    rows ?_ ?_ {} ?_ f hf
  · constructor
    · intro c hc
      simp at hc
    · intro k t ht
      simp [GoMap.get?, GoMap.empty] at ht
  · intro r _ _ f0 ⟨h1, h2⟩
    by_cases htr : isIngressTracked r.TrafficItem itFlows = true
    · constructor
      · rw [flowWrite_tracked itFlows r f0 htr]
        exact h1
      · intro k t ht c hc
        by_cases hk : k = ingressTrackingKey r
        · subst hk
          rw [flowWrite_child itFlows r f0 htr] at ht
          injection ht with ht
          rw [← ht] at hc
          simp only [fillIngress, Option.some.injEq] at hc
          rw [← hc]
          rfl
        · rw [flowWrite_child_ne itFlows r f0 k hk] at ht
          exact h2 k t ht c hc
    · have htr2 : isIngressTracked r.TrafficItem itFlows = false := by
        cases hb : isIngressTracked r.TrafficItem itFlows with
        | true => exact absurd hb htr
        | false => rfl
      rw [flowWrite_untracked itFlows r f0 htr2]
      constructor
      · intro c hc
        simp only [Option.some.injEq] at hc
        rw [← hc]
        rfl
      · exact h2
  · intro f0 hf0
    simp [GoMap.get?, GoMap.empty] at hf0

end oc

/-- C15: In a Flow Statistics table that translates, the node a row
writes (the flow, or its IngressTracking child when the flow is
ingress-tracked) holds right after the row in-octets from `Rx Bytes`,
in-packets from `Rx Frames`, out-packets from `Tx Frames` and no out-octets;
an absent or empty column gives an unset counter and the numeral of `n` the
counter `n`; and no flow and no ingress-tracking node of the translated tree
has an out-octets counter. -/
theorem flow_counters_from_columns (lib : GoLib) (pre post : Table) (row : Row)
    (itFlows : List String) (d : Device)
    (h : translateFlowStats lib (pre ++ row :: post) itFlows = some (.ok d)) :
    (∃ d1 f1, translateFlowStats lib (pre ++ [row]) itFlows = some (.ok d1) ∧
      d1.Flow.get? (Row.get row "Traffic Item") = some f1 ∧
      (Row.get row "Traffic Item" ∉ itFlows →
        f1.Counters = some { InOctets := intColumn row "Rx Bytes"
                             InPkts := intColumn row "Rx Frames"
                             OutOctets := none
                             OutPkts := intColumn row "Tx Frames" }) ∧
      (Row.get row "Traffic Item" ∈ itFlows →
        ∃ t1, f1.IngressTracking.get? (ingressKeyOfRow row) = some t1 ∧
          t1.Counters = some { InOctets := intColumn row "Rx Bytes"
                               InPkts := intColumn row "Rx Frames"
                               OutOctets := none
                               OutPkts := intColumn row "Tx Frames" })) ∧
    (∀ name f, d.Flow.get? name = some f →
      (∀ c, f.Counters = some c → c.OutOctets = none) ∧
      (∀ k t, f.IngressTracking.get? k = some t →
        ∀ c, t.Counters = some c → c.OutOctets = none)) ∧
    (∀ k, Row.find? row k = none ∨ Row.find? row k = some "" → intColumn row k = none) ∧
    (∀ k n, n < 2 ^ 64 → Row.find? row k = some (toString n) → intColumn row k = some n) := by
  refine ⟨?_, ?_, intColumn_absent row, intColumn_toString row⟩
  · obtain ⟨rpre, r, rpost, _, hr, _, hd1, hf1, _⟩ :=
      translateFlowStats_at_row lib pre post row itFlows d h
    have hname : r.TrafficItem = Row.get row "Traffic Item" :=
      stats.parseFlowStatsRow_ok lib row r hr
    have hkey := parseFlowStatsRow_key lib row r hr
    obtain ⟨_, heq⟩ := stats.parseFlowStatsRow_eq lib row r hr
    have hc : flowCounters r = { InOctets := intColumn row "Rx Bytes"
                                 InPkts := intColumn row "Rx Frames"
                                 OutOctets := none
                                 OutPkts := intColumn row "Tx Frames" } := by
      subst heq; rfl
    refine ⟨_, _, hd1, by rw [← hname]; exact hf1, ?_, ?_⟩
    · intro hnin
      rw [flowWrite_untracked itFlows r _
        (by rw [hname]; exact (isIngressTracked_eq_false_iff _ _).2 hnin)]
      exact congrArg some hc
    · intro hin
      have hchild := flowWrite_child itFlows r
        (((flowLoop itFlows rpre {}).Flow.get? r.TrafficItem).getD { Name := some r.TrafficItem })
        (by rw [hname]; exact (isIngressTracked_iff _ _).2 hin)
      rw [hkey] at hchild
      exact ⟨_, hchild, congrArg some hc⟩
  · intro name f hf
    obtain ⟨recs, _, hd⟩ := translateFlowStats_eq lib _ itFlows d h
    rw [hd] at hf
    exact flowLoop_no_out_octets itFlows recs name f hf

/-- Witness for C15: a row with the three counter columns and a `Tx Bytes`
column; no out-octets counter is set. -/
theorem flow_counters_from_columns_witness :
    translateFlowStats sampleLib
        ([] ++ ⟨[("Traffic Item", "traffic1"), ("Rx Bytes", "100"), ("Rx Frames", "10"),
                 ("Tx Frames", "20"), ("Tx Bytes", "200")]⟩ :: []) []
      = some (.ok { Flow := ⟨[("traffic1",
          { Name := some "traffic1",
            Counters := some { InOctets := some 100, InPkts := some 10, OutOctets := none,
                               OutPkts := some 20 } })]⟩ }) ∧
    (∀ k, Row.find? ⟨[("Traffic Item", "traffic1"), ("Rx Bytes", "100"), ("Rx Frames", "10"),
                      ("Tx Frames", "20"), ("Tx Bytes", "200")]⟩ k = none ∨
        Row.find? ⟨[("Traffic Item", "traffic1"), ("Rx Bytes", "100"), ("Rx Frames", "10"),
                    ("Tx Frames", "20"), ("Tx Bytes", "200")]⟩ k = some "" →
      intColumn ⟨[("Traffic Item", "traffic1"), ("Rx Bytes", "100"), ("Rx Frames", "10"),
                  ("Tx Frames", "20"), ("Tx Bytes", "200")]⟩ k = none) :=
  ⟨rfl,
   (flow_counters_from_columns sampleLib [] []
      ⟨[("Traffic Item", "traffic1"), ("Rx Bytes", "100"), ("Rx Frames", "10"),
        ("Tx Frames", "20"), ("Tx Bytes", "200")]⟩ [] _ rfl).2.2.1⟩

/-! ## Lemmas on the Egress Statistics translator -/

namespace oc

/-- On a header record an iteration of the Egress Statistics loop leaves the
device `egressHeaderRow`, whatever `f` and `it` were. -/
theorem egressRow_header_eq (itFlows : List String) (row : EgressStats) (s : EgressState)
    (h : row.FlowStats.TrafficItem ≠ "") :
    ∃ s1, egressRow itFlows row s = some s1 ∧ s1.d = egressHeaderRow itFlows row s.d := by
  unfold egressRow egressHeaderRow
  rw [if_pos h]
  dsimp only
  split <;> exact ⟨_, rfl, rfl⟩

/-- On header records the Egress Statistics loop is the loop `egressHeaderLoop`. -/
theorem egressTranslateLoop_headers (itFlows : List String) (es : List EgressStats)
    (s : EgressState) (h : ∀ rec ∈ es, rec.FlowStats.TrafficItem ≠ "") :
    egressTranslateLoop itFlows es s = some (egressHeaderLoop itFlows es s.d) := by
  induction es generalizing s with
  | nil => rfl
  | cons row rows ih =>
    obtain ⟨s1, hs1, hd1⟩ := egressRow_header_eq itFlows row s (h row (List.mem_cons_self _ _))
    simp only [egressTranslateLoop, hs1, egressHeaderLoop]
    rw [ih s1 (fun rec hrec => h rec (List.mem_cons_of_mem _ hrec)), hd1]

/-- Header records of other traffic items leave the flow `name` as it was. -/
theorem egressHeaderRow_get?_ne (itFlows : List String) (row : EgressStats) (d : Device)
    (name : String) (h : name ≠ row.FlowStats.TrafficItem) :
    (egressHeaderRow itFlows row d).Flow.get? name = d.Flow.get? name := by
  unfold egressHeaderRow
  by_cases ht : isIngressTracked row.FlowStats.TrafficItem itFlows = true
  · simp only [ht, if_true, Device.updateIngressTracking, ingressTrackingFromFlowStats,
      Device.updateFlow, Device.GetOrCreateFlow, GoMap.get?_modify_ne _ _ _ _ h,
      GoMap.get?_getOrCreate_ne _ _ _ _ h]
  · simp only [ht, Bool.false_eq_true, if_false, Device.updateFlow, Device.GetOrCreateFlow,
      GoMap.get?_modify_ne _ _ _ _ h, GoMap.get?_getOrCreate_ne _ _ _ _ h]

/-- The flow a header iteration leaves under the traffic item of its record. -/
theorem egressHeaderRow_get? (itFlows : List String) (row : EgressStats) (d : Device) :
    (egressHeaderRow itFlows row d).Flow.get? row.FlowStats.TrafficItem =
      some (egressHeaderWrite itFlows row
        ((d.Flow.get? row.FlowStats.TrafficItem).getD
          { Name := some row.FlowStats.TrafficItem })) := by
  unfold egressHeaderRow egressHeaderWrite
  by_cases ht : isIngressTracked row.FlowStats.TrafficItem itFlows = true
  · simp only [ht, if_true, Device.updateIngressTracking, ingressTrackingFromFlowStats,
      Device.updateFlow, Device.GetOrCreateFlow, GoMap.get?_modify_same,
      GoMap.get?_getOrCreate_same, Option.map_some', Flow.GetOrCreateIngressTracking]
  · simp only [ht, Bool.false_eq_true, if_false, Device.updateFlow, Device.GetOrCreateFlow,
      GoMap.get?_modify_same, GoMap.get?_getOrCreate_same, Option.map_some']

theorem egressHeaderLoop_append (itFlows : List String) (a b : List EgressStats) (d : Device) :
    egressHeaderLoop itFlows (a ++ b) d
      = egressHeaderLoop itFlows b (egressHeaderLoop itFlows a d) := by
  induction a generalizing d with
  | nil => rfl
  | cons r rs ih => exact ih _

/-- An invariant of the flow under one traffic item along the header loop. -/
theorem egressHeaderLoop_inv_at (itFlows : List String) (name : String)
    (P : Option Flow → Prop) (rows : List EgressStats)
    (hstep : ∀ r ∈ rows, r.FlowStats.TrafficItem = name → ∀ o, P o →
      P (some (egressHeaderWrite itFlows r (o.getD { Name := some name }))))
    (d : Device) (h0 : P (d.Flow.get? name)) :
    P ((egressHeaderLoop itFlows rows d).Flow.get? name) := by
  induction rows generalizing d with
  | nil => exact h0
  | cons r rs ih =>
    apply ih (fun x hx => hstep x (List.mem_cons_of_mem _ hx))
    by_cases hn : name = r.FlowStats.TrafficItem
    · subst hn
      rw [egressHeaderRow_get?]
      exact hstep r (List.mem_cons_self _ _) rfl _ h0
    · rw [egressHeaderRow_get?_ne itFlows r d name hn]
      exact h0

/-- An invariant of the flow under one traffic item, on the flow itself. -/
theorem egressHeaderLoop_inv_flow (itFlows : List String) (name : String) (Q : Flow → Prop)
    (rows : List EgressStats) (hnew : Q { Name := some name })
    (hstep : ∀ r ∈ rows, r.FlowStats.TrafficItem = name → ∀ f, Q f →
      Q (egressHeaderWrite itFlows r f))
    (d : Device) (h0 : ∀ f, d.Flow.get? name = some f → Q f) :
    ∀ f, (egressHeaderLoop itFlows rows d).Flow.get? name = some f → Q f := by
  apply egressHeaderLoop_inv_at itFlows name (fun o => ∀ f, o = some f → Q f) rows ?_ d h0
  intro r hr hn o ho f hf
  injection hf with hf
  rw [← hf]
  apply hstep r hr hn
  cases o with
  | none => exact hnew
  | some f0 => exact ho f0 rfl

/-- Header records of other traffic items leave the flow `name` as it was. -/
theorem egressHeaderLoop_frame (itFlows : List String) (rows : List EgressStats) (d : Device)
    (name : String) (h : ∀ r ∈ rows, r.FlowStats.TrafficItem ≠ name) :
    (egressHeaderLoop itFlows rows d).Flow.get? name = d.Flow.get? name :=
  egressHeaderLoop_inv_at itFlows name (fun o => o = d.Flow.get? name) rows
    (fun r hr hn => absurd hn (h r hr)) d rfl

/-- The ingress-tracking record under the key of a header record, after it. -/
theorem egressHeaderWrite_child (itFlows : List String) (row : EgressStats) (f : Flow)
    (ht : isIngressTracked row.FlowStats.TrafficItem itFlows = true) :
    (egressHeaderWrite itFlows row f).IngressTracking.get? (ingressTrackingKey row.FlowStats) =
      some { ((f.IngressTracking.get? (ingressTrackingKey row.FlowStats)).getD
        (Flow_IngressTracking.new (ingressTrackingKey row.FlowStats))) with
          Filter := some row.Filter } := by
  unfold egressHeaderWrite
  rw [if_pos ht]
  simp only [GoMap.get?_modify_same, GoMap.get?_getOrCreate_same, Option.map_some']

/-- The ingress-tracking records under other keys, after a header record. -/
theorem egressHeaderWrite_child_ne (itFlows : List String) (row : EgressStats) (f : Flow)
    (k : Flow_IngressTracking_Key) (hk : k ≠ ingressTrackingKey row.FlowStats) :
    (egressHeaderWrite itFlows row f).IngressTracking.get? k = f.IngressTracking.get? k := by
  unfold egressHeaderWrite
  by_cases ht : isIngressTracked row.FlowStats.TrafficItem itFlows = true
  · rw [if_pos ht]
    simp only [GoMap.get?_modify_ne _ _ _ _ hk, GoMap.get?_getOrCreate_ne _ _ _ _ hk]
  · rw [if_neg ht]

/-- The keys of the ingress-tracking records, after a header record. -/
theorem egressHeaderWrite_keys (itFlows : List String) (row : EgressStats) (f : Flow)
    (k : Flow_IngressTracking_Key) :
    k ∈ (egressHeaderWrite itFlows row f).IngressTracking.keys ↔
      k ∈ f.IngressTracking.keys ∨
        (isIngressTracked row.FlowStats.TrafficItem itFlows = true ∧
          k = ingressTrackingKey row.FlowStats) := by
  unfold egressHeaderWrite
  by_cases ht : isIngressTracked row.FlowStats.TrafficItem itFlows = true
  · rw [if_pos ht]
    simp only [GoMap.keys_modify, GoMap.mem_keys_getOrCreate, ht, true_and]
  · rw [if_neg ht]
    simp only [ht, Bool.false_eq_true, false_and, or_false]

/-- A header record of a tracked flow touches the ingress-tracking records only. -/
theorem egressHeaderWrite_tracked (itFlows : List String) (row : EgressStats) (f : Flow)
    (ht : isIngressTracked row.FlowStats.TrafficItem itFlows = true) :
    egressHeaderWrite itFlows row f =
      { f with IngressTracking := (egressHeaderWrite itFlows row f).IngressTracking } := by
  unfold egressHeaderWrite
  rw [if_pos ht]

/-- A header record of an untracked flow sets the filter of the flow only. -/
theorem egressHeaderWrite_untracked (itFlows : List String) (row : EgressStats) (f : Flow)
    (ht : isIngressTracked row.FlowStats.TrafficItem itFlows = false) :
    egressHeaderWrite itFlows row f = { f with Filter := some row.Filter } := by
  unfold egressHeaderWrite
  rw [if_neg (by rw [ht]; decide)]

end oc

namespace oc

theorem egressRecordOf_ok (lib : GoLib) (row : Row) (rec : EgressStats)
    (h : egressRecordOf lib row = .ok rec) :
    parseFlowStatsRow lib row = .ok rec.FlowStats ∧
      rec.Filter = Row.get row "Egress Tracking" := by
  unfold egressRecordOf at h
  cases hp : parseFlowStatsRow lib row with
  | error e => rw [hp] at h; exact Except.noConfusion h
  | ok p =>
    rw [hp] at h
    simp only [Except.ok.injEq] at h
    subst h
    exact ⟨rfl, rfl⟩

/-- A row without traffic item has no egress record. -/
theorem egressRecordOf_data_row (lib : GoLib) (row : Row)
    (h : Row.get row "Traffic Item" = "") :
    egressRecordOf lib row = .error (.missingKey row "Traffic Item") := by
  unfold egressRecordOf parseFlowStatsRow Row.parse
  simp only [h, if_true]

theorem specParseEgressStats_eq (lib : GoLib) (t : Table) :
    specParseEgressStats lib t = stats.parseRows (egressRecordOf lib) t [] := rfl

/-- The records of the egress parser, row by row. -/
theorem ParseEgressStats_forall₂ (lib : GoLib) (t : Table) (es : List EgressStats)
    (h : Table.ParseEgressStats lib t = some (.ok es)) :
    List.Forall₂ (fun row rec => egressRecordOf lib row = .ok rec) t es := by
  rw [stats.ParseEgressStats_eq_spec, specParseEgressStats_eq] at h
  injection h with h
  obtain ⟨recs, hrecs, hall⟩ := stats.parseRows_ok _ t [] es h
  simp only [List.nil_append] at hrecs
  subst hrecs
  exact hall

theorem ParseEgressStats_of_forall₂ (lib : GoLib) (t : Table) (es : List EgressStats)
    (h : List.Forall₂ (fun row rec => egressRecordOf lib row = .ok rec) t es) :
    Table.ParseEgressStats lib t = some (.ok es) := by
  rw [stats.ParseEgressStats_eq_spec, specParseEgressStats_eq,
    stats.parseRows_of_forall₂ _ t [] es h]
  rfl

/-- The tree of the Egress Statistics translator is the header loop over the
records: every record of a table that parses is a header record. -/
theorem translateEgressStats_eq (lib : GoLib) (tbl : Table) (itFlows : List String) (d : Device)
    (h : translateEgressStats lib tbl itFlows = some (.ok d)) :
    ∃ es, List.Forall₂ (fun row rec => egressRecordOf lib row = .ok rec) tbl es ∧
      d = egressHeaderLoop itFlows es {} := by
  unfold translateEgressStats at h
  cases hp : Table.ParseEgressStats lib tbl with
  | none => rw [hp] at h; simp at h
  | some r =>
    cases r with
    | error e => rw [hp] at h; simp at h
    | ok es =>
      rw [hp] at h
      simp only at h
      rw [egressTranslateLoop_headers itFlows es _ (ParseEgressStats_names lib tbl es hp)] at h
      simp only [Option.map_some', Option.some.injEq, Except.ok.injEq] at h
      exact ⟨es, ParseEgressStats_forall₂ lib tbl es hp, h.symm⟩

theorem translateEgressStats_of_forall₂ (lib : GoLib) (tbl : Table) (itFlows : List String)
    (es : List EgressStats)
    (h : List.Forall₂ (fun row rec => egressRecordOf lib row = .ok rec) tbl es) :
    translateEgressStats lib tbl itFlows = some (.ok (egressHeaderLoop itFlows es {})) := by
  have hp := ParseEgressStats_of_forall₂ lib tbl es h
  unfold translateEgressStats
  rw [hp]
  simp only
  rw [egressTranslateLoop_headers itFlows es _ (ParseEgressStats_names lib tbl es hp)]
  rfl

/-- A table with a row without traffic item does not translate: the egress
parser rejects the row, and the translator returns its error. -/
theorem translateEgressStats_data_row (lib : GoLib) (tbl : Table) (itFlows : List String)
    (row : Row) (hrow : row ∈ tbl) (h : Row.get row "Traffic Item" = "") :
    ∃ e, translateEgressStats lib tbl itFlows = some (.error e) := by
  obtain ⟨e, he⟩ := stats.parseRows_error_of_mem (egressRecordOf lib) tbl [] row hrow _
    (egressRecordOf_data_row lib row h)
  refine ⟨e, ?_⟩
  unfold translateEgressStats
  rw [stats.ParseEgressStats_eq_spec, specParseEgressStats_eq, he]

/-- The tree of the Egress Statistics translator around one row of the table. -/
theorem translateEgressStats_at_row (lib : GoLib) (pre post : Table) (row : Row)
    (itFlows : List String) (d : Device)
    (h : translateEgressStats lib (pre ++ row :: post) itFlows = some (.ok d)) :
    ∃ rpre r rpost,
      List.Forall₂ (fun row rec => egressRecordOf lib row = .ok rec) pre rpre ∧
      egressRecordOf lib row = .ok r ∧
      List.Forall₂ (fun row rec => egressRecordOf lib row = .ok rec) post rpost ∧
      translateEgressStats lib (pre ++ [row]) itFlows
        = some (.ok (egressHeaderLoop itFlows (rpre ++ [r]) {})) ∧
      (egressHeaderLoop itFlows (rpre ++ [r]) {}).Flow.get? r.FlowStats.TrafficItem
        = some (egressHeaderWrite itFlows r
            (((egressHeaderLoop itFlows rpre {}).Flow.get? r.FlowStats.TrafficItem).getD
              { Name := some r.FlowStats.TrafficItem })) ∧
      d = egressHeaderLoop itFlows rpost (egressHeaderLoop itFlows (rpre ++ [r]) {}) := by
  obtain ⟨recs, hall, hd⟩ := translateEgressStats_eq lib _ itFlows d h
  obtain ⟨rpre, r, rpost, hl, h1, h2, h3⟩ := stats.forall₂_split _ pre row post recs hall
  subst hl
  refine ⟨rpre, r, rpost, h1, h2, h3, ?_, ?_, ?_⟩
  · apply translateEgressStats_of_forall₂
    exact List.rel_append h1 (List.Forall₂.cons h2 List.Forall₂.nil)
  · rw [egressHeaderLoop_append]
    exact egressHeaderRow_get? itFlows r _
  · rw [hd, ← egressHeaderLoop_append, List.append_assoc]
    rfl

end oc

namespace oc

/-- Header records of a tracked traffic item leave the filter of the flow unset. -/
theorem egressHeaderLoop_no_filter (itFlows : List String) (name : String)
    (rows : List EgressStats) (d : Device) (ht : isIngressTracked name itFlows = true)
    (h0 : ∀ f, d.Flow.get? name = some f → f.Filter = none) :
    ∀ f, (egressHeaderLoop itFlows rows d).Flow.get? name = some f → f.Filter = none := by
  apply egressHeaderLoop_inv_flow itFlows name (fun f => f.Filter = none) rows rfl ?_ d h0
  intro r _ hn f hf
  rw [egressHeaderWrite_tracked itFlows r f (by rw [hn]; exact ht)]
  exact hf

/-- Header records of an untracked traffic item create no ingress-tracking record. -/
theorem egressHeaderLoop_no_children (itFlows : List String) (name : String)
    (rows : List EgressStats) (d : Device) (ht : isIngressTracked name itFlows = false)
    (h0 : ∀ f, d.Flow.get? name = some f → f.IngressTracking = GoMap.empty) :
    ∀ f, (egressHeaderLoop itFlows rows d).Flow.get? name = some f →
      f.IngressTracking = GoMap.empty := by
  apply egressHeaderLoop_inv_flow itFlows name (fun f => f.IngressTracking = GoMap.empty) rows
    rfl ?_ d h0
  intro r _ hn f hf
  rw [egressHeaderWrite_untracked itFlows r f (by rw [hn]; exact ht)]
  exact hf

/-- Header records set no counters, loss or rates and create no egress-tracking
record, on the flows and on their ingress-tracking records. -/
theorem egressHeaderLoop_noStats (itFlows : List String) (rows : List EgressStats)
    (name : String) (f : Flow) (hf : (egressHeaderLoop itFlows rows {}).Flow.get? name = some f) :
    Flow.noStats f ∧ f.EgressTracking = GoMap.empty ∧
    (∀ k t, f.IngressTracking.get? k = some t →
      Flow_IngressTracking.noStats t ∧ t.EgressTracking = GoMap.empty) := by
  apply egressHeaderLoop_inv_flow itFlows name
    (fun f => Flow.noStats f ∧ f.EgressTracking = GoMap.empty ∧
      (∀ k t, f.IngressTracking.get? k = some t →
        Flow_IngressTracking.noStats t ∧ t.EgressTracking = GoMap.empty))
    rows ?_ ?_ {} ?_ f hf
  · refine ⟨⟨rfl, rfl, rfl, rfl, rfl, rfl⟩, rfl, ?_⟩
    intro k t ht
    simp [GoMap.get?, GoMap.empty] at ht
  · intro r _ _ f0 ⟨h1, h2, h3⟩
    by_cases htr : isIngressTracked r.FlowStats.TrafficItem itFlows = true
    · rw [egressHeaderWrite_tracked itFlows r f0 htr]
      refine ⟨h1, h2, ?_⟩
      intro k t ht
      by_cases hk : k = ingressTrackingKey r.FlowStats
      · subst hk
        rw [egressHeaderWrite_child itFlows r f0 htr] at ht
        injection ht with ht
        rw [← ht]
        cases hg : f0.IngressTracking.get? (ingressTrackingKey r.FlowStats) with
        | none => exact ⟨⟨rfl, rfl, rfl, rfl, rfl, rfl⟩, rfl⟩
        | some t0 => exact h3 _ t0 hg
      · rw [egressHeaderWrite_child_ne itFlows r f0 k hk] at ht
        exact h3 k t ht
    · have htr2 : isIngressTracked r.FlowStats.TrafficItem itFlows = false := by
        cases hb : isIngressTracked r.FlowStats.TrafficItem itFlows with
        | true => exact absurd hb htr
        | false => rfl
      rw [egressHeaderWrite_untracked itFlows r f0 htr2]
      exact ⟨h1, h2, h3⟩
  · intro f0 hf0
    simp [GoMap.get?, GoMap.empty] at hf0

/-- The flow of a header record right after the record and at the end of the loop. -/
theorem egressHeaderLoop_at_record (itFlows : List String) (rpre rpost : List EgressStats)
    (r : EgressStats) :
    ∃ f0 f, (egressHeaderLoop itFlows (rpre ++ [r]) {}).Flow.get? r.FlowStats.TrafficItem
        = some (egressHeaderWrite itFlows r f0) ∧
      (egressHeaderLoop itFlows rpost (egressHeaderLoop itFlows (rpre ++ [r]) {})).Flow.get?
        r.FlowStats.TrafficItem = some f ∧
      (isIngressTracked r.FlowStats.TrafficItem itFlows = true →
        f0.Filter = none ∧ f.Filter = none ∧
        (∃ t, f.IngressTracking.get? (ingressTrackingKey r.FlowStats) = some t) ∧
        ((∀ x ∈ rpost, x.FlowStats.TrafficItem = r.FlowStats.TrafficItem →
            ingressTrackingKey x.FlowStats ≠ ingressTrackingKey r.FlowStats) →
          f.IngressTracking.get? (ingressTrackingKey r.FlowStats)
            = (egressHeaderWrite itFlows r f0).IngressTracking.get?
                (ingressTrackingKey r.FlowStats))) ∧
      (isIngressTracked r.FlowStats.TrafficItem itFlows = false →
        f0.IngressTracking = GoMap.empty ∧ f.IngressTracking = GoMap.empty ∧
        ((∀ x ∈ rpost, x.FlowStats.TrafficItem ≠ r.FlowStats.TrafficItem) →
          f = egressHeaderWrite itFlows r f0)) := by
  have hf1 : (egressHeaderLoop itFlows (rpre ++ [r]) {}).Flow.get? r.FlowStats.TrafficItem
      = some (egressHeaderWrite itFlows r
          (((egressHeaderLoop itFlows rpre {}).Flow.get? r.FlowStats.TrafficItem).getD
            { Name := some r.FlowStats.TrafficItem })) := by
    rw [egressHeaderLoop_append]
    exact egressHeaderRow_get? itFlows r _
  have hex : ∃ f, (egressHeaderLoop itFlows rpost
      (egressHeaderLoop itFlows (rpre ++ [r]) {})).Flow.get? r.FlowStats.TrafficItem = some f :=
    egressHeaderLoop_inv_at itFlows r.FlowStats.TrafficItem (fun o => ∃ f, o = some f) rpost
      (fun _ _ _ _ _ => ⟨_, rfl⟩) _ ⟨_, hf1⟩
  obtain ⟨f, hf⟩ := hex
  refine ⟨_, f, hf1, hf, ?_, ?_⟩
  · intro ht
    have h0 : (((egressHeaderLoop itFlows rpre {}).Flow.get? r.FlowStats.TrafficItem).getD
        { Name := some r.FlowStats.TrafficItem }).Filter = none := by
      cases hg : (egressHeaderLoop itFlows rpre {}).Flow.get? r.FlowStats.TrafficItem with
      | none => rfl
      | some f0 =>
        exact egressHeaderLoop_no_filter itFlows r.FlowStats.TrafficItem rpre {} ht
          (fun f hf => by simp [GoMap.get?, GoMap.empty] at hf) f0 hg
    refine ⟨h0, ?_, ?_, ?_⟩
    · apply egressHeaderLoop_no_filter itFlows r.FlowStats.TrafficItem rpost _ ht ?_ f hf
      intro f1 hf1'
      rw [hf1] at hf1'
      injection hf1' with hf1'
      rw [← hf1', egressHeaderWrite_tracked itFlows r _ ht]
      exact h0
    · have hk := egressHeaderLoop_inv_at itFlows r.FlowStats.TrafficItem
        (fun o => ∃ f, o = some f ∧ ingressTrackingKey r.FlowStats ∈ f.IngressTracking.keys)
        rpost
        (fun x _ _ o ho => by
          obtain ⟨f2, hf2, hk2⟩ := ho
          subst hf2
          exact ⟨_, rfl, (egressHeaderWrite_keys itFlows x _ _).2 (Or.inl hk2)⟩)
        (egressHeaderLoop itFlows (rpre ++ [r]) {})
        ⟨_, hf1, (egressHeaderWrite_keys itFlows r _ _).2 (Or.inr ⟨ht, rfl⟩)⟩
      obtain ⟨f2, hf2, hk2⟩ := hk
      rw [hf] at hf2
      injection hf2 with hf2
      subst hf2
      exact (GoMap.get?_isSome_iff _ _).2 hk2
    · intro hpost
      have hk := egressHeaderLoop_inv_at itFlows r.FlowStats.TrafficItem
        (fun o => ∃ f, o = some f ∧ f.IngressTracking.get? (ingressTrackingKey r.FlowStats)
          = (egressHeaderWrite itFlows r
              (((egressHeaderLoop itFlows rpre {}).Flow.get? r.FlowStats.TrafficItem).getD
                { Name := some r.FlowStats.TrafficItem })).IngressTracking.get?
              (ingressTrackingKey r.FlowStats)) rpost
        (fun x hx hn o ho => by
          obtain ⟨f2, hf2, hk2⟩ := ho
          subst hf2
          exact ⟨_, rfl, by
            rw [egressHeaderWrite_child_ne itFlows x _ _ (fun hkk => hpost x hx hn hkk.symm)]
            exact hk2⟩)
        (egressHeaderLoop itFlows (rpre ++ [r]) {}) ⟨_, hf1, rfl⟩
      obtain ⟨f2, hf2, hk2⟩ := hk
      rw [hf] at hf2
      injection hf2 with hf2
      subst hf2
      exact hk2
  · intro ht
    have h0 : (((egressHeaderLoop itFlows rpre {}).Flow.get? r.FlowStats.TrafficItem).getD
        { Name := some r.FlowStats.TrafficItem }).IngressTracking = GoMap.empty := by
      cases hg : (egressHeaderLoop itFlows rpre {}).Flow.get? r.FlowStats.TrafficItem with
      | none => rfl
      | some f0 =>
        exact egressHeaderLoop_no_children itFlows r.FlowStats.TrafficItem rpre {} ht
          (fun f hf => by simp [GoMap.get?, GoMap.empty] at hf) f0 hg
    refine ⟨h0, ?_, ?_⟩
    · apply egressHeaderLoop_no_children itFlows r.FlowStats.TrafficItem rpost _ ht ?_ f hf
      intro f1 hf1'
      rw [hf1] at hf1'
      injection hf1' with hf1'
      rw [← hf1', egressHeaderWrite_untracked itFlows r _ ht]
      exact h0
    · intro hpost
      rw [egressHeaderLoop_frame itFlows rpost _ r.FlowStats.TrafficItem hpost, hf1] at hf
      injection hf with hf
      exact hf.symm

end oc

/-! ## The Egress Statistics translator: properties -/

/-- C16 (code defect): The table of a header row followed by a data row
(a row without traffic item): the egress parser rejects the data row, since it
parses it as a Flow Statistics row and the traffic item is required there, and
`translateEgressStats` returns that error and no tree.  The loop of
`translateEgressStats`, run on the two records the claim describes, does
produce the egress-tracking node under the header's flow: its data-row branch
is never reached through the parser. -/
theorem egress_data_rows_are_rejected :
    translateEgressStats sampleLib
        [⟨[("Traffic Item", "traffic1")]⟩,
         ⟨[("Egress Tracking", "filter1"), ("Rx Bytes", "10")]⟩] []
      = some (.error (.missingKey ⟨[("Egress Tracking", "filter1"), ("Rx Bytes", "10")]⟩
          "Traffic Item")) ∧
    egressTranslateLoop []
        [{ FlowStats := { TrafficItem := "traffic1", RxBytes := none, TxFrames := none,
                          RxFrames := none, LossPct := none, TxRate := none, RxRate := none,
                          TxFrameRate := none, RxFrameRate := none, RxPort := "", TxPort := "",
                          SrcIPv4 := "", DstIPv4 := "", SrcIPv6 := "", DstIPv6 := "",
                          MPLSLabel := none },
           Filter := "" },
         { FlowStats := { TrafficItem := "", RxBytes := some 10, TxFrames := none,
                          RxFrames := none, LossPct := none, TxRate := none, RxRate := none,
                          TxFrameRate := none, RxFrameRate := none, RxPort := "", TxPort := "",
                          SrcIPv4 := "", DstIPv4 := "", SrcIPv6 := "", DstIPv6 := "",
                          MPLSLabel := none },
           Filter := "filter1" }]
        { d := {}, f := none, it := none }
      = some { Flow := ⟨[("traffic1",
          { Name := some "traffic1",
            Filter := some "",
            EgressTracking := ⟨[("filter1",
              { Filter := some "filter1",
                Counters := some { InOctets := some 10 } })]⟩ })]⟩ } :=
  ⟨rfl, rfl⟩

/-- Counterexample to C17 as stated: a header row of an ingress-tracked flow.
The filter is recorded on the IngressTracking child only; the flow-level
filter stays unset. -/
theorem egress_header_filter_counterexample :
    Row.get ⟨[("Traffic Item", "traffic1"), ("Egress Tracking", "f1")]⟩ "Traffic Item" ≠ "" ∧
    translateEgressStats sampleLib
        [⟨[("Traffic Item", "traffic1"), ("Egress Tracking", "f1")]⟩] ["traffic1"]
      = some (.ok { Flow := ⟨[("traffic1",
          { Name := some "traffic1",
            Filter := none,
            IngressTracking := ⟨[
              ({ SrcPort := "", DstPort := "", MplsLabel := .NO_LABEL, SrcIpv4 := "",
                 DstIpv4 := "", SrcIpv6 := "", DstIpv6 := "" },
               { SrcPort := some "", DstPort := some "", MplsLabel := .NO_LABEL,
                 SrcIpv4 := some "", DstIpv4 := some "", SrcIpv6 := some "",
                 DstIpv6 := some "", Filter := some "f1" })]⟩ })]⟩ }) ∧
    ¬ ∃ d f, translateEgressStats sampleLib
        [⟨[("Traffic Item", "traffic1"), ("Egress Tracking", "f1")]⟩] ["traffic1"]
          = some (.ok d) ∧
        d.Flow.get? "traffic1" = some f ∧ f.Filter = some "f1" := by
  refine ⟨by decide, rfl, ?_⟩
  rintro ⟨d, f, h1, h2, h3⟩
  have heval : translateEgressStats sampleLib
      [⟨[("Traffic Item", "traffic1"), ("Egress Tracking", "f1")]⟩] ["traffic1"]
        = some (.ok { Flow := ⟨[("traffic1",
            { Name := some "traffic1",
              Filter := none,
              IngressTracking := ⟨[
                ({ SrcPort := "", DstPort := "", MplsLabel := .NO_LABEL, SrcIpv4 := "",
                   DstIpv4 := "", SrcIpv6 := "", DstIpv6 := "" },
                 { SrcPort := some "", DstPort := some "", MplsLabel := .NO_LABEL,
                   SrcIpv4 := some "", DstIpv4 := some "", SrcIpv6 := some "",
                   DstIpv6 := some "", Filter := some "f1" })]⟩ })]⟩ }) := rfl
  rw [heval] at h1
  injection h1 with h1
  injection h1 with h1
  subst h1
  injection h2 with h2
  subst h2
  exact absurd h3 (by decide)

/-- C17 (amended): In an EgressStatView table that translates, every row
is a header row, and right after a row is translated and at the end of the
table the flow of its traffic item is in the tree.  When the flow is not
ingress-tracked, the row's filter is recorded as the filter of the flow and the
flow has no IngressTracking child; when the flow is ingress-tracked, the flow
has an IngressTracking child under the 7-tuple of the row, the filter is
recorded on that child, and the filter of the flow itself stays unset.  No
flow and no IngressTracking child of the tree carries counters, loss or rates
or has an egress-tracking node. -/
theorem egress_header_records_filter (lib : GoLib) (pre post : Table) (row : Row)
    (itFlows : List String) (d : Device)
    (h : translateEgressStats lib (pre ++ row :: post) itFlows = some (.ok d)) :
    Row.get row "Traffic Item" ≠ "" ∧
    (∃ d1 f1 f,
      translateEgressStats lib (pre ++ [row]) itFlows = some (.ok d1) ∧
      d1.Flow.get? (Row.get row "Traffic Item") = some f1 ∧
      d.Flow.get? (Row.get row "Traffic Item") = some f ∧
      (Row.get row "Traffic Item" ∉ itFlows →
        f1.Filter = some (Row.get row "Egress Tracking") ∧
        f1.IngressTracking = GoMap.empty ∧ f.IngressTracking = GoMap.empty ∧
        ((∀ r ∈ post, Row.get r "Traffic Item" ≠ Row.get row "Traffic Item") → f = f1)) ∧
      (Row.get row "Traffic Item" ∈ itFlows →
        f1.Filter = none ∧ f.Filter = none ∧
        (∃ t, f.IngressTracking.get? (ingressKeyOfRow row) = some t) ∧
        ∃ t1, f1.IngressTracking.get? (ingressKeyOfRow row) = some t1 ∧
          t1.Filter = some (Row.get row "Egress Tracking") ∧
          ((∀ r ∈ post, Row.get r "Traffic Item" = Row.get row "Traffic Item" →
              ingressKeyOfRow r ≠ ingressKeyOfRow row) →
            f.IngressTracking.get? (ingressKeyOfRow row) = some t1))) ∧
    (∀ n g, d.Flow.get? n = some g →
      Flow.noStats g ∧ g.EgressTracking = GoMap.empty ∧
      (∀ k t, g.IngressTracking.get? k = some t →
        Flow_IngressTracking.noStats t ∧ t.EgressTracking = GoMap.empty)) := by
  obtain ⟨rpre, r, rpost, _, hr, hpost, hd1, _, hd⟩ :=
    translateEgressStats_at_row lib pre post row itFlows d h
  obtain ⟨f0, f, hf1, hf, htr, hun⟩ := egressHeaderLoop_at_record itFlows rpre rpost r
  obtain ⟨hp, hfilter⟩ := egressRecordOf_ok lib row r hr
  have hname : r.FlowStats.TrafficItem = Row.get row "Traffic Item" :=
    stats.parseFlowStatsRow_ok lib row _ hp
  have hkey := parseFlowStatsRow_key lib row _ hp
  rw [← hd, hname] at hf
  rw [hname] at hf1
  refine ⟨?_, ⟨_, _, f, hd1, hf1, hf, ?_, ?_⟩, ?_⟩
  · rw [← hname]
    exact parseFlowStatsRow_name_ne lib row _ hp
  · intro hnin
    have ht : isIngressTracked r.FlowStats.TrafficItem itFlows = false := by
      rw [hname]; exact (isIngressTracked_eq_false_iff _ _).2 hnin
    obtain ⟨h0, hn, hlast⟩ := hun ht
    rw [egressHeaderWrite_untracked itFlows r f0 ht] at hlast ⊢
    refine ⟨congrArg some hfilter, h0, hn, ?_⟩
    intro hne
    apply hlast
    intro x hx
    obtain ⟨a, ha, hfa⟩ := forall₂_exists_left _ post rpost hpost x hx
    rw [stats.parseFlowStatsRow_ok lib a _ (egressRecordOf_ok lib a x hfa).1, hname]
    exact hne a ha
  · intro hin
    have ht : isIngressTracked r.FlowStats.TrafficItem itFlows = true := by
      rw [hname]; exact (isIngressTracked_iff _ _).2 hin
    obtain ⟨hn0, hn, hex, hlast⟩ := htr ht
    rw [hkey] at hex hlast
    have hchild := egressHeaderWrite_child itFlows r f0 ht
    rw [hkey] at hchild
    refine ⟨?_, hn, hex, _, hchild, congrArg some hfilter, ?_⟩
    · rw [egressHeaderWrite_tracked itFlows r f0 ht]
      exact hn0
    · intro hne
      rw [← hchild]
      apply hlast
      intro x hx hxn
      obtain ⟨a, ha, hfa⟩ := forall₂_exists_left _ post rpost hpost x hx
      obtain ⟨hpa, _⟩ := egressRecordOf_ok lib a x hfa
      rw [parseFlowStatsRow_key lib a _ hpa]
      apply hne a ha
      rw [← stats.parseFlowStatsRow_ok lib a _ hpa, hxn, hname]
  · intro n g hg
    obtain ⟨es, _, hes⟩ := translateEgressStats_eq lib _ itFlows d h
    rw [hes] at hg
    exact egressHeaderLoop_noStats itFlows es n g hg

/-- Witness for C17 (amended): a header row of a flow that is not
ingress-tracked, with a counter column that the header row ignores. -/
theorem egress_header_records_filter_witness :
    translateEgressStats sampleLib
        ([] ++ ⟨[("Traffic Item", "traffic1"), ("Egress Tracking", "f1"),
                 ("Rx Bytes", "10")]⟩ :: []) []
      = some (.ok { Flow := ⟨[("traffic1",
          { Name := some "traffic1", Filter := some "f1" })]⟩ }) ∧
    Row.get ⟨[("Traffic Item", "traffic1"), ("Egress Tracking", "f1"), ("Rx Bytes", "10")]⟩
      "Traffic Item" ≠ "" :=
  ⟨rfl,
   (egress_header_records_filter sampleLib [] []
      ⟨[("Traffic Item", "traffic1"), ("Egress Tracking", "f1"), ("Rx Bytes", "10")]⟩ [] _
      rfl).1⟩

/-! ## The rate encoding: properties -/

/-- C21: `float32Bytes` of a 32-bit pattern is a string of exactly four bytes
which, read most-significant byte first, give the pattern back, so it is
injective on 32-bit patterns; `pfloat32Bytes` of an absent value is absent,
which is no four-byte encoding (not that of zero either), and of a present
value it is `float32Bytes` of the value. -/
theorem rate_encoding_is_big_endian :
    (∀ f : Nat, f < 2 ^ 32 →
      ∃ b0 b1 b2 b3 : Nat, float32Bytes f = some [b0, b1, b2, b3] ∧
        b0 < 256 ∧ b1 < 256 ∧ b2 < 256 ∧ b3 < 256 ∧
        b0 * 2 ^ 24 + b1 * 2 ^ 16 + b2 * 2 ^ 8 + b3 = f) ∧
    (∀ f g : Nat, f < 2 ^ 32 → g < 2 ^ 32 → float32Bytes f = float32Bytes g → f = g) ∧
    pfloat32Bytes none = none ∧
    (∀ f : Nat, pfloat32Bytes none ≠ float32Bytes f) ∧
    float32Bytes 0 = some [0, 0, 0, 0] ∧
    (∀ f : Nat, pfloat32Bytes (some f) = float32Bytes f) := by
  refine ⟨?_, ?_, rfl, ?_, rfl, fun _ => rfl⟩
  · intro f hf
    refine ⟨_, _, _, _, rfl, Nat.mod_lt _ (by decide), Nat.mod_lt _ (by decide),
      Nat.mod_lt _ (by decide), Nat.mod_lt _ (by decide), ?_⟩
    omega
  · intro f g hf hg h
    simp only [float32Bytes, Option.some.injEq, List.cons.injEq, and_true] at h
    omega
  · intro f h
    simp [pfloat32Bytes, float32Bytes] at h

/-- Witness for C21: the pattern `0x40066666` of the float 2.1. -/
theorem rate_encoding_is_big_endian_witness :
    float32Bytes 0x40066666 = some [0x40, 0x06, 0x66, 0x66] ∧
    ∃ b0 b1 b2 b3 : Nat, float32Bytes 0x40066666 = some [b0, b1, b2, b3] ∧
      b0 < 256 ∧ b1 < 256 ∧ b2 < 256 ∧ b3 < 256 ∧
      b0 * 2 ^ 24 + b1 * 2 ^ 16 + b2 * 2 ^ 8 + b3 = 0x40066666 :=
  ⟨rfl, rate_encoding_is_big_endian.1 0x40066666 (by decide)⟩

/-! ## Lemmas on the Port CPU Statistics translator -/

namespace oc

theorem append_cpu_ne (s : String) : s ++ "_CPU" ≠ s := by
  intro h
  have := congrArg String.length h
  simp [String.length_append] at this
  exact absurd this (by decide)

theorem append_cpu_inj (s t : String) (h : s ++ "_CPU" = t ++ "_CPU") : s = t := by
  have h1 := congrArg String.data h
  simp only [String.data_append] at h1
  exact String.ext (List.append_cancel_right h1)

theorem componentsNamed_empty : componentsNamed {} := by
  intro k c h
  simp [GoMap.get?, GoMap.empty] at h

/-- One iteration of the Port CPU loop on a device whose components carry their
names: it does not panic, the component under the short name is
`cpuPortWrite` of the one fetched, the component under the CPU name is
`cpuWrite` of the one fetched, and the other components are as they were. -/
theorem portCPURow_get? (row : PortCPUStats) (s : String) (d : Device)
    (hinv : componentsNamed d) :
    ∃ d1, portCPURow row s d = some d1 ∧
      d1.Component.get? s
        = some (cpuPortWrite row s ((d.Component.get? s).getD { Name := some s })) ∧
      d1.Component.get? (s ++ "_CPU")
        = some (cpuWrite row s
            ((d.Component.get? (s ++ "_CPU")).getD { Name := some (s ++ "_CPU") })) ∧
      (∀ k, k ≠ s → k ≠ s ++ "_CPU" → d1.Component.get? k = d.Component.get? k) := by
  have hne := append_cpu_ne s
  have hcname : ((d.Component.get? (s ++ "_CPU")).getD
      ({ Name := some (s ++ "_CPU") } : telemetry.Component)).Name = some (s ++ "_CPU") := by
    cases hg : d.Component.get? (s ++ "_CPU") with
    | none => rfl
    | some c => exact hinv _ c hg
  have hpname : ((d.Component.get? s).getD ({ Name := some s } : telemetry.Component)).Name
      = some s := by
    cases hg : d.Component.get? s with
    | none => rfl
    | some c => exact hinv _ c hg
  obtain ⟨pn, tm, fm, load⟩ := row
  unfold portCPURow
  simp only [Device.updateComponent, Device.GetOrCreateComponent, GoMap.get?_modify_ne _ _ _ _ hne,
    GoMap.get?_getOrCreate_same, GoMap.get?_getOrCreate_ne _ _ _ _ hne, Option.some_bind, hcname,
    GoMap.get?_modify_same, GoMap.get?_modify_ne _ _ _ _ hne.symm,
    GoMap.get?_getOrCreate_ne _ _ _ _ hne.symm, Option.map_some', Option.some_bind]
  refine ⟨_, rfl, ?_, ?_, ?_⟩
  · cases tm <;> cases fm <;> cases load <;>
      simp only [GoMap.get?_modify_same, GoMap.get?_modify_ne _ _ _ _ hne.symm,
        GoMap.get?_getOrCreate_same, GoMap.get?_getOrCreate_ne _ _ _ _ hne.symm,
        Option.map_some', cpuPortWrite, Component.NewSubcomponent]
  · cases tm <;> cases fm <;> cases load <;>
      simp only [GoMap.get?_modify_same, GoMap.get?_modify_ne _ _ _ _ hne,
        GoMap.get?_getOrCreate_same, GoMap.get?_getOrCreate_ne _ _ _ _ hne,
        Option.map_some', cpuWrite, hpname, Component.GetOrCreateCpu,
        Component_Cpu.GetOrCreateUtilization, Component.NewSubcomponent]
  · intro k hk1 hk2
    cases tm <;> cases fm <;> cases load <;>
      simp only [GoMap.get?_modify_ne _ _ _ _ hk1, GoMap.get?_modify_ne _ _ _ _ hk2,
        GoMap.get?_getOrCreate_ne _ _ _ _ hk1, GoMap.get?_getOrCreate_ne _ _ _ _ hk2]

end oc

namespace oc

/-- One iteration of the Port CPU loop keeps the components named. -/
theorem portCPURow_named (row : PortCPUStats) (s : String) (d d1 : Device)
    (hinv : componentsNamed d) (h : portCPURow row s d = some d1) : componentsNamed d1 := by
  obtain ⟨d2, h2, hp, hc, ho⟩ := portCPURow_get? row s d hinv
  rw [h] at h2
  injection h2 with h2
  subst h2
  intro k c hk
  by_cases h1 : k = s
  · subst h1
    rw [hp] at hk
    injection hk with hk
    rw [← hk]
    show ((d.Component.get? k).getD ({ Name := some k } : telemetry.Component)).Name = some k
    cases hg : d.Component.get? k with
    | none => rfl
    | some c0 => exact hinv _ c0 hg
  · by_cases h2 : k = s ++ "_CPU"
    · subst h2
      rw [hc] at hk
      injection hk with hk
      rw [← hk]
      show ((d.Component.get? (s ++ "_CPU")).getD
        ({ Name := some (s ++ "_CPU") } : telemetry.Component)).Name = some (s ++ "_CPU")
      cases hg : d.Component.get? (s ++ "_CPU") with
      | none => rfl
      | some c0 => exact hinv _ c0 hg
    · rw [ho k h1 h2] at hk
      exact hinv k c hk

theorem portCPULoop_cons (row : PortCPUStats) (rows : List PortCPUStats) (d : Device) :
    portCPULoop (row :: rows) d =
      match shortPortName row.PortName with
      | .error err => some (.error err)
      | .ok portName =>
        match portCPURow row portName d with
        | none => none
        | some d => portCPULoop rows d := rfl

theorem portCPULoop_append (a b : List PortCPUStats) (d : Device) :
    portCPULoop (a ++ b) d =
      match portCPULoop a d with
      | some (.ok d2) => portCPULoop b d2
      | some (.error e) => some (.error e)
      | none => none := by
  induction a generalizing d with
  | nil => rfl
  | cons r rs ih =>
    rw [List.cons_append, portCPULoop_cons, portCPULoop_cons]
    cases shortPortName r.PortName with
    | error e => rfl
    | ok s =>
      simp only
      cases portCPURow r s d with
      | none => rfl
      | some d2 => exact ih d2

/-- An invariant of the component under one name along the Port CPU loop: it
is kept when each record that writes the component as its port and each record
that writes it as its CPU keeps it. -/
theorem portCPULoop_inv_at (k : String) (P : Option telemetry.Component → Prop)
    (rows : List PortCPUStats)
    (hport : ∀ r ∈ rows, shortPortName r.PortName = .ok k → ∀ o, P o →
      P (some (cpuPortWrite r k (o.getD { Name := some k }))))
    (hcpu : ∀ r ∈ rows, ∀ s, shortPortName r.PortName = .ok s → s ++ "_CPU" = k → ∀ o, P o →
      P (some (cpuWrite r s (o.getD { Name := some k }))))
    (d d1 : Device) (hinv : componentsNamed d) (h0 : P (d.Component.get? k))
    (h : portCPULoop rows d = some (.ok d1)) :
    P (d1.Component.get? k) ∧ componentsNamed d1 := by
  induction rows generalizing d with
  | nil =>
    simp only [portCPULoop, Option.some.injEq, Except.ok.injEq] at h
    subst h
    exact ⟨h0, hinv⟩
  | cons r rs ih =>
    rw [portCPULoop_cons] at h
    cases h1 : shortPortName r.PortName with
    | error e => rw [h1] at h; simp at h
    | ok s =>
      rw [h1] at h
      simp only at h
      obtain ⟨d2, h2, hp, hc, ho⟩ := portCPURow_get? r s d hinv
      rw [h2] at h
      simp only at h
      apply ih (fun x hx => hport x (List.mem_cons_of_mem _ hx))
        (fun x hx => hcpu x (List.mem_cons_of_mem _ hx)) d2
        (portCPURow_named r s d d2 hinv h2) ?_ h
      by_cases hk1 : k = s
      · subst hk1
        rw [hp]
        exact hport r (List.mem_cons_self _ _) h1 _ h0
      · by_cases hk2 : k = s ++ "_CPU"
        · subst hk2
          rw [hc]
          exact hcpu r (List.mem_cons_self _ _) s h1 rfl _ h0
        · rw [ho k hk1 hk2]
          exact h0

/-- The Port CPU loop returns a tree exactly when every record has a
well-formed port name; it never panics. -/
theorem portCPULoop_ok_iff (rows : List PortCPUStats) (d : Device) (hinv : componentsNamed d) :
    (∃ d1, portCPULoop rows d = some (.ok d1)) ↔
      ∀ r ∈ rows, ∃ s, shortPortName r.PortName = .ok s := by
  induction rows generalizing d with
  | nil => simp [portCPULoop]
  | cons r rs ih =>
    rw [portCPULoop_cons]
    cases h1 : shortPortName r.PortName with
    | error e =>
      constructor
      · rintro ⟨d1, hd1⟩
        simp at hd1
      · intro hall
        obtain ⟨s, hs⟩ := hall r (List.mem_cons_self _ _)
        rw [h1] at hs
        exact Except.noConfusion hs
    | ok s =>
      obtain ⟨d2, h2, _⟩ := portCPURow_get? r s d hinv
      simp only [h2]
      rw [ih d2 (portCPURow_named r s d d2 hinv h2)]
      constructor
      · intro h x hx
        rcases List.mem_cons.1 hx with hx | hx
        · subst hx; exact ⟨s, h1⟩
        · exact h x hx
      · intro h x hx
        exact h x (List.mem_cons_of_mem _ hx)

/-- Records that write neither the component `k` as their port nor as their
CPU leave it as it was. -/
theorem portCPULoop_frame (k : String) (rows : List PortCPUStats) (d d1 : Device)
    (hinv : componentsNamed d) (h : portCPULoop rows d = some (.ok d1))
    (hk : ∀ r ∈ rows, ∀ s, shortPortName r.PortName = .ok s → s ≠ k ∧ s ++ "_CPU" ≠ k) :
    d1.Component.get? k = d.Component.get? k :=
  (portCPULoop_inv_at k (fun o => o = d.Component.get? k) rows
    (fun r hr hs => absurd rfl (hk r hr k hs).1)
    (fun r hr s hs hsk => absurd hsk (hk r hr s hs).2) d d1 hinv rfl h).1

end oc

namespace strconv

/-- The digit loop stays below `2 ^ 64`. -/
theorem parseUintLoop_lt (s0 : String) (cs : List Char) (n m : Nat) (hn : n < 2 ^ 64)
    (h : parseUintLoop s0 cs n = .ok m) : m < 2 ^ 64 := by
  induction cs generalizing n with
  | nil =>
    simp only [parseUintLoop, Except.ok.injEq] at h
    omega
  | cons c cs ih =>
    unfold parseUintLoop at h
    split at h
    · dsimp only at h
      split at h
      · exact Except.noConfusion h
      · split at h
        · exact Except.noConfusion h
        · exact ih _ (Nat.mod_lt _ (by decide)) h
    · split at h <;> exact Except.noConfusion h

/-- A value `ParseUint` returns fits in 64 bits. -/
theorem ParseUint_lt (s : String) (m : Nat) (h : ParseUint s = .ok m) : m < 2 ^ 64 := by
  unfold ParseUint at h
  split at h
  · exact Except.noConfusion h
  · exact parseUintLoop_lt s s.data 0 m (by decide) h

end strconv

namespace oc

/-- A value of an integer column fits in 64 bits. -/
theorem intColumn_lt (row : Row) (k : String) (n : Nat) (h : intColumn row k = some n) :
    n < 2 ^ 64 := by
  unfold intColumn at h
  split at h
  · exact Option.noConfusion h
  · cases hp : strconv.ParseUint (Row.get row k) with
    | error e => rw [hp] at h; exact Option.noConfusion h
    | ok i =>
      rw [hp] at h
      injection h with h
      subst h
      exact strconv.ParseUint_lt _ _ hp

/-- The record of a Port CPU Statistics row, column by column. -/
theorem parsePortCPUStatsRow_eq (lib : GoLib) (row : Row) (rec : PortCPUStats)
    (h : parsePortCPUStatsRow lib row = .ok rec) :
    rec = { PortName := Row.get row "Port Name"
            TotalMemory := intColumn row "Total Memory(KB)"
            FreeMemory := intColumn row "Free Memory(KB)"
            CPULoad := intColumn row "%CPU Load" } := by
  unfold parsePortCPUStatsRow at h
  cases hp : Row.parse lib row "Port Name" [] portCPUIntKeys [] with
  | error e => rw [hp] at h; exact Except.noConfusion h
  | ok v =>
    obtain ⟨ints, floats⟩ := v
    rw [hp] at h
    simp only at h
    injection h with h
    rw [← h]
    have hi := fun k hk => stats.Row.parse_int_column lib row _ _ _ _ ints floats hp k hk
    rw [hi "Total Memory(KB)" (by decide), hi "Free Memory(KB)" (by decide),
      hi "%CPU Load" (by decide)]

/-- The tree of the Port CPU translator is the loop over the records. -/
theorem translatePortCPUStats_eq (lib : GoLib) (tbl : Table) (itFlows : List String)
    (d : Device) (h : translatePortCPUStats lib tbl itFlows = some (.ok d)) :
    ∃ recs, List.Forall₂ (fun row rec => parsePortCPUStatsRow lib row = .ok rec) tbl recs ∧
      portCPULoop recs {} = some (.ok d) := by
  unfold translatePortCPUStats at h
  cases hp : Table.ParsePortCPUStats lib tbl with
  | error e => rw [hp] at h; simp at h
  | ok pcs =>
    rw [hp] at h
    simp only at h
    obtain ⟨recs, hrecs, hall⟩ := stats.parseRows_ok _ tbl [] pcs hp
    simp only [List.nil_append] at hrecs
    subst hrecs
    exact ⟨pcs, hall, h⟩

theorem translatePortCPUStats_of_forall₂ (lib : GoLib) (tbl : Table) (itFlows : List String)
    (recs : List PortCPUStats)
    (h : List.Forall₂ (fun row rec => parsePortCPUStatsRow lib row = .ok rec) tbl recs) :
    translatePortCPUStats lib tbl itFlows = portCPULoop recs {} := by
  have hp : Table.ParsePortCPUStats lib tbl = .ok recs := by
    unfold Table.ParsePortCPUStats
    rw [stats.parseRows_of_forall₂ _ tbl [] recs h]
    rfl
  unfold translatePortCPUStats
  rw [hp]

/-- The Port CPU translator returns a tree exactly when every row parses and
has a well-formed port name: the values of the memory and load columns play no
part once they parse. -/
theorem translatePortCPUStats_ok_iff (lib : GoLib) (tbl : Table) (itFlows : List String) :
    (∃ d, translatePortCPUStats lib tbl itFlows = some (.ok d)) ↔
      ∀ row ∈ tbl, rowParses lib "Port Name" [] portCPUIntKeys [] row ∧
        ∃ s, shortPortName (Row.get row "Port Name") = .ok s := by
  constructor
  · rintro ⟨d, h⟩ row hrow
    obtain ⟨recs, hall, hloop⟩ := translatePortCPUStats_eq lib tbl itFlows d h
    obtain ⟨rec, hrec, hf⟩ := forall₂_exists_right _ tbl recs hall row hrow
    obtain ⟨s, hs⟩ := (portCPULoop_ok_iff recs {} componentsNamed_empty).1 ⟨d, hloop⟩ rec hrec
    rw [stats.parsePortCPUStatsRow_ok lib row rec hf] at hs
    exact ⟨(stats.parsePortCPUStatsRow_ok_iff lib row).1 ⟨rec, hf⟩, s, hs⟩
  · intro h
    obtain ⟨recs, hall⟩ := stats.forall₂_of_all_ok (parsePortCPUStatsRow lib) tbl
      (fun row hrow => (stats.parsePortCPUStatsRow_ok_iff lib row).2 (h row hrow).1)
    rw [translatePortCPUStats_of_forall₂ lib tbl itFlows recs hall]
    apply (portCPULoop_ok_iff recs {} componentsNamed_empty).2
    intro rec hrec
    obtain ⟨row, hrow, hf⟩ := forall₂_exists_left _ tbl recs hall rec hrec
    rw [stats.parsePortCPUStatsRow_ok lib row rec hf]
    exact (h row hrow).2

/-- The tree of the Port CPU translator around one row of the table. -/
theorem translatePortCPUStats_at_row (lib : GoLib) (pre post : Table) (row : Row)
    (itFlows : List String) (d : Device)
    (h : translatePortCPUStats lib (pre ++ row :: post) itFlows = some (.ok d)) :
    ∃ rpre rec rpost s dpre d1,
      List.Forall₂ (fun row rec => parsePortCPUStatsRow lib row = .ok rec) pre rpre ∧
      parsePortCPUStatsRow lib row = .ok rec ∧
      List.Forall₂ (fun row rec => parsePortCPUStatsRow lib row = .ok rec) post rpost ∧
      shortPortName (Row.get row "Port Name") = .ok s ∧
      portCPULoop rpre {} = some (.ok dpre) ∧
      translatePortCPUStats lib pre itFlows = some (.ok dpre) ∧
      translatePortCPUStats lib (pre ++ [row]) itFlows = some (.ok d1) ∧
      componentsNamed dpre ∧ componentsNamed d1 ∧
      d1.Component.get? s
        = some (cpuPortWrite rec s ((dpre.Component.get? s).getD { Name := some s })) ∧
      d1.Component.get? (s ++ "_CPU")
        = some (cpuWrite rec s
            ((dpre.Component.get? (s ++ "_CPU")).getD { Name := some (s ++ "_CPU") })) ∧
      portCPULoop rpost d1 = some (.ok d) := by
  obtain ⟨recs, hall, hloop⟩ := translatePortCPUStats_eq lib _ itFlows d h
  obtain ⟨rpre, rec, rpost, hl, h1, h2, h3⟩ := stats.forall₂_split _ pre row post recs hall
  subst hl
  have hname := stats.parsePortCPUStatsRow_ok lib row rec h2
  rw [portCPULoop_append] at hloop
  cases hpre : portCPULoop rpre {} with
  | none => rw [hpre] at hloop; simp at hloop
  | some r =>
    cases r with
    | error e => rw [hpre] at hloop; simp at hloop
    | ok dpre =>
      rw [hpre] at hloop
      simp only at hloop
      have hnamed := (portCPULoop_inv_at "" (fun _ => True) rpre (fun _ _ _ _ _ => trivial)
        (fun _ _ _ _ _ _ _ => trivial) {} dpre componentsNamed_empty trivial hpre).2
      rw [portCPULoop_cons] at hloop
      cases hs : shortPortName rec.PortName with
      | error e => rw [hs] at hloop; simp at hloop
      | ok s =>
        rw [hs] at hloop
        simp only at hloop
        obtain ⟨d1, hd1, hp, hc, _⟩ := portCPURow_get? rec s dpre hnamed
        rw [hd1] at hloop
        simp only at hloop
        refine ⟨rpre, rec, rpost, s, dpre, d1, h1, h2, h3, by rw [← hname]; exact hs, hpre, ?_, ?_,
          hnamed, portCPURow_named rec s dpre d1 hnamed hd1, hp, hc, hloop⟩
        · rw [translatePortCPUStats_of_forall₂ lib pre itFlows rpre h1]
          exact hpre
        · rw [translatePortCPUStats_of_forall₂ lib (pre ++ [row]) itFlows (rpre ++ [rec])
            (List.rel_append h1 (List.Forall₂.cons h2 List.Forall₂.nil)),
            portCPULoop_append, hpre]
          simp only [portCPULoop_cons, hs, hd1]
          rfl

end oc

namespace oc

/-- What the records after a record leave of its port component and its CPU
component: both stay in the tree under their names, the port keeps the CPU in
its subcomponents and the CPU keeps its parent; memory and CPU utilization
stay as they were when no later record has the same short name; the types
stay as they were when no later record writes the component in the other
role. -/
theorem portCPULoop_after (rpost : List PortCPUStats) (s : String) (d1 d : Device)
    (hnamed : componentsNamed d1) (hloop : portCPULoop rpost d1 = some (.ok d))
    (port1 cpu1 : telemetry.Component) (hp : d1.Component.get? s = some port1)
    (hc : d1.Component.get? (s ++ "_CPU") = some cpu1)
    (hsub : (s ++ "_CPU") ∈ port1.Subcomponent.keys) (hpar : cpu1.Parent = some s) :
    ∃ port cpu, d.Component.get? s = some port ∧ d.Component.get? (s ++ "_CPU") = some cpu ∧
      port.Name = some s ∧ cpu.Name = some (s ++ "_CPU") ∧
      (s ++ "_CPU") ∈ port.Subcomponent.keys ∧ cpu.Parent = some s ∧
      ((∀ r ∈ rpost, shortPortName r.PortName ≠ .ok s) →
        port.Memory = port1.Memory ∧ cpu.Cpu = cpu1.Cpu) ∧
      (port1.Type_ = .PORT →
        (∀ r ∈ rpost, ∀ t, shortPortName r.PortName = .ok t → t ++ "_CPU" ≠ s) →
        port.Type_ = .PORT) ∧
      (cpu1.Type_ = .CPU → (∀ r ∈ rpost, shortPortName r.PortName ≠ .ok (s ++ "_CPU")) →
        cpu.Type_ = .CPU) := by
  have hsubP := (portCPULoop_inv_at s
    (fun o => ∃ c, o = some c ∧ (s ++ "_CPU") ∈ c.Subcomponent.keys) rpost
    (fun r _ _ o ho => by
      obtain ⟨c, hc1, hc2⟩ := ho
      subst hc1
      exact ⟨_, rfl, (GoMap.mem_keys_getOrCreate _ _ _ _).2 (Or.inl hc2)⟩)
    (fun r _ t _ _ o ho => by
      obtain ⟨c, hc1, hc2⟩ := ho
      subst hc1
      exact ⟨_, rfl, hc2⟩) d1 d hnamed ⟨port1, hp, hsub⟩ hloop)
  obtain ⟨⟨port, hport, hsub2⟩, hnamed2⟩ := hsubP
  have hparP := (portCPULoop_inv_at (s ++ "_CPU")
    (fun o => ∃ c, o = some c ∧ c.Parent = some s) rpost
    (fun r _ _ o ho => by
      obtain ⟨c, hc1, hc2⟩ := ho
      subst hc1
      exact ⟨_, rfl, hc2⟩)
    (fun r _ t _ ht o ho => by
      obtain ⟨c, hc1, hc2⟩ := ho
      subst hc1
      exact ⟨_, rfl, by rw [append_cpu_inj t s ht]; rfl⟩) d1 d hnamed ⟨cpu1, hc, hpar⟩ hloop).1
  obtain ⟨cpu, hcpu, hpar2⟩ := hparP
  refine ⟨port, cpu, hport, hcpu, hnamed2 _ _ hport, hnamed2 _ _ hcpu, hsub2, hpar2, ?_, ?_, ?_⟩
  · intro hne
    have hm := (portCPULoop_inv_at s
      (fun o => ∃ c, o = some c ∧ c.Memory = port1.Memory) rpost
      (fun r hr hs => absurd hs (hne r hr))
      (fun r _ t _ _ o ho => by
        obtain ⟨c, hc1, hc2⟩ := ho
        subst hc1
        exact ⟨_, rfl, hc2⟩) d1 d hnamed ⟨port1, hp, rfl⟩ hloop).1
    have hu := (portCPULoop_inv_at (s ++ "_CPU")
      (fun o => ∃ c, o = some c ∧ c.Cpu = cpu1.Cpu) rpost
      (fun r _ _ o ho => by
        obtain ⟨c, hc1, hc2⟩ := ho
        subst hc1
        exact ⟨_, rfl, hc2⟩)
      (fun r hr t ht htk => absurd (by rw [← append_cpu_inj t s htk]; exact ht) (hne r hr))
      d1 d hnamed ⟨cpu1, hc, rfl⟩ hloop).1
    obtain ⟨c1, hc1, hm1⟩ := hm
    obtain ⟨c2, hc2, hu2⟩ := hu
    rw [hport] at hc1
    rw [hcpu] at hc2
    injection hc1 with hc1
    injection hc2 with hc2
    subst hc1 hc2
    exact ⟨hm1, hu2⟩
  · intro hty hne
    have ht := (portCPULoop_inv_at s
      (fun o => ∃ c, o = some c ∧ c.Type_ = .PORT) rpost
      (fun r _ _ o _ => ⟨_, rfl, rfl⟩)
      (fun r hr t ht htk => absurd htk (hne r hr t ht)) d1 d hnamed ⟨port1, hp, hty⟩ hloop).1
    obtain ⟨c1, hc1, ht1⟩ := ht
    rw [hport] at hc1
    injection hc1 with hc1
    subst hc1
    exact ht1
  · intro hty hne
    have ht := (portCPULoop_inv_at (s ++ "_CPU")
      (fun o => ∃ c, o = some c ∧ c.Type_ = .CPU) rpost
      (fun r hr hs => absurd hs (hne r hr))
      (fun r _ t _ _ o _ => ⟨_, rfl, rfl⟩) d1 d hnamed ⟨cpu1, hc, hty⟩ hloop).1
    obtain ⟨c1, hc1, ht1⟩ := ht
    rw [hcpu] at hc1
    injection hc1 with hc1
    subst hc1
    exact ht1

/-- Memory and CPU utilization before the first record of a short name: unset. -/
theorem portCPULoop_fresh (rpre : List PortCPUStats) (s : String) (dpre : Device)
    (hloop : portCPULoop rpre {} = some (.ok dpre))
    (hne : ∀ r ∈ rpre, shortPortName r.PortName ≠ .ok s) :
    ((dpre.Component.get? s).getD { Name := some s }).Memory = none ∧
    ((dpre.Component.get? (s ++ "_CPU")).getD { Name := some (s ++ "_CPU") }).Cpu = none := by
  have hm := (portCPULoop_inv_at s (fun o => ∀ c, o = some c → c.Memory = none) rpre
    (fun r hr hs => absurd hs (hne r hr))
    (fun r _ t _ _ o ho c hc => by
      injection hc with hc
      rw [← hc]
      show (o.getD ({ Name := some s } : telemetry.Component)).Memory = none
      cases o with
      | none => rfl
      | some c0 => exact ho c0 rfl) {} dpre componentsNamed_empty
    (fun c hc => by simp [GoMap.get?, GoMap.empty] at hc) hloop).1
  have hu := (portCPULoop_inv_at (s ++ "_CPU") (fun o => ∀ c, o = some c → c.Cpu = none) rpre
    (fun r _ _ o ho c hc => by
      injection hc with hc
      rw [← hc]
      show (o.getD ({ Name := some (s ++ "_CPU") } : telemetry.Component)).Cpu = none
      cases o with
      | none => rfl
      | some c0 => exact ho c0 rfl)
    (fun r hr t ht htk => absurd (by rw [← append_cpu_inj t s htk]; exact ht) (hne r hr))
    {} dpre componentsNamed_empty
    (fun c hc => by simp [GoMap.get?, GoMap.empty] at hc) hloop).1
  constructor
  · cases hg : dpre.Component.get? s with
    | none => rfl
    | some c => exact hm c hg
  · cases hg : dpre.Component.get? (s ++ "_CPU") with
    | none => rfl
    | some c => exact hu c hg

theorem forall₂_short_ne (lib : GoLib) (tbl : Table) (recs : List PortCPUStats)
    (hall : List.Forall₂ (fun row rec => parsePortCPUStatsRow lib row = .ok rec) tbl recs)
    (Q : String → Prop) (h : ∀ r ∈ tbl, Q (Row.get r "Port Name")) :
    ∀ x ∈ recs, Q x.PortName := by
  intro x hx
  obtain ⟨a, ha, hfa⟩ := forall₂_exists_left _ tbl recs hall x hx
  rw [stats.parsePortCPUStatsRow_ok lib a x hfa]
  exact h a ha

end oc

/-! ## The Port CPU Statistics translator: properties -/

/-- C22: the memory of the port component.  A Port CPU table whose rows parse
and have well-formed port names translates whatever its memory columns hold.
In a table that translates, right after a row is translated the port component
of the row has memory with available = free and utilized = total - free (in
64-bit unsigned arithmetic, the plain difference when free is at most total)
when both values are present, and has the memory the rows before left (none
when no earlier row names the port) when either is absent; the memory is still
so at the end of the table when no later row names the port. -/
theorem port_memory_from_record (lib : GoLib) (pre post : Table) (row : Row)
    (itFlows : List String) :
    ((∀ r ∈ pre ++ row :: post, rowParses lib "Port Name" [] portCPUIntKeys [] r ∧
        ∃ s, shortPortName (Row.get r "Port Name") = .ok s) →
      ∃ d, translatePortCPUStats lib (pre ++ row :: post) itFlows = some (.ok d)) ∧
    (∀ d, translatePortCPUStats lib (pre ++ row :: post) itFlows = some (.ok d) →
      ∃ s dpre d1 port1, shortPortName (Row.get row "Port Name") = .ok s ∧
        translatePortCPUStats lib pre itFlows = some (.ok dpre) ∧
        translatePortCPUStats lib (pre ++ [row]) itFlows = some (.ok d1) ∧
        d1.Component.get? s = some port1 ∧
        (∀ total free, intColumn row "Total Memory(KB)" = some total →
          intColumn row "Free Memory(KB)" = some free →
          port1.Memory = some { Available := some free,
                                Utilized := some ((total + 2 ^ 64 - free) % 2 ^ 64) } ∧
          (free ≤ total →
            port1.Memory = some { Available := some free, Utilized := some (total - free) })) ∧
        (intColumn row "Total Memory(KB)" = none ∨ intColumn row "Free Memory(KB)" = none →
          port1.Memory = ((dpre.Component.get? s).getD { Name := some s }).Memory ∧
          ((∀ r ∈ pre, shortPortName (Row.get r "Port Name") ≠ .ok s) → port1.Memory = none)) ∧
        ((∀ r ∈ post, shortPortName (Row.get r "Port Name") ≠ .ok s) →
          ∃ port, d.Component.get? s = some port ∧ port.Memory = port1.Memory)) := by
  refine ⟨(translatePortCPUStats_ok_iff lib _ itFlows).2, ?_⟩
  intro d h
  obtain ⟨rpre, rec, rpost, s, dpre, d1, hpre, hrec, hpost, hs, hlpre, htpre, htd1, _, hn1, hp, hc,
    hloop⟩ := translatePortCPUStats_at_row lib pre post row itFlows d h
  have heq := parsePortCPUStatsRow_eq lib row rec hrec
  refine ⟨s, dpre, d1, _, hs, htpre, htd1, hp, ?_, ?_, ?_⟩
  · intro total free ht hf
    have hmem : (cpuPortWrite rec s ((dpre.Component.get? s).getD { Name := some s })).Memory
        = some { Available := some free,
                 Utilized := some ((total + 2 ^ 64 - free) % 2 ^ 64) } := by
      subst heq
      simp only [cpuPortWrite, ht, hf]
    refine ⟨hmem, ?_⟩
    intro hle
    have hlt := intColumn_lt row _ total ht
    rw [hmem]
    have : (total + 2 ^ 64 - free) % 2 ^ 64 = total - free := by omega
    rw [this]
  · intro hnone
    have hmem : (cpuPortWrite rec s ((dpre.Component.get? s).getD { Name := some s })).Memory
        = ((dpre.Component.get? s).getD { Name := some s }).Memory := by
      subst heq
      rcases hnone with h1 | h1
      · simp only [cpuPortWrite, h1]
      · simp only [cpuPortWrite, h1]
        cases intColumn row "Total Memory(KB)" <;> rfl
    refine ⟨hmem, ?_⟩
    intro hne
    rw [hmem]
    exact (portCPULoop_fresh rpre s dpre hlpre
      (forall₂_short_ne lib pre rpre hpre (fun n => shortPortName n ≠ .ok s) hne)).1
  · intro hne
    obtain ⟨port, cpu, hport, _, _, _, _, _, hkeep, _, _⟩ :=
      portCPULoop_after rpost s d1 d hn1 hloop _ _ hp hc
        ((GoMap.mem_keys_getOrCreate _ _ _ _).2 (Or.inr rfl)) rfl
    exact ⟨port, hport,
      (hkeep (forall₂_short_ne lib post rpost hpost (fun n => shortPortName n ≠ .ok s) hne)).1⟩

/-- Witness for C22: total 420 and free 100 give available 100 and utilized
320; a row without free memory leaves the memory unset. -/
theorem port_memory_from_record_witness :
    translatePortCPUStats sampleLib
        ([⟨[("Port Name", "ixia/p1"), ("Total Memory(KB)", "420"),
            ("Free Memory(KB)", "100")]⟩] ++
          ⟨[("Port Name", "ixia/p2"), ("Total Memory(KB)", "420")]⟩ :: []) []
      = some (.ok { Component := ⟨[
          ("p1", { Name := some "p1", Type_ := .PORT,
                   Subcomponent := ⟨[("p1_CPU", { Name := some "p1_CPU" })]⟩,
                   Memory := some { Available := some 100, Utilized := some 320 } }),
          ("p1_CPU", { Name := some "p1_CPU", Type_ := .CPU, Parent := some "p1" }),
          ("p2", { Name := some "p2", Type_ := .PORT,
                   Subcomponent := ⟨[("p2_CPU", { Name := some "p2_CPU" })]⟩ }),
          ("p2_CPU", { Name := some "p2_CPU", Type_ := .CPU, Parent := some "p2" })]⟩ }) ∧
    ∃ d, translatePortCPUStats sampleLib
        ([⟨[("Port Name", "ixia/p1"), ("Total Memory(KB)", "420"),
            ("Free Memory(KB)", "100")]⟩] ++
          ⟨[("Port Name", "ixia/p2"), ("Total Memory(KB)", "420")]⟩ :: []) [] = some (.ok d) :=
  ⟨rfl,
   (port_memory_from_record sampleLib
      [⟨[("Port Name", "ixia/p1"), ("Total Memory(KB)", "420"), ("Free Memory(KB)", "100")]⟩] []
      ⟨[("Port Name", "ixia/p2"), ("Total Memory(KB)", "420")]⟩ []).1 (by
        intro r hr
        simp only [List.singleton_append, List.mem_cons, List.mem_singleton, List.not_mem_nil,
          or_false] at hr
        rcases hr with hr | hr <;> subst hr <;> exact ⟨⟨_, rfl⟩, _, rfl⟩)⟩

/-- C23 (amended): the two components of a Port CPU record.  In a table that
translates, right after a row with short name `s` is translated the tree has a
component `s` of type PORT and a component `s ++ "_CPU"` of type CPU; the tree
at the end of the table has both components under these names, the port lists
`s ++ "_CPU"` among its subcomponents and the parent of the CPU component is
`s`.  The component `s` still has type PORT at the end when no later row has a
short name `t` with `t ++ "_CPU" = s`, and the component `s ++ "_CPU"` still
has type CPU when no later row has the short name `s ++ "_CPU"`. -/
theorem port_and_cpu_components (lib : GoLib) (pre post : Table) (row : Row)
    (itFlows : List String) (d : Device)
    (h : translatePortCPUStats lib (pre ++ row :: post) itFlows = some (.ok d)) :
    ∃ s d1 port1 cpu1 port cpu, shortPortName (Row.get row "Port Name") = .ok s ∧
      translatePortCPUStats lib (pre ++ [row]) itFlows = some (.ok d1) ∧
      d1.Component.get? s = some port1 ∧ d1.Component.get? (s ++ "_CPU") = some cpu1 ∧
      port1.Type_ = .PORT ∧ cpu1.Type_ = .CPU ∧
      d.Component.get? s = some port ∧ d.Component.get? (s ++ "_CPU") = some cpu ∧
      port.Name = some s ∧ cpu.Name = some (s ++ "_CPU") ∧
      (s ++ "_CPU") ∈ port.Subcomponent.keys ∧ cpu.Parent = some s ∧
      ((∀ r ∈ post, ∀ t, shortPortName (Row.get r "Port Name") = .ok t → t ++ "_CPU" ≠ s) →
        port.Type_ = .PORT) ∧
      ((∀ r ∈ post, shortPortName (Row.get r "Port Name") ≠ .ok (s ++ "_CPU")) →
        cpu.Type_ = .CPU) := by
  obtain ⟨rpre, rec, rpost, s, dpre, d1, hpre, hrec, hpost, hs, hlpre, htpre, htd1, _, hn1, hp, hc,
    hloop⟩ := translatePortCPUStats_at_row lib pre post row itFlows d h
  obtain ⟨port, cpu, hport, hcpu, hpn, hcn, hsub, hpar, _, hpt, hct⟩ :=
    portCPULoop_after rpost s d1 d hn1 hloop _ _ hp hc
      ((GoMap.mem_keys_getOrCreate _ _ _ _).2 (Or.inr rfl)) rfl
  refine ⟨s, d1, _, _, port, cpu, hs, htd1, hp, hc, rfl, rfl, hport, hcpu, hpn, hcn, hsub, hpar,
    ?_, ?_⟩
  · intro hne
    exact hpt rfl (forall₂_short_ne lib post rpost hpost
      (fun n => ∀ t, shortPortName n = .ok t → t ++ "_CPU" ≠ s) hne)
  · intro hne
    exact hct rfl (forall₂_short_ne lib post rpost hpost
      (fun n => shortPortName n ≠ .ok (s ++ "_CPU")) hne)

/-- Witness for C23 (amended): a table of two ports. -/
theorem port_and_cpu_components_witness :
    translatePortCPUStats sampleLib
        ([⟨[("Port Name", "ixia2/port1")]⟩] ++ ⟨[("Port Name", "ixia2/port2")]⟩ :: []) []
      = some (.ok { Component := ⟨[
          ("port1", { Name := some "port1", Type_ := .PORT,
                      Subcomponent := ⟨[("port1_CPU", { Name := some "port1_CPU" })]⟩ }),
          ("port1_CPU", { Name := some "port1_CPU", Type_ := .CPU, Parent := some "port1" }),
          ("port2", { Name := some "port2", Type_ := .PORT,
                      Subcomponent := ⟨[("port2_CPU", { Name := some "port2_CPU" })]⟩ }),
          ("port2_CPU", { Name := some "port2_CPU", Type_ := .CPU,
                          Parent := some "port2" })]⟩ }) ∧
    ∃ s d1 port1 cpu1,
      shortPortName (Row.get ⟨[("Port Name", "ixia2/port2")]⟩ "Port Name") = .ok s ∧
      translatePortCPUStats sampleLib
        ([⟨[("Port Name", "ixia2/port1")]⟩] ++ [⟨[("Port Name", "ixia2/port2")]⟩]) []
          = some (.ok d1) ∧
      d1.Component.get? s = some port1 ∧ d1.Component.get? (s ++ "_CPU") = some cpu1 ∧
      port1.Type_ = .PORT ∧ cpu1.Type_ = .CPU := by
  refine ⟨rfl, ?_⟩
  obtain ⟨s, d1, port1, cpu1, _, _, h1, h2, h3, h4, h5, h6, _⟩ :=
    port_and_cpu_components sampleLib [⟨[("Port Name", "ixia2/port1")]⟩] []
      ⟨[("Port Name", "ixia2/port2")]⟩ [] _ rfl
  exact ⟨s, d1, port1, cpu1, h1, h2, h3, h4, h5, h6⟩

/-- Counterexample to C23 as stated: the second row's short name is the CPU
name of the first row.  Both rows have well-formed port names; the component
`a_CPU`, the CPU of the first row, is typed PORT by the second row. -/
theorem port_and_cpu_components_counterexample :
    shortPortName (Row.get ⟨[("Port Name", "ixia/a")]⟩ "Port Name") = .ok "a" ∧
    translatePortCPUStats sampleLib
        [⟨[("Port Name", "ixia/a")]⟩, ⟨[("Port Name", "ixia/a_CPU")]⟩] []
      = some (.ok { Component := ⟨[
          ("a", { Name := some "a", Type_ := .PORT,
                  Subcomponent := ⟨[("a_CPU", { Name := some "a_CPU" })]⟩ }),
          ("a_CPU", { Name := some "a_CPU", Type_ := .PORT, Parent := some "a",
                      Subcomponent := ⟨[("a_CPU_CPU", { Name := some "a_CPU_CPU" })]⟩ }),
          ("a_CPU_CPU", { Name := some "a_CPU_CPU", Type_ := .CPU,
                          Parent := some "a_CPU" })]⟩ }) ∧
    ¬ ∃ d cpu, translatePortCPUStats sampleLib
        [⟨[("Port Name", "ixia/a")]⟩, ⟨[("Port Name", "ixia/a_CPU")]⟩] [] = some (.ok d) ∧
      d.Component.get? ("a" ++ "_CPU") = some cpu ∧ cpu.Type_ = .CPU := by
  refine ⟨rfl, rfl, ?_⟩
  rintro ⟨d, cpu, h1, h2, h3⟩
  have heval : translatePortCPUStats sampleLib
      [⟨[("Port Name", "ixia/a")]⟩, ⟨[("Port Name", "ixia/a_CPU")]⟩] []
        = some (.ok { Component := ⟨[
            ("a", { Name := some "a", Type_ := .PORT,
                    Subcomponent := ⟨[("a_CPU", { Name := some "a_CPU" })]⟩ }),
            ("a_CPU", { Name := some "a_CPU", Type_ := .PORT, Parent := some "a",
                        Subcomponent := ⟨[("a_CPU_CPU", { Name := some "a_CPU_CPU" })]⟩ }),
            ("a_CPU_CPU", { Name := some "a_CPU_CPU", Type_ := .CPU,
                            Parent := some "a_CPU" })]⟩ }) := rfl
  rw [heval] at h1
  injection h1 with h1
  injection h1 with h1
  subst h1
  injection h2 with h2
  subst h2
  exact absurd h3 (by decide)

/-- C24: the CPU utilization.  A Port CPU table whose rows parse and have
well-formed port names translates whatever its load columns hold.  In a table
that translates, right after a row is translated the CPU component of the row
has the instantaneous utilization `load % 256` when the load is present, which
is the load itself for every load up to 255 (values above 100 included), and
has the CPU container the rows before left (none when no earlier row names the
port) when the load is absent; it is still so at the end of the table when no
later row names the port. -/
theorem cpu_load_is_narrowed (lib : GoLib) (pre post : Table) (row : Row)
    (itFlows : List String) :
    ((∀ r ∈ pre ++ row :: post, rowParses lib "Port Name" [] portCPUIntKeys [] r ∧
        ∃ s, shortPortName (Row.get r "Port Name") = .ok s) →
      ∃ d, translatePortCPUStats lib (pre ++ row :: post) itFlows = some (.ok d)) ∧
    (∀ d, translatePortCPUStats lib (pre ++ row :: post) itFlows = some (.ok d) →
      ∃ s dpre d1 cpu1, shortPortName (Row.get row "Port Name") = .ok s ∧
        translatePortCPUStats lib pre itFlows = some (.ok dpre) ∧
        translatePortCPUStats lib (pre ++ [row]) itFlows = some (.ok d1) ∧
        d1.Component.get? (s ++ "_CPU") = some cpu1 ∧
        (∀ load, intColumn row "%CPU Load" = some load →
          cpu1.Cpu = some { Utilization := some { Instant := some (load % 256) } } ∧
          (load ≤ 255 → cpu1.Cpu = some { Utilization := some { Instant := some load } })) ∧
        (intColumn row "%CPU Load" = none →
          cpu1.Cpu = ((dpre.Component.get? (s ++ "_CPU")).getD
            { Name := some (s ++ "_CPU") }).Cpu ∧
          ((∀ r ∈ pre, shortPortName (Row.get r "Port Name") ≠ .ok s) → cpu1.Cpu = none)) ∧
        ((∀ r ∈ post, shortPortName (Row.get r "Port Name") ≠ .ok s) →
          ∃ cpu, d.Component.get? (s ++ "_CPU") = some cpu ∧ cpu.Cpu = cpu1.Cpu)) := by
  refine ⟨(translatePortCPUStats_ok_iff lib _ itFlows).2, ?_⟩
  intro d h
  obtain ⟨rpre, rec, rpost, s, dpre, d1, hpre, hrec, hpost, hs, hlpre, htpre, htd1, _, hn1, hp, hc,
    hloop⟩ := translatePortCPUStats_at_row lib pre post row itFlows d h
  have heq := parsePortCPUStatsRow_eq lib row rec hrec
  refine ⟨s, dpre, d1, _, hs, htpre, htd1, hc, ?_, ?_, ?_⟩
  · intro load hl
    have hcpu : (cpuWrite rec s ((dpre.Component.get? (s ++ "_CPU")).getD
        { Name := some (s ++ "_CPU") })).Cpu
        = some { Utilization := some { Instant := some (load % 256) } } := by
      subst heq
      simp only [cpuWrite, hl]
    refine ⟨hcpu, ?_⟩
    intro hle
    rw [hcpu, Nat.mod_eq_of_lt (by omega)]
  · intro hnone
    have hcpu : (cpuWrite rec s ((dpre.Component.get? (s ++ "_CPU")).getD
        { Name := some (s ++ "_CPU") })).Cpu
        = ((dpre.Component.get? (s ++ "_CPU")).getD { Name := some (s ++ "_CPU") }).Cpu := by
      subst heq
      simp only [cpuWrite, hnone]
    refine ⟨hcpu, ?_⟩
    intro hne
    rw [hcpu]
    exact (portCPULoop_fresh rpre s dpre hlpre
      (forall₂_short_ne lib pre rpre hpre (fun n => shortPortName n ≠ .ok s) hne)).2
  · intro hne
    obtain ⟨port, cpu, _, hcpu, _, _, _, _, hkeep, _, _⟩ :=
      portCPULoop_after rpost s d1 d hn1 hloop _ _ hp hc
        ((GoMap.mem_keys_getOrCreate _ _ _ _).2 (Or.inr rfl)) rfl
    exact ⟨cpu, hcpu,
      (hkeep (forall₂_short_ne lib post rpost hpost (fun n => shortPortName n ≠ .ok s) hne)).2⟩

/-- Witness for C24: the load 200 is kept, the load 300 is stored as 44, and a
row without load leaves the CPU container unset. -/
theorem cpu_load_is_narrowed_witness :
    translatePortCPUStats sampleLib
        ([⟨[("Port Name", "ixia/p1"), ("%CPU Load", "200")]⟩,
          ⟨[("Port Name", "ixia/p2"), ("%CPU Load", "300")]⟩] ++
          ⟨[("Port Name", "ixia/p3")]⟩ :: []) []
      = some (.ok { Component := ⟨[
          ("p1", { Name := some "p1", Type_ := .PORT,
                   Subcomponent := ⟨[("p1_CPU", { Name := some "p1_CPU" })]⟩ }),
          ("p1_CPU", { Name := some "p1_CPU", Type_ := .CPU, Parent := some "p1",
                       Cpu := some { Utilization := some { Instant := some 200 } } }),
          ("p2", { Name := some "p2", Type_ := .PORT,
                   Subcomponent := ⟨[("p2_CPU", { Name := some "p2_CPU" })]⟩ }),
          ("p2_CPU", { Name := some "p2_CPU", Type_ := .CPU, Parent := some "p2",
                       Cpu := some { Utilization := some { Instant := some 44 } } }),
          ("p3", { Name := some "p3", Type_ := .PORT,
                   Subcomponent := ⟨[("p3_CPU", { Name := some "p3_CPU" })]⟩ }),
          ("p3_CPU", { Name := some "p3_CPU", Type_ := .CPU, Parent := some "p3" })]⟩ }) ∧
    ∃ s, shortPortName (Row.get ⟨[("Port Name", "ixia/p3")]⟩ "Port Name") = .ok s := by
  refine ⟨rfl, ?_⟩
  obtain ⟨s, _, _, _, hs, _⟩ :=
    (cpu_load_is_narrowed sampleLib
      [⟨[("Port Name", "ixia/p1"), ("%CPU Load", "200")]⟩,
       ⟨[("Port Name", "ixia/p2"), ("%CPU Load", "300")]⟩] []
      ⟨[("Port Name", "ixia/p3")]⟩ []).2 _ rfl
  exact ⟨s, hs⟩

/-- C28: the memory subtraction wraps.  In a Port CPU table that translates,
for a row with both memory values present and free memory greater than total
memory, the port component of the row has, right after the row is translated,
available = free and utilized = `2 ^ 64 - (free - total)`, which is
`(total - free) mod 2 ^ 64`; the table translates without error, and the value
is still there at the end of the table when no later row names the port. -/
theorem memory_subtraction_wraps (lib : GoLib) (pre post : Table) (row : Row)
    (itFlows : List String) (d : Device) (total free : Nat)
    (h : translatePortCPUStats lib (pre ++ row :: post) itFlows = some (.ok d))
    (ht : intColumn row "Total Memory(KB)" = some total)
    (hf : intColumn row "Free Memory(KB)" = some free) (hlt : total < free) :
    total < 2 ^ 64 ∧ free < 2 ^ 64 ∧
    ((total : Int) - (free : Int)) % (2 ^ 64 : Int) = ((2 ^ 64 - (free - total) : Nat) : Int) ∧
    (total + 2 ^ 64 - free) % 2 ^ 64 = 2 ^ 64 - (free - total) ∧
    ∃ s d1 port1, shortPortName (Row.get row "Port Name") = .ok s ∧
      translatePortCPUStats lib (pre ++ [row]) itFlows = some (.ok d1) ∧
      d1.Component.get? s = some port1 ∧
      port1.Memory = some { Available := some free,
                            Utilized := some (2 ^ 64 - (free - total)) } ∧
      ((∀ r ∈ post, shortPortName (Row.get r "Port Name") ≠ .ok s) →
        ∃ port, d.Component.get? s = some port ∧ port.Memory = port1.Memory) := by
  have h1 := intColumn_lt row _ total ht
  have h2 := intColumn_lt row _ free hf
  have hmod : (total + 2 ^ 64 - free) % 2 ^ 64 = 2 ^ 64 - (free - total) := by omega
  refine ⟨h1, h2, ?_, hmod, ?_⟩
  · have e : (2 ^ 64 : Int) = 18446744073709551616 := by norm_num
    have e2 : (2 ^ 64 : Nat) = 18446744073709551616 := by norm_num
    rw [e]
    rw [e2] at h1 h2 ⊢
    omega
  · obtain ⟨rpre, rec, rpost, s, dpre, d1, hpre, hrec, hpost, hs, hlpre, htpre, htd1, _, hn1, hp,
      hc, hloop⟩ := translatePortCPUStats_at_row lib pre post row itFlows d h
    have heq := parsePortCPUStatsRow_eq lib row rec hrec
    refine ⟨s, d1, _, hs, htd1, hp, ?_, ?_⟩
    · subst heq
      simp only [cpuPortWrite, ht, hf, hmod]
    · intro hne
      obtain ⟨port, cpu, hport, _, _, _, _, _, hkeep, _, _⟩ :=
        portCPULoop_after rpost s d1 d hn1 hloop _ _ hp hc
          ((GoMap.mem_keys_getOrCreate _ _ _ _).2 (Or.inr rfl)) rfl
      exact ⟨port, hport,
        (hkeep (forall₂_short_ne lib post rpost hpost (fun n => shortPortName n ≠ .ok s) hne)).1⟩

/-- Witness for C28: total 100 and free 420 give utilized `2 ^ 64 - 320`. -/
theorem memory_subtraction_wraps_witness :
    translatePortCPUStats sampleLib
        ([] ++ ⟨[("Port Name", "ixia/p1"), ("Total Memory(KB)", "100"),
                 ("Free Memory(KB)", "420")]⟩ :: []) []
      = some (.ok { Component := ⟨[
          ("p1", { Name := some "p1", Type_ := .PORT,
                   Subcomponent := ⟨[("p1_CPU", { Name := some "p1_CPU" })]⟩,
                   Memory := some { Available := some 420,
                                    Utilized := some 18446744073709551296 } }),
          ("p1_CPU", { Name := some "p1_CPU", Type_ := .CPU, Parent := some "p1" })]⟩ }) ∧
    (100 + 2 ^ 64 - 420) % 2 ^ 64 = 2 ^ 64 - (420 - 100) :=
  ⟨rfl,
   (memory_subtraction_wraps sampleLib [] []
      ⟨[("Port Name", "ixia/p1"), ("Total Memory(KB)", "100"), ("Free Memory(KB)", "420")]⟩ []
      _ 100 420 rfl rfl rfl (by decide)).2.2.2.1⟩

/-! ## Interface names -/

namespace oc

theorem slash_form (pre suffix : String) :
    pre ++ "/" ++ suffix = ⟨pre.data ++ '/' :: suffix.data⟩ := by
  apply String.ext
  simp [String.data_append]

/-- The short name is the text after the first `/`, and it is not empty. -/
theorem shortPortName_ok_iff (s t : String) :
    shortPortName s = .ok t ↔
      t ≠ "" ∧ ∃ pre : String, (∀ c ∈ pre.data, c ≠ '/') ∧ s = pre ++ "/" ++ t := by
  constructor
  · intro h
    rcases split_first_slash s.data with hno | ⟨pre, rest, hs, hpre⟩
    · rw [shortPortName_of_no_slash s hno] at h
      exact Except.noConfusion h
    · have hs1 : s = ⟨pre ++ '/' :: rest⟩ := String.ext hs
      rw [hs1, shortPortName_of_slash pre rest hpre] at h
      by_cases hr : rest = []
      · rw [if_pos hr] at h
        exact Except.noConfusion h
      · rw [if_neg hr] at h
        injection h with h
        subst h
        refine ⟨?_, ⟨pre⟩, hpre, by rw [hs1, slash_form]⟩
        intro he
        exact hr (congrArg String.data he)
  · rintro ⟨ht, pre, hpre, hs⟩
    rw [hs, slash_form, shortPortName_of_slash pre.data t.data hpre, if_neg]
    intro hd
    exact ht (String.ext hd)

/-- An invariant of the interface under one short name along the Port
Statistics loop. -/
theorem portLoop_inv_at (s : String) (P : Option Interface → Prop) (rows : List PortStats)
    (hstep : ∀ r ∈ rows, shortPortName r.PortName = .ok s → ∀ o, P o →
      P (some (portWrite r (o.getD { Name := some s }))))
    (d d1 : Device) (h0 : P (d.Interface.get? s)) (h : portLoop rows d = .ok d1) :
    P (d1.Interface.get? s) := by
  induction rows generalizing d with
  | nil =>
    simp only [portLoop, Except.ok.injEq] at h
    rw [← h]
    exact h0
  | cons r rs ih =>
    rw [portLoop_cons] at h
    cases h1 : shortPortName r.PortName with
    | error e => rw [h1] at h; exact Except.noConfusion h
    | ok s1 =>
      rw [h1] at h
      simp only at h
      cases h2 : portRow r s1 d with
      | error e => rw [h2] at h; exact Except.noConfusion h
      | ok d2 =>
        rw [h2] at h
        apply ih (fun x hx => hstep x (List.mem_cons_of_mem _ hx)) d2 ?_ h
        by_cases hs : s = s1
        · subst hs
          rw [(portRow_get? r s d d2 h2).2.2]
          exact hstep r (List.mem_cons_self _ _) h1 _ h0
        · rw [portRow_get?_ne r s1 s d d2 hs h2]
          exact h0

/-- The tree of the Port Statistics translator is the loop over the records. -/
theorem translatePortStats_eq (lib : GoLib) (tbl : Table) (itFlows : List String) (d : Device)
    (h : translatePortStats lib tbl itFlows = some (.ok d)) :
    ∃ recs, List.Forall₂ (fun row rec => parsePortStatsRow lib row = .ok rec) tbl recs ∧
      portLoop recs {} = .ok d := by
  unfold translatePortStats at h
  cases hp : Table.ParsePortStats lib tbl with
  | error e => rw [hp] at h; simp at h
  | ok ps =>
    rw [hp] at h
    simp only [Option.some.injEq] at h
    obtain ⟨recs, hrecs, hall⟩ := stats.parseRows_ok _ tbl [] ps hp
    simp only [List.nil_append] at hrecs
    subst hrecs
    exact ⟨ps, hall, h⟩

/-- The interfaces of the translated tree: each sits under the short name of a
row and carries that name. -/
theorem translatePortStats_interfaces (lib : GoLib) (tbl : Table) (itFlows : List String)
    (d : Device) (h : translatePortStats lib tbl itFlows = some (.ok d)) (s : String)
    (i : Interface) (hi : d.Interface.get? s = some i) :
    i.Name = some s ∧ ∃ row ∈ tbl, shortPortName (Row.get row "Port Name") = .ok s := by
  obtain ⟨recs, hall, hloop⟩ := translatePortStats_eq lib tbl itFlows d h
  constructor
  · exact portLoop_inv_at s (fun o => ∀ i, o = some i → i.Name = some s) recs
      (fun r _ _ o ho i hi => by
        injection hi with hi
        rw [← hi]
        show (o.getD ({ Name := some s } : Interface)).Name = some s
        cases o with
        | none => rfl
        | some i0 => exact ho i0 rfl) {} d
      (fun i hi => by simp [GoMap.get?, GoMap.empty] at hi) hloop i hi
  · by_contra hcon
    have hne : ∀ r ∈ recs, shortPortName r.PortName ≠ .ok s := by
      intro r hr hs
      obtain ⟨row, hrow, hf⟩ := forall₂_exists_left _ tbl recs hall r hr
      exact hcon ⟨row, hrow, by rw [← stats.parsePortStatsRow_ok lib row r hf]; exact hs⟩
    rw [portLoop_frame recs {} d s hloop hne] at hi
    simp [GoMap.get?, GoMap.empty] at hi

end oc

/-- C29: in a Port Statistics table that translates, the interfaces of the
tree sit under pairwise distinct names, which are exactly the short names of
the rows' port names (the non-empty text after the first `/`), and each
interface carries its name; two rows whose port names have the same text after
the first `/` have one interface, under that text; and the counters of an
interface are those of the last row with its short name. -/
theorem interface_names_are_short_names (lib : GoLib) (tbl : Table) (itFlows : List String)
    (d : Device) (h : translatePortStats lib tbl itFlows = some (.ok d)) :
    d.Interface.keys.Nodup ∧
    (∀ s, s ∈ d.Interface.keys ↔
      ∃ row ∈ tbl, shortPortName (Row.get row "Port Name") = .ok s) ∧
    (∀ s i, d.Interface.get? s = some i → i.Name = some s) ∧
    (∀ row ∈ tbl, ∃ pre s : String, (∀ c ∈ pre.data, c ≠ '/') ∧ s ≠ "" ∧
      Row.get row "Port Name" = pre ++ "/" ++ s ∧
      shortPortName (Row.get row "Port Name") = .ok s) ∧
    (∀ r1 ∈ tbl, ∀ r2 ∈ tbl, ∀ p1 p2 rest : String,
      (∀ c ∈ p1.data, c ≠ '/') → (∀ c ∈ p2.data, c ≠ '/') →
      Row.get r1 "Port Name" = p1 ++ "/" ++ rest →
      Row.get r2 "Port Name" = p2 ++ "/" ++ rest →
      shortPortName (Row.get r1 "Port Name") = .ok rest ∧
      shortPortName (Row.get r2 "Port Name") = .ok rest ∧
      ∃ i, d.Interface.get? rest = some i) ∧
    (∀ pre post row s, tbl = pre ++ row :: post →
      shortPortName (Row.get row "Port Name") = .ok s →
      (∀ r ∈ post, shortPortName (Row.get r "Port Name") ≠ .ok s) →
      ∃ i, d.Interface.get? s = some i ∧
        i.Counters = some { InOctets := intColumn row "Bytes Rx."
                            InPkts := intColumn row "Valid Frames Rx."
                            OutOctets := intColumn row "Bytes Tx."
                            OutPkts := intColumn row "Frames Tx." }) := by
  obtain ⟨_, hnodup, hmem⟩ := translatePortStats_shape lib tbl itFlows d h
  have hrows := (translatePortStats_ok_iff lib tbl itFlows).1 ⟨d, h⟩
  refine ⟨hnodup, ?_, ?_, ?_, ?_, ?_⟩
  · intro s
    constructor
    · intro hs
      obtain ⟨i, hi⟩ := (GoMap.get?_isSome_iff _ _).2 hs
      exact (translatePortStats_interfaces lib tbl itFlows d h s i hi).2
    · rintro ⟨row, hrow, hs⟩
      exact hmem row hrow s hs
  · intro s i hi
    exact (translatePortStats_interfaces lib tbl itFlows d h s i hi).1
  · intro row hrow
    obtain ⟨s, hs⟩ := (hrows row hrow).2.1
    obtain ⟨hne, pre, hpre, hform⟩ := (shortPortName_ok_iff _ s).1 hs
    exact ⟨pre, s, hpre, hne, hform, hs⟩
  · intro r1 hr1 r2 hr2 p1 p2 rest hp1 hp2 h1 h2
    obtain ⟨s1, hs1⟩ := (hrows r1 hr1).2.1
    have hrest : rest ≠ "" := by
      intro he
      subst he
      obtain ⟨hne, pre, hpre, hform⟩ := (shortPortName_ok_iff _ s1).1 hs1
      rw [h1, slash_form, shortPortName_of_slash p1.data [] hp1, if_pos rfl] at hs1
      exact Except.noConfusion hs1
    have hk1 : shortPortName (Row.get r1 "Port Name") = .ok rest :=
      (shortPortName_ok_iff _ rest).2 ⟨hrest, p1, hp1, h1⟩
    have hk2 : shortPortName (Row.get r2 "Port Name") = .ok rest :=
      (shortPortName_ok_iff _ rest).2 ⟨hrest, p2, hp2, h2⟩
    exact ⟨hk1, hk2, (GoMap.get?_isSome_iff _ _).2 (hmem r1 hr1 rest hk1)⟩
  · intro pre post row s htbl hs hpost
    subst htbl
    obtain ⟨rec, s1, dpre, hrec, hs1, _, hlast, _⟩ :=
      translatePortStats_last lib pre post row itFlows d h
    rw [hs] at hs1
    injection hs1 with hs1
    subst hs1
    obtain ⟨_, heq⟩ := stats.parsePortStatsRow_eq lib row rec hrec
    refine ⟨_, hlast hpost, ?_⟩
    subst heq
    rfl

/-- Witness for C29: two rows whose port names differ in the prefix only, and
a row of another port between them. -/
theorem interface_names_are_short_names_witness :
    translatePortStats sampleLib
        [⟨[("Port Name", "ixia1/p1"), ("Bytes Rx.", "10")]⟩,
         ⟨[("Port Name", "ixia1/p2"), ("Bytes Rx.", "5")]⟩,
         ⟨[("Port Name", "ixia2/p1"), ("Bytes Tx.", "20")]⟩] []
      = some (.ok { Interface := ⟨[
          ("p1", { Name := some "p1", Counters := some { OutOctets := some 20 },
                   Ethernet := some { Counters := some {} }, Type_ := .ethernetCsmacd }),
          ("p2", { Name := some "p2", Counters := some { InOctets := some 5 },
                   Ethernet := some { Counters := some {} }, Type_ := .ethernetCsmacd })]⟩ }) ∧
    (({ Interface := ⟨[
          ("p1", { Name := some "p1", Counters := some { OutOctets := some 20 },
                   Ethernet := some { Counters := some {} }, Type_ := .ethernetCsmacd }),
          ("p2", { Name := some "p2", Counters := some { InOctets := some 5 },
                   Ethernet := some { Counters := some {} },
                   Type_ := .ethernetCsmacd })]⟩ } : Device).Interface.keys.Nodup) :=
  ⟨rfl,
   (interface_names_are_short_names sampleLib
      [⟨[("Port Name", "ixia1/p1"), ("Bytes Rx.", "10")]⟩,
       ⟨[("Port Name", "ixia1/p2"), ("Bytes Rx.", "5")]⟩,
       ⟨[("Port Name", "ixia2/p1"), ("Bytes Tx.", "20")]⟩] [] _ rfl).1⟩

/-! ## The egress scan: properties -/

/-- C27: `translateEgressStats` never panics.  A table with a row whose
traffic item is absent or empty makes `ParseEgressStats` fail, and
`translateEgressStats` returns that error; when `ParseEgressStats` succeeds
every record has a traffic item, so the loop takes the header branch on every
record and its result is that of the header loop; and a tree
`translateEgressStats` returns comes from a table whose rows all have a traffic
item and has no egress-tracking node, under a flow or under an
ingress-tracking record. -/
theorem egress_never_uses_unset_flow (lib : GoLib) (tbl : Table) (itFlows : List String) :
    (∃ r, translateEgressStats lib tbl itFlows = some r) ∧
    (∀ row ∈ tbl,
      (Row.find? row "Traffic Item" = none ∨ Row.find? row "Traffic Item" = some "") →
      ∃ e, Table.ParseEgressStats lib tbl = some (.error e) ∧
        translateEgressStats lib tbl itFlows = some (.error e)) ∧
    (∀ es, Table.ParseEgressStats lib tbl = some (.ok es) →
      (∀ rec ∈ es, rec.FlowStats.TrafficItem ≠ "") ∧
      egressTranslateLoop itFlows es { d := {}, f := none, it := none }
        = some (egressHeaderLoop itFlows es {}) ∧
      translateEgressStats lib tbl itFlows = some (.ok (egressHeaderLoop itFlows es {}))) ∧
    (∀ d, translateEgressStats lib tbl itFlows = some (.ok d) →
      (∀ row ∈ tbl, Row.get row "Traffic Item" ≠ "") ∧
      (∀ n g, d.Flow.get? n = some g →
        g.EgressTracking = GoMap.empty ∧
        (∀ k t, g.IngressTracking.get? k = some t → t.EgressTracking = GoMap.empty))) := by
  refine ⟨translateEgressStats_total lib tbl itFlows, ?_, ?_, ?_⟩
  · intro row hrow hempty
    obtain ⟨e, he⟩ := stats.parseRows_error_of_mem (egressRecordOf lib) tbl [] row hrow _
      (egressRecordOf_data_row lib row (stats.Row.get_of_absent_or_empty row _ hempty))
    have hp : Table.ParseEgressStats lib tbl = some (.error e) := by
      rw [stats.ParseEgressStats_eq_spec, specParseEgressStats_eq, he]
    refine ⟨e, hp, ?_⟩
    unfold translateEgressStats
    rw [hp]
  · intro es hes
    have hnames := ParseEgressStats_names lib tbl es hes
    refine ⟨hnames, egressTranslateLoop_headers itFlows es _ hnames, ?_⟩
    exact translateEgressStats_of_forall₂ lib tbl itFlows es
      (ParseEgressStats_forall₂ lib tbl es hes)
  · intro d hd
    obtain ⟨es, hall, hes⟩ := translateEgressStats_eq lib tbl itFlows d hd
    constructor
    · intro row hrow
      obtain ⟨rec, _, hrec⟩ := forall₂_exists_right _ tbl es hall row hrow
      obtain ⟨hp, _⟩ := egressRecordOf_ok lib row rec hrec
      rw [← stats.parseFlowStatsRow_ok lib row _ hp]
      exact parseFlowStatsRow_name_ne lib row _ hp
    · intro n g hg
      rw [hes] at hg
      obtain ⟨_, h2, h3⟩ := egressHeaderLoop_noStats itFlows es n g hg
      exact ⟨h2, fun k t ht => (h3 k t ht).2⟩

/-- Witness for C27: a data row before any header row, where the current flow
would be nil: the parser rejects the table. -/
theorem egress_never_uses_unset_flow_witness :
    translateEgressStats sampleLib
        [⟨[("Egress Tracking", "filter1"), ("Rx Bytes", "10")]⟩,
         ⟨[("Traffic Item", "traffic1")]⟩] []
      = some (.error (.missingKey ⟨[("Egress Tracking", "filter1"), ("Rx Bytes", "10")]⟩
          "Traffic Item")) ∧
    ∃ e, Table.ParseEgressStats sampleLib
          [⟨[("Egress Tracking", "filter1"), ("Rx Bytes", "10")]⟩,
           ⟨[("Traffic Item", "traffic1")]⟩] = some (.error e) ∧
      translateEgressStats sampleLib
          [⟨[("Egress Tracking", "filter1"), ("Rx Bytes", "10")]⟩,
           ⟨[("Traffic Item", "traffic1")]⟩] [] = some (.error e) :=
  ⟨rfl,
   (egress_never_uses_unset_flow sampleLib
      [⟨[("Egress Tracking", "filter1"), ("Rx Bytes", "10")]⟩,
       ⟨[("Traffic Item", "traffic1")]⟩] []).2.1
      ⟨[("Egress Tracking", "filter1"), ("Rx Bytes", "10")]⟩ (by simp) (Or.inl rfl)⟩

/-- C26 (code defect): a header row for the ingress-tracked flow `A`, a header
row for the flow `B`, which is not ingress-tracked, and a data row.
`translateEgressStats` rejects the table at the data row (the parser requires a
traffic item) and returns no tree.  The loop of `translateEgressStats`, run on
the three records, writes the egress-tracking node of the data record under the
ingress-tracking record of `A`: the header branch for `B` leaves the variable
`it` pointing there, and `B` gets no egress-tracking node. -/
theorem egress_scan_keeps_stale_child :
    translateEgressStats sampleLib
        [⟨[("Traffic Item", "A"), ("Egress Tracking", "fa")]⟩,
         ⟨[("Traffic Item", "B"), ("Egress Tracking", "fb")]⟩,
         ⟨[("Egress Tracking", "f1"), ("Rx Bytes", "10")]⟩] ["A"]
      = some (.error (.missingKey ⟨[("Egress Tracking", "f1"), ("Rx Bytes", "10")]⟩
          "Traffic Item")) ∧
    egressTranslateLoop ["A"]
        [{ FlowStats := { TrafficItem := "A", RxBytes := none, TxFrames := none,
                          RxFrames := none, LossPct := none, TxRate := none, RxRate := none,
                          TxFrameRate := none, RxFrameRate := none, RxPort := "", TxPort := "",
                          SrcIPv4 := "", DstIPv4 := "", SrcIPv6 := "", DstIPv6 := "",
                          MPLSLabel := none },
           Filter := "fa" },
         { FlowStats := { TrafficItem := "B", RxBytes := none, TxFrames := none,
                          RxFrames := none, LossPct := none, TxRate := none, RxRate := none,
                          TxFrameRate := none, RxFrameRate := none, RxPort := "", TxPort := "",
                          SrcIPv4 := "", DstIPv4 := "", SrcIPv6 := "", DstIPv6 := "",
                          MPLSLabel := none },
           Filter := "fb" },
         { FlowStats := { TrafficItem := "", RxBytes := some 10, TxFrames := none,
                          RxFrames := none, LossPct := none, TxRate := none, RxRate := none,
                          TxFrameRate := none, RxFrameRate := none, RxPort := "", TxPort := "",
                          SrcIPv4 := "", DstIPv4 := "", SrcIPv6 := "", DstIPv6 := "",
                          MPLSLabel := none },
           Filter := "f1" }]
        { d := {}, f := none, it := none }
      = some { Flow := ⟨[
          ("A", { Name := some "A",
                  IngressTracking := ⟨[
                    ({ SrcPort := "", DstPort := "", MplsLabel := .NO_LABEL, SrcIpv4 := "",
                       DstIpv4 := "", SrcIpv6 := "", DstIpv6 := "" },
                     { SrcPort := some "", DstPort := some "", MplsLabel := .NO_LABEL,
                       SrcIpv4 := some "", DstIpv4 := some "", SrcIpv6 := some "",
                       DstIpv6 := some "", Filter := some "fa",
                       EgressTracking := ⟨[("f1",
                         { Filter := some "f1",
                           Counters := some { InOctets := some 10 } })]⟩ })]⟩ }),
          ("B", { Name := some "B", Filter := some "fb" })]⟩ } :=
  ⟨rfl, rfl⟩

/-! ## Rows of one identity -/

namespace oc

theorem flowRow_keys (itFlows : List String) (row : FlowStats) (d : Device) :
    (flowRow itFlows row d).Flow.keys
      = (d.Flow.getOrCreate row.TrafficItem { Name := some row.TrafficItem }).keys := by
  unfold flowRow
  by_cases ht : isIngressTracked row.TrafficItem itFlows = true
  · simp only [ht, if_true, Device.updateIngressTracking, ingressTrackingFromFlowStats,
      Device.updateFlow, Device.GetOrCreateFlow, GoMap.keys_modify]
  · simp only [ht, Bool.false_eq_true, if_false, Device.updateFlow, Device.GetOrCreateFlow,
      GoMap.keys_modify]

/-- The flows of the tree sit under pairwise distinct names. -/
theorem flowLoop_keys_nodup (itFlows : List String) (rows : List FlowStats) (d : Device)
    (h : d.Flow.keys.Nodup) : (flowLoop itFlows rows d).Flow.keys.Nodup := by
  induction rows generalizing d with
  | nil => exact h
  | cons r rs ih =>
    apply ih
    rw [flowRow_keys]
    exact GoMap.nodup_keys_getOrCreate _ _ _ h

/-- A row of the table leaves its flow in the tree. -/
theorem translateFlowStats_mem (lib : GoLib) (tbl : Table) (itFlows : List String) (d : Device)
    (h : translateFlowStats lib tbl itFlows = some (.ok d)) (row : Row) (hrow : row ∈ tbl) :
    ∃ f, d.Flow.get? (Row.get row "Traffic Item") = some f := by
  obtain ⟨pre, post, htbl⟩ := List.append_of_mem hrow
  subst htbl
  obtain ⟨rpre, r, rpost, _, hr, _, _, _, hd⟩ :=
    translateFlowStats_at_row lib pre post row itFlows d h
  obtain ⟨f0, f, _, hf, _, _⟩ := flowLoop_at_record itFlows rpre rpost r
  rw [← hd, stats.parseFlowStatsRow_ok lib row r hr] at hf
  exact ⟨f, hf⟩

end oc

/-- C25 (amended): rows of one identity in one table.  In each of the Port
Statistics, Port CPU Statistics and Flow Statistics views, the tree of a table
that translates holds its nodes under pairwise distinct names, the node of a
row among them, and when an earlier row has the same identity the node right
after the row is the closed form (`portWrite`, `cpuPortWrite` and `cpuWrite`,
`flowWrite`) of the node the earlier rows left.  The closed forms replace the
counters, the CRC-error counter, the loss and the rates by those of the later
row; they keep the earlier operational status or port speed only where the
later row's link state or line speed is empty, and the earlier memory or CPU
utilization only where the later row's memory values or load are absent. -/
theorem same_identity_rows_share_a_node (lib : GoLib) (pre post : Table) (row : Row)
    (itFlows : List String) :
    (∀ d, translatePortStats lib (pre ++ row :: post) itFlows = some (.ok d) →
      d.Interface.keys.Nodup ∧
      ∃ rec s dpre d1, parsePortStatsRow lib row = .ok rec ∧
        shortPortName (Row.get row "Port Name") = .ok s ∧
        translatePortStats lib pre itFlows = some (.ok dpre) ∧
        translatePortStats lib (pre ++ [row]) itFlows = some (.ok d1) ∧
        s ∈ d.Interface.keys ∧
        ((∃ r ∈ pre, shortPortName (Row.get r "Port Name") = .ok s) →
          ∃ i0, dpre.Interface.get? s = some i0) ∧
        (∀ i0, dpre.Interface.get? s = some i0 →
          d1.Interface.get? s = some (portWrite rec i0))) ∧
    (∀ d, translatePortCPUStats lib (pre ++ row :: post) itFlows = some (.ok d) →
      d.Component.keys.Nodup ∧
      ∃ rec s dpre d1, parsePortCPUStatsRow lib row = .ok rec ∧
        shortPortName (Row.get row "Port Name") = .ok s ∧
        translatePortCPUStats lib pre itFlows = some (.ok dpre) ∧
        translatePortCPUStats lib (pre ++ [row]) itFlows = some (.ok d1) ∧
        s ∈ d.Component.keys ∧ (s ++ "_CPU") ∈ d.Component.keys ∧
        ((∃ r ∈ pre, shortPortName (Row.get r "Port Name") = .ok s) →
          ∃ p0 c0, dpre.Component.get? s = some p0 ∧
            dpre.Component.get? (s ++ "_CPU") = some c0) ∧
        (∀ p0, dpre.Component.get? s = some p0 →
          d1.Component.get? s = some (cpuPortWrite rec s p0)) ∧
        (∀ c0, dpre.Component.get? (s ++ "_CPU") = some c0 →
          d1.Component.get? (s ++ "_CPU") = some (cpuWrite rec s c0))) ∧
    (∀ d, translateFlowStats lib (pre ++ row :: post) itFlows = some (.ok d) →
      d.Flow.keys.Nodup ∧
      ∃ rec dpre d1, parseFlowStatsRow lib row = .ok rec ∧
        translateFlowStats lib pre itFlows = some (.ok dpre) ∧
        translateFlowStats lib (pre ++ [row]) itFlows = some (.ok d1) ∧
        Row.get row "Traffic Item" ∈ d.Flow.keys ∧
        ((∃ r ∈ pre, Row.get r "Traffic Item" = Row.get row "Traffic Item") →
          ∃ f0, dpre.Flow.get? (Row.get row "Traffic Item") = some f0) ∧
        (∀ f0, dpre.Flow.get? (Row.get row "Traffic Item") = some f0 →
          d1.Flow.get? (Row.get row "Traffic Item") = some (flowWrite itFlows rec f0))) ∧
    (∀ (rec : PortStats) (i0 : Interface),
      (portWrite rec i0).Name = i0.Name ∧
      (portWrite rec i0).Counters = some { InOctets := rec.BytesRx, InPkts := rec.FramesRx,
                                           OutOctets := rec.BytesTx, OutPkts := rec.FramesTx } ∧
      (∃ e, (portWrite rec i0).Ethernet = some e ∧
        e.Counters = some { InCrcErrors := rec.CRCErrs } ∧
        (rec.LineSpeed = "" → e.PortSpeed = i0.GetOrCreateEthernet.PortSpeed)) ∧
      (portWrite rec i0).InRate = pfloat32Bytes rec.RxRate ∧
      (portWrite rec i0).OutRate = pfloat32Bytes rec.TxRate ∧
      (rec.LinkState = "" → (portWrite rec i0).OperStatus = i0.OperStatus)) ∧
    (∀ (rec : PortCPUStats) (s : String) (c0 : telemetry.Component),
      (rec.TotalMemory = none ∨ rec.FreeMemory = none →
        (cpuPortWrite rec s c0).Memory = c0.Memory) ∧
      (∀ total free, rec.TotalMemory = some total → rec.FreeMemory = some free →
        (cpuPortWrite rec s c0).Memory
          = some { Available := some free,
                   Utilized := some ((total + 2 ^ 64 - free) % 2 ^ 64) }) ∧
      (rec.CPULoad = none → (cpuWrite rec s c0).Cpu = c0.Cpu) ∧
      (∀ load, rec.CPULoad = some load →
        (cpuWrite rec s c0).Cpu = some { Utilization := some { Instant := some (load % 256) } })) ∧
    (∀ (rec : FlowStats) (f0 : Flow),
      (isIngressTracked rec.TrafficItem itFlows = false →
        (flowWrite itFlows rec f0).Counters = some (flowCounters rec) ∧
        (flowWrite itFlows rec f0).LossPct = pfloat32Bytes rec.LossPct ∧
        (flowWrite itFlows rec f0).InRate = pfloat32Bytes rec.RxRate ∧
        (flowWrite itFlows rec f0).InFrameRate = pfloat32Bytes rec.RxFrameRate ∧
        (flowWrite itFlows rec f0).OutRate = pfloat32Bytes rec.TxRate ∧
        (flowWrite itFlows rec f0).OutFrameRate = pfloat32Bytes rec.TxFrameRate) ∧
      (isIngressTracked rec.TrafficItem itFlows = true →
        ∃ t, (flowWrite itFlows rec f0).IngressTracking.get? (ingressTrackingKey rec) = some t ∧
          t.Counters = some (flowCounters rec) ∧
          t.LossPct = pfloat32Bytes rec.LossPct ∧
          t.InRate = pfloat32Bytes rec.RxRate ∧
          t.InFrameRate = pfloat32Bytes rec.RxFrameRate ∧
          t.OutRate = pfloat32Bytes rec.TxRate ∧
          t.OutFrameRate = pfloat32Bytes rec.TxFrameRate)) := by
  refine ⟨?_, ?_, ?_, ?_, ?_, ?_⟩
  · intro d h
    obtain ⟨_, hnodup, hmem⟩ := translatePortStats_shape lib _ itFlows d h
    obtain ⟨rec, s, dpre, d1, hrec, hs, hpre, hd1, hget, _, _⟩ :=
      translatePortStats_at_row lib pre post row itFlows d h
    refine ⟨hnodup, rec, s, dpre, d1, hrec, hs, hpre, hd1, hmem row (by simp) s hs, ?_, ?_⟩
    · rintro ⟨r, hr, hrs⟩
      exact (GoMap.get?_isSome_iff _ _).2
        ((translatePortStats_shape lib pre itFlows dpre hpre).2.2 r hr s hrs)
    · intro i0 hi0
      rw [hget, hi0]
      rfl
  · intro d h
    obtain ⟨_, hnodup, hmem⟩ := translatePortCPUStats_shape lib _ itFlows d h
    obtain ⟨rpre, rec, rpost, s, dpre, d1, _, hrec, _, hs, _, hpre, hd1, _, _, hp, hc, _⟩ :=
      translatePortCPUStats_at_row lib pre post row itFlows d h
    obtain ⟨hk1, hk2⟩ := hmem row (by simp) s hs
    refine ⟨hnodup, rec, s, dpre, d1, hrec, hs, hpre, hd1, hk1, hk2, ?_, ?_, ?_⟩
    · rintro ⟨r, hr, hrs⟩
      obtain ⟨h1, h2⟩ := (translatePortCPUStats_shape lib pre itFlows dpre hpre).2.2 r hr s hrs
      obtain ⟨p0, hp0⟩ := (GoMap.get?_isSome_iff _ _).2 h1
      obtain ⟨c0, hc0⟩ := (GoMap.get?_isSome_iff _ _).2 h2
      exact ⟨p0, c0, hp0, hc0⟩
    · intro p0 hp0
      rw [hp, hp0]
      rfl
    · intro c0 hc0
      rw [hc, hc0]
      rfl
  · intro d h
    obtain ⟨rpre, r, rpost, hpre, hr, _, hd1, hf1, hd⟩ :=
      translateFlowStats_at_row lib pre post row itFlows d h
    have hname := stats.parseFlowStatsRow_ok lib row r hr
    have hdpre := translateFlowStats_of_forall₂ lib pre itFlows rpre hpre
    obtain ⟨f, hf⟩ := translateFlowStats_mem lib _ itFlows d h row (by simp)
    obtain ⟨recs, _, hrecs⟩ := translateFlowStats_eq lib _ itFlows d h
    refine ⟨?_, r, _, _, hr, hdpre, hd1, (GoMap.get?_isSome_iff _ _).1 ⟨f, hf⟩, ?_, ?_⟩
    · rw [hrecs]
      exact flowLoop_keys_nodup itFlows recs {} (by simp [GoMap.keys, GoMap.empty])
    · rintro ⟨r0, hr0, hr0n⟩
      rw [← hr0n]
      exact translateFlowStats_mem lib pre itFlows _ hdpre r0 hr0
    · intro f0 hf0
      rw [← hname, hf1]
      rw [← hname] at hf0
      rw [hf0]
      rfl
  · intro rec i0
    refine ⟨rfl, rfl, ⟨_, rfl, rfl, ?_⟩, rfl, rfl, ?_⟩
    · intro hl
      show portSpeedAfter rec.LineSpeed _ = _
      rw [hl]
      rfl
    · intro hl
      show operStatusAfter rec.LinkState _ = _
      rw [hl]
      rfl
  · intro rec s c0
    obtain ⟨pn, tm, fm, load⟩ := rec
    refine ⟨?_, ?_, ?_, ?_⟩
    · intro hnone
      simp only at hnone
      rcases hnone with h1 | h1
      · subst h1
        rfl
      · subst h1
        cases tm <;> rfl
    · intro total free ht hf
      simp only at ht hf
      subst ht hf
      rfl
    · intro hl
      simp only at hl
      subst hl
      rfl
    · intro l hl
      simp only at hl
      subst hl
      rfl
  · intro rec f0
    constructor
    · intro ht
      rw [flowWrite_untracked itFlows rec f0 ht]
      exact ⟨rfl, rfl, rfl, rfl, rfl, rfl⟩
    · intro ht
      exact ⟨_, flowWrite_child itFlows rec f0 ht, rfl, rfl, rfl, rfl, rfl, rfl⟩

/-- Witness for C25 (amended): two rows of the port `p1`; the interface is one
node and holds the counters of the later row. -/
theorem same_identity_rows_share_a_node_witness :
    translatePortStats sampleLib
        ([⟨[("Port Name", "ixia/p1"), ("Bytes Rx.", "10"), ("Link State", "Link Up")]⟩] ++
          ⟨[("Port Name", "ixia/p1"), ("Bytes Tx.", "20")]⟩ :: []) []
      = some (.ok { Interface := ⟨[
          ("p1", { Name := some "p1", Counters := some { OutOctets := some 20 },
                   Ethernet := some { Counters := some {} }, Type_ := .ethernetCsmacd,
                   OperStatus := .UP })]⟩ }) ∧
    (({ Interface := ⟨[
          ("p1", { Name := some "p1", Counters := some { OutOctets := some 20 },
                   Ethernet := some { Counters := some {} }, Type_ := .ethernetCsmacd,
                   OperStatus := .UP })]⟩ } : Device).Interface.keys.Nodup) :=
  ⟨rfl,
   ((same_identity_rows_share_a_node sampleLib
      [⟨[("Port Name", "ixia/p1"), ("Bytes Rx.", "10"), ("Link State", "Link Up")]⟩] []
      ⟨[("Port Name", "ixia/p1"), ("Bytes Tx.", "20")]⟩ []).1 _ rfl).1⟩

/-- Counterexample to C25 as stated: two rows of the port `p1`.  The earlier
row sets in-octets to 10; the later row sets it to 20 and, having no
`Bytes Tx.` column, clears the out-octets 7 of the earlier row. -/
theorem same_identity_rows_counterexample :
    shortPortName (Row.get ⟨[("Port Name", "ixia/p1"), ("Bytes Rx.", "10"), ("Bytes Tx.", "7")]⟩
      "Port Name") = .ok "p1" ∧
    shortPortName (Row.get ⟨[("Port Name", "ixia/p1"), ("Bytes Rx.", "20")]⟩ "Port Name")
      = .ok "p1" ∧
    translatePortStats sampleLib
        [⟨[("Port Name", "ixia/p1"), ("Bytes Rx.", "10"), ("Bytes Tx.", "7")]⟩] []
      = some (.ok { Interface := ⟨[
          ("p1", { Name := some "p1",
                   Counters := some { InOctets := some 10, OutOctets := some 7 },
                   Ethernet := some { Counters := some {} }, Type_ := .ethernetCsmacd })]⟩ }) ∧
    translatePortStats sampleLib
        [⟨[("Port Name", "ixia/p1"), ("Bytes Rx.", "10"), ("Bytes Tx.", "7")]⟩,
         ⟨[("Port Name", "ixia/p1"), ("Bytes Rx.", "20")]⟩] []
      = some (.ok { Interface := ⟨[
          ("p1", { Name := some "p1",
                   Counters := some { InOctets := some 20, OutOctets := none },
                   Ethernet := some { Counters := some {} }, Type_ := .ethernetCsmacd })]⟩ }) ∧
    (some 20 : Option Nat) ≠ some 10 ∧ (none : Option Nat) ≠ some 7 :=
  ⟨rfl, rfl, rfl, rfl, by decide, by decide⟩

end ixia
